import Mathlib

/-!
# p9813: a shallow embedding of the Total Control Lighting driver library

The definitions below follow `p9813.c`, `p9813.h` and `calibration.h` function by
function.  Conventions of the embedding:

* the file-scope variables of `p9813.c` are the fields of `TCState`; every library
  function takes the state and returns the new one next to its C return value;
* the two buffers live in one `malloc` block; a pointer is `Option Nat` (`none` is
  `NULL`, `some n` a block with room for `n` elements) and the contents behind it
  are a separate total function of the index, so a store is a pointwise update and
  a load or store is defined whatever the pointer is (an access through `NULL` or
  past the end of the block is not trapped);
* `double` is the field of rationals, without rounding; in `TCstats`, `none` stands
  for a value that is not finite (the result of a division by zero);
* `unsigned long` is `Nat` reduced modulo `2 ^ w.bits`, with `w` the width on the
  target ABI; `unsigned char` values are reduced modulo 256 where they are read
  from the gamma table;
* the FTDI transport, `malloc`, `gettimeofday` and `pow` are inputs (`OpenEnv`,
  `RefreshEnv`, the `pw` argument); every call made to them is appended to
  `TCState.calls`.
-/

namespace P9813

/-! ## p9813.h -/

/-- Status codes returned by the library functions, in the order of the C enum. -/
inductive TCstatusCode where
  | TC_OK
  | TC_ERR_VALUE
  | TC_ERR_MALLOC
  | TC_ERR_OPEN
  | TC_ERR_WRITE
  | TC_ERR_MODE
  | TC_ERR_DIVISOR
  | TC_ERR_BAUDRATE
  deriving DecidableEq, Repr

open TCstatusCode

/-- Numeric value of a status code (`TC_OK = 0`, then counting up). -/
def TCstatusCode.toNat : TCstatusCode → Nat
  | TC_OK => 0
  | TC_ERR_VALUE => 1
  | TC_ERR_MALLOC => 2
  | TC_ERR_OPEN => 3
  | TC_ERR_WRITE => 4
  | TC_ERR_MODE => 5
  | TC_ERR_DIVISOR => 6
  | TC_ERR_BAUDRATE => 7

def TC_CBUS_CLOCK : Nat := 8

def TC_PIXEL_UNUSED : Int := -1
def TC_PIXEL_DISCONNECTED : Int := -2

def TC_FTDI_TX : Nat := 0x01
def TC_FTDI_RX : Nat := 0x02
def TC_FTDI_RTS : Nat := 0x04
def TC_FTDI_CTS : Nat := 0x08
def TC_FTDI_DTR : Nat := 0x10
def TC_FTDI_DSR : Nat := 0x20
def TC_FTDI_DCD : Nat := 0x40
def TC_FTDI_RI : Nat := 0x80

/-- The macro `TCrgb(R,G,B)`. -/
def TCrgb (R G B : Nat) : Nat := (R <<< 16) ||| (G <<< 8) ||| B

/-- The structure `TCstats`; the `double` members are `none` when not finite, the
two rates `bps` and `bpsAvg` are `none` when they are the conversion of a value that
is not finite (which C leaves undefined). -/
structure TCstats where
  frames : Nat
  bits : Nat
  bitsTotal : Nat
  bps : Option Nat
  bpsAvg : Option Nat
  usecIo : Nat
  usecFrame : Nat
  usecIoTotal : Nat
  usecFrameTotal : Nat
  fps : Option ℚ
  fpsAvg : Option ℚ
  ma : Option ℚ
  maAvg : Option ℚ
  maMax : Option ℚ
  mah : Option ℚ
  mahTotal : Option ℚ
  reserved : Nat

/-! ## calibration.h -/

def CAL_N_PIXELS : ℚ := 25
def CAL_CURRENT_OFF : ℚ := 15
def CAL_RAW_R : ℚ := 510
def CAL_RAW_G : ℚ := 491
def CAL_RAW_B : ℚ := 491
def CAL_RAW_RG : ℚ := 956
def CAL_RAW_GB : ℚ := 929
def CAL_RAW_RB : ℚ := 957
def CAL_RAW_RGB : ℚ := 1322

def CAL_CURRENT_R : ℚ := CAL_RAW_R - CAL_CURRENT_OFF
def CAL_CURRENT_G : ℚ := CAL_RAW_G - CAL_CURRENT_OFF
def CAL_CURRENT_B : ℚ := CAL_RAW_B - CAL_CURRENT_OFF
def CAL_CURRENT_RG : ℚ := CAL_RAW_RG - CAL_CURRENT_OFF
def CAL_CURRENT_GB : ℚ := CAL_RAW_GB - CAL_CURRENT_OFF
def CAL_CURRENT_RB : ℚ := CAL_RAW_RB - CAL_CURRENT_OFF

def CAL_COMBO_RG : ℚ := CAL_CURRENT_RG / (CAL_CURRENT_R + CAL_CURRENT_G)
def CAL_COMBO_GB : ℚ := CAL_CURRENT_GB / (CAL_CURRENT_G + CAL_CURRENT_B)
def CAL_COMBO_RB : ℚ := CAL_CURRENT_RB / (CAL_CURRENT_R + CAL_CURRENT_B)

/-! ## p9813.c: module state -/

/-- Width of the C type `unsigned long` on the target ABI. -/
inductive ULongWidth where
  | ilp32
  | lp64
  deriving DecidableEq, Repr

def ULongWidth.bits : ULongWidth → Nat
  | .ilp32 => 32
  | .lp64 => 64

/-- Calls the library makes to its collaborators, in program order. -/
inductive Call where
  | malloc (bytes : Nat)
  | free
  | FT_Open
  | FT_SetBitMode
  | FT_SetDivisor
  | FT_SetBaudRate
  | FT_Purge
  | FT_Write (data : List Nat)
  | FT_Close
  | gettimeofday
  deriving DecidableEq, Repr

/-- What one `FT_Write` call reports: whether it returned `FT_OK`, and the byte
count it stored through its last argument. -/
structure WriteOutcome where
  ok : Bool
  out : Nat

/-- The file-scope variables of `p9813.c`, together with the log of external calls. -/
structure TCState where
  strandBitMask : Nat → Nat
  bytesPerPixel : Nat
  pixelOutBufferPtr : Option Nat
  pixelOutBuffer : Nat → Nat
  rgbGamma : Nat → Nat → Nat
  pixelCurrentPtr : Option Nat
  pixelCurrent : Nat → ℚ
  ftdiHandle : Bool
  nStrands : Nat
  pixelsPerStrand : Nat
  calls : List Call

/-- The initialiser of `strandBitMask[8]`. -/
def defaultStrandBitMask : Nat → Nat
  | 0 => TC_FTDI_TX
  | 1 => TC_FTDI_RX
  | 2 => TC_FTDI_DTR ||| TC_FTDI_RTS
  | 7 => TC_FTDI_CTS
  | _ => 0

/-- The state at program start: the static initialisers of `p9813.c` (statics
without an initialiser are zero). -/
def initialState : TCState where
  strandBitMask := defaultStrandBitMask
  bytesPerPixel := 64
  pixelOutBufferPtr := none
  pixelOutBuffer := fun _ => 0
  rgbGamma := fun _ _ => 0
  pixelCurrentPtr := none
  pixelCurrent := fun _ => 0
  ftdiHandle := false
  nStrands := 0
  pixelsPerStrand := 0
  calls := []

/-- A counting loop `for(i = start; i < stop; i += step) body`, unrolled at most
`fuel` times. -/
def forLoop {σ : Type} (stop step : Nat) (body : Nat → σ → σ) : Nat → Nat → σ → σ
  | 0, _, x => x
  | fuel + 1, i, x => if i < stop then forLoop stop step body fuel (i + step) (body i x) else x

/-- The store `a[i] = v`. -/
def store {α : Type} (a : Nat → α) (i : Nat) (v : α) : Nat → α :=
  fun j => if j = i then v else a j

/-- The compound assignment `a[i] |= m`. -/
def orInto (a : Nat → Nat) (i m : Nat) : Nat → Nat :=
  fun j => if j = i then a j ||| m else a j

/-- The bytes `a[off] .. a[off + len - 1]`, as handed to `FT_Write`. -/
def bytesAt (a : Nat → Nat) (off len : Nat) : List Nat :=
  (List.range len).map (fun i => a (off + i))

/-- The library call `bzero(&a[off], len)`. -/
def bzero (a : Nat → Nat) (off len : Nat) : Nat → Nat :=
  fun j => if off ≤ j ∧ j < off + len then 0 else a j

/-! ## p9813.c: gamma tables -/

def DEFAULT_GAMMA {K : Type} [LinearOrderedField K] : K := 2.4

/-- Conversion of a `double` to `unsigned char`. -/
def toUChar {K : Type} [LinearOrderedField K] [FloorRing K] (x : K) : Nat :=
  (Int.floor x).toNat % 256

/-- The chained assignment `row[0] = row[1] = row[2] = v` on one row of `rgbGamma`. -/
def setChannels (row : Nat → Nat) (v : Nat) : Nat → Nat :=
  store (store (store row 2 v) 1 v) 0 v

/-- The function `TCsetGammaSimple`; `pw` is the C library function `pow`. -/
def TCsetGammaSimple {K : Type} [LinearOrderedField K] [FloorRing K] (pw : K → K → K)
    (g : K) (st : TCState) : TCstatusCode × TCState :=
  if g ≤ 0 then (TC_ERR_VALUE, st)
  else
    (TC_OK,
      forLoop 256 1
        (fun i st =>
          let v := toUChar (255 * pw ((i : K) / 255) g + 0.5)
          { st with rgbGamma := store st.rgbGamma i (setChannels (st.rgbGamma i) v) })
        256 0 st)

/-- The function `TCdisableGamma`. -/
def TCdisableGamma (st : TCState) : TCState :=
  forLoop 256 1
    (fun i st => { st with rgbGamma := store st.rgbGamma i (setChannels (st.rgbGamma i) (i % 256)) })
    256 0 st

/-! ## p9813.c: current model -/

/-- The macro `EST_CURRENT(R,G,B)`. -/
def EST_CURRENT (R G B : Nat) : ℚ :=
  (CAL_CURRENT_OFF / CAL_N_PIXELS) +
  ((((R : ℚ) * CAL_CURRENT_R / CAL_N_PIXELS) +
    ((G : ℚ) * CAL_CURRENT_G / CAL_N_PIXELS) +
    ((B : ℚ) * CAL_CURRENT_B / CAL_N_PIXELS)) / 255 *
   (1 - ((R : ℚ) * (G : ℚ) / (255 * 255) * (1 - CAL_COMBO_RG))) *
   (1 - ((G : ℚ) * (B : ℚ) / (255 * 255) * (1 - CAL_COMBO_GB))) *
   (1 - ((R : ℚ) * (B : ℚ) / (255 * 255) * (1 - CAL_COMBO_RB))))

/-! ## p9813.c: TCrefresh -/

/-- Inputs of one `TCrefresh` call that come from outside the library: the two
clock readings `tv_sec * 1000000 + tv_usec` and the outcome of `FT_Write`. -/
structure RefreshEnv where
  time1 : Nat
  time2 : Nat
  write : WriteOutcome

/-- The buffers `pixelOutBuffer` and `pixelCurrent` while a frame is rendered. -/
structure Frame where
  out : Nat → Nat
  cur : Nat → ℚ

/-- The table look-up `rgbGamma[i][c]` assigned to an `unsigned char`. -/
def gammaAt (st : TCState) (i c : Nat) : Nat := st.rgbGamma i c % 256

/-- The expression `remap ? remap[absPixel] : absPixel`. -/
def mappedPixel (remap : Option (Nat → Int)) (absPixel : Nat) : Int :=
  match remap with
  | some rm => rm absPixel
  | none => (absPixel : Int)

/-- Reassembly of the corrected channels into the P9813 32-bit format; the
complement is taken on 32 bits. -/
def packWord (r g b : Nat) : Nat :=
  ((((b <<< 16) ||| (g <<< 8)) ||| r) |||
    ((0xFFFFFFFF ^^^ ((((b &&& 0xc0) <<< 22) ||| ((g &&& 0xc0) <<< 20)) ||| ((r &&& 0xc0) <<< 18)))
      &&& 0xff000000))

/-- The values of `rgb` and `pixelCurrent[absPixel]` for one slot, given the
resolved index `mappedPixel`. -/
def pixelWord (st : TCState) (pixelInBuffer : Option (Nat → Nat)) (m : Int) : Nat × ℚ :=
  match pixelInBuffer, decide (m < 0) with
  | some pix, false =>
    let r := gammaAt st ((pix m.toNat >>> 16) &&& 0xff) 0
    let g := gammaAt st ((pix m.toNat >>> 8) &&& 0xff) 1
    let b := gammaAt st (pix m.toNat &&& 0xff) 2
    (packWord r g b, EST_CURRENT r g b)
  | _, _ =>
    (0xff000000, if m = TC_PIXEL_DISCONNECTED then 0 else CAL_CURRENT_OFF / CAL_N_PIXELS)

/-- The bit walk of software-clock mode:
`for(;rgb;rgb<<=1) { if(rgb & 0x80000000) { addr[0] |= strand; addr[1] |= strand; } addr += 2; }` -/
def walkBitbang (w : ULongWidth) (strand : Nat) : Nat → Nat → Nat → (Nat → Nat) → (Nat → Nat)
  | 0, _, _, out => out
  | fuel + 1, rgb, addr, out =>
    if rgb = 0 then out
    else
      let out1 :=
        if rgb &&& 0x80000000 ≠ 0 then orInto (orInto out addr strand) (addr + 1) strand
        else out
      walkBitbang w strand fuel ((rgb <<< 1) % 2 ^ w.bits) (addr + 2) out1

/-- The bit walk of hardware-clock mode:
`for(;rgb;rgb<<=1) { if(rgb & 0x80000000) *addr |= strand; addr++; }` -/
def walkCbus (w : ULongWidth) (strand : Nat) : Nat → Nat → Nat → (Nat → Nat) → (Nat → Nat)
  | 0, _, _, out => out
  | fuel + 1, rgb, addr, out =>
    if rgb = 0 then out
    else
      let out1 := if rgb &&& 0x80000000 ≠ 0 then orInto out addr strand else out
      walkCbus w strand fuel ((rgb <<< 1) % 2 ^ w.bits) (addr + 1) out1

/-- The body of the inner loop of `TCrefresh` for strand `s`, position `p` and
running slot counter `absPixel`. -/
def renderSlot (w : ULongWidth) (st : TCState) (pixelInBuffer : Option (Nat → Nat))
    (remap : Option (Nat → Int)) (s p absPixel : Nat) (f : Frame) : Frame :=
  let strand := st.strandBitMask s
  let rgb := pixelWord st pixelInBuffer (mappedPixel remap absPixel)
  let addr := p * st.bytesPerPixel
  { cur := store f.cur absPixel rgb.2
    out :=
      if st.bytesPerPixel = 64 then walkBitbang w strand w.bits rgb.1 addr f.out
      else walkCbus w strand w.bits rgb.1 addr f.out }

/-- The loop `for(p=0;p<pixelsPerStrand;p++,absPixel++)`; the first component of the
loop state is `absPixel`. -/
def renderPixels (w : ULongWidth) (st : TCState) (pixelInBuffer : Option (Nat → Nat))
    (remap : Option (Nat → Int)) (s : Nat) (x : Nat × Frame) : Nat × Frame :=
  forLoop st.pixelsPerStrand 1
    (fun p x => (x.1 + 1, renderSlot w st pixelInBuffer remap s p x.1 x.2))
    st.pixelsPerStrand 0 x

/-- The loop `for(absPixel=s=0;s<nStrands;s++)`. -/
def renderStrands (w : ULongWidth) (st : TCState) (pixelInBuffer : Option (Nat → Nat))
    (remap : Option (Nat → Int)) (f : Frame) : Frame :=
  (forLoop st.nStrands 1 (fun s x => renderPixels w st pixelInBuffer remap s x)
    st.nStrands 0 (0, f)).2

/-- Clearing of the pixel region at the start of `TCrefresh`. -/
def clearBuffer (st : TCState) : Nat → Nat :=
  if st.bytesPerPixel = 64 then
    let strand := st.strandBitMask 7
    let len := st.pixelsPerStrand * st.bytesPerPixel
    forLoop len 2 (fun i out => store (store out i 0) (i + 1) strand) len 0 st.pixelOutBuffer
  else
    bzero st.pixelOutBuffer 0 (st.pixelsPerStrand * st.bytesPerPixel)

/-- PHASE 1 of `TCrefresh`: conversion of `pixelInBuffer` to `pixelOutBuffer`. -/
def renderFrame (w : ULongWidth) (st : TCState) (pixelInBuffer : Option (Nat → Nat))
    (remap : Option (Nat → Int)) : Frame :=
  renderStrands w st pixelInBuffer remap { out := clearBuffer st, cur := st.pixelCurrent }

/-- Conversion of a `double` to `unsigned long`. -/
def toULong (w : ULongWidth) (x : ℚ) : Nat := (Int.floor x).toNat % 2 ^ w.bits

/-- Rounding of a rational to the nearest integer, ties to the even one. -/
def roundHalfEven (y : ℚ) : Int :=
  if y - (Int.floor y : ℚ) < 1 / 2 then Int.floor y
  else if 1 / 2 < y - (Int.floor y : ℚ) then Int.floor y + 1
  else if Int.floor y % 2 = 0 then Int.floor y else Int.floor y + 1

/-- The `double` nearest to the rational `x`: 53 significant bits, round to
nearest, ties to even (the limits of the exponent range are far from every value
that occurs here and are left out). -/
def toDouble (x : ℚ) : ℚ :=
  if x = 0 then 0
  else (roundHalfEven (x / (2 : ℚ) ^ (Int.log 2 |x| - 52)) : ℚ) * (2 : ℚ) ^ (Int.log 2 |x| - 52)

/-- The C expression `(unsigned long)(((double)n * 1000000.0) / (double)d)` for
`unsigned long` values `n` and `d`: both conversions, the product and the quotient
are rounded to `double`, and the quotient is converted back. With `d = 0` the
quotient is not finite and its conversion is undefined (`none`). This is where the
rounding of `double` arithmetic is carried through, because the conversion to an
integer makes it observable; the `double` members of `TCstats` are idealised as
exact rationals. -/
def ulongRate (w : ULongWidth) (n d : Nat) : Option Nat :=
  if d = 0 then none
  else some (toULong w (toDouble (toDouble (toDouble (n : ℚ) * 1000000) / toDouble (d : ℚ))))

/-- Division of two `double` values: not finite when the divisor is zero. -/
def fdiv (x : Option ℚ) (d : ℚ) : Option ℚ :=
  match x with
  | some q => if d = 0 then none else some (q / d)
  | none => none

/-- The comparison `a > b` of two `double` values (false on a non-finite operand). -/
def fgt (a b : Option ℚ) : Bool :=
  match a, b with
  | some x, some y => decide (x > y)
  | _, _ => false

/-- PHASE 3 of `TCrefresh`: the statistics update, for the rendered current array
`cur`, write length `len` and the two clock readings. -/
def updateStats (w : ULongWidth) (st : TCState) (cur : Nat → ℚ) (len time1 time2 : Nat)
    (stats : TCstats) : TCstats :=
  let M := 2 ^ w.bits
  let bits0 := (st.nStrands * len) % 2 ^ 32
  let bits := if st.bytesPerPixel = 64 then bits0 / 2 else bits0
  let bitsTotal := (stats.bitsTotal + bits) % M
  let usecIo := (time2 + M - time1) % M
  let bps : Option Nat := if usecIo > 0 then ulongRate w bits usecIo else some 0
  let usecIoTotal := if usecIo > 0 then (stats.usecIoTotal + usecIo) % M else stats.usecIoTotal
  let bpsAvg : Option Nat :=
    if usecIoTotal ≠ 0 then ulongRate w bitsTotal usecIoTotal else bps
  let s1 : TCstats :=
    { stats with
      bits := bits, bitsTotal := bitsTotal, usecIo := usecIo, bps := bps,
      usecIoTotal := usecIoTotal, bpsAvg := bpsAvg }
  let s2 : TCstats :=
    if s1.frames ≠ 0 then
      let usecFrame := (time2 + M - s1.reserved % M) % M
      let fps : Option ℚ :=
        if usecFrame ≠ 0 then fdiv (some 1000000) (usecFrame : ℚ) else some 0
      let usecFrameTotal :=
        if usecFrame ≠ 0 then (s1.usecFrameTotal + usecFrame) % M else s1.usecFrameTotal
      let fpsAvg : Option ℚ :=
        if usecFrameTotal ≠ 0 then
          fdiv (some ((s1.frames : ℚ) * 1000000)) (usecFrameTotal : ℚ)
        else s1.fpsAvg
      let mah : Option ℚ := s1.ma.map (fun x => x * (usecFrame : ℚ) / (1000000 * 60 * 60))
      let mahTotal : Option ℚ := s1.mahTotal.bind (fun t => mah.map (fun x => t + x))
      let maAvg : Option ℚ :=
        fdiv (mahTotal.map (fun t => t * (1000000 * 60 * 60))) (usecFrameTotal : ℚ)
      { s1 with
        usecFrame := usecFrame, fps := fps, usecFrameTotal := usecFrameTotal, fpsAvg := fpsAvg,
        mah := mah, mahTotal := mahTotal, maAvg := maAvg }
    else s1
  let n := st.nStrands * st.pixelsPerStrand
  let sum : ℚ := forLoop n 1 (fun i acc => acc + cur i) n 0 0
  let maMax := if fgt (some sum) s2.maMax then some sum else s2.maMax
  { s2 with ma := some sum, maMax := maMax, reserved := time2, frames := (s2.frames + 1) % M }

/-- The function `TCrefresh`.  `pixelInBuffer`, `remap` and `stats` are `none` for
a `NULL` argument. -/
def TCrefresh (w : ULongWidth) (env : RefreshEnv) (pixelInBuffer : Option (Nat → Nat))
    (remap : Option (Nat → Int)) (stats : Option TCstats) (st : TCState) :
    TCstatusCode × TCState × Option TCstats :=
  let f := renderFrame w st pixelInBuffer remap
  let len := (st.pixelsPerStrand + 1) * st.bytesPerPixel
  let time1 := env.time1 % 2 ^ w.bits
  let status :=
    if env.write.ok = true ∧ len = env.write.out then TC_OK else TC_ERR_WRITE
  let st1 : TCState :=
    { st with
      pixelOutBuffer := f.out, pixelCurrent := f.cur,
      calls := st.calls ++ [Call.gettimeofday, Call.FT_Write (bytesAt f.out 0 len)] }
  match stats with
  | some stt =>
    let time2 := env.time2 % 2 ^ w.bits
    (status, { st1 with calls := st1.calls ++ [Call.gettimeofday] },
      some (updateStats w st f.cur len time1 time2 stt))
  | none => (status, st1, none)

/-- The function `TCinitStats`. -/
def TCinitStats (stats : Option TCstats) : TCstatusCode × Option TCstats :=
  match stats with
  | none => (TC_ERR_VALUE, none)
  | some _ =>
    (TC_OK, some
      { frames := 0, bits := 0, bitsTotal := 0, bps := some 0, bpsAvg := some 0, usecIo := 0,
        usecFrame := 0, usecIoTotal := 0, usecFrameTotal := 0, fps := some 0,
        fpsAvg := some 0, ma := some 0, maAvg := some 0, maMax := some 0, mah := some 0,
        mahTotal := some 0, reserved := 0 })

/-! ## p9813.c: opening and closing -/

/-- Inputs of one `TCopen` call that come from outside the library: the outcome of
`malloc` and the contents of the fresh block, the outcomes of the FTDI set-up calls
and of the latch write, and the inputs of the initial `TCrefresh`. -/
structure OpenEnv where
  mallocOk : Bool
  freshCurrent : Nat → ℚ
  freshOut : Nat → Nat
  openOk : Bool
  bitModeOk : Bool
  divisorOk : Bool
  baudRateOk : Bool
  latchWrite : WriteOutcome
  refresh : RefreshEnv

/-- The value of an `int` expression as the compiled code computes it: the
mathematical result reduced to 32 bits, two's complement. -/
def wrapInt (z : Int) : Int := (z + 2147483648) % 4294967296 - 2147483648

/-- The function `openAlloc`.  The two products `s * p` and
`(p + 1) * bytesPerPixel` are `int` expressions; they are converted to `size_t`
(as wide as `unsigned long`) for the multiplication by `sizeof(double)` and the
sum.  The pointers are recorded with the number of elements of each array that
lie inside the block: `pixelCurrent` runs from the start of the block to
`pixelOutBuffer = &pixelCurrent[s * p]`, `pixelOutBuffer` from there to the end
of the block. -/
def openAlloc (w : ULongWidth) (env : OpenEnv) (s : Nat) (p : Int) (st : TCState) :
    TCstatusCode × TCState :=
  let bpp : Nat := if s ≥ TC_CBUS_CLOCK then 32 else 64
  let s1 : Nat := if s ≥ TC_CBUS_CLOCK ∧ s > TC_CBUS_CLOCK then s - TC_CBUS_CLOCK else s
  let sp : Int := wrapInt ((s1 : Int) * p)
  let ob : Int := wrapInt (wrapInt (p + 1) * (bpp : Int))
  let M : Nat := 2 ^ w.bits
  let bytes : Nat := ((sp % (M : Int)).toNat * 8 % M + (ob % (M : Int)).toNat) % M
  let st1 : TCState :=
    { st with
      bytesPerPixel := bpp,
      calls := st.calls ++ [Call.malloc bytes] }
  if env.mallocOk then
    let st2 : TCState :=
      { st1 with
        pixelCurrentPtr := some (if 0 ≤ sp then min sp.toNat (bytes / 8) else 0),
        pixelCurrent := env.freshCurrent,
        pixelOutBufferPtr := some (if 0 ≤ sp then bytes - 8 * sp.toNat else 0),
        pixelOutBuffer := env.freshOut }
    let st3 : TCState := { st2 with calls := st2.calls ++ [Call.FT_Open] }
    let unwind (x : TCState) : TCState :=
      { x with
        ftdiHandle := false, calls := x.calls ++ [Call.free],
        pixelCurrentPtr := none, pixelOutBufferPtr := none }
    if env.openOk then
      let st4 : TCState :=
        { st3 with ftdiHandle := true, calls := st3.calls ++ [Call.FT_SetBitMode] }
      if env.bitModeOk then
        let status1 := if env.divisorOk then TC_OK else TC_ERR_DIVISOR
        let status2 := if env.baudRateOk then status1 else TC_ERR_BAUDRATE
        (status2,
          { st4 with
            calls := st4.calls ++ [Call.FT_SetDivisor, Call.FT_SetBaudRate, Call.FT_Purge] })
      else
        (TC_ERR_MODE, unwind { st4 with calls := st4.calls ++ [Call.FT_Close] })
    else
      (TC_ERR_OPEN, unwind st3)
  else
    (TC_ERR_MALLOC, { st1 with pixelCurrentPtr := none })

/-- Rendering of the clock bits of the latch:
`for(i=1;i<bytesPerPixel;i+=2) pixelOutBuffer[offset + i] = bit;` -/
def latchClock (bytesPerPixel offset bit : Nat) (out : Nat → Nat) : Nat → Nat :=
  forLoop bytesPerPixel 2 (fun i o => store o (offset + i) bit) bytesPerPixel 1 out

/-- The function `TCopen`; `pw` is the C library function `pow`. -/
def TCopen {K : Type} [LinearOrderedField K] [FloorRing K] (w : ULongWidth) (pw : K → K → K)
    (env : OpenEnv) (s : Nat) (p : Int) (st : TCState) : TCstatusCode × TCState :=
  if s < 1 ∨ s > 16 ∨ p < 1 then (TC_ERR_VALUE, st)
  else
    let r := openAlloc w env s p st
    if r.1 ≠ TC_OK then r
    else
      let st1 : TCState :=
        { r.2 with
          nStrands := if s > TC_CBUS_CLOCK then s - TC_CBUS_CLOCK else s,
          pixelsPerStrand := p.toNat }
      let len := p.toNat * st1.bytesPerPixel
      let out1 := bzero st1.pixelOutBuffer len st1.bytesPerPixel
      let out2 :=
        if 64 = st1.bytesPerPixel then latchClock st1.bytesPerPixel len (st1.strandBitMask 7) out1
        else out1
      let st2 : TCState :=
        { st1 with
          pixelOutBuffer := out2,
          calls := st1.calls ++ [Call.FT_Write (bytesAt out2 len st1.bytesPerPixel)] }
      if env.latchWrite.ok = false ∨ st2.bytesPerPixel ≠ env.latchWrite.out then
        (TC_ERR_WRITE, st2)
      else
        let q := TCrefresh w env.refresh none none none st2
        if q.1 ≠ TC_OK then (q.1, q.2.1)
        else ((TC_OK, (TCsetGammaSimple pw DEFAULT_GAMMA q.2.1).2))

/-- The function `TCclose`. -/
def TCclose (st : TCState) : TCState :=
  let st1 : TCState :=
    if st.ftdiHandle then { st with ftdiHandle := false, calls := st.calls ++ [Call.FT_Close] }
    else st
  let st2 : TCState :=
    if st1.pixelCurrentPtr.isSome then
      { st1 with
        calls := st1.calls ++ [Call.free], pixelCurrentPtr := none, pixelOutBufferPtr := none }
    else st1
  { st2 with nStrands := 0, pixelsPerStrand := 0 }

/-! ## p9813.c: pin configuration -/

/-- The function `TCsetStrandPin`. -/
def TCsetStrandPin (strand : Int) (bit : Nat) (st : TCState) : TCstatusCode × TCState :=
  if strand < 0 ∨ strand > 7 ∨ bit = 0 then (TC_ERR_VALUE, st)
  else
    let st1 : TCState := { st with strandBitMask := store st.strandBitMask strand.toNat bit }
    if st1.bytesPerPixel = 64 ∧ strand = 7 ∧ st1.pixelOutBufferPtr.isSome then
      (TC_OK,
        { st1 with
          pixelOutBuffer :=
            latchClock st1.bytesPerPixel (st1.pixelsPerStrand * st1.bytesPerPixel) bit
              st1.pixelOutBuffer })
    else (TC_OK, st1)

/-! ## Derived notions used in the statements -/

/-- The 32-bit command word that `TCrefresh` computes for strand `s`, position `p`:
the value of `rgb` in the slot whose running counter is `s * pixelsPerStrand + p`. -/
def commandWord (st : TCState) (pixelInBuffer : Option (Nat → Nat)) (remap : Option (Nat → Int))
    (s p : Nat) : Nat :=
  (pixelWord st pixelInBuffer (mappedPixel remap (s * st.pixelsPerStrand + p))).1

/-- Bitwise OR of `f 0`, ..., `f (n - 1)`. -/
def orUpTo (f : Nat → Nat) : Nat → Nat
  | 0 => 0
  | n + 1 => orUpTo f n ||| f n

/-- The position `k` (counted from the most significant bit) of the data bit that
output byte `a` carries within its slot. -/
def bitPos (bytesPerPixel a : Nat) : Nat :=
  if bytesPerPixel = 64 then (a % 64) / 2 else a % bytesPerPixel

/-- What strand `s` contributes to output byte `a` of a frame: its pin mask when
the byte lies in the pixel region and the strand's command word has the bit the
byte stands for, else nothing. -/
def strandBits (st : TCState) (pixelInBuffer : Option (Nat → Nat)) (remap : Option (Nat → Int))
    (a s : Nat) : Nat :=
  if a / st.bytesPerPixel < st.pixelsPerStrand ∧
      (commandWord st pixelInBuffer remap s (a / st.bytesPerPixel)).testBit
        (31 - bitPos st.bytesPerPixel a) = true
  then st.strandBitMask s else 0

/-- The first `n` iterations of a loop body, counted from index `0`. -/
def iter {σ : Type} (body : Nat → σ → σ) : Nat → σ → σ
  | 0, x => x
  | n + 1, x => body n (iter body n x)

/-- The control byte as the specification writes it, for corrected channel values
`r`, `g`, `b`: `0xC0 | (~(((b>>6)<<4) | ((g>>6)<<2) | (r>>6)) & 0x3F)`, the complement
taken on a byte. -/
def specControlByte (r g b : Nat) : Nat :=
  0xC0 ||| ((0xFF ^^^ ((((b >>> 6) <<< 4) ||| ((g >>> 6) <<< 2)) ||| (r >>> 6))) &&& 0x3F)

/-- Index of the output byte that carries data bit position `k` of slot `p` (in
software-clock mode the first byte of the pair, the one without the clock pin). -/
def dataByte (bytesPerPixel p k : Nat) : Nat :=
  if bytesPerPixel = 64 then 64 * p + 2 * k else bytesPerPixel * p + k

/-- Decoding of slot `p` of an output buffer for a strand with pin mask `mask` by
the bit layout of the encoder: bit `31 - k` of the result is set exactly when the
byte for bit position `k` has every pin of `mask` set. -/
def decodeWord (out : Nat → Nat) (bytesPerPixel mask p : Nat) : Nat :=
  orUpTo (fun k => if out (dataByte bytesPerPixel p k) &&& mask = mask then 1 <<< (31 - k) else 0)
    32

/-- The same decoding with the weaker test that some pin of `mask` is set. -/
def decodeWordAny (out : Nat → Nat) (bytesPerPixel mask p : Nat) : Nat :=
  orUpTo (fun k => if out (dataByte bytesPerPixel p k) &&& mask ≠ 0 then 1 <<< (31 - k) else 0)
    32

/-- Gamma-corrected red of the 24-bit pixel value `v`: table channel 0 at bits 16-23. -/
def correctedRed (st : TCState) (v : Nat) : Nat := gammaAt st ((v >>> 16) &&& 0xff) 0

/-- Gamma-corrected green of the 24-bit pixel value `v`: table channel 1 at bits 8-15. -/
def correctedGreen (st : TCState) (v : Nat) : Nat := gammaAt st ((v >>> 8) &&& 0xff) 1

/-- Gamma-corrected blue of the 24-bit pixel value `v`: table channel 2 at bits 0-7. -/
def correctedBlue (st : TCState) (v : Nat) : Nat := gammaAt st (v &&& 0xff) 2

/-- A software-clock session of three strands of two pixels with the default pin
map and the identity gamma table: the configuration that `TCopen(3, 2)` followed by
`TCdisableGamma` leaves, with zeroed buffers and an empty call log. -/
def sampleBitbang : TCState :=
  { initialState with
    pixelOutBufferPtr := some 192, pixelCurrentPtr := some 6, ftdiHandle := true,
    rgbGamma := fun i _ => i, nStrands := 3, pixelsPerStrand := 2 }

/-- A hardware-clock session of four strands of two pixels with the default pin
map and the identity gamma table: the configuration that
`TCopen(4 + TC_CBUS_CLOCK, 2)` followed by `TCdisableGamma` leaves, with zeroed
buffers and an empty call log. -/
def sampleCbus : TCState :=
  { initialState with
    bytesPerPixel := 32, pixelOutBufferPtr := some 96, pixelCurrentPtr := some 8,
    ftdiHandle := true, rgbGamma := fun i _ => i, nStrands := 4, pixelsPerStrand := 2 }

/-- The sample software-clock session after `TCsetStrandPin(1, TC_FTDI_TX)`:
strands 0 and 1 now drive the same pin. -/
def sharedPinSession : TCState := (TCsetStrandPin 1 TC_FTDI_TX sampleBitbang).2

/-- A frame of eight pixels: red, green, blue, white, then black. -/
def samplePixels : Nat → Nat
  | 0 => TCrgb 255 0 0
  | 1 => TCrgb 0 255 0
  | 2 => TCrgb 0 0 255
  | 3 => TCrgb 255 255 255
  | _ => 0

/-- Clock readings and a complete write for one `TCrefresh` of `sampleBitbang`. -/
def sampleEnv : RefreshEnv :=
  { time1 := 1000, time2 := 1500, write := { ok := true, out := 192 } }

/-- Clock readings and a complete write for one `TCrefresh` of `sampleCbus`. -/
def sampleEnvCbus : RefreshEnv :=
  { time1 := 1000, time2 := 1500, write := { ok := true, out := 96 } }

/-- Outcomes of the collaborators for a `TCopen(1, 25)` in which every step succeeds
except `FT_SetDivisor`. -/
def divisorFailEnv : OpenEnv :=
  { mallocOk := true, freshCurrent := fun _ => 0, freshOut := fun _ => 0, openOk := true,
    bitModeOk := true, divisorOk := false, baudRateOk := true,
    latchWrite := { ok := true, out := 64 },
    refresh := { time1 := 1000, time2 := 1500, write := { ok := true, out := 1664 } } }

/-- Outcomes of the collaborators for a `TCopen(1, 25)` in which every step succeeds. -/
def allOkEnv : OpenEnv :=
  { divisorFailEnv with divisorOk := true }

/-- The state of `TCopen` at its first `FT_Write`, from the state `r` that
`openAlloc` returned: `nStrands` and `pixelsPerStrand` recorded, the latch slot
cleared and, in software-clock mode, its clock bits set, the write logged. -/
def latchRendered (r : TCState) (s : Nat) (p : Int) : TCState :=
  let st1 : TCState :=
    { r with
      nStrands := if s > TC_CBUS_CLOCK then s - TC_CBUS_CLOCK else s,
      pixelsPerStrand := p.toNat }
  let len := p.toNat * st1.bytesPerPixel
  let out1 := bzero st1.pixelOutBuffer len st1.bytesPerPixel
  let out2 :=
    if 64 = st1.bytesPerPixel then latchClock st1.bytesPerPixel len (st1.strandBitMask 7) out1
    else out1
  { st1 with
    pixelOutBuffer := out2,
    calls := st1.calls ++ [Call.FT_Write (bytesAt out2 len st1.bytesPerPixel)] }

/-- A rational stand-in for `pow` in closed instances (the square, whatever the
exponent); the statements instantiated with it hold for every `pw`. -/
def squarePow : ℚ → ℚ → ℚ := fun x _ => x * x

/-- Outcomes of the collaborators for a `TCopen(1, 25)` in which `malloc` fails. -/
def mallocFailEnv : OpenEnv :=
  { allOkEnv with mallocOk := false }

/-- Outcomes of the collaborators for a `TCopen(1, 25)` in which every step succeeds
up to the write of the latch, which the transport rejects. -/
def latchFailEnv : OpenEnv :=
  { allOkEnv with latchWrite := { ok := false, out := 0 } }

/-- Outcomes of the collaborators for a `TCopen(1, 25)` in which every step succeeds
up to the write of the initial frame, of which only 64 bytes are accepted. -/
def frameFailEnv : OpenEnv :=
  { allOkEnv with
    refresh := { time1 := 1000, time2 := 1500, write := { ok := true, out := 64 } } }

/-- Clock readings and a transport that rejects the write, as for a null handle. -/
def rejectEnv : RefreshEnv :=
  { time1 := 1000, time2 := 1500, write := { ok := false, out := 0 } }

/-- The library after `TCopen(1, 25)` has succeeded from the initial state. -/
def openedOnce : TCState :=
  (TCopen ULongWidth.lp64 squarePow allOkEnv 1 25 initialState).2

/-- The library after a second `TCopen(1, 25)`, without `TCclose` in between, in
which `malloc` fails. -/
def reopenedMallocFail : TCState :=
  (TCopen ULongWidth.lp64 squarePow mallocFailEnv 1 25 openedOnce).2

/-! ## Derived notions for the statistics -/

/-- The contents of `*stats` after `TCrefresh(pixelInBuffer, remap, stats)` with a
non-null `stats` whose contents on entry are `stats`. -/
def TCrefreshStats (w : ULongWidth) (env : RefreshEnv) (pixelInBuffer : Option (Nat → Nat))
    (remap : Option (Nat → Int)) (stats : TCstats) (st : TCState) : TCstats :=
  match (TCrefresh w env pixelInBuffer remap (some stats) st).2.2 with
  | some s => s
  | none => stats

/-- The contents of `*stats` after `TCinitStats(stats)` with a non-null `stats`
whose contents on entry are `s0`. -/
def initialisedStats (s0 : TCstats) : TCstats :=
  match (TCinitStats (some s0)).2 with
  | some s => s
  | none => s0

/-- One `TCrefresh` call of a sequence: the readings of its collaborators, its
arguments, and the library state it is made in. -/
structure RefreshCall where
  env : RefreshEnv
  pixelInBuffer : Option (Nat → Nat)
  remap : Option (Nat → Int)
  st : TCState

/-- The contents of `*stats` after `TCinitStats(stats)` followed by the calls
`calls 0`, ..., `calls (k - 1)` of `TCrefresh` with that `stats`. -/
def statsAfter (w : ULongWidth) (s0 : TCstats) (calls : Nat → RefreshCall) : Nat → TCstats
  | 0 => initialisedStats s0
  | k + 1 =>
    TCrefreshStats w (calls k).env (calls k).pixelInBuffer (calls k).remap
      (statsAfter w s0 calls k) (calls k).st

/-- The current total of the frame rendered by a call: the sum of the
`nStrands * pixelsPerStrand` current estimates that the call computes. -/
def frameCurrent (w : ULongWidth) (c : RefreshCall) : ℚ :=
  Finset.sum (Finset.range (c.st.nStrands * c.st.pixelsPerStrand))
    (fun i => (renderFrame w c.st c.pixelInBuffer c.remap).cur i)

/-- The post-write timestamp `time2` of a call, as an `unsigned long`. -/
def timestamp (w : ULongWidth) (c : RefreshCall) : Nat := c.env.time2 % 2 ^ w.bits

/-- Three calls on the sample software-clock session, 1000 microseconds apart. -/
def sampleCalls : Nat → RefreshCall := fun k =>
  { env := { time1 := 1000 * k + 1000, time2 := 1000 * k + 1500,
             write := { ok := true, out := 192 } },
    pixelInBuffer := some samplePixels, remap := none, st := sampleBitbang }

/-- Two calls on the sample software-clock session with equal clock readings. -/
def stalledCalls : Nat → RefreshCall := fun _ =>
  { env := sampleEnv, pixelInBuffer := some samplePixels, remap := none, st := sampleBitbang }

/-- A structure of statistics with arbitrary finite contents, as before
`TCinitStats`. -/
def staleStats : TCstats :=
  { frames := 7, bits := 1, bitsTotal := 2, bps := some 3, bpsAvg := some 4, usecIo := 5,
    usecFrame := 6, usecIoTotal := 7, usecFrameTotal := 8, fps := some 9,
    fpsAvg := some 10, ma := some 11, maAvg := some 12, maMax := some 13, mah := some 14,
    mahTotal := some 15, reserved := 16 }

/-- The sample software-clock session after a `TCrefresh` of the sample frame whose
write the transport rejected. -/
def dirtySession : TCState :=
  (TCrefresh ULongWidth.lp64 rejectEnv (some samplePixels) none none sampleBitbang).2.1

/-! ## p9813.c: per-channel gamma -/

/-- Conversion to `unsigned char` of a `double` whose value is the integer `z`.
C defines it for `0 ≤ z ≤ 255`; for any other value the behaviour is undefined,
and `ub z` stands for the byte the platform yields. -/
def ucharOfFloor (ub : Int → Nat) (z : Int) : Nat :=
  if 0 ≤ z ∧ z ≤ 255 then z.toNat else ub z % 256

/-- The conversion of an unrepresentable value as the compiled code performs it:
the value is truncated to `int` and the low byte is kept. -/
def lowByteConversion : Int → Nat := fun z => (z % 256).toNat

/-- The function `TCsetGamma`; `pw` is the C library function `pow`, `ub` the
platform's result for a conversion to `unsigned char` that C leaves undefined.
The sums `rMin + ...` are taken in `int` and stored as `unsigned char`. -/
def TCsetGamma {K : Type} [LinearOrderedField K] [FloorRing K] (ub : Int → Nat)
    (pw : K → K → K) (rMin rMax : Nat) (rGamma : K) (gMin gMax : Nat) (gGamma : K)
    (bMin bMax : Nat) (bGamma : K) (st : TCState) : TCstatusCode × TCState :=
  if rGamma ≤ 0 ∨ gGamma ≤ 0 ∨ bGamma ≤ 0 then (TC_ERR_VALUE, st)
  else
    let rRange : K := (((rMax : Int) - (rMin : Int) : Int) : K)
    let gRange : K := (((gMax : Int) - (gMin : Int) : Int) : K)
    let bRange : K := (((bMax : Int) - (bMin : Int) : Int) : K)
    (TC_OK,
      forLoop 256 1
        (fun i st =>
          let d : K := (i : K) / 255
          let row0 := store (st.rgbGamma i) 0
            ((rMin + ucharOfFloor ub (Int.floor (rRange * pw d rGamma + 0.5))) % 256)
          let row1 := store row0 1
            ((gMin + ucharOfFloor ub (Int.floor (gRange * pw d gGamma + 0.5))) % 256)
          let row2 := store row1 2
            ((bMin + ucharOfFloor ub (Int.floor (bRange * pw d bGamma + 0.5))) % 256)
          { st with rgbGamma := store st.rgbGamma i row2 })
        256 0 st)

/-- A pixel buffer in which every pixel is `TCrgb(255,0,0)`. -/
def allRed : Nat → Nat := fun _ => TCrgb 255 0 0

/-- The sample frame with the two pixels of strand 3 of a two-pixel session (slots 6
and 7) changed to white. -/
def samplePixelsAlt : Nat → Nat := fun i =>
  if i = 6 ∨ i = 7 then TCrgb 255 255 255 else samplePixels i

/-! ## Array accesses of TCrefresh -/

/-- One array access of `TCrefresh`: the array and the index. -/
inductive Access where
  /-- An access to `strandBitMask[i]`. -/
  | pinMap (i : Nat)
  /-- An access to `rgbGamma[i][c]`. -/
  | gammaTable (i c : Nat)
  /-- An access to `remap[i]`. -/
  | remapTable (i : Nat)
  /-- An access to `pixelInBuffer[i]`. -/
  | pixelIn (i : Int)
  /-- An access to `pixelCurrent[i]`. -/
  | currentArray (i : Nat)
  /-- An access to `pixelOutBuffer[i]`. -/
  | outBuffer (i : Nat)

/-- Whether an access is inside its array, for arrays `strandBitMask[8]`,
`rgbGamma[256][3]`, `pixelCurrent` of `currentLen` entries, `pixelOutBuffer` of
`outLen` bytes, `remap` of `remapLen` entries and `pixelInBuffer` of `pixLen`
entries. -/
def Access.inRange (currentLen outLen remapLen pixLen : Nat) : Access → Bool
  | .pinMap i => decide (i < 8)
  | .gammaTable i c => decide (i < 256 ∧ c < 3)
  | .remapTable i => decide (i < remapLen)
  | .pixelIn i => decide (0 ≤ i ∧ i < (pixLen : Int))
  | .currentArray i => decide (i < currentLen)
  | .outBuffer i => decide (i < outLen)

/-- The indices of `pixelOutBuffer` that the bit walk of software-clock mode
accesses (`addr[0] |= strand; addr[1] |= strand`), in program order. -/
def walkBitbangTrace (w : ULongWidth) : Nat → Nat → Nat → List Nat
  | 0, _, _ => []
  | fuel + 1, rgb, addr =>
    if rgb = 0 then []
    else
      (if rgb &&& 0x80000000 ≠ 0 then [addr, addr + 1] else []) ++
        walkBitbangTrace w fuel ((rgb <<< 1) % 2 ^ w.bits) (addr + 2)

/-- The indices of `pixelOutBuffer` that the bit walk of hardware-clock mode
accesses (`*addr |= strand`), in program order. -/
def walkCbusTrace (w : ULongWidth) : Nat → Nat → Nat → List Nat
  | 0, _, _ => []
  | fuel + 1, rgb, addr =>
    if rgb = 0 then []
    else
      (if rgb &&& 0x80000000 ≠ 0 then [addr] else []) ++
        walkCbusTrace w fuel ((rgb <<< 1) % 2 ^ w.bits) (addr + 1)

/-- The indices of `pixelOutBuffer` written for one slot at position `p` whose
command word is `rgb`. -/
def slotWrites (w : ULongWidth) (st : TCState) (rgb p : Nat) : List Nat :=
  if st.bytesPerPixel = 64 then walkBitbangTrace w w.bits rgb (p * st.bytesPerPixel)
  else walkCbusTrace w w.bits rgb (p * st.bytesPerPixel)

/-- The array accesses of the body of the inner loop of `TCrefresh` for strand `s`,
position `p` and running slot counter `absPixel`. -/
def renderSlotTrace (w : ULongWidth) (st : TCState) (pixelInBuffer : Option (Nat → Nat))
    (remap : Option (Nat → Int)) (p absPixel : Nat) : List Access :=
  let m := mappedPixel remap absPixel
  (match remap with
    | some _ => [Access.remapTable absPixel]
    | none => []) ++
  (match pixelInBuffer, decide (m < 0) with
    | some pix, false =>
      [Access.pixelIn m, Access.gammaTable ((pix m.toNat >>> 16) &&& 0xff) 0,
        Access.pixelIn m, Access.gammaTable ((pix m.toNat >>> 8) &&& 0xff) 1,
        Access.pixelIn m, Access.gammaTable (pix m.toNat &&& 0xff) 2,
        Access.currentArray absPixel]
    | _, _ => [Access.currentArray absPixel]) ++
  (slotWrites w st (pixelWord st pixelInBuffer m).1 p).map Access.outBuffer

/-- The array accesses of the loop `for(p=0;p<pixelsPerStrand;p++,absPixel++)`; the
first component of the loop state is `absPixel`. -/
def renderPixelsTrace (w : ULongWidth) (st : TCState) (pixelInBuffer : Option (Nat → Nat))
    (remap : Option (Nat → Int)) (x : Nat × List Access) : Nat × List Access :=
  forLoop st.pixelsPerStrand 1
    (fun p x => (x.1 + 1, x.2 ++ renderSlotTrace w st pixelInBuffer remap p x.1))
    st.pixelsPerStrand 0 x

/-- The array accesses of the loop `for(absPixel=s=0;s<nStrands;s++)`, each strand
starting with `strand = strandBitMask[s]`. -/
def renderStrandsTrace (w : ULongWidth) (st : TCState) (pixelInBuffer : Option (Nat → Nat))
    (remap : Option (Nat → Int)) : List Access :=
  (forLoop st.nStrands 1
    (fun s x => renderPixelsTrace w st pixelInBuffer remap (x.1, x.2 ++ [Access.pinMap s]))
    st.nStrands 0 (0, [])).2

/-- The array accesses of the clearing of the pixel region at the start of
`TCrefresh`. -/
def clearTrace (st : TCState) : List Access :=
  if st.bytesPerPixel = 64 then
    Access.pinMap 7 ::
      forLoop (st.pixelsPerStrand * st.bytesPerPixel) 2
        (fun i t => t ++ [Access.outBuffer i, Access.outBuffer (i + 1)])
        (st.pixelsPerStrand * st.bytesPerPixel) 0 []
  else (List.range (st.pixelsPerStrand * st.bytesPerPixel)).map Access.outBuffer

/-- All array accesses of one `TCrefresh`: clearing, rendering, the `len` bytes
handed to `FT_Write`, and with statistics the summation of `pixelCurrent`. -/
def TCrefreshTrace (w : ULongWidth) (st : TCState) (pixelInBuffer : Option (Nat → Nat))
    (remap : Option (Nat → Int)) (withStats : Bool) : List Access :=
  clearTrace st ++ renderStrandsTrace w st pixelInBuffer remap ++
    (List.range ((st.pixelsPerStrand + 1) * st.bytesPerPixel)).map Access.outBuffer ++
    (if withStats then (List.range (st.nStrands * st.pixelsPerStrand)).map Access.currentArray
      else [])

/-- The walk the loop is compared with, in hardware-clock mode: exactly 32
iterations, iteration `k` setting the strand's pins in byte `addr + k` when bit
`31 - k` of the word is set. -/
def fixedWalkCbus (strand rgb addr : Nat) (out : Nat → Nat) : Nat → Nat :=
  iter (fun k o => if rgb.testBit (31 - k) = true then orInto o (addr + k) strand else o) 32 out

/-- The walk the loop is compared with, in software-clock mode: exactly 32
iterations, iteration `k` setting the strand's pins in bytes `addr + 2 k` and
`addr + 2 k + 1` when bit `31 - k` of the word is set. -/
def fixedWalkBitbang (strand rgb addr : Nat) (out : Nat → Nat) : Nat → Nat :=
  iter (fun k o =>
    if rgb.testBit (31 - k) = true then
      orInto (orInto o (addr + 2 * k) strand) (addr + 2 * k + 1) strand
    else o) 32 out

/-- Two states hold the same session: clock mode, strand and pixel counts and the
two buffers are the same (what `TCopen` sets up and only `TCclose` or another
`TCopen` changes). -/
def sameSession (a b : TCState) : Prop :=
  a.bytesPerPixel = b.bytesPerPixel ∧ a.nStrands = b.nStrands ∧
  a.pixelsPerStrand = b.pixelsPerStrand ∧ a.pixelCurrentPtr = b.pixelCurrentPtr ∧
  a.pixelOutBufferPtr = b.pixelOutBufferPtr

instance (a b : TCState) : Decidable (sameSession a b) := by
  unfold sameSession
  infer_instance

/-! ## Runs that can fault -/

/-- The array accesses that the statements of `TCrefresh` perform themselves:
clearing, rendering and, with statistics, the summation of `pixelCurrent`. The
bytes that `FT_Write` reads are the transport's accesses. -/
def TCrefreshOwnTrace (w : ULongWidth) (st : TCState) (pixelInBuffer : Option (Nat → Nat))
    (remap : Option (Nat → Int)) (withStats : Bool) : List Access :=
  clearTrace st ++ renderStrandsTrace w st pixelInBuffer remap ++
    (if withStats then (List.range (st.nStrands * st.pixelsPerStrand)).map Access.currentArray
      else [])

/-- The function `TCrefresh` as a run that can fault, for a pixel buffer of
`pixLen` pixels and a remap table of `remapLen` entries: `none` when one of its
own array accesses falls outside the array (a `NULL` pointer being an array of no
elements), otherwise what `TCrefresh` returns. -/
def TCrefreshChecked (w : ULongWidth) (env : RefreshEnv) (pixelInBuffer : Option (Nat → Nat))
    (remap : Option (Nat → Int)) (stats : Option TCstats) (st : TCState)
    (pixLen remapLen : Nat) : Option (TCstatusCode × TCState × Option TCstats) :=
  if (TCrefreshOwnTrace w st pixelInBuffer remap stats.isSome).all
      (Access.inRange (st.pixelCurrentPtr.getD 0) (st.pixelOutBufferPtr.getD 0) remapLen
        pixLen) = true then
    some (TCrefresh w env pixelInBuffer remap stats st)
  else none

/-- The array accesses of the latch rendering in `TCopen`, in the state in which
`nStrands` and `pixelsPerStrand` are recorded:
`bzero(&pixelOutBuffer[len],bytesPerPixel)` and, in software-clock mode,
`for(i=1;i<bytesPerPixel;i+=2) pixelOutBuffer[len + i] = strandBitMask[7];`. -/
def latchTrace (st : TCState) : List Access :=
  (List.range st.bytesPerPixel).map
      (fun j => Access.outBuffer (st.pixelsPerStrand * st.bytesPerPixel + j)) ++
    (if 64 = st.bytesPerPixel then
      forLoop st.bytesPerPixel 2
        (fun i t =>
          t ++ [Access.pinMap 7,
            Access.outBuffer (st.pixelsPerStrand * st.bytesPerPixel + i)])
        st.bytesPerPixel 1 []
    else [])

/-- The array accesses of `TCsetGammaSimple` and `TCdisableGamma`: the three
channels of every row of `rgbGamma`. -/
def gammaTrace : List Access :=
  (List.range 256).flatMap
    (fun i => [Access.gammaTable i 0, Access.gammaTable i 1, Access.gammaTable i 2])

/-- The array accesses that the statements of `TCopen` perform themselves: none
when the arguments are rejected or `openAlloc` does not return `TC_OK`; otherwise
the latch rendering, then, when the latch was written, the accesses of
`TCrefresh(NULL,NULL,NULL)`, then, when that returned `TC_OK`, those of
`TCsetGammaSimple`. -/
def TCopenTrace (w : ULongWidth) (env : OpenEnv) (s : Nat) (p : Int) (st : TCState) :
    List Access :=
  if s < 1 ∨ s > 16 ∨ p < 1 then []
  else if (openAlloc w env s p st).1 ≠ TC_OK then []
  else
    let st2 := latchRendered (openAlloc w env s p st).2 s p
    latchTrace st2 ++
      (if env.latchWrite.ok = false ∨ st2.bytesPerPixel ≠ env.latchWrite.out then []
      else
        TCrefreshOwnTrace w st2 none none false ++
          (if (TCrefresh w env.refresh none none none st2).1 ≠ TC_OK then [] else gammaTrace))

/-- The function `TCopen` as a run that can fault: `none` when one of its own
array accesses falls outside the block that `malloc` returned (as it does when
the `int` products of `openAlloc` wrap and the block is smaller than the slots
written), otherwise what `TCopen` returns. -/
def TCopenChecked {K : Type} [LinearOrderedField K] [FloorRing K] (w : ULongWidth)
    (pw : K → K → K) (env : OpenEnv) (s : Nat) (p : Int) (st : TCState) :
    Option (TCstatusCode × TCState) :=
  if (TCopenTrace w env s p st).all
      (Access.inRange ((openAlloc w env s p st).2.pixelCurrentPtr.getD 0)
        ((openAlloc w env s p st).2.pixelOutBufferPtr.getD 0) 0 0) = true then
    some (TCopen w pw env s p st)
  else none

/-! ## Bit-level lemmas -/

theorem ULongWidth.bits_ge (w : ULongWidth) : 32 ≤ w.bits := by
  cases w <;> simp [ULongWidth.bits]

theorem and_bit31 (x : Nat) : x &&& 0x80000000 = if x.testBit 31 then 0x80000000 else 0 := by
  have e : (0x80000000 : Nat) = 2 ^ 31 := by norm_num
  rw [e]
  apply Nat.eq_of_testBit_eq
  intro i
  by_cases h : x.testBit 31
  · simp only [h, if_true, Nat.testBit_and, Nat.testBit_two_pow]
    by_cases hi : 31 = i
    · subst hi; simp [h]
    · simp [hi]
  · simp only [h, Nat.testBit_and, Nat.testBit_two_pow]
    by_cases hi : 31 = i
    · subst hi; simp [h]
    · simp [hi]

theorem bit31_ne_zero (x : Nat) : x &&& 0x80000000 ≠ 0 ↔ x.testBit 31 = true := by
  rw [and_bit31]
  by_cases h : x.testBit 31 <;> simp [h]

theorem shl1_testBit (x n j : Nat) (hn : 32 ≤ n) (hj : j ≤ 30) :
    ((x <<< 1) % 2 ^ n).testBit (31 - j) = x.testBit (31 - (j + 1)) := by
  rw [Nat.testBit_mod_two_pow, Nat.testBit_shiftLeft]
  have h1 : 31 - j < n := by omega
  have h2 : 31 - j ≥ 1 := by omega
  have h3 : 31 - j - 1 = 31 - (j + 1) := by omega
  simp [h1, h2, h3]

theorem shl1_testBit_zero (x n : Nat) : ((x <<< 1) % 2 ^ n).testBit 0 = false := by
  rw [Nat.testBit_mod_two_pow, Nat.testBit_shiftLeft]
  simp

/-- Bit `31 - j` of the word after one shift is bit `31 - (j + 1)` of the word before. -/
theorem shl1_bit (x : Nat) (w : ULongWidth) (j : Nat) :
    (j ≤ 31 ∧ ((x <<< 1) % 2 ^ w.bits).testBit (31 - j) = true) ↔
      (j + 1 ≤ 31 ∧ x.testBit (31 - (j + 1)) = true) := by
  by_cases hj : j ≤ 30
  · rw [shl1_testBit x w.bits j w.bits_ge hj]
    constructor
    · rintro ⟨_, h⟩; exact ⟨by omega, h⟩
    · rintro ⟨_, h⟩; exact ⟨by omega, h⟩
  · constructor
    · rintro ⟨h1, h2⟩
      have : 31 - j = 0 := by omega
      rw [this, shl1_testBit_zero] at h2
      exact absurd h2 (by simp)
    · rintro ⟨h1, _⟩; omega

/-! ## The bit walks in closed form -/

/-- Closed form of the hardware-clock bit walk: byte `addr + j` receives the strand
mask exactly when `j ≤ 31` and bit `31 - j` of the word is set. -/
theorem walkCbus_apply (w : ULongWidth) (strand : Nat) :
    ∀ (fuel rgb addr : Nat) (out : Nat → Nat) (a : Nat),
      walkCbus w strand fuel rgb addr out a =
        out a ||| (if addr ≤ a ∧ a - addr < fuel ∧ a - addr ≤ 31 ∧
          rgb.testBit (31 - (a - addr)) = true then strand else 0) := by
  intro fuel
  induction fuel with
  | zero => intro rgb addr out a; simp [walkCbus]
  | succ n ih =>
    intro rgb addr out a
    rw [walkCbus]
    by_cases h0 : rgb = 0
    · subst h0; simp
    · rw [if_neg h0]
      simp only [ih]
      by_cases ha : a = addr
      · subst ha
        have hfalse : ¬ (a + 1 ≤ a ∧ a - (a + 1) < n ∧ a - (a + 1) ≤ 31 ∧
            ((rgb <<< 1) % 2 ^ w.bits).testBit (31 - (a - (a + 1))) = true) := by
          rintro ⟨h, _⟩; omega
        rw [if_neg hfalse, Nat.or_zero]
        by_cases hb : rgb.testBit 31 = true
        · rw [if_pos ((bit31_ne_zero rgb).mpr hb)]
          simp [orInto, hb]
        · rw [if_neg (fun h => hb ((bit31_ne_zero rgb).mp h))]
          simp [hb]
      · have hout : (if rgb &&& 0x80000000 ≠ 0 then orInto out addr strand
            else out) a = out a := by
          split_ifs <;> simp [orInto, ha]
        rw [hout]
        by_cases hlt : addr + 1 ≤ a
        · have hsub : a - addr = (a - (addr + 1)) + 1 := by omega
          have key := shl1_bit rgb w (a - (addr + 1))
          rw [hsub]
          by_cases hc : a - (addr + 1) ≤ 31 ∧
              ((rgb <<< 1) % 2 ^ w.bits).testBit (31 - (a - (addr + 1))) = true
          · have hc2 := key.mp hc
            by_cases hn : a - (addr + 1) < n
            · rw [if_pos ⟨hlt, hn, hc.1, hc.2⟩, if_pos ⟨by omega, by omega, hc2.1, hc2.2⟩]
            · rw [if_neg (fun h => hn h.2.1), if_neg (fun h => hn (by omega))]
          · have hc2 : ¬ (a - (addr + 1) + 1 ≤ 31 ∧
                rgb.testBit (31 - (a - (addr + 1) + 1)) = true) := fun h => hc (key.mpr h)
            rw [if_neg (fun h => hc ⟨h.2.2.1, h.2.2.2⟩), if_neg (fun h => hc2 ⟨h.2.2.1, h.2.2.2⟩)]
        · rw [if_neg (fun h => hlt h.1), if_neg (fun h => hlt (by omega))]

/-- Closed form of the software-clock bit walk: bytes `addr + 2 j` and
`addr + 2 j + 1` receive the strand mask exactly when `j ≤ 31` and bit `31 - j` of
the word is set. -/
theorem walkBitbang_apply (w : ULongWidth) (strand : Nat) :
    ∀ (fuel rgb addr : Nat) (out : Nat → Nat) (a : Nat),
      walkBitbang w strand fuel rgb addr out a =
        out a ||| (if addr ≤ a ∧ (a - addr) / 2 < fuel ∧ (a - addr) / 2 ≤ 31 ∧
          rgb.testBit (31 - (a - addr) / 2) = true then strand else 0) := by
  intro fuel
  induction fuel with
  | zero => intro rgb addr out a; simp [walkBitbang]
  | succ n ih =>
    intro rgb addr out a
    rw [walkBitbang]
    by_cases h0 : rgb = 0
    · subst h0; simp
    · rw [if_neg h0]
      simp only [ih]
      by_cases ha : a = addr ∨ a = addr + 1
      · have hfalse : ¬ (addr + 2 ≤ a ∧ (a - (addr + 2)) / 2 < n ∧ (a - (addr + 2)) / 2 ≤ 31 ∧
            ((rgb <<< 1) % 2 ^ w.bits).testBit (31 - (a - (addr + 2)) / 2) = true) := by
          rintro ⟨h, _⟩; omega
        rw [if_neg hfalse, Nat.or_zero]
        have hj : (a - addr) / 2 = 0 := by omega
        have hle : addr ≤ a := by omega
        rw [hj]
        by_cases hb : rgb.testBit 31 = true
        · rw [if_pos ((bit31_ne_zero rgb).mpr hb)]
          rcases ha with ha | ha
          · subst ha; simp [orInto, hb]
          · subst ha; simp [orInto, hb]
        · rw [if_neg (fun h => hb ((bit31_ne_zero rgb).mp h))]
          simp [hb]
      · have ha1 : a ≠ addr := fun h => ha (Or.inl h)
        have ha2 : a ≠ addr + 1 := fun h => ha (Or.inr h)
        have hout : (if rgb &&& 0x80000000 ≠ 0 then
              orInto (orInto out addr strand) (addr + 1) strand
            else out) a = out a := by
          split_ifs <;> simp [orInto, ha1, ha2]
        rw [hout]
        by_cases hlt : addr + 2 ≤ a
        · have hsub : (a - addr) / 2 = (a - (addr + 2)) / 2 + 1 := by omega
          have key := shl1_bit rgb w ((a - (addr + 2)) / 2)
          rw [hsub]
          by_cases hc : (a - (addr + 2)) / 2 ≤ 31 ∧
              ((rgb <<< 1) % 2 ^ w.bits).testBit (31 - (a - (addr + 2)) / 2) = true
          · have hc2 := key.mp hc
            by_cases hn : (a - (addr + 2)) / 2 < n
            · rw [if_pos ⟨hlt, hn, hc.1, hc.2⟩, if_pos ⟨by omega, by omega, hc2.1, hc2.2⟩]
            · rw [if_neg (fun h => hn h.2.1), if_neg (fun h => hn (by omega))]
          · have hc2 : ¬ ((a - (addr + 2)) / 2 + 1 ≤ 31 ∧
                rgb.testBit (31 - ((a - (addr + 2)) / 2 + 1)) = true) := fun h => hc (key.mpr h)
            rw [if_neg (fun h => hc ⟨h.2.2.1, h.2.2.2⟩), if_neg (fun h => hc2 ⟨h.2.2.1, h.2.2.2⟩)]
        · rw [if_neg (fun h => hlt h.1), if_neg (fun h => hlt (by omega))]

/-- The unrolling bound of the hardware-clock walk loses nothing: any bound of at
least 32 iterations gives the same buffer. -/
theorem walkCbus_fuel (w : ULongWidth) (strand fuel rgb addr : Nat) (out : Nat → Nat)
    (h : 32 ≤ fuel) :
    walkCbus w strand fuel rgb addr out = walkCbus w strand w.bits rgb addr out := by
  funext a
  have hw := w.bits_ge
  rw [walkCbus_apply, walkCbus_apply]
  congr 1
  by_cases hc : addr ≤ a ∧ a - addr ≤ 31 ∧ rgb.testBit (31 - (a - addr)) = true
  · rw [if_pos ⟨hc.1, by omega, hc.2.1, hc.2.2⟩, if_pos ⟨hc.1, by omega, hc.2.1, hc.2.2⟩]
  · rw [if_neg (fun hh => hc ⟨hh.1, hh.2.2.1, hh.2.2.2⟩),
      if_neg (fun hh => hc ⟨hh.1, hh.2.2.1, hh.2.2.2⟩)]

/-- The unrolling bound of the software-clock walk loses nothing. -/
theorem walkBitbang_fuel (w : ULongWidth) (strand fuel rgb addr : Nat) (out : Nat → Nat)
    (h : 32 ≤ fuel) :
    walkBitbang w strand fuel rgb addr out = walkBitbang w strand w.bits rgb addr out := by
  funext a
  have hw := w.bits_ge
  rw [walkBitbang_apply, walkBitbang_apply]
  congr 1
  by_cases hc : addr ≤ a ∧ (a - addr) / 2 ≤ 31 ∧ rgb.testBit (31 - (a - addr) / 2) = true
  · rw [if_pos ⟨hc.1, by omega, hc.2.1, hc.2.2⟩, if_pos ⟨hc.1, by omega, hc.2.1, hc.2.2⟩]
  · rw [if_neg (fun hh => hc ⟨hh.1, hh.2.2.1, hh.2.2.2⟩),
      if_neg (fun hh => hc ⟨hh.1, hh.2.2.1, hh.2.2.2⟩)]

/-! ## Counting loops -/

/-- A counting loop that has enough unrolling to reach its bound is not changed by
more unrolling. -/
theorem forLoop_fuel {σ : Type} (stop step : Nat) (body : Nat → σ → σ) :
    ∀ (fuel extra i : Nat) (x : σ), stop ≤ i + fuel * step →
      forLoop stop step body (fuel + extra) i x = forLoop stop step body fuel i x := by
  intro fuel
  induction fuel with
  | zero =>
    intro extra i x h
    have hi : ¬ (i < stop) := by omega
    cases extra with
    | zero => rfl
    | succ e =>
      rw [Nat.zero_add]
      simp only [forLoop, if_neg hi]
  | succ n ih =>
    intro extra i x h
    have e1 : n + 1 + extra = (n + extra) + 1 := by omega
    rw [e1, forLoop, forLoop]
    by_cases hi : i < stop
    · rw [if_pos hi, if_pos hi]
      exact ih extra (i + step) (body i x) (by rw [Nat.succ_mul] at h; omega)
    · rw [if_neg hi, if_neg hi]

theorem iter_succ_front {σ : Type} (g : Nat → σ → σ) :
    ∀ (n : Nat) (x : σ), iter g (n + 1) x = iter (fun j => g (j + 1)) n (g 0 x) := by
  intro n
  induction n with
  | zero => intro x; rfl
  | succ k ih =>
    intro x
    show g (k + 1) (iter g (k + 1) x) = g (k + 1) (iter (fun j => g (j + 1)) k (g 0 x))
    rw [ih]

theorem forLoop_eq_iter_from {σ : Type} (stop : Nat) (body : Nat → σ → σ) :
    ∀ (n i : Nat) (x : σ), i + n ≤ stop →
      forLoop stop 1 body n i x = iter (fun j => body (i + j)) n x := by
  intro n
  induction n with
  | zero => intro i x _; rfl
  | succ k ih =>
    intro i x h
    rw [forLoop, if_pos (by omega), ih (i + 1) (body i x) (by omega), iter_succ_front]
    have : (fun j => body (i + 1 + j)) = (fun j => (fun j => body (i + j)) (j + 1)) := by
      funext j
      show body (i + 1 + j) = body (i + (j + 1))
      rw [Nat.add_assoc, Nat.add_comm 1 j]
    rw [this]
    rfl

/-- A unit-step loop from `0` to its bound runs the body for `0, 1, ..., n - 1`. -/
theorem forLoop_eq_iter {σ : Type} (n : Nat) (body : Nat → σ → σ) (x : σ) :
    forLoop n 1 body n 0 x = iter body n x := by
  rw [forLoop_eq_iter_from n body n 0 x (by omega)]
  have : (fun j => body (0 + j)) = body := by
    funext j
    rw [Nat.zero_add]
  rw [this]

/-! ## The rendering loops in closed form -/

/-- Effect of one slot on the current-estimate array. -/
theorem renderSlot_cur (w : ULongWidth) (st : TCState) (pix : Option (Nat → Nat))
    (remap : Option (Nat → Int)) (s p i : Nat) (f : Frame) (j : Nat) :
    (renderSlot w st pix remap s p i f).cur j =
      if j = i then (pixelWord st pix (mappedPixel remap i)).2 else f.cur j := rfl

/-- Effect of one slot on the output buffer, in either clock mode. -/
theorem renderSlot_out (w : ULongWidth) (st : TCState) (pix : Option (Nat → Nat))
    (remap : Option (Nat → Int)) (hb : st.bytesPerPixel = 64 ∨ st.bytesPerPixel = 32)
    (s p i : Nat) (f : Frame) (a : Nat) :
    (renderSlot w st pix remap s p i f).out a =
      f.out a ||| (if a / st.bytesPerPixel = p ∧
        (pixelWord st pix (mappedPixel remap i)).1.testBit (31 - bitPos st.bytesPerPixel a) = true
        then st.strandBitMask s else 0) := by
  have hw := w.bits_ge
  rcases hb with hb | hb
  · simp only [renderSlot, hb, if_true, walkBitbang_apply, bitPos]
    congr 1
    by_cases h : a / 64 = p
    · have e : (a - p * 64) / 2 = a % 64 / 2 := by omega
      have c1 : p * 64 ≤ a := by omega
      have c2 : a % 64 / 2 < w.bits := by omega
      have c3 : a % 64 / 2 ≤ 31 := by omega
      simp only [c1, h, e, c2, c3, true_and]
    · have : ¬ (p * 64 ≤ a ∧ (a - p * 64) / 2 < w.bits ∧ (a - p * 64) / 2 ≤ 31 ∧
          (pixelWord st pix (mappedPixel remap i)).1.testBit (31 - (a - p * 64) / 2) = true) := by
        rintro ⟨h1, _, h3, _⟩; omega
      rw [if_neg this, if_neg (fun hh => h hh.1)]
  · have hne : ¬ (32 = 64) := by decide
    simp only [renderSlot, hb, hne, if_false, walkCbus_apply, bitPos]
    congr 1
    by_cases h : a / 32 = p
    · have e : a - p * 32 = a % 32 := by omega
      have c1 : p * 32 ≤ a := by omega
      have c2 : a % 32 < w.bits := by omega
      have c3 : a % 32 ≤ 31 := by omega
      simp only [c1, h, e, c2, c3, true_and]
    · have : ¬ (p * 32 ≤ a ∧ a - p * 32 < w.bits ∧ a - p * 32 ≤ 31 ∧
          (pixelWord st pix (mappedPixel remap i)).1.testBit (31 - (a - p * 32)) = true) := by
        rintro ⟨h1, _, h3, _⟩; omega
      rw [if_neg this, if_neg (fun hh => h hh.1)]

/-- Slot counter and current estimates of the inner loop of `TCrefresh` after `n`
positions of strand `s`. -/
theorem renderPixels_iter_cur (w : ULongWidth) (st : TCState) (pix : Option (Nat → Nat))
    (remap : Option (Nat → Int)) (s abs0 : Nat) (f : Frame) :
    ∀ n : Nat,
      (iter (fun p x => (x.1 + 1, renderSlot w st pix remap s p x.1 x.2)) n (abs0, f)).1
          = abs0 + n ∧
      (∀ i, (iter (fun p x => (x.1 + 1, renderSlot w st pix remap s p x.1 x.2)) n (abs0, f)).2.cur i
          = if abs0 ≤ i ∧ i < abs0 + n then (pixelWord st pix (mappedPixel remap i)).2
            else f.cur i) := by
  intro n
  induction n with
  | zero =>
    refine ⟨rfl, ?_⟩
    intro i
    have : ¬ (abs0 ≤ i ∧ i < abs0 + 0) := by omega
    rw [if_neg this]; rfl
  | succ k ih =>
    obtain ⟨h1, h2⟩ := ih
    refine ⟨?_, ?_⟩
    · show (iter _ k (abs0, f)).1 + 1 = abs0 + (k + 1)
      rw [h1]; omega
    · intro i
      show (renderSlot w st pix remap s k (iter _ k (abs0, f)).1 (iter _ k (abs0, f)).2).cur i = _
      rw [renderSlot_cur, h1, h2]
      by_cases hi : i = abs0 + k
      · subst hi
        have : abs0 ≤ abs0 + k ∧ abs0 + k < abs0 + (k + 1) := by omega
        rw [if_pos rfl, if_pos this]
      · rw [if_neg hi]
        by_cases hc : abs0 ≤ i ∧ i < abs0 + k
        · rw [if_pos hc, if_pos (by omega)]
        · rw [if_neg hc, if_neg (by omega)]

/-- Output buffer of the inner loop of `TCrefresh` after `n` positions of strand `s`. -/
theorem renderPixels_iter_out (w : ULongWidth) (st : TCState) (pix : Option (Nat → Nat))
    (remap : Option (Nat → Int)) (hb : st.bytesPerPixel = 64 ∨ st.bytesPerPixel = 32)
    (s abs0 : Nat) (f : Frame) :
    ∀ (n a : Nat),
      (iter (fun p x => (x.1 + 1, renderSlot w st pix remap s p x.1 x.2)) n (abs0, f)).2.out a
          = f.out a ||| (if a / st.bytesPerPixel < n ∧
              (pixelWord st pix (mappedPixel remap (abs0 + a / st.bytesPerPixel))).1.testBit
                (31 - bitPos st.bytesPerPixel a) = true
            then st.strandBitMask s else 0) := by
  intro n
  induction n with
  | zero =>
    intro a
    simp [iter]
  | succ k ih =>
    intro a
    have h1 := (renderPixels_iter_cur w st pix remap s abs0 f k).1
    show (renderSlot w st pix remap s k (iter _ k (abs0, f)).1 (iter _ k (abs0, f)).2).out a = _
    rw [renderSlot_out w st pix remap hb, h1, ih, Nat.or_assoc]
    congr 1
    by_cases hk : a / st.bytesPerPixel = k
    · have hn : ¬ (k < k) := by omega
      have hs : k < k + 1 := by omega
      simp only [hk, hn, false_and, if_false, Nat.zero_or, hs, true_and]
    · have e : (a / st.bytesPerPixel < k + 1) = (a / st.bytesPerPixel < k) := by
        apply propext
        constructor <;> intro h <;> omega
      simp only [hk, false_and, if_false, Nat.or_zero, e]

theorem renderStrands_step (w : ULongWidth) (st : TCState) (pix : Option (Nat → Nat))
    (remap : Option (Nat → Int)) (f : Frame) (k : Nat) :
    iter (fun s x => renderPixels w st pix remap s x) (k + 1) (0, f) =
      iter (fun p x => (x.1 + 1, renderSlot w st pix remap k p x.1 x.2)) st.pixelsPerStrand
        ((iter (fun s x => renderPixels w st pix remap s x) k (0, f)).1,
         (iter (fun s x => renderPixels w st pix remap s x) k (0, f)).2) := by
  show renderPixels w st pix remap k _ = _
  rw [renderPixels, forLoop_eq_iter]

/-- Slot counter and current estimates of the outer loop of `TCrefresh` after `n`
strands. -/
theorem renderStrands_iter_cur (w : ULongWidth) (st : TCState) (pix : Option (Nat → Nat))
    (remap : Option (Nat → Int)) (f : Frame) :
    ∀ n : Nat,
      (iter (fun s x => renderPixels w st pix remap s x) n (0, f)).1
          = n * st.pixelsPerStrand ∧
      (∀ i, (iter (fun s x => renderPixels w st pix remap s x) n (0, f)).2.cur i
          = if i < n * st.pixelsPerStrand then (pixelWord st pix (mappedPixel remap i)).2
            else f.cur i) := by
  intro n
  induction n with
  | zero =>
    refine ⟨by simp [iter], ?_⟩
    intro i
    have : ¬ (i < 0 * st.pixelsPerStrand) := by omega
    rw [if_neg this]; rfl
  | succ k ih =>
    obtain ⟨h1, h2⟩ := ih
    obtain ⟨g1, g2⟩ := renderPixels_iter_cur w st pix remap k
      (iter (fun s x => renderPixels w st pix remap s x) k (0, f)).1
      (iter (fun s x => renderPixels w st pix remap s x) k (0, f)).2 st.pixelsPerStrand
    rw [renderStrands_step]
    refine ⟨?_, ?_⟩
    · rw [g1, h1, Nat.succ_mul]
    · intro i
      rw [g2, h1, h2]
      by_cases hc : k * st.pixelsPerStrand ≤ i ∧ i < k * st.pixelsPerStrand + st.pixelsPerStrand
      · rw [if_pos hc, if_pos (by rw [Nat.succ_mul]; exact hc.2)]
      · rw [if_neg hc]
        by_cases hlt : i < k * st.pixelsPerStrand
        · rw [if_pos hlt, if_pos (by rw [Nat.succ_mul]; omega)]
        · rw [if_neg hlt, if_neg (by rw [Nat.succ_mul]; omega)]

/-- Output buffer of the outer loop of `TCrefresh` after `n` strands: every byte
has collected the masks of the strands visited. -/
theorem renderStrands_iter_out (w : ULongWidth) (st : TCState) (pix : Option (Nat → Nat))
    (remap : Option (Nat → Int)) (hb : st.bytesPerPixel = 64 ∨ st.bytesPerPixel = 32)
    (f : Frame) :
    ∀ (n a : Nat),
      (iter (fun s x => renderPixels w st pix remap s x) n (0, f)).2.out a
          = f.out a ||| orUpTo (strandBits st pix remap a) n := by
  intro n
  induction n with
  | zero =>
    intro a
    simp [iter, orUpTo]
  | succ k ih =>
    intro a
    have h1 := (renderStrands_iter_cur w st pix remap f k).1
    rw [renderStrands_step, renderPixels_iter_out w st pix remap hb, h1, ih, Nat.or_assoc]
    rfl

/-- The loops of `TCrefresh` leave in each output byte the cleared value OR'd with
the pin masks of all strands whose command word has the corresponding bit. -/
theorem renderFrame_out (w : ULongWidth) (st : TCState) (pix : Option (Nat → Nat))
    (remap : Option (Nat → Int)) (hb : st.bytesPerPixel = 64 ∨ st.bytesPerPixel = 32) (a : Nat) :
    (renderFrame w st pix remap).out a =
      clearBuffer st a ||| orUpTo (strandBits st pix remap a) st.nStrands := by
  rw [renderFrame, renderStrands, forLoop_eq_iter]
  exact renderStrands_iter_out w st pix remap hb _ st.nStrands a

/-- The loops of `TCrefresh` set the current estimate of every slot below
`nStrands * pixelsPerStrand` and leave the rest of the array alone. -/
theorem renderFrame_cur (w : ULongWidth) (st : TCState) (pix : Option (Nat → Nat))
    (remap : Option (Nat → Int)) (i : Nat) :
    (renderFrame w st pix remap).cur i =
      if i < st.nStrands * st.pixelsPerStrand then (pixelWord st pix (mappedPixel remap i)).2
      else st.pixelCurrent i := by
  rw [renderFrame, renderStrands, forLoop_eq_iter]
  exact (renderStrands_iter_cur w st pix remap _ st.nStrands).2 i

/-! ## Clearing of the pixel region -/

theorem clearLoop_apply (strand len : Nat) (hlen : len % 2 = 0) :
    ∀ (fuel i : Nat) (out : Nat → Nat), i % 2 = 0 → len ≤ i + 2 * fuel → ∀ a : Nat,
      forLoop len 2 (fun i out => store (store out i 0) (i + 1) strand) fuel i out a =
        if i ≤ a ∧ a < len then (if a % 2 = 0 then 0 else strand) else out a := by
  intro fuel
  induction fuel with
  | zero =>
    intro i out _ hf a
    have : ¬ (i ≤ a ∧ a < len) := by omega
    rw [if_neg this]; rfl
  | succ n ih =>
    intro i out hi hf a
    rw [forLoop]
    by_cases hlt : i < len
    · rw [if_pos hlt, ih (i + 2) _ (by omega) (by omega) a]
      by_cases h2 : i + 2 ≤ a ∧ a < len
      · have h3 : i ≤ a ∧ a < len := by omega
        simp only [if_pos h2, if_pos h3]
      · simp only [if_neg h2]
        by_cases h1 : a = i + 1
        · subst h1
          have hodd : ¬ ((i + 1) % 2 = 0) := by omega
          have h3 : i ≤ i + 1 ∧ i + 1 < len := by omega
          simp only [if_pos h3, if_neg hodd]
          simp [store]
        · by_cases h0 : a = i
          · subst h0
            have h3 : a ≤ a ∧ a < len := by omega
            simp only [if_pos h3, if_pos hi]
            simp [store]
          · have h3 : ¬ (i ≤ a ∧ a < len) := by omega
            simp only [if_neg h3]
            simp [store, h1, h0]
    · have h3 : ¬ (i ≤ a ∧ a < len) := by omega
      rw [if_neg hlt, if_neg h3]

/-- In software-clock mode the cleared pixel region alternates `0` and the clock mask. -/
theorem clearBuffer_bitbang (st : TCState) (hb : st.bytesPerPixel = 64) (a : Nat) :
    clearBuffer st a =
      if a < st.pixelsPerStrand * 64 then (if a % 2 = 0 then 0 else st.strandBitMask 7)
      else st.pixelOutBuffer a := by
  simp only [clearBuffer, hb, if_true]
  rw [clearLoop_apply _ _ (by omega) _ 0 _ (by omega) (by omega) a]
  simp

/-- In hardware-clock mode the cleared pixel region is all zero. -/
theorem clearBuffer_cbus (st : TCState) (hb : st.bytesPerPixel ≠ 64) (a : Nat) :
    clearBuffer st a =
      if a < st.pixelsPerStrand * st.bytesPerPixel then 0 else st.pixelOutBuffer a := by
  simp [clearBuffer, hb, bzero]

/-! ## TCrefresh: projections of the result -/

theorem TCrefresh_out (w : ULongWidth) (env : RefreshEnv) (pix : Option (Nat → Nat))
    (remap : Option (Nat → Int)) (stats : Option TCstats) (st : TCState) :
    (TCrefresh w env pix remap stats st).2.1.pixelOutBuffer = (renderFrame w st pix remap).out := by
  cases stats <;> rfl

theorem TCrefresh_cur (w : ULongWidth) (env : RefreshEnv) (pix : Option (Nat → Nat))
    (remap : Option (Nat → Int)) (stats : Option TCstats) (st : TCState) :
    (TCrefresh w env pix remap stats st).2.1.pixelCurrent = (renderFrame w st pix remap).cur := by
  cases stats <;> rfl

theorem strandBits_bitbang (st : TCState) (pix : Option (Nat → Nat)) (remap : Option (Nat → Int))
    (hb : st.bytesPerPixel = 64) (p k j : Nat) (hp : p < st.pixelsPerStrand) (hk : k < 32)
    (hj : j < 2) :
    strandBits st pix remap (64 * p + 2 * k + j) =
      fun s => if (commandWord st pix remap s p).testBit (31 - k) = true
        then st.strandBitMask s else 0 := by
  funext s
  have e1 : (64 * p + 2 * k + j) / 64 = p := by omega
  have e2 : (64 * p + 2 * k + j) % 64 / 2 = k := by omega
  simp only [strandBits, hb, bitPos, if_true, e1, e2, hp, true_and]

theorem strandBits_cbus (st : TCState) (pix : Option (Nat → Nat)) (remap : Option (Nat → Int))
    (hb : st.bytesPerPixel = 32) (p k : Nat) (hp : p < st.pixelsPerStrand) (hk : k < 32) :
    strandBits st pix remap (32 * p + k) =
      fun s => if (commandWord st pix remap s p).testBit (31 - k) = true
        then st.strandBitMask s else 0 := by
  funext s
  have e1 : (32 * p + k) / 32 = p := by omega
  have e2 : (32 * p + k) % 32 = k := by omega
  have hne : ¬ (32 = 64) := by decide
  simp only [strandBits, hb, bitPos, hne, if_false, e1, e2, hp, true_and]

/-! ## The command word -/

set_option maxRecDepth 100000 in
theorem top2_shift (x : Fin 256) :
    (x.val &&& 0xc0) <<< 22 = (x.val / 64) * 2 ^ 28 ∧
    (x.val &&& 0xc0) <<< 20 = (x.val / 64) * 2 ^ 26 ∧
    (x.val &&& 0xc0) <<< 18 = (x.val / 64) * 2 ^ 24 := by
  revert x
  decide

theorem control_bits (bh gh rh : Fin 4) :
    (0xFFFFFFFF ^^^ (((bh.val * 2 ^ 28) ||| (gh.val * 2 ^ 26)) ||| (rh.val * 2 ^ 24)))
        &&& 0xff000000
      = 16777216 * (255 - 16 * bh.val - 4 * gh.val - rh.val) := by
  revert bh gh rh
  decide

theorem specControlByte_bits (bh gh rh : Fin 4) :
    0xC0 ||| ((0xFF ^^^ (((bh.val <<< 4) ||| (gh.val <<< 2)) ||| rh.val)) &&& 0x3F)
      = 255 - 16 * bh.val - 4 * gh.val - rh.val := by
  revert bh gh rh
  decide

theorem lor_low (a b i : Nat) (h : b < 2 ^ i) : (2 ^ i * a) ||| b = 2 ^ i * a + b :=
  (Nat.mul_add_lt_is_or h a).symm

/-- The packed word in arithmetic form: three channel bytes below a control byte
that is `255` minus the top two bits of blue, green and red at weights 16, 4, 1. -/
theorem packWord_eq (r g b : Nat) (hr : r < 256) (hg : g < 256) (hb : b < 256) :
    packWord r g b =
      r + 256 * g + 65536 * b + 16777216 * (255 - 16 * (b / 64) - 4 * (g / 64) - r / 64) := by
  have tb := (top2_shift ⟨b, hb⟩).1
  have tg := (top2_shift ⟨g, hg⟩).2.1
  have tr := (top2_shift ⟨r, hr⟩).2.2
  have cb := control_bits ⟨b / 64, by omega⟩ ⟨g / 64, by omega⟩ ⟨r / 64, by omega⟩
  simp only at tb tg tr cb
  have h1 : (b <<< 16) ||| (g <<< 8) = 2 ^ 8 * (2 ^ 8 * b + g) := by
    rw [Nat.shiftLeft_eq, Nat.shiftLeft_eq, Nat.mul_comm b, lor_low _ _ 16 (by omega)]
    ring
  have h2 : (2 ^ 8 * (2 ^ 8 * b + g)) ||| r = 2 ^ 8 * (2 ^ 8 * b + g) + r :=
    lor_low _ _ 8 (by omega)
  have h3 : (2 ^ 8 * (2 ^ 8 * b + g) + r) |||
      (16777216 * (255 - 16 * (b / 64) - 4 * (g / 64) - r / 64)) =
      2 ^ 24 * (255 - 16 * (b / 64) - 4 * (g / 64) - r / 64) + (2 ^ 8 * (2 ^ 8 * b + g) + r) := by
    rw [Nat.lor_comm]
    exact lor_low _ _ 24 (by omega)
  rw [packWord, tb, tg, tr, cb, h1, h2, h3]
  omega

theorem packWord_lt (r g b : Nat) (hr : r < 256) (hg : g < 256) (hb : b < 256) :
    packWord r g b < 2 ^ 32 := by
  rw [packWord_eq r g b hr hg hb]
  omega

theorem specControlByte_eq (r g b : Nat) (hr : r < 256) (hg : g < 256) (hb : b < 256) :
    specControlByte r g b = 255 - 16 * (b / 64) - 4 * (g / 64) - r / 64 := by
  have h := specControlByte_bits ⟨b / 64, by omega⟩ ⟨g / 64, by omega⟩ ⟨r / 64, by omega⟩
  simp only at h
  rw [specControlByte, Nat.shiftRight_eq_div_pow, Nat.shiftRight_eq_div_pow,
    Nat.shiftRight_eq_div_pow]
  exact h

theorem gammaAt_lt (st : TCState) (i c : Nat) : gammaAt st i c < 256 :=
  Nat.mod_lt _ (by decide)

/-- The word of a slot that reads a pixel: the packed gamma-corrected channels. -/
theorem pixelWord_coloured (st : TCState) (pix : Nat → Nat) (m : Int) (h : 0 ≤ m) :
    (pixelWord st (some pix) m).1 =
      packWord (gammaAt st ((pix m.toNat >>> 16) &&& 0xff) 0)
        (gammaAt st ((pix m.toNat >>> 8) &&& 0xff) 1)
        (gammaAt st (pix m.toNat &&& 0xff) 2) := by
  have : decide (m < 0) = false := by simp; omega
  simp [pixelWord, this]

/-- The word and current of a slot that does not read a pixel. -/
theorem pixelWord_dark (st : TCState) (pixelInBuffer : Option (Nat → Nat)) (m : Int)
    (h : pixelInBuffer = none ∨ m < 0) :
    pixelWord st pixelInBuffer m =
      (0xff000000, if m = TC_PIXEL_DISCONNECTED then 0 else CAL_CURRENT_OFF / CAL_N_PIXELS) := by
  rcases h with h | h
  · subst h; rfl
  · have : decide (m < 0) = true := by simp; omega
    cases pixelInBuffer <;> simp [pixelWord, this]

theorem low_byte (x : Nat) : x &&& 0xff = x % 256 := by
  have e : (0xff : Nat) = 2 ^ 8 - 1 := by norm_num
  rw [e, Nat.and_pow_two_sub_one_eq_mod]

theorem dark_bits (j : Fin 32) : Nat.testBit 0xff000000 (31 - j.val) = decide (j.val < 8) := by
  revert j
  decide

theorem bitPos_lt (bpp a : Nat) (hb : bpp = 64 ∨ bpp = 32) : bitPos bpp a < 32 := by
  rcases hb with hb | hb
  · subst hb
    simp only [bitPos, if_true]
    omega
  · subst hb
    have hne : ¬ (32 = 64) := by decide
    simp only [bitPos, hne, if_false]
    omega

/-- The four bytes of a packed word. -/
theorem packWord_fields (r g b : Nat) (hr : r < 256) (hg : g < 256) (hb : b < 256) :
    packWord r g b &&& 0xff = r ∧ (packWord r g b >>> 8) &&& 0xff = g ∧
    (packWord r g b >>> 16) &&& 0xff = b ∧ packWord r g b >>> 24 = specControlByte r g b := by
  rw [specControlByte_eq r g b hr hg hb, packWord_eq r g b hr hg hb]
  simp only [low_byte, Nat.shiftRight_eq_div_pow]
  refine ⟨?_, ?_, ?_, ?_⟩ <;> omega

/-- The two top bits of a packed word are set. -/
theorem packWord_top_bits (r g b : Nat) (hr : r < 256) (hg : g < 256) (hb : b < 256) :
    (packWord r g b).testBit 31 = true ∧ (packWord r g b).testBit 30 = true := by
  have hlo : 3221225472 ≤ packWord r g b := by
    rw [packWord_eq r g b hr hg hb]; omega
  have hhi : packWord r g b < 4294967296 := by
    rw [packWord_eq r g b hr hg hb]; omega
  have e31 : (2 : Nat) ^ 31 = 2147483648 := by norm_num
  have e30 : (2 : Nat) ^ 30 = 1073741824 := by norm_num
  simp only [Nat.testBit_to_div_mod, decide_eq_true_eq, e31, e30]
  generalize packWord r g b = x at hlo hhi
  constructor <;> omega

/-! ## Claims about the command word -/

/-- Claim C1: for a slot whose resolved logical index is non-negative, the command
word carries the gamma-corrected red in bits 0-7, green in bits 8-15, blue in bits
16-23, and in bits 24-31 the control byte
`0xC0 | (~(((b>>6)<<4) | ((g>>6)<<2) | (r>>6)) & 0x3F)`. -/
theorem commandWord_layout (st : TCState) (pix : Nat → Nat) (remap : Option (Nat → Int))
    (s p : Nat) (h : 0 ≤ mappedPixel remap (s * st.pixelsPerStrand + p)) :
    commandWord st (some pix) remap s p &&& 0xff
        = correctedRed st (pix (mappedPixel remap (s * st.pixelsPerStrand + p)).toNat) ∧
    (commandWord st (some pix) remap s p >>> 8) &&& 0xff
        = correctedGreen st (pix (mappedPixel remap (s * st.pixelsPerStrand + p)).toNat) ∧
    (commandWord st (some pix) remap s p >>> 16) &&& 0xff
        = correctedBlue st (pix (mappedPixel remap (s * st.pixelsPerStrand + p)).toNat) ∧
    commandWord st (some pix) remap s p >>> 24
        = specControlByte
            (correctedRed st (pix (mappedPixel remap (s * st.pixelsPerStrand + p)).toNat))
            (correctedGreen st (pix (mappedPixel remap (s * st.pixelsPerStrand + p)).toNat))
            (correctedBlue st (pix (mappedPixel remap (s * st.pixelsPerStrand + p)).toNat)) := by
  have hr := gammaAt_lt st
    ((pix (mappedPixel remap (s * st.pixelsPerStrand + p)).toNat >>> 16) &&& 0xff) 0
  have hg := gammaAt_lt st
    ((pix (mappedPixel remap (s * st.pixelsPerStrand + p)).toNat >>> 8) &&& 0xff) 1
  have hb := gammaAt_lt st (pix (mappedPixel remap (s * st.pixelsPerStrand + p)).toNat &&& 0xff) 2
  rw [commandWord, pixelWord_coloured st pix _ h]
  exact packWord_fields _ _ _ hr hg hb

/-- Instance of C1 for the first slot of the sample software-clock session. -/
theorem commandWord_layout_witness :
    0 ≤ mappedPixel none (0 * sampleBitbang.pixelsPerStrand + 0) ∧
    (commandWord sampleBitbang (some samplePixels) none 0 0 &&& 0xff
        = correctedRed sampleBitbang
            (samplePixels (mappedPixel none (0 * sampleBitbang.pixelsPerStrand + 0)).toNat) ∧
    (commandWord sampleBitbang (some samplePixels) none 0 0 >>> 8) &&& 0xff
        = correctedGreen sampleBitbang
            (samplePixels (mappedPixel none (0 * sampleBitbang.pixelsPerStrand + 0)).toNat) ∧
    (commandWord sampleBitbang (some samplePixels) none 0 0 >>> 16) &&& 0xff
        = correctedBlue sampleBitbang
            (samplePixels (mappedPixel none (0 * sampleBitbang.pixelsPerStrand + 0)).toNat) ∧
    commandWord sampleBitbang (some samplePixels) none 0 0 >>> 24
        = specControlByte
            (correctedRed sampleBitbang
              (samplePixels (mappedPixel none (0 * sampleBitbang.pixelsPerStrand + 0)).toNat))
            (correctedGreen sampleBitbang
              (samplePixels (mappedPixel none (0 * sampleBitbang.pixelsPerStrand + 0)).toNat))
            (correctedBlue sampleBitbang
              (samplePixels (mappedPixel none (0 * sampleBitbang.pixelsPerStrand + 0)).toNat))) :=
  ⟨by decide, commandWord_layout sampleBitbang samplePixels none 0 0 (by decide)⟩

/-- Claim C5: in every slot of every frame (coloured under any gamma table, unused,
disconnected, or without a pixel buffer) bits 31 and 30 of the command word are 1. -/
theorem commandWord_top_bits (st : TCState) (pixelInBuffer : Option (Nat → Nat))
    (remap : Option (Nat → Int)) (s p : Nat) :
    (commandWord st pixelInBuffer remap s p).testBit 31 = true ∧
    (commandWord st pixelInBuffer remap s p).testBit 30 = true := by
  by_cases h : pixelInBuffer = none ∨ mappedPixel remap (s * st.pixelsPerStrand + p) < 0
  · have e : commandWord st pixelInBuffer remap s p = 0xff000000 := by
      rw [commandWord, pixelWord_dark st pixelInBuffer _ h]
    rw [e]
    constructor <;> decide
  · obtain ⟨pix, hpix⟩ : ∃ pix, pixelInBuffer = some pix := by
      cases pixelInBuffer with
      | none => exact absurd (Or.inl rfl) h
      | some pix => exact ⟨pix, rfl⟩
    subst hpix
    have hm : 0 ≤ mappedPixel remap (s * st.pixelsPerStrand + p) := by
      have := fun hh => h (Or.inr hh)
      omega
    rw [commandWord, pixelWord_coloured st pix _ hm]
    exact packWord_top_bits _ _ _ (gammaAt_lt _ _ _) (gammaAt_lt _ _ _) (gammaAt_lt _ _ _)

/-- Claim C6: a slot with a negative remap entry, and every slot when no pixel
buffer is supplied, has command word `0xFF000000` whatever the gamma table and the
pixel buffer hold; rendering it ORs the strand's pin mask into the first eight bit
positions of the slot (the control byte) and into no other byte. -/
theorem dark_slot_word (w : ULongWidth) (st : TCState) (pixelInBuffer : Option (Nat → Nat))
    (remap : Option (Nat → Int)) (s p : Nat)
    (hoff : pixelInBuffer = none ∨ mappedPixel remap (s * st.pixelsPerStrand + p) < 0)
    (hb : st.bytesPerPixel = 64 ∨ st.bytesPerPixel = 32) :
    commandWord st pixelInBuffer remap s p = 0xFF000000 ∧
    ∀ (f : Frame) (a : Nat),
      (renderSlot w st pixelInBuffer remap s p (s * st.pixelsPerStrand + p) f).out a =
        f.out a ||| (if a / st.bytesPerPixel = p ∧ bitPos st.bytesPerPixel a < 8
          then st.strandBitMask s else 0) := by
  refine ⟨by rw [commandWord, pixelWord_dark st pixelInBuffer _ hoff], ?_⟩
  intro f a
  rw [renderSlot_out w st pixelInBuffer remap hb, pixelWord_dark st pixelInBuffer _ hoff]
  have hd := dark_bits ⟨bitPos st.bytesPerPixel a, bitPos_lt _ a hb⟩
  simp only at hd
  simp only [hd, decide_eq_true_eq]

/-- Instance of C6 for a sample frame whose first slot is marked disconnected. -/
theorem dark_slot_word_witness :
    ((some samplePixels = none ∨
        mappedPixel (some (fun _ => TC_PIXEL_DISCONNECTED))
          (0 * sampleBitbang.pixelsPerStrand + 0) < 0) ∧
      (sampleBitbang.bytesPerPixel = 64 ∨ sampleBitbang.bytesPerPixel = 32)) ∧
    (commandWord sampleBitbang (some samplePixels) (some (fun _ => TC_PIXEL_DISCONNECTED)) 0 0
        = 0xFF000000 ∧
      ∀ (f : Frame) (a : Nat),
        (renderSlot ULongWidth.lp64 sampleBitbang (some samplePixels)
            (some (fun _ => TC_PIXEL_DISCONNECTED)) 0 0
            (0 * sampleBitbang.pixelsPerStrand + 0) f).out a =
          f.out a ||| (if a / sampleBitbang.bytesPerPixel = 0 ∧
              bitPos sampleBitbang.bytesPerPixel a < 8
            then sampleBitbang.strandBitMask 0 else 0)) :=
  ⟨⟨Or.inr (by decide), Or.inl rfl⟩,
    dark_slot_word ULongWidth.lp64 sampleBitbang (some samplePixels)
      (some (fun _ => TC_PIXEL_DISCONNECTED)) 0 0 (Or.inr (by decide)) (Or.inl rfl)⟩

/-! ## Claims about the output buffer -/

/-- After the rendering loops, the data byte of bit position `k` of slot `p` is
the OR of the pin masks of the strands whose command word has bit `31 - k`. -/
theorem renderFrame_data_byte (w : ULongWidth) (st : TCState) (pix : Option (Nat → Nat))
    (remap : Option (Nat → Int)) (hb : st.bytesPerPixel = 64 ∨ st.bytesPerPixel = 32)
    (p k : Nat) (hp : p < st.pixelsPerStrand) (hk : k < 32) :
    (renderFrame w st pix remap).out (dataByte st.bytesPerPixel p k) =
      orUpTo (fun s => if (commandWord st pix remap s p).testBit (31 - k) = true
        then st.strandBitMask s else 0) st.nStrands := by
  rw [renderFrame_out w st pix remap hb]
  rcases hb with hb | hb
  · have hs := strandBits_bitbang st pix remap hb p k 0 hp hk (by decide)
    have ha : 64 * p + 2 * k < st.pixelsPerStrand * 64 := by omega
    have he : (64 * p + 2 * k) % 2 = 0 := by omega
    simp only [dataByte, hb, if_true]
    rw [clearBuffer_bitbang st hb, if_pos ha, if_pos he, Nat.zero_or]
    exact congrArg (fun f => orUpTo f st.nStrands) hs
  · have hne : st.bytesPerPixel ≠ 64 := by omega
    have hne2 : ¬ (32 = 64) := by decide
    have hs := strandBits_cbus st pix remap hb p k hp hk
    have ha : 32 * p + k < st.pixelsPerStrand * st.bytesPerPixel := by rw [hb]; omega
    simp only [dataByte, hb, hne2, if_false]
    rw [clearBuffer_cbus st hne, if_pos ha, Nat.zero_or, hs]

/-- Claim C2: in software-clock mode, after `TCrefresh`, output byte `64 p + 2 k`
is the OR of `strandBitMask[s]` over exactly the strands `s < nStrands` whose
command word at `(s, p)` has bit `31 - k` set, and byte `64 p + 2 k + 1` is that OR
combined with the clock mask `strandBitMask[7]`. -/
theorem bitbang_output_bytes (w : ULongWidth) (env : RefreshEnv) (pix : Option (Nat → Nat))
    (remap : Option (Nat → Int)) (stats : Option TCstats) (st : TCState)
    (hb : st.bytesPerPixel = 64) (p k : Nat) (hp : p < st.pixelsPerStrand) (hk : k < 32) :
    (TCrefresh w env pix remap stats st).2.1.pixelOutBuffer (64 * p + 2 * k) =
      orUpTo (fun s => if (commandWord st pix remap s p).testBit (31 - k) = true
        then st.strandBitMask s else 0) st.nStrands ∧
    (TCrefresh w env pix remap stats st).2.1.pixelOutBuffer (64 * p + 2 * k + 1) =
      orUpTo (fun s => if (commandWord st pix remap s p).testBit (31 - k) = true
        then st.strandBitMask s else 0) st.nStrands ||| st.strandBitMask 7 := by
  rw [TCrefresh_out]
  constructor
  · have h := renderFrame_data_byte w st pix remap (Or.inl hb) p k hp hk
    simp only [dataByte, hb, if_true] at h
    exact h
  · have hs := strandBits_bitbang st pix remap hb p k 1 hp hk (by decide)
    have ha : 64 * p + 2 * k + 1 < st.pixelsPerStrand * 64 := by omega
    have he : ¬ ((64 * p + 2 * k + 1) % 2 = 0) := by omega
    rw [renderFrame_out w st pix remap (Or.inl hb), clearBuffer_bitbang st hb, if_pos ha,
      if_neg he, hs, Nat.lor_comm]

/-- Instance of C2 for the sample software-clock session: second slot, bit position 5. -/
theorem bitbang_output_bytes_witness :
    (sampleBitbang.bytesPerPixel = 64 ∧ 1 < sampleBitbang.pixelsPerStrand ∧ 5 < 32) ∧
    ((TCrefresh ULongWidth.lp64 sampleEnv (some samplePixels) none none
          sampleBitbang).2.1.pixelOutBuffer (64 * 1 + 2 * 5) =
        orUpTo (fun s => if (commandWord sampleBitbang (some samplePixels) none s 1).testBit
            (31 - 5) = true then sampleBitbang.strandBitMask s else 0) sampleBitbang.nStrands ∧
      (TCrefresh ULongWidth.lp64 sampleEnv (some samplePixels) none none
          sampleBitbang).2.1.pixelOutBuffer (64 * 1 + 2 * 5 + 1) =
        orUpTo (fun s => if (commandWord sampleBitbang (some samplePixels) none s 1).testBit
            (31 - 5) = true then sampleBitbang.strandBitMask s else 0) sampleBitbang.nStrands
          ||| sampleBitbang.strandBitMask 7) :=
  ⟨⟨rfl, by decide, by decide⟩,
    bitbang_output_bytes ULongWidth.lp64 sampleEnv (some samplePixels) none none sampleBitbang
      rfl 1 5 (by decide) (by decide)⟩

/-- Claim C3: in hardware-clock mode, after `TCrefresh`, output byte `32 p + k` is
the OR of `strandBitMask[s]` over exactly the strands `s < nStrands` whose command
word at `(s, p)` has bit `31 - k` set; no clock bits are added in the pixel region. -/
theorem cbus_output_bytes (w : ULongWidth) (env : RefreshEnv) (pix : Option (Nat → Nat))
    (remap : Option (Nat → Int)) (stats : Option TCstats) (st : TCState)
    (hb : st.bytesPerPixel = 32) (p k : Nat) (hp : p < st.pixelsPerStrand) (hk : k < 32) :
    (TCrefresh w env pix remap stats st).2.1.pixelOutBuffer (32 * p + k) =
      orUpTo (fun s => if (commandWord st pix remap s p).testBit (31 - k) = true
        then st.strandBitMask s else 0) st.nStrands := by
  rw [TCrefresh_out]
  have h := renderFrame_data_byte w st pix remap (Or.inr hb) p k hp hk
  have hne : ¬ (32 = 64) := by decide
  simp only [dataByte, hb, hne, if_false] at h
  exact h

/-- Instance of C3 for the sample hardware-clock session: second slot, bit position 5. -/
theorem cbus_output_bytes_witness :
    (sampleCbus.bytesPerPixel = 32 ∧ 1 < sampleCbus.pixelsPerStrand ∧ 5 < 32) ∧
    (TCrefresh ULongWidth.ilp32 sampleEnvCbus (some samplePixels) none none
        sampleCbus).2.1.pixelOutBuffer (32 * 1 + 5) =
      orUpTo (fun s => if (commandWord sampleCbus (some samplePixels) none s 1).testBit
          (31 - 5) = true then sampleCbus.strandBitMask s else 0) sampleCbus.nStrands :=
  ⟨⟨rfl, by decide, by decide⟩,
    cbus_output_bytes ULongWidth.ilp32 sampleEnvCbus (some samplePixels) none none sampleCbus
      rfl 1 5 (by decide) (by decide)⟩

/-! ## Decoding the output buffer -/

theorem orUpTo_and (f : Nat → Nat) (m : Nat) :
    ∀ n : Nat, orUpTo f n &&& m = orUpTo (fun t => f t &&& m) n := by
  intro n
  induction n with
  | zero => simp [orUpTo]
  | succ k ih =>
    rw [orUpTo, orUpTo, Nat.and_comm, Nat.and_or_distrib_left, Nat.and_comm m, ih, Nat.and_comm m]

theorem orUpTo_zero (f : Nat → Nat) :
    ∀ n : Nat, (∀ t, t < n → f t = 0) → orUpTo f n = 0 := by
  intro n
  induction n with
  | zero => intro _; rfl
  | succ k ih =>
    intro h
    rw [orUpTo, ih (fun t ht => h t (by omega)), h k (by omega)]
    rfl

theorem orUpTo_single (f : Nat → Nat) (s : Nat) :
    ∀ n : Nat, s < n → (∀ t, t < n → t ≠ s → f t = 0) → orUpTo f n = f s := by
  intro n
  induction n with
  | zero => intro hs; omega
  | succ k ih =>
    intro hs h
    rw [orUpTo]
    by_cases hk : s = k
    · subst hk
      rw [orUpTo_zero f s (fun t ht => h t (by omega) (by omega)), Nat.zero_or]
    · rw [ih (by omega) (fun t ht hne => h t (by omega) hne), h k (by omega) (fun e => hk e.symm),
        Nat.or_zero]

theorem testBit_orUpTo (f : Nat → Nat) (i : Nat) :
    ∀ n : Nat, (orUpTo f n).testBit i = true ↔ ∃ k, k < n ∧ (f k).testBit i = true := by
  intro n
  induction n with
  | zero => simp [orUpTo]
  | succ k ih =>
    rw [orUpTo, Nat.testBit_or, Bool.or_eq_true, ih]
    constructor
    · rintro (⟨j, hj, hb⟩ | hb)
      · exact ⟨j, by omega, hb⟩
      · exact ⟨k, by omega, hb⟩
    · rintro ⟨j, hj, hb⟩
      by_cases e : j = k
      · subst e; exact Or.inr hb
      · exact Or.inl ⟨j, by omega, hb⟩

/-- Reassembling the 32 bits of a word, most significant first, gives the word back. -/
theorem orUpTo_bits (x : Nat) (hx : x < 2 ^ 32) :
    orUpTo (fun k => if x.testBit (31 - k) = true then 1 <<< (31 - k) else 0) 32 = x := by
  apply Nat.eq_of_testBit_eq
  intro i
  rw [Bool.eq_iff_iff, testBit_orUpTo]
  constructor
  · rintro ⟨k, _, hb⟩
    by_cases hc : x.testBit (31 - k) = true
    · rw [if_pos hc, Nat.one_shiftLeft, Nat.testBit_two_pow, decide_eq_true_eq] at hb
      rw [← hb]; exact hc
    · rw [if_neg hc, Nat.zero_testBit] at hb
      exact absurd hb (by simp)
  · intro hb
    have hi : i < 32 := by
      by_contra hge
      have hlt : x < 2 ^ i :=
        Nat.lt_of_lt_of_le hx (Nat.pow_le_pow_right (by decide) (by omega))
      rw [Nat.testBit_lt_two_pow hlt] at hb
      exact absurd hb (by simp)
    refine ⟨31 - i, by omega, ?_⟩
    have e : 31 - (31 - i) = i := by omega
    rw [e, if_pos hb, Nat.one_shiftLeft, Nat.testBit_two_pow]
    simp

theorem commandWord_lt (st : TCState) (pixelInBuffer : Option (Nat → Nat))
    (remap : Option (Nat → Int)) (s p : Nat) :
    commandWord st pixelInBuffer remap s p < 2 ^ 32 := by
  by_cases h : pixelInBuffer = none ∨ mappedPixel remap (s * st.pixelsPerStrand + p) < 0
  · have e : commandWord st pixelInBuffer remap s p = 0xff000000 := by
      rw [commandWord, pixelWord_dark st pixelInBuffer _ h]
    rw [e]
    decide
  · obtain ⟨pix, hpix⟩ : ∃ pix, pixelInBuffer = some pix := by
      cases pixelInBuffer with
      | none => exact absurd (Or.inl rfl) h
      | some pix => exact ⟨pix, rfl⟩
    subst hpix
    have hm : 0 ≤ mappedPixel remap (s * st.pixelsPerStrand + p) := by
      have := fun hh => h (Or.inr hh)
      omega
    rw [commandWord, pixelWord_coloured st pix _ hm]
    exact packWord_lt _ _ _ (gammaAt_lt _ _ _) (gammaAt_lt _ _ _) (gammaAt_lt _ _ _)

/-- Decoding a strand whose pin mask is non-zero and shares no pin with the masks
of the other strands in use gives back the strand's command word. -/
theorem decodeWord_renderFrame (w : ULongWidth) (st : TCState) (pix : Option (Nat → Nat))
    (remap : Option (Nat → Int)) (hb : st.bytesPerPixel = 64 ∨ st.bytesPerPixel = 32)
    (s p : Nat) (hs : s < st.nStrands) (hp : p < st.pixelsPerStrand)
    (hm : st.strandBitMask s ≠ 0)
    (hd : ∀ t, t < st.nStrands → t ≠ s → st.strandBitMask t &&& st.strandBitMask s = 0) :
    decodeWord (renderFrame w st pix remap).out st.bytesPerPixel (st.strandBitMask s) p =
      commandWord st pix remap s p := by
  have key : ∀ k, k < 32 →
      ((renderFrame w st pix remap).out (dataByte st.bytesPerPixel p k) &&& st.strandBitMask s
          = st.strandBitMask s ↔
        (commandWord st pix remap s p).testBit (31 - k) = true) := by
    intro k hk
    rw [renderFrame_data_byte w st pix remap hb p k hp hk, orUpTo_and,
      orUpTo_single _ s st.nStrands hs]
    · by_cases hbit : (commandWord st pix remap s p).testBit (31 - k) = true
      · simp [hbit]
      · rw [if_neg hbit, Nat.zero_and]
        constructor
        · intro h0; exact absurd h0.symm hm
        · intro hf; exact absurd hf hbit
    · intro t ht hne
      show (if (commandWord st pix remap t p).testBit (31 - k) = true
        then st.strandBitMask t else 0) &&& st.strandBitMask s = 0
      split_ifs
      · exact hd t ht hne
      · exact Nat.zero_and _
  have hfun : ∀ n, n ≤ 32 →
      orUpTo (fun k => if (renderFrame w st pix remap).out (dataByte st.bytesPerPixel p k)
          &&& st.strandBitMask s = st.strandBitMask s then 1 <<< (31 - k) else 0) n =
      orUpTo (fun k => if (commandWord st pix remap s p).testBit (31 - k) = true
          then 1 <<< (31 - k) else 0) n := by
    intro n
    induction n with
    | zero => intro _; rfl
    | succ j ih =>
      intro hj
      rw [orUpTo, orUpTo, ih (by omega)]
      congr 1
      by_cases hbit : (commandWord st pix remap s p).testBit (31 - j) = true
      · rw [if_pos ((key j (by omega)).mpr hbit), if_pos hbit]
      · rw [if_neg (fun h => hbit ((key j (by omega)).mp h)), if_neg hbit]
  rw [decodeWord, hfun 32 (by omega)]
  exact orUpTo_bits _ (commandWord_lt st pix remap s p)

/-- Claim C4, refuted as stated, on two pin maps the library accepts.  With the
default pin map a session of four strands gives strand 3 the pin mask 0, and
decoding that strand from the rendered buffer yields `0xFFFFFFFF` (or 0, when a byte
counts as set if some pin of the mask is set) while its command word is
`0xFF000000`.  After `TCsetStrandPin(1, TC_FTDI_TX)` strands 0 and 1 share a
pin, and decoding strand 0 yields a word with bit 23 set (from the blue pixel of
strand 1) while its own command word, for a red pixel, has bit 23 clear. -/
theorem roundtrip_any_pin_map_counterexample :
    ((3 < sampleCbus.nStrands ∧ 0 < sampleCbus.pixelsPerStrand) ∧
      decodeWord
          (TCrefresh ULongWidth.lp64 sampleEnvCbus (some samplePixels) none none
            sampleCbus).2.1.pixelOutBuffer
          sampleCbus.bytesPerPixel (sampleCbus.strandBitMask 3) 0 = 0xFFFFFFFF ∧
      decodeWordAny
          (TCrefresh ULongWidth.lp64 sampleEnvCbus (some samplePixels) none none
            sampleCbus).2.1.pixelOutBuffer
          sampleCbus.bytesPerPixel (sampleCbus.strandBitMask 3) 0 = 0 ∧
      commandWord sampleCbus (some samplePixels) none 3 0 = 0xFF000000) ∧
    ((0 < sharedPinSession.nStrands ∧ 0 < sharedPinSession.pixelsPerStrand) ∧
      (decodeWord
          (TCrefresh ULongWidth.lp64 sampleEnv (some samplePixels) none none
            sharedPinSession).2.1.pixelOutBuffer
          sharedPinSession.bytesPerPixel (sharedPinSession.strandBitMask 0) 0).testBit 23 = true ∧
      (commandWord sharedPinSession (some samplePixels) none 0 0).testBit 23 = false) := by
  constructor
  · have hm : sampleCbus.strandBitMask 3 = 0 := rfl
    refine ⟨⟨by decide, by decide⟩, ?_, ?_, by decide⟩
    · rw [hm]
      simp only [decodeWord, Nat.and_zero, if_true]
      decide
    · rw [hm]
      simp only [decodeWordAny, Nat.and_zero, ne_eq, not_true_eq_false, if_false]
      decide
  · refine ⟨⟨by decide, by decide⟩, ?_, by decide⟩
    have hB := renderFrame_data_byte ULongWidth.lp64 sharedPinSession (some samplePixels) none
      (Or.inl rfl) 0 8 (by decide) (by decide)
    have hv : orUpTo (fun s =>
        if (commandWord sharedPinSession (some samplePixels) none s 0).testBit (31 - 8) = true
        then sharedPinSession.strandBitMask s else 0) sharedPinSession.nStrands = 1 := by
      decide
    rw [hv] at hB
    have hbpp : sharedPinSession.bytesPerPixel = 64 := rfl
    have hmask : sharedPinSession.strandBitMask 0 = 1 := rfl
    rw [TCrefresh_out, decodeWord, testBit_orUpTo, hbpp, hmask]
    rw [hbpp] at hB
    refine ⟨8, by decide, ?_⟩
    rw [hB]
    decide

/-- Claim C4, amended: when the pin mask of strand `s` is non-zero and shares no
pin with the mask of any other strand in use, decoding the buffer rendered by
`TCrefresh` by the encoder's bit layout reconstructs the 32-bit command word of
slot `(s, p)`, in either clock mode, for every pixel buffer, remap and gamma table. -/
theorem roundtrip_disjoint_pins (w : ULongWidth) (env : RefreshEnv) (pix : Option (Nat → Nat))
    (remap : Option (Nat → Int)) (stats : Option TCstats) (st : TCState)
    (hb : st.bytesPerPixel = 64 ∨ st.bytesPerPixel = 32)
    (s p : Nat) (hs : s < st.nStrands) (hp : p < st.pixelsPerStrand)
    (hm : st.strandBitMask s ≠ 0)
    (hd : ∀ t, t < st.nStrands → t ≠ s → st.strandBitMask t &&& st.strandBitMask s = 0) :
    decodeWord (TCrefresh w env pix remap stats st).2.1.pixelOutBuffer st.bytesPerPixel
        (st.strandBitMask s) p =
      commandWord st pix remap s p := by
  rw [TCrefresh_out]
  exact decodeWord_renderFrame w st pix remap hb s p hs hp hm hd

/-- Instance of the amended C4 for strand 2 (pins DTR and RTS) of the sample
software-clock session. -/
theorem roundtrip_disjoint_pins_witness :
    ((sampleBitbang.bytesPerPixel = 64 ∨ sampleBitbang.bytesPerPixel = 32) ∧
      2 < sampleBitbang.nStrands ∧ 1 < sampleBitbang.pixelsPerStrand ∧
      sampleBitbang.strandBitMask 2 ≠ 0 ∧
      (∀ t, t < sampleBitbang.nStrands → t ≠ 2 →
        sampleBitbang.strandBitMask t &&& sampleBitbang.strandBitMask 2 = 0)) ∧
    decodeWord
        (TCrefresh ULongWidth.lp64 sampleEnv (some samplePixels) none none
          sampleBitbang).2.1.pixelOutBuffer
        sampleBitbang.bytesPerPixel (sampleBitbang.strandBitMask 2) 1 =
      commandWord sampleBitbang (some samplePixels) none 2 1 :=
  ⟨⟨Or.inl rfl, by decide, by decide, by decide, by decide⟩,
    roundtrip_disjoint_pins ULongWidth.lp64 sampleEnv (some samplePixels) none none sampleBitbang
      (Or.inl rfl) 2 1 (by decide) (by decide) (by decide) (by decide)⟩

/-! ## Claims about the current estimates and the remap table -/

/-- Claim C7: after `TCrefresh`, for every slot `i < nStrands * pixelsPerStrand`,
a remap entry `TC_PIXEL_DISCONNECTED` gives `pixelCurrent[i] = 0` with or without a
pixel buffer; a remap entry `TC_PIXEL_UNUSED`, or the absence of a pixel buffer
when the entry is not `TC_PIXEL_DISCONNECTED`, gives
`pixelCurrent[i] = CAL_CURRENT_OFF / CAL_N_PIXELS = 15/25`. -/
theorem sentinel_current (w : ULongWidth) (env : RefreshEnv) (pix : Option (Nat → Nat))
    (remap : Option (Nat → Int)) (stats : Option TCstats) (st : TCState) (i : Nat)
    (hi : i < st.nStrands * st.pixelsPerStrand) :
    (∀ rm, remap = some rm → rm i = TC_PIXEL_DISCONNECTED →
      (TCrefresh w env pix remap stats st).2.1.pixelCurrent i = 0) ∧
    (∀ rm, remap = some rm → rm i = TC_PIXEL_UNUSED →
      (TCrefresh w env pix remap stats st).2.1.pixelCurrent i
        = CAL_CURRENT_OFF / CAL_N_PIXELS) ∧
    (pix = none → (∀ rm, remap = some rm → rm i ≠ TC_PIXEL_DISCONNECTED) →
      (TCrefresh w env pix remap stats st).2.1.pixelCurrent i
        = CAL_CURRENT_OFF / CAL_N_PIXELS) ∧
    CAL_CURRENT_OFF / CAL_N_PIXELS = 15 / 25 := by
  rw [TCrefresh_cur, renderFrame_cur, if_pos hi]
  refine ⟨?_, ?_, ?_, by simp [CAL_CURRENT_OFF, CAL_N_PIXELS]⟩
  · intro rm hrm hd
    subst hrm
    have hneg : mappedPixel (some rm) i < 0 := by
      show rm i < 0
      rw [hd]; decide
    rw [pixelWord_dark st pix _ (Or.inr hneg)]
    show (if rm i = TC_PIXEL_DISCONNECTED then (0 : ℚ) else _) = 0
    rw [if_pos hd]
  · intro rm hrm hu
    subst hrm
    have hneg : mappedPixel (some rm) i < 0 := by
      show rm i < 0
      rw [hu]; decide
    rw [pixelWord_dark st pix _ (Or.inr hneg)]
    show (if rm i = TC_PIXEL_DISCONNECTED then (0 : ℚ) else _) = _
    have hne : rm i ≠ TC_PIXEL_DISCONNECTED := by
      rw [hu]; decide
    rw [if_neg hne]
  · intro hpix hnd
    rw [pixelWord_dark st pix _ (Or.inl hpix)]
    have hne : mappedPixel remap i ≠ TC_PIXEL_DISCONNECTED := by
      cases remap with
      | none =>
        show (i : Int) ≠ TC_PIXEL_DISCONNECTED
        have : (0 : Int) ≤ (i : Int) := Int.ofNat_nonneg i
        intro h
        rw [h] at this
        exact absurd this (by decide)
      | some rm => exact hnd rm rfl
    show (if mappedPixel remap i = TC_PIXEL_DISCONNECTED then (0 : ℚ) else _) = _
    rw [if_neg hne]

/-- Instance of C7 for the first slot of the sample software-clock session. -/
theorem sentinel_current_witness :
    0 < sampleBitbang.nStrands * sampleBitbang.pixelsPerStrand ∧
    ((∀ rm, some (fun _ => TC_PIXEL_DISCONNECTED) = some rm → rm 0 = TC_PIXEL_DISCONNECTED →
      (TCrefresh ULongWidth.lp64 sampleEnv (some samplePixels)
        (some (fun _ => TC_PIXEL_DISCONNECTED)) none sampleBitbang).2.1.pixelCurrent 0 = 0) ∧
    (∀ rm, some (fun _ => TC_PIXEL_DISCONNECTED) = some rm → rm 0 = TC_PIXEL_UNUSED →
      (TCrefresh ULongWidth.lp64 sampleEnv (some samplePixels)
        (some (fun _ => TC_PIXEL_DISCONNECTED)) none sampleBitbang).2.1.pixelCurrent 0
        = CAL_CURRENT_OFF / CAL_N_PIXELS) ∧
    (some samplePixels = none →
      (∀ rm, some (fun _ => TC_PIXEL_DISCONNECTED) = some rm → rm 0 ≠ TC_PIXEL_DISCONNECTED) →
      (TCrefresh ULongWidth.lp64 sampleEnv (some samplePixels)
        (some (fun _ => TC_PIXEL_DISCONNECTED)) none sampleBitbang).2.1.pixelCurrent 0
        = CAL_CURRENT_OFF / CAL_N_PIXELS) ∧
    CAL_CURRENT_OFF / CAL_N_PIXELS = 15 / 25) :=
  ⟨by decide,
    sentinel_current ULongWidth.lp64 sampleEnv (some samplePixels)
      (some (fun _ => TC_PIXEL_DISCONNECTED)) none sampleBitbang 0 (by decide)⟩

theorem renderSlot_congr (w : ULongWidth) (st : TCState) (pix : Option (Nat → Nat))
    (r1 r2 : Option (Nat → Int)) (s p i : Nat) (f : Frame)
    (h : mappedPixel r1 i = mappedPixel r2 i) :
    renderSlot w st pix r1 s p i f = renderSlot w st pix r2 s p i f := by
  simp only [renderSlot, h]

theorem renderPixels_congr (w : ULongWidth) (st : TCState) (pix : Option (Nat → Nat))
    (r1 r2 : Option (Nat → Int)) (s abs0 : Nat) (f : Frame) :
    ∀ n : Nat, (∀ i, abs0 ≤ i → i < abs0 + n → mappedPixel r1 i = mappedPixel r2 i) →
      iter (fun p x => (x.1 + 1, renderSlot w st pix r1 s p x.1 x.2)) n (abs0, f) =
        iter (fun p x => (x.1 + 1, renderSlot w st pix r2 s p x.1 x.2)) n (abs0, f) := by
  intro n
  induction n with
  | zero => intro _; rfl
  | succ k ih =>
    intro h
    have e := ih (fun i h1 h2 => h i h1 (by omega))
    have h1 := (renderPixels_iter_cur w st pix r2 s abs0 f k).1
    show (_, renderSlot w st pix r1 s k (iter _ k (abs0, f)).1 (iter _ k (abs0, f)).2) =
      (_, renderSlot w st pix r2 s k (iter _ k (abs0, f)).1 (iter _ k (abs0, f)).2)
    rw [e, renderSlot_congr w st pix r1 r2 s k _ _ (by rw [h1]; exact h _ (by omega) (by omega))]

theorem renderStrands_congr (w : ULongWidth) (st : TCState) (pix : Option (Nat → Nat))
    (r1 r2 : Option (Nat → Int)) (f : Frame) :
    ∀ n : Nat, (∀ i, i < n * st.pixelsPerStrand → mappedPixel r1 i = mappedPixel r2 i) →
      iter (fun s x => renderPixels w st pix r1 s x) n (0, f) =
        iter (fun s x => renderPixels w st pix r2 s x) n (0, f) := by
  intro n
  induction n with
  | zero => intro _; rfl
  | succ k ih =>
    intro h
    have hk : k * st.pixelsPerStrand + st.pixelsPerStrand = (k + 1) * st.pixelsPerStrand := by
      rw [Nat.succ_mul]
    have e := ih (fun i hi => h i (by omega))
    have h1 := (renderStrands_iter_cur w st pix r2 f k).1
    rw [renderStrands_step, renderStrands_step, e, h1]
    exact renderPixels_congr w st pix r1 r2 k _ _ st.pixelsPerStrand
      (fun i _ hi => h i (by omega))

/-- Two remap arguments that resolve every slot of the frame to the same index
render the same frame. -/
theorem renderFrame_congr (w : ULongWidth) (st : TCState) (pix : Option (Nat → Nat))
    (r1 r2 : Option (Nat → Int))
    (h : ∀ i, i < st.nStrands * st.pixelsPerStrand → mappedPixel r1 i = mappedPixel r2 i) :
    renderFrame w st pix r1 = renderFrame w st pix r2 := by
  rw [renderFrame, renderFrame, renderStrands, renderStrands, forLoop_eq_iter, forLoop_eq_iter,
    renderStrands_congr w st pix r1 r2 _ st.nStrands h]

/-- Claim C8: `TCrefresh` without a remap table gives the same result (status,
output buffer, current estimates, bytes written, statistics) as `TCrefresh` with
the table `remap[i] = i` for `i < nStrands * pixelsPerStrand`; without a table,
slot `(s, p)` reads the pixel at logical index `s * pixelsPerStrand + p`, for its
command word and for its current estimate. -/
theorem identity_remap (w : ULongWidth) (env : RefreshEnv) (pixelInBuffer : Option (Nat → Nat))
    (rm : Nat → Int) (stats : Option TCstats) (st : TCState)
    (hid : ∀ i, i < st.nStrands * st.pixelsPerStrand → rm i = (i : Int)) :
    TCrefresh w env pixelInBuffer none stats st
      = TCrefresh w env pixelInBuffer (some rm) stats st ∧
    ∀ (pix : Nat → Nat) (s p : Nat), s < st.nStrands → p < st.pixelsPerStrand →
      commandWord st (some pix) none s p =
        packWord (correctedRed st (pix (s * st.pixelsPerStrand + p)))
          (correctedGreen st (pix (s * st.pixelsPerStrand + p)))
          (correctedBlue st (pix (s * st.pixelsPerStrand + p))) ∧
      (TCrefresh w env (some pix) none stats st).2.1.pixelCurrent (s * st.pixelsPerStrand + p) =
        EST_CURRENT (correctedRed st (pix (s * st.pixelsPerStrand + p)))
          (correctedGreen st (pix (s * st.pixelsPerStrand + p)))
          (correctedBlue st (pix (s * st.pixelsPerStrand + p))) := by
  constructor
  · have e : renderFrame w st pixelInBuffer none = renderFrame w st pixelInBuffer (some rm) :=
      renderFrame_congr w st pixelInBuffer none (some rm) (fun i hi => (hid i hi).symm)
    simp only [TCrefresh, e]
  · intro pix s p hs hp
    have hlt : s * st.pixelsPerStrand + p < st.nStrands * st.pixelsPerStrand := by
      have : (s + 1) * st.pixelsPerStrand ≤ st.nStrands * st.pixelsPerStrand :=
        Nat.mul_le_mul_right _ hs
      rw [Nat.succ_mul] at this
      omega
    have hm : decide (mappedPixel none (s * st.pixelsPerStrand + p) < 0) = false := by
      have : (0 : Int) ≤ ((s * st.pixelsPerStrand + p : Nat) : Int) := Int.ofNat_nonneg _
      simp only [mappedPixel, decide_eq_false_iff_not, not_lt]
      exact this
    constructor
    · simp only [commandWord, pixelWord, hm]
      rfl
    · rw [TCrefresh_cur, renderFrame_cur, if_pos hlt]
      simp only [pixelWord, hm]
      rfl

/-- Instance of C8 for the sample software-clock session and the identity table. -/
theorem identity_remap_witness :
    (∀ i, i < sampleBitbang.nStrands * sampleBitbang.pixelsPerStrand →
      (fun j : Nat => (j : Int)) i = (i : Int)) ∧
    (TCrefresh ULongWidth.lp64 sampleEnv (some samplePixels) none none sampleBitbang
      = TCrefresh ULongWidth.lp64 sampleEnv (some samplePixels)
          (some (fun j : Nat => (j : Int))) none sampleBitbang ∧
    ∀ (pix : Nat → Nat) (s p : Nat),
      s < sampleBitbang.nStrands → p < sampleBitbang.pixelsPerStrand →
      commandWord sampleBitbang (some pix) none s p =
        packWord (correctedRed sampleBitbang (pix (s * sampleBitbang.pixelsPerStrand + p)))
          (correctedGreen sampleBitbang (pix (s * sampleBitbang.pixelsPerStrand + p)))
          (correctedBlue sampleBitbang (pix (s * sampleBitbang.pixelsPerStrand + p))) ∧
      (TCrefresh ULongWidth.lp64 sampleEnv (some pix) none none
          sampleBitbang).2.1.pixelCurrent (s * sampleBitbang.pixelsPerStrand + p) =
        EST_CURRENT (correctedRed sampleBitbang (pix (s * sampleBitbang.pixelsPerStrand + p)))
          (correctedGreen sampleBitbang (pix (s * sampleBitbang.pixelsPerStrand + p)))
          (correctedBlue sampleBitbang (pix (s * sampleBitbang.pixelsPerStrand + p)))) :=
  ⟨fun _ _ => rfl,
    identity_remap ULongWidth.lp64 sampleEnv (some samplePixels) (fun j : Nat => (j : Int)) none
      sampleBitbang (fun _ _ => rfl)⟩

/-! ## The current model -/

theorem combo_factor_bounds (x y : Nat) (c : ℚ) (hx : x ≤ 255) (hy : y ≤ 255)
    (hc0 : 0 ≤ c) (hc1 : c ≤ 1) :
    0 ≤ 1 - ((x : ℚ) * (y : ℚ) / (255 * 255) * (1 - c)) ∧
    1 - ((x : ℚ) * (y : ℚ) / (255 * 255) * (1 - c)) ≤ 1 := by
  have hx0 : (0 : ℚ) ≤ (x : ℚ) := Nat.cast_nonneg x
  have hy0 : (0 : ℚ) ≤ (y : ℚ) := Nat.cast_nonneg y
  have hx1 : (x : ℚ) ≤ 255 := by exact_mod_cast hx
  have hy1 : (y : ℚ) ≤ 255 := by exact_mod_cast hy
  have hp0 : 0 ≤ (x : ℚ) * (y : ℚ) := mul_nonneg hx0 hy0
  have hp1 : (x : ℚ) * (y : ℚ) ≤ 255 * 255 := mul_le_mul hx1 hy1 hy0 (by norm_num)
  have hq0 : 0 ≤ (x : ℚ) * (y : ℚ) / (255 * 255) := div_nonneg hp0 (by norm_num)
  have hq1 : (x : ℚ) * (y : ℚ) / (255 * 255) ≤ 1 := by
    rw [div_le_one (by norm_num)]
    exact hp1
  have hd0 : 0 ≤ 1 - c := by linarith
  have hd1 : 1 - c ≤ 1 := by linarith
  have hm0 : 0 ≤ (x : ℚ) * (y : ℚ) / (255 * 255) * (1 - c) := mul_nonneg hq0 hd0
  have hm1 : (x : ℚ) * (y : ℚ) / (255 * 255) * (1 - c) ≤ 1 := by
    calc (x : ℚ) * (y : ℚ) / (255 * 255) * (1 - c) ≤ 1 * 1 := mul_le_mul hq1 hd1 hd0 (by norm_num)
      _ = 1 := by norm_num
  constructor <;> linarith

/-- Claim C9: over the rationals, for channel values `R`, `G`, `B` in `0..255`,
`base ≤ EST_CURRENT(R,G,B) ≤ base + (R*cr + G*cg + B*cb)/255` with `base = 15/25`,
`cr = 495/25`, `cg = cb = 476/25`; `EST_CURRENT(0,0,0) = base` and
`EST_CURRENT(255,255,255) ≤ cr + cg + cb + base`. -/
theorem EST_CURRENT_bounds (R G B : Nat) (hR : R ≤ 255) (hG : G ≤ 255) (hB : B ≤ 255) :
    (CAL_CURRENT_OFF / CAL_N_PIXELS ≤ EST_CURRENT R G B ∧
      EST_CURRENT R G B ≤ CAL_CURRENT_OFF / CAL_N_PIXELS +
        ((R : ℚ) * (CAL_CURRENT_R / CAL_N_PIXELS) + (G : ℚ) * (CAL_CURRENT_G / CAL_N_PIXELS) +
          (B : ℚ) * (CAL_CURRENT_B / CAL_N_PIXELS)) / 255) ∧
    EST_CURRENT 0 0 0 = CAL_CURRENT_OFF / CAL_N_PIXELS ∧
    EST_CURRENT 255 255 255 ≤ CAL_CURRENT_R / CAL_N_PIXELS + CAL_CURRENT_G / CAL_N_PIXELS +
      CAL_CURRENT_B / CAL_N_PIXELS + CAL_CURRENT_OFF / CAL_N_PIXELS ∧
    (CAL_CURRENT_OFF / CAL_N_PIXELS = 15 / 25 ∧ CAL_CURRENT_R / CAL_N_PIXELS = 495 / 25 ∧
      CAL_CURRENT_G / CAL_N_PIXELS = 476 / 25 ∧ CAL_CURRENT_B / CAL_N_PIXELS = 476 / 25) := by
  have hgen : ∀ r g b : Nat, r ≤ 255 → g ≤ 255 → b ≤ 255 →
      (CAL_CURRENT_OFF / CAL_N_PIXELS ≤ EST_CURRENT r g b ∧
        EST_CURRENT r g b ≤ CAL_CURRENT_OFF / CAL_N_PIXELS +
          ((r : ℚ) * (CAL_CURRENT_R / CAL_N_PIXELS) + (g : ℚ) * (CAL_CURRENT_G / CAL_N_PIXELS) +
            (b : ℚ) * (CAL_CURRENT_B / CAL_N_PIXELS)) / 255) := by
    intro r g b hr hg hb
    have hrg : (0 : ℚ) ≤ CAL_COMBO_RG ∧ CAL_COMBO_RG ≤ 1 := by
      constructor <;> norm_num [CAL_COMBO_RG, CAL_CURRENT_RG, CAL_CURRENT_R, CAL_CURRENT_G,
        CAL_RAW_RG, CAL_RAW_R, CAL_RAW_G, CAL_CURRENT_OFF]
    have hgb : (0 : ℚ) ≤ CAL_COMBO_GB ∧ CAL_COMBO_GB ≤ 1 := by
      constructor <;> norm_num [CAL_COMBO_GB, CAL_CURRENT_GB, CAL_CURRENT_G, CAL_CURRENT_B,
        CAL_RAW_GB, CAL_RAW_G, CAL_RAW_B, CAL_CURRENT_OFF]
    have hrb : (0 : ℚ) ≤ CAL_COMBO_RB ∧ CAL_COMBO_RB ≤ 1 := by
      constructor <;> norm_num [CAL_COMBO_RB, CAL_CURRENT_RB, CAL_CURRENT_R, CAL_CURRENT_B,
        CAL_RAW_RB, CAL_RAW_R, CAL_RAW_B, CAL_CURRENT_OFF]
    obtain ⟨f1lo, f1hi⟩ := combo_factor_bounds r g CAL_COMBO_RG hr hg hrg.1 hrg.2
    obtain ⟨f2lo, f2hi⟩ := combo_factor_bounds g b CAL_COMBO_GB hg hb hgb.1 hgb.2
    obtain ⟨f3lo, f3hi⟩ := combo_factor_bounds r b CAL_COMBO_RB hr hb hrb.1 hrb.2
    have hr0 : (0 : ℚ) ≤ (r : ℚ) := Nat.cast_nonneg r
    have hg0 : (0 : ℚ) ≤ (g : ℚ) := Nat.cast_nonneg g
    have hb0 : (0 : ℚ) ≤ (b : ℚ) := Nat.cast_nonneg b
    have hcr : (0 : ℚ) ≤ CAL_CURRENT_R / CAL_N_PIXELS := by
      norm_num [CAL_CURRENT_R, CAL_RAW_R, CAL_CURRENT_OFF, CAL_N_PIXELS]
    have hcg : (0 : ℚ) ≤ CAL_CURRENT_G / CAL_N_PIXELS := by
      norm_num [CAL_CURRENT_G, CAL_RAW_G, CAL_CURRENT_OFF, CAL_N_PIXELS]
    have hcb : (0 : ℚ) ≤ CAL_CURRENT_B / CAL_N_PIXELS := by
      norm_num [CAL_CURRENT_B, CAL_RAW_B, CAL_CURRENT_OFF, CAL_N_PIXELS]
    have hS : (r : ℚ) * CAL_CURRENT_R / CAL_N_PIXELS + (g : ℚ) * CAL_CURRENT_G / CAL_N_PIXELS +
        (b : ℚ) * CAL_CURRENT_B / CAL_N_PIXELS =
        (r : ℚ) * (CAL_CURRENT_R / CAL_N_PIXELS) + (g : ℚ) * (CAL_CURRENT_G / CAL_N_PIXELS) +
          (b : ℚ) * (CAL_CURRENT_B / CAL_N_PIXELS) := by
      simp only [mul_div_assoc]
    have hS0 : 0 ≤ ((r : ℚ) * (CAL_CURRENT_R / CAL_N_PIXELS) +
        (g : ℚ) * (CAL_CURRENT_G / CAL_N_PIXELS) + (b : ℚ) * (CAL_CURRENT_B / CAL_N_PIXELS)) / 255 :=
      div_nonneg (add_nonneg (add_nonneg (mul_nonneg hr0 hcr) (mul_nonneg hg0 hcg))
        (mul_nonneg hb0 hcb)) (by norm_num)
    unfold EST_CURRENT
    rw [hS]
    generalize ((r : ℚ) * (CAL_CURRENT_R / CAL_N_PIXELS) +
        (g : ℚ) * (CAL_CURRENT_G / CAL_N_PIXELS) + (b : ℚ) * (CAL_CURRENT_B / CAL_N_PIXELS)) / 255
      = S at hS0 ⊢
    generalize 1 - ((r : ℚ) * (g : ℚ) / (255 * 255) * (1 - CAL_COMBO_RG)) = f1 at f1lo f1hi ⊢
    generalize 1 - ((g : ℚ) * (b : ℚ) / (255 * 255) * (1 - CAL_COMBO_GB)) = f2 at f2lo f2hi ⊢
    generalize 1 - ((r : ℚ) * (b : ℚ) / (255 * 255) * (1 - CAL_COMBO_RB)) = f3 at f3lo f3hi ⊢
    have h1 : 0 ≤ S * f1 := mul_nonneg hS0 f1lo
    have h1' : S * f1 ≤ S := mul_le_of_le_one_right hS0 f1hi
    have h2 : 0 ≤ S * f1 * f2 := mul_nonneg h1 f2lo
    have h2' : S * f1 * f2 ≤ S * f1 := mul_le_of_le_one_right h1 f2hi
    have h3 : 0 ≤ S * f1 * f2 * f3 := mul_nonneg h2 f3lo
    have h3' : S * f1 * f2 * f3 ≤ S * f1 * f2 := mul_le_of_le_one_right h2 f3hi
    constructor <;> linarith
  refine ⟨hgen R G B hR hG hB, ?_, ?_, ?_⟩
  · simp [EST_CURRENT]
  · have h := (hgen 255 255 255 (by decide) (by decide) (by decide)).2
    have e : (((255 : Nat) : ℚ) * (CAL_CURRENT_R / CAL_N_PIXELS) +
        ((255 : Nat) : ℚ) * (CAL_CURRENT_G / CAL_N_PIXELS) +
        ((255 : Nat) : ℚ) * (CAL_CURRENT_B / CAL_N_PIXELS)) / 255 =
        CAL_CURRENT_R / CAL_N_PIXELS + CAL_CURRENT_G / CAL_N_PIXELS +
          CAL_CURRENT_B / CAL_N_PIXELS := by
      push_cast
      ring
    rw [e] at h
    linarith
  · refine ⟨?_, ?_, ?_, ?_⟩ <;>
      norm_num [CAL_CURRENT_R, CAL_CURRENT_G, CAL_CURRENT_B, CAL_RAW_R, CAL_RAW_G, CAL_RAW_B,
        CAL_CURRENT_OFF, CAL_N_PIXELS]

/-- Instance of C9 for the corrected colour `(128, 64, 255)`. -/
theorem EST_CURRENT_bounds_witness :
    (128 ≤ 255 ∧ 64 ≤ 255 ∧ 255 ≤ 255) ∧
    ((CAL_CURRENT_OFF / CAL_N_PIXELS ≤ EST_CURRENT 128 64 255 ∧
      EST_CURRENT 128 64 255 ≤ CAL_CURRENT_OFF / CAL_N_PIXELS +
        (((128 : Nat) : ℚ) * (CAL_CURRENT_R / CAL_N_PIXELS) +
          ((64 : Nat) : ℚ) * (CAL_CURRENT_G / CAL_N_PIXELS) +
          ((255 : Nat) : ℚ) * (CAL_CURRENT_B / CAL_N_PIXELS)) / 255) ∧
    EST_CURRENT 0 0 0 = CAL_CURRENT_OFF / CAL_N_PIXELS ∧
    EST_CURRENT 255 255 255 ≤ CAL_CURRENT_R / CAL_N_PIXELS + CAL_CURRENT_G / CAL_N_PIXELS +
      CAL_CURRENT_B / CAL_N_PIXELS + CAL_CURRENT_OFF / CAL_N_PIXELS ∧
    (CAL_CURRENT_OFF / CAL_N_PIXELS = 15 / 25 ∧ CAL_CURRENT_R / CAL_N_PIXELS = 495 / 25 ∧
      CAL_CURRENT_G / CAL_N_PIXELS = 476 / 25 ∧ CAL_CURRENT_B / CAL_N_PIXELS = 476 / 25)) :=
  ⟨⟨by decide, by decide, by decide⟩,
    EST_CURRENT_bounds 128 64 255 (by decide) (by decide) (by decide)⟩

/-! ## Opening a session -/

theorem forLoop_inv {σ : Type} (P : σ → Prop) (stop step : Nat) (body : Nat → σ → σ)
    (h : ∀ i x, P x → P (body i x)) :
    ∀ (fuel i : Nat) (x : σ), P x → P (forLoop stop step body fuel i x) := by
  intro fuel
  induction fuel with
  | zero => intro i x hx; exact hx
  | succ n ih =>
    intro i x hx
    rw [forLoop]
    split_ifs
    · exact ih (i + step) (body i x) (h i x hx)
    · exact hx

/-- `TCsetGammaSimple` changes nothing but the gamma table. -/
theorem TCsetGammaSimple_frame {K : Type} [LinearOrderedField K] [FloorRing K]
    (pw : K → K → K) (g : K) (st : TCState) :
    (TCsetGammaSimple pw g st).2.nStrands = st.nStrands ∧
    (TCsetGammaSimple pw g st).2.pixelsPerStrand = st.pixelsPerStrand ∧
    (TCsetGammaSimple pw g st).2.bytesPerPixel = st.bytesPerPixel ∧
    (TCsetGammaSimple pw g st).2.pixelOutBuffer = st.pixelOutBuffer ∧
    (TCsetGammaSimple pw g st).2.calls = st.calls := by
  rw [TCsetGammaSimple]
  split_ifs
  · exact ⟨rfl, rfl, rfl, rfl, rfl⟩
  · dsimp only
    generalize (256 : Nat) = n
    refine forLoop_inv
      (fun x => x.nStrands = st.nStrands ∧ x.pixelsPerStrand = st.pixelsPerStrand ∧
        x.bytesPerPixel = st.bytesPerPixel ∧ x.pixelOutBuffer = st.pixelOutBuffer ∧
        x.calls = st.calls)
      n 1 _ ?_ n 0 st ⟨rfl, rfl, rfl, rfl, rfl⟩
    intro i x hx
    exact hx

/-- Claim C10, evaluated on the code: `TCopen(1, 25)` from the initial state, with
every collaborator succeeding except `FT_SetDivisor`, returns `TC_ERR_DIVISOR`
straight after `openAlloc`: `nStrands` and `pixelsPerStrand` stay 0, the gamma
table is not touched and no `FT_Write` is issued (neither the latch nor the
all-off frame), whereas the same call without the failure returns `TC_OK`, records
`nStrands = 1` and `pixelsPerStrand = 25` and issues both writes. -/
theorem TCopen_divisor_warning_state {K : Type} [LinearOrderedField K] [FloorRing K]
    (w : ULongWidth) (pw : K → K → K) :
    ((TCopen w pw divisorFailEnv 1 25 initialState).1 = TC_ERR_DIVISOR ∧
      (TCopen w pw divisorFailEnv 1 25 initialState).2.nStrands = 0 ∧
      (TCopen w pw divisorFailEnv 1 25 initialState).2.pixelsPerStrand = 0 ∧
      (TCopen w pw divisorFailEnv 1 25 initialState).2.rgbGamma = initialState.rgbGamma ∧
      (TCopen w pw divisorFailEnv 1 25 initialState).2.calls =
        [Call.malloc 1864, Call.FT_Open, Call.FT_SetBitMode, Call.FT_SetDivisor,
          Call.FT_SetBaudRate, Call.FT_Purge]) ∧
    ((TCopen w pw allOkEnv 1 25 initialState).1 = TC_OK ∧
      (TCopen w pw allOkEnv 1 25 initialState).2.nStrands = 1 ∧
      (TCopen w pw allOkEnv 1 25 initialState).2.pixelsPerStrand = 25 ∧
      (TCopen w pw allOkEnv 1 25 initialState).2.calls.length = 9) := by
  constructor
  · refine ⟨rfl, rfl, rfl, rfl, ?_⟩
    cases w <;> rfl
  · have hval : ¬ ((1 : Nat) < 1 ∨ (1 : Nat) > 16 ∨ (25 : Int) < 1) := by decide
    have hopen : (openAlloc w allOkEnv 1 25 initialState).1 = TC_OK := by
      cases w <;> rfl
    have hstep : TCopen w pw allOkEnv 1 25 initialState =
        (TC_OK, (TCsetGammaSimple pw DEFAULT_GAMMA
          (TCrefresh w allOkEnv.refresh none none none
            { (openAlloc w allOkEnv 1 25 initialState).2 with
              nStrands := 1, pixelsPerStrand := 25,
              pixelOutBuffer :=
                latchClock 64 1600 (initialState.strandBitMask 7)
                  (bzero allOkEnv.freshOut 1600 64),
              calls := (openAlloc w allOkEnv 1 25 initialState).2.calls ++
                [Call.FT_Write (bytesAt (latchClock 64 1600 (initialState.strandBitMask 7)
                  (bzero allOkEnv.freshOut 1600 64)) 1600 64)] }).2.1).2) := by
      rw [TCopen, if_neg hval]
      cases w <;> rfl
    obtain ⟨g1, g2, _, _, g5⟩ := TCsetGammaSimple_frame pw DEFAULT_GAMMA
      (TCrefresh w allOkEnv.refresh none none none
        { (openAlloc w allOkEnv 1 25 initialState).2 with
          nStrands := 1, pixelsPerStrand := 25,
          pixelOutBuffer :=
            latchClock 64 1600 (initialState.strandBitMask 7)
              (bzero allOkEnv.freshOut 1600 64),
          calls := (openAlloc w allOkEnv 1 25 initialState).2.calls ++
            [Call.FT_Write (bytesAt (latchClock 64 1600 (initialState.strandBitMask 7)
              (bzero allOkEnv.freshOut 1600 64)) 1600 64)] }).2.1
    rw [hstep]
    refine ⟨rfl, ?_, ?_, ?_⟩
    · rw [g1]; rfl
    · rw [g2]; rfl
    · rw [g5]; rfl

/-! ## The open sequence step by step -/

/-- `TCopen` with valid arguments, as the ladder of its four exits. -/
theorem TCopen_valid {K : Type} [LinearOrderedField K] [FloorRing K] (w : ULongWidth)
    (pw : K → K → K) (env : OpenEnv) (s : Nat) (p : Int) (st : TCState)
    (h : ¬ (s < 1 ∨ s > 16 ∨ p < 1)) :
    TCopen w pw env s p st =
      if (openAlloc w env s p st).1 ≠ TC_OK then openAlloc w env s p st
      else if env.latchWrite.ok = false ∨
          (latchRendered (openAlloc w env s p st).2 s p).bytesPerPixel ≠ env.latchWrite.out then
        (TC_ERR_WRITE, latchRendered (openAlloc w env s p st).2 s p)
      else if (TCrefresh w env.refresh none none none
          (latchRendered (openAlloc w env s p st).2 s p)).1 ≠ TC_OK then
        ((TCrefresh w env.refresh none none none
            (latchRendered (openAlloc w env s p st).2 s p)).1,
          (TCrefresh w env.refresh none none none
            (latchRendered (openAlloc w env s p st).2 s p)).2.1)
      else
        (TC_OK, (TCsetGammaSimple pw DEFAULT_GAMMA
          (TCrefresh w env.refresh none none none
            (latchRendered (openAlloc w env s p st).2 s p)).2.1).2) := by
  rw [TCopen, if_neg h]
  rfl

/-- The status of `openAlloc`: the first failing step decides, and of the two
warnings the baud-rate one wins. -/
theorem openAlloc_status (w : ULongWidth) (env : OpenEnv) (s : Nat) (p : Int) (st : TCState) :
    (openAlloc w env s p st).1 =
      if env.mallocOk = false then TC_ERR_MALLOC
      else if env.openOk = false then TC_ERR_OPEN
      else if env.bitModeOk = false then TC_ERR_MODE
      else if env.baudRateOk = false then TC_ERR_BAUDRATE
      else if env.divisorOk = false then TC_ERR_DIVISOR
      else TC_OK := by
  unfold openAlloc
  cases env.mallocOk <;> cases env.openOk <;> cases env.bitModeOk <;> cases env.baudRateOk <;>
    cases env.divisorOk <;> rfl

/-- What `openAlloc` never touches, and the slot size it selects. -/
theorem openAlloc_frame (w : ULongWidth) (env : OpenEnv) (s : Nat) (p : Int) (st : TCState) :
    (openAlloc w env s p st).2.nStrands = st.nStrands ∧
    (openAlloc w env s p st).2.pixelsPerStrand = st.pixelsPerStrand ∧
    (openAlloc w env s p st).2.strandBitMask = st.strandBitMask ∧
    (openAlloc w env s p st).2.rgbGamma = st.rgbGamma ∧
    (openAlloc w env s p st).2.bytesPerPixel = (if s ≥ TC_CBUS_CLOCK then 32 else 64) := by
  unfold openAlloc
  cases env.mallocOk <;> cases env.openOk <;> cases env.bitModeOk <;>
    exact ⟨rfl, rfl, rfl, rfl, rfl⟩

/-- For one strand of 25 pixels the sizes are the same for both widths of
`size_t`. -/
theorem openAlloc_width (w : ULongWidth) (env : OpenEnv) (st : TCState) :
    openAlloc w env 1 25 st = openAlloc ULongWidth.lp64 env 1 25 st := by
  cases w <;> rfl

/-- Where `openAlloc` leaves the handle and the two pointers when it returns `TC_OK`. -/
theorem openAlloc_ok (w : ULongWidth) (env : OpenEnv) (s : Nat) (p : Int) (st : TCState)
    (h : (openAlloc w env s p st).1 = TC_OK) :
    (openAlloc w env s p st).2.ftdiHandle = true ∧
    (openAlloc w env s p st).2.pixelCurrentPtr ≠ none ∧
    (openAlloc w env s p st).2.pixelOutBufferPtr ≠ none := by
  have hs := openAlloc_status w env s p st
  rw [h] at hs
  clear h
  revert hs
  unfold openAlloc
  cases env.mallocOk <;> cases env.openOk <;> cases env.bitModeOk <;> cases env.baudRateOk <;>
    cases env.divisorOk <;> intro hs <;>
    first
      | exact absurd hs (by decide)
      | exact ⟨rfl, Option.some_ne_none _, Option.some_ne_none _⟩

/-- What `TCrefresh` never touches. -/
theorem TCrefresh_frame (w : ULongWidth) (env : RefreshEnv) (pix : Option (Nat → Nat))
    (remap : Option (Nat → Int)) (stats : Option TCstats) (st : TCState) :
    (TCrefresh w env pix remap stats st).2.1.strandBitMask = st.strandBitMask ∧
    (TCrefresh w env pix remap stats st).2.1.bytesPerPixel = st.bytesPerPixel ∧
    (TCrefresh w env pix remap stats st).2.1.pixelOutBufferPtr = st.pixelOutBufferPtr ∧
    (TCrefresh w env pix remap stats st).2.1.pixelCurrentPtr = st.pixelCurrentPtr ∧
    (TCrefresh w env pix remap stats st).2.1.rgbGamma = st.rgbGamma ∧
    (TCrefresh w env pix remap stats st).2.1.ftdiHandle = st.ftdiHandle ∧
    (TCrefresh w env pix remap stats st).2.1.nStrands = st.nStrands ∧
    (TCrefresh w env pix remap stats st).2.1.pixelsPerStrand = st.pixelsPerStrand := by
  cases stats <;> exact ⟨rfl, rfl, rfl, rfl, rfl, rfl, rfl, rfl⟩

/-- The status of `TCrefresh` is decided by the outcome of its write alone. -/
theorem TCrefresh_status (w : ULongWidth) (env : RefreshEnv) (pix : Option (Nat → Nat))
    (remap : Option (Nat → Int)) (stats : Option TCstats) (st : TCState) :
    (TCrefresh w env pix remap stats st).1 =
      if env.write.ok = true ∧ (st.pixelsPerStrand + 1) * st.bytesPerPixel = env.write.out
      then TC_OK else TC_ERR_WRITE := by
  cases stats <;> rfl

/-- The calls `TCrefresh` makes: the clock, one write of the whole buffer, and the
clock again when statistics are asked for. -/
theorem TCrefresh_calls (w : ULongWidth) (env : RefreshEnv) (pix : Option (Nat → Nat))
    (remap : Option (Nat → Int)) (stats : Option TCstats) (st : TCState) :
    (TCrefresh w env pix remap stats st).2.1.calls =
      st.calls ++ [Call.gettimeofday,
        Call.FT_Write (bytesAt (renderFrame w st pix remap).out 0
          ((st.pixelsPerStrand + 1) * st.bytesPerPixel))] ++
        (if stats.isSome then [Call.gettimeofday] else []) := by
  cases stats <;> simp [TCrefresh]

/-- `TCsetGammaSimple` replaces the gamma table and nothing else. -/
theorem TCsetGammaSimple_only_gamma {K : Type} [LinearOrderedField K] [FloorRing K]
    (pw : K → K → K) (g : K) (st : TCState) :
    ∃ tbl, (TCsetGammaSimple pw g st).2 = { st with rgbGamma := tbl } := by
  rw [TCsetGammaSimple]
  split_ifs
  · exact ⟨st.rgbGamma, rfl⟩
  · dsimp only
    generalize (256 : Nat) = n
    refine forLoop_inv (fun x => ∃ tbl, x = { st with rgbGamma := tbl }) n 1 _ ?_ n 0 st
      ⟨st.rgbGamma, rfl⟩
    rintro i x ⟨tbl, rfl⟩
    exact ⟨_, rfl⟩

/-- A successful `TCopen` went through every step of the ladder, and its final
state is the state after the initial `TCrefresh` with a new gamma table. -/
theorem TCopen_ok_state {K : Type} [LinearOrderedField K] [FloorRing K] (w : ULongWidth)
    (pw : K → K → K) (env : OpenEnv) (s : Nat) (p : Int) (st : TCState)
    (hok : (TCopen w pw env s p st).1 = TC_OK) :
    ¬ (s < 1 ∨ s > 16 ∨ p < 1) ∧ (openAlloc w env s p st).1 = TC_OK ∧
    ∃ tbl, (TCopen w pw env s p st).2 =
      { (TCrefresh w env.refresh none none none
          (latchRendered (openAlloc w env s p st).2 s p)).2.1 with rgbGamma := tbl } := by
  by_cases hv : s < 1 ∨ s > 16 ∨ p < 1
  · rw [TCopen, if_pos hv] at hok
    exact absurd (show TC_ERR_VALUE = TC_OK from hok) (by decide)
  · rw [TCopen_valid w pw env s p st hv] at hok ⊢
    by_cases h1 : (openAlloc w env s p st).1 ≠ TC_OK
    · rw [if_pos h1] at hok
      exact absurd hok h1
    · rw [if_neg h1] at hok ⊢
      by_cases h2 : env.latchWrite.ok = false ∨
          (latchRendered (openAlloc w env s p st).2 s p).bytesPerPixel ≠ env.latchWrite.out
      · rw [if_pos h2] at hok
        exact absurd (show TC_ERR_WRITE = TC_OK from hok) (by decide)
      · rw [if_neg h2] at hok ⊢
        by_cases h3 : (TCrefresh w env.refresh none none none
            (latchRendered (openAlloc w env s p st).2 s p)).1 ≠ TC_OK
        · rw [if_pos h3] at hok
          exact absurd hok h3
        · rw [if_neg h3]
          exact ⟨hv, not_not.mp h1, TCsetGammaSimple_only_gamma pw DEFAULT_GAMMA _⟩

/-! ## The latch trailer -/

theorem latchLoop_apply (stop off bit : Nat) :
    ∀ (fuel i : Nat) (out : Nat → Nat), i % 2 = 1 → stop ≤ i + 2 * fuel → ∀ a : Nat,
      forLoop stop 2 (fun i o => store o (off + i) bit) fuel i out a =
        if off + i ≤ a ∧ a < off + stop ∧ (a - off) % 2 = 1 then bit else out a := by
  intro fuel
  induction fuel with
  | zero =>
    intro i out _ hf a
    have : ¬ (off + i ≤ a ∧ a < off + stop ∧ (a - off) % 2 = 1) := by omega
    rw [if_neg this]; rfl
  | succ n ih =>
    intro i out hi hf a
    rw [forLoop]
    by_cases hlt : i < stop
    · rw [if_pos hlt, ih (i + 2) _ (by omega) (by omega) a]
      by_cases h2 : off + (i + 2) ≤ a ∧ a < off + stop ∧ (a - off) % 2 = 1
      · have h3 : off + i ≤ a ∧ a < off + stop ∧ (a - off) % 2 = 1 := by omega
        simp only [if_pos h2, if_pos h3]
      · simp only [if_neg h2]
        by_cases h0 : a = off + i
        · subst h0
          have h3 : off + i ≤ off + i ∧ off + i < off + stop ∧ (off + i - off) % 2 = 1 := by
            omega
          simp only [if_pos h3]
          simp [store]
        · have h3 : ¬ (off + i ≤ a ∧ a < off + stop ∧ (a - off) % 2 = 1) := by omega
          simp only [if_neg h3]
          simp [store, h0]
    · have h3 : ¬ (off + i ≤ a ∧ a < off + stop ∧ (a - off) % 2 = 1) := by omega
      rw [if_neg hlt, if_neg h3]

/-- The latch loop `for(i = 1; i < bytesPerPixel; i += 2) out[offset + i] = bit` writes
`bit` at the odd offsets of the slot starting at `offset` and nothing else. -/
theorem latchClock_apply (bytesPerPixel offset bit : Nat) (out : Nat → Nat) (a : Nat) :
    latchClock bytesPerPixel offset bit out a =
      if offset ≤ a ∧ a < offset + bytesPerPixel ∧ (a - offset) % 2 = 1 then bit else out a := by
  rw [latchClock, latchLoop_apply bytesPerPixel offset bit bytesPerPixel 1 out (by omega)
    (by omega) a]
  by_cases h : offset ≤ a ∧ a < offset + bytesPerPixel ∧ (a - offset) % 2 = 1
  · have h1 : offset + 1 ≤ a ∧ a < offset + bytesPerPixel ∧ (a - offset) % 2 = 1 := by omega
    rw [if_pos h, if_pos h1]
  · have h1 : ¬ (offset + 1 ≤ a ∧ a < offset + bytesPerPixel ∧ (a - offset) % 2 = 1) := by
      omega
    rw [if_neg h, if_neg h1]

/-- The rendering loops of `TCrefresh` write nothing at or beyond offset
`pixelsPerStrand * bytesPerPixel`. -/
theorem renderFrame_beyond (w : ULongWidth) (st : TCState) (pix : Option (Nat → Nat))
    (remap : Option (Nat → Int)) (hb : st.bytesPerPixel = 64 ∨ st.bytesPerPixel = 32) (a : Nat)
    (ha : st.pixelsPerStrand * st.bytesPerPixel ≤ a) :
    (renderFrame w st pix remap).out a = st.pixelOutBuffer a := by
  have hdiv : ¬ (a / st.bytesPerPixel < st.pixelsPerStrand) := by
    intro hlt
    have hpos : 0 < st.bytesPerPixel := by omega
    have := (Nat.div_lt_iff_lt_mul hpos).mp hlt
    omega
  have hz : orUpTo (strandBits st pix remap a) st.nStrands = 0 := by
    apply orUpTo_zero
    intro t _
    simp only [strandBits, hdiv, false_and, if_false]
  rw [renderFrame_out w st pix remap hb a, hz, Nat.or_zero]
  rcases hb with hb | hb
  · rw [clearBuffer_bitbang st hb a, if_neg (by rw [hb] at ha; omega)]
  · rw [clearBuffer_cbus st (by omega) a, if_neg (by omega)]

/-- With no strands and no pixels the rendering loops do not run at all. -/
theorem renderFrame_closed (w : ULongWidth) (st : TCState) (pix : Option (Nat → Nat))
    (remap : Option (Nat → Int)) (hn : st.nStrands = 0) (hp : st.pixelsPerStrand = 0) :
    (renderFrame w st pix remap).out = st.pixelOutBuffer ∧
    (renderFrame w st pix remap).cur = st.pixelCurrent := by
  have hc : clearBuffer st = st.pixelOutBuffer := by
    unfold clearBuffer
    rw [hp, Nat.zero_mul]
    split_ifs
    · rfl
    · funext j
      simp [bzero]
  rw [renderFrame, renderStrands, hn, hc]
  exact ⟨rfl, rfl⟩

theorem bytesAt_length (a : Nat → Nat) (off len : Nat) : (bytesAt a off len).length = len := by
  simp [bytesAt]

/-! ## TCopen: argument validation -/

/-- Claim C13: `TCopen(s, p)` returns `TC_ERR_VALUE` if and only if `s < 1` or
`s > 16` or `p < 1`, whatever the outcomes `env` of allocation and transport are;
and in that case the whole library state, call log included, is the state before
the call (no allocation, no transport call, no field changed). -/
theorem TCopen_value_error {K : Type} [LinearOrderedField K] [FloorRing K] (w : ULongWidth)
    (pw : K → K → K) (env : OpenEnv) (s : Nat) (p : Int) (st : TCState) :
    ((TCopen w pw env s p st).1 = TC_ERR_VALUE ↔ (s < 1 ∨ s > 16 ∨ p < 1)) ∧
    ((s < 1 ∨ s > 16 ∨ p < 1) → TCopen w pw env s p st = (TC_ERR_VALUE, st)) := by
  have hsecond : (s < 1 ∨ s > 16 ∨ p < 1) → TCopen w pw env s p st = (TC_ERR_VALUE, st) := by
    intro h
    rw [TCopen, if_pos h]
  refine ⟨⟨?_, fun h => by rw [hsecond h]⟩, hsecond⟩
  intro hst
  by_contra hv
  rw [TCopen_valid w pw env s p st hv] at hst
  by_cases h1 : (openAlloc w env s p st).1 ≠ TC_OK
  · rw [if_pos h1, openAlloc_status] at hst
    revert hst
    cases env.mallocOk <;> cases env.openOk <;> cases env.bitModeOk <;>
      cases env.baudRateOk <;> cases env.divisorOk <;> decide
  · rw [if_neg h1] at hst
    by_cases h2 : env.latchWrite.ok = false ∨
        (latchRendered (openAlloc w env s p st).2 s p).bytesPerPixel ≠ env.latchWrite.out
    · rw [if_pos h2] at hst
      exact absurd (show TC_ERR_WRITE = TC_ERR_VALUE from hst) (by decide)
    · rw [if_neg h2] at hst
      by_cases h3 : (TCrefresh w env.refresh none none none
          (latchRendered (openAlloc w env s p st).2 s p)).1 ≠ TC_OK
      · rw [if_pos h3] at hst
        have h4 : (TCrefresh w env.refresh none none none
            (latchRendered (openAlloc w env s p st).2 s p)).1 = TC_ERR_VALUE := hst
        rw [TCrefresh_status] at h4
        split_ifs at h4
      · rw [if_neg h3] at hst
        exact absurd (show TC_OK = TC_ERR_VALUE from hst) (by decide)

/-! ## TCrefresh: the write and the latch -/

/-- What `TCrefresh` returns when none of its array accesses faults: it issues
exactly one transport write, of the first `(pixelsPerStrand + 1) * bytesPerPixel`
bytes of the rendered output buffer (the only other calls are clock readings); it
returns `TC_OK` if and only if the transport reports success and the count of
bytes written equals that length, it returns `TC_ERR_WRITE` otherwise, and it
returns no other status code. -/
theorem TCrefresh_write_status (w : ULongWidth) (env : RefreshEnv) (pix : Option (Nat → Nat))
    (remap : Option (Nat → Int)) (stats : Option TCstats) (st : TCState) :
    ((TCrefresh w env pix remap stats st).2.1.calls =
        st.calls ++ [Call.gettimeofday,
          Call.FT_Write (bytesAt (TCrefresh w env pix remap stats st).2.1.pixelOutBuffer 0
            ((st.pixelsPerStrand + 1) * st.bytesPerPixel))] ++
          (if stats.isSome then [Call.gettimeofday] else []) ∧
      (bytesAt (TCrefresh w env pix remap stats st).2.1.pixelOutBuffer 0
          ((st.pixelsPerStrand + 1) * st.bytesPerPixel)).length =
        (st.pixelsPerStrand + 1) * st.bytesPerPixel) ∧
    ((TCrefresh w env pix remap stats st).1 = TC_OK ↔
      (env.write.ok = true ∧ env.write.out = (st.pixelsPerStrand + 1) * st.bytesPerPixel)) ∧
    ((TCrefresh w env pix remap stats st).1 ≠ TC_OK →
      (TCrefresh w env pix remap stats st).1 = TC_ERR_WRITE) := by
  refine ⟨⟨?_, bytesAt_length _ _ _⟩, ?_, ?_⟩
  · rw [TCrefresh_calls, TCrefresh_out]
  · rw [TCrefresh_status]
    by_cases h : env.write.ok = true ∧
        (st.pixelsPerStrand + 1) * st.bytesPerPixel = env.write.out
    · rw [if_pos h]
      exact ⟨fun _ => ⟨h.1, h.2.symm⟩, fun _ => rfl⟩
    · rw [if_neg h]
      exact ⟨fun hh => absurd hh (by decide), fun hh => absurd ⟨hh.1, hh.2.symm⟩ h⟩
  · rw [TCrefresh_status]
    split_ifs
    · intro hh
      exact absurd rfl hh
    · intro _
      rfl

/-- Claim C18: `TCrefresh` never modifies the latch trailer. In both clock modes,
for every pixel buffer, remap table, gamma table and pin map, every byte of the
output buffer at an offset from `pixelsPerStrand * bytesPerPixel` on (the trailer
is the first `bytesPerPixel` of them) is the same after the call as before. -/
theorem TCrefresh_latch_untouched (w : ULongWidth) (env : RefreshEnv)
    (pix : Option (Nat → Nat)) (remap : Option (Nat → Int)) (stats : Option TCstats)
    (st : TCState) (hb : st.bytesPerPixel = 64 ∨ st.bytesPerPixel = 32) (a : Nat)
    (ha : st.pixelsPerStrand * st.bytesPerPixel ≤ a) :
    (TCrefresh w env pix remap stats st).2.1.pixelOutBuffer a = st.pixelOutBuffer a := by
  rw [TCrefresh_out]
  exact renderFrame_beyond w st pix remap hb a ha

/-- Instance of C18 for an odd offset of the latch trailer of the sample
software-clock session. -/
theorem TCrefresh_latch_untouched_witness :
    ((sampleBitbang.bytesPerPixel = 64 ∨ sampleBitbang.bytesPerPixel = 32) ∧
      sampleBitbang.pixelsPerStrand * sampleBitbang.bytesPerPixel ≤ 129) ∧
    (TCrefresh ULongWidth.lp64 sampleEnv (some samplePixels) none none
        sampleBitbang).2.1.pixelOutBuffer 129 = sampleBitbang.pixelOutBuffer 129 :=
  ⟨⟨Or.inl rfl, by decide⟩,
    TCrefresh_latch_untouched ULongWidth.lp64 sampleEnv (some samplePixels) none none
      sampleBitbang (Or.inl rfl) 129 (by decide)⟩

/-! ## The state a successful TCopen leaves -/

/-- The output buffer at the first `FT_Write` of `TCopen`: the latch slot is zero
except for the clock mask at its odd offsets in software-clock mode. -/
theorem latchRendered_out (r : TCState) (s : Nat) (p : Int) (a : Nat) :
    (latchRendered r s p).pixelOutBuffer a =
      if p.toNat * r.bytesPerPixel ≤ a ∧ a < p.toNat * r.bytesPerPixel + r.bytesPerPixel then
        (if r.bytesPerPixel = 64 ∧ (a - p.toNat * r.bytesPerPixel) % 2 = 1
          then r.strandBitMask 7 else 0)
      else r.pixelOutBuffer a := by
  unfold latchRendered
  dsimp only
  by_cases hb : r.bytesPerPixel = 64
  · have hb2 : (64 : Nat) = r.bytesPerPixel := hb.symm
    rw [if_pos hb2, latchClock_apply]
    by_cases h1 : p.toNat * r.bytesPerPixel ≤ a ∧
        a < p.toNat * r.bytesPerPixel + r.bytesPerPixel
    · rw [if_pos h1]
      by_cases h2 : (a - p.toNat * r.bytesPerPixel) % 2 = 1
      · rw [if_pos ⟨h1.1, h1.2, h2⟩, if_pos ⟨hb, h2⟩]
      · rw [if_neg (fun hh => h2 hh.2.2), if_neg (fun hh => h2 hh.2)]
        simp only [bzero, if_pos h1]
    · rw [if_neg (fun hh => h1 ⟨hh.1, hh.2.1⟩), if_neg h1]
      simp only [bzero, if_neg h1]
  · have hb2 : ¬ ((64 : Nat) = r.bytesPerPixel) := fun hh => hb hh.symm
    rw [if_neg hb2]
    by_cases h1 : p.toNat * r.bytesPerPixel ≤ a ∧
        a < p.toNat * r.bytesPerPixel + r.bytesPerPixel
    · rw [if_pos h1, if_neg (fun hh => hb hh.1)]
      simp only [bzero, if_pos h1]
    · rw [if_neg h1]
      simp only [bzero, if_neg h1]

/-- The fields of the library state after a successful `TCopen`. -/
theorem TCopen_ok_fields {K : Type} [LinearOrderedField K] [FloorRing K] (w : ULongWidth)
    (pw : K → K → K) (env : OpenEnv) (s : Nat) (p : Int) (st : TCState)
    (hok : (TCopen w pw env s p st).1 = TC_OK) :
    (TCopen w pw env s p st).2.bytesPerPixel = (if s ≥ 8 then 32 else 64) ∧
    (TCopen w pw env s p st).2.nStrands = (if s > 8 then s - 8 else s) ∧
    (TCopen w pw env s p st).2.pixelsPerStrand = p.toNat ∧
    (TCopen w pw env s p st).2.strandBitMask = st.strandBitMask ∧
    (TCopen w pw env s p st).2.pixelOutBuffer =
      (renderFrame w (latchRendered (openAlloc w env s p st).2 s p) none none).out ∧
    (TCopen w pw env s p st).2.ftdiHandle = true ∧
    (TCopen w pw env s p st).2.pixelCurrentPtr ≠ none ∧
    (TCopen w pw env s p st).2.pixelOutBufferPtr ≠ none := by
  obtain ⟨_, ho, tbl, hst⟩ := TCopen_ok_state w pw env s p st hok
  obtain ⟨f1, f2, f3, f4, _, f6, f7, f8⟩ := TCrefresh_frame w env.refresh none none none
    (latchRendered (openAlloc w env s p st).2 s p)
  obtain ⟨_, _, a3, _, a5⟩ := openAlloc_frame w env s p st
  obtain ⟨o1, o2, o3⟩ := openAlloc_ok w env s p st ho
  have h8 : TC_CBUS_CLOCK = 8 := rfl
  rw [h8] at a5
  rw [hst]
  refine ⟨?_, ?_, ?_, ?_, ?_, ?_, ?_, ?_⟩
  · exact f2.trans a5
  · exact f7
  · exact f8
  · exact f1.trans a3
  · exact TCrefresh_out w env.refresh none none none _
  · exact f6.trans o1
  · exact fun hh => o2 (f4.symm.trans hh)
  · exact fun hh => o3 (f3.symm.trans hh)

/-- With every collaborator succeeding, `TCopen(1, 25)` from the initial state
returns `TC_OK`. -/
theorem TCopen_allOk_status {K : Type} [LinearOrderedField K] [FloorRing K] (w : ULongWidth)
    (pw : K → K → K) : (TCopen w pw allOkEnv 1 25 initialState).1 = TC_OK := by
  rw [TCopen_valid w pw allOkEnv 1 25 initialState (by decide)]
  cases w <;> rfl

/-- Claim C14: a successful `TCopen(s, p)` (so `s` in 1..16 and `p >= 1`) selects the
software clock (`bytesPerPixel = 64`) if and only if `s <= 7` and the hardware
clock (`bytesPerPixel = 32`) if and only if `s >= 8`; it records `nStrands = s`
for `s <= 8` and `nStrands = s - 8` for `s` in 9..16; hence `nStrands` is in 1..8,
and in software-clock mode `nStrands <= 7`, below the index 7 of the clock pin. -/
theorem TCopen_clock_mode {K : Type} [LinearOrderedField K] [FloorRing K] (w : ULongWidth)
    (pw : K → K → K) (env : OpenEnv) (s : Nat) (p : Int) (st : TCState)
    (hok : (TCopen w pw env s p st).1 = TC_OK) :
    (1 ≤ s ∧ s ≤ 16 ∧ 1 ≤ p) ∧
    ((TCopen w pw env s p st).2.bytesPerPixel = 64 ↔ s ≤ 7) ∧
    ((TCopen w pw env s p st).2.bytesPerPixel = 32 ↔ 8 ≤ s) ∧
    (s ≤ 8 → (TCopen w pw env s p st).2.nStrands = s) ∧
    (9 ≤ s → (TCopen w pw env s p st).2.nStrands = s - 8) ∧
    1 ≤ (TCopen w pw env s p st).2.nStrands ∧
    (TCopen w pw env s p st).2.nStrands ≤ 8 ∧
    ((TCopen w pw env s p st).2.bytesPerPixel = 64 →
      (TCopen w pw env s p st).2.nStrands ≤ 7) := by
  obtain ⟨hv, _, _⟩ := TCopen_ok_state w pw env s p st hok
  obtain ⟨hb, hn, _⟩ := TCopen_ok_fields w pw env s p st hok
  rw [hb, hn]
  have h1 : 1 ≤ s := by omega
  have h16 : s ≤ 16 := by omega
  have hp : 1 ≤ p := by omega
  by_cases h8 : s ≥ 8
  · rw [if_pos h8]
    by_cases h9 : s > 8
    · rw [if_pos h9]
      refine ⟨⟨h1, h16, hp⟩, ⟨fun hh => absurd hh (by decide), fun hh => by omega⟩,
        ⟨fun _ => h8, fun _ => rfl⟩, ?_, ?_, ?_, ?_, fun hh => absurd hh (by decide)⟩
      · intro hh; omega
      · intro _; omega
      · omega
      · omega
    · rw [if_neg h9]
      refine ⟨⟨h1, h16, hp⟩, ⟨fun hh => absurd hh (by decide), fun hh => by omega⟩,
        ⟨fun _ => h8, fun _ => rfl⟩, ?_, ?_, ?_, ?_, fun hh => absurd hh (by decide)⟩
      · intro _; omega
      · intro hh; omega
      · omega
      · omega
  · have h9 : ¬ s > 8 := by omega
    rw [if_neg h8, if_neg h9]
    refine ⟨⟨h1, h16, hp⟩, ⟨fun _ => by omega, fun _ => rfl⟩,
      ⟨fun hh => absurd hh (by decide), fun hh => absurd hh h8⟩, ?_, ?_, ?_, ?_, ?_⟩
    · intro _; omega
    · intro hh; omega
    · omega
    · omega
    · intro _; omega

/-- Instance of C14 for `TCopen(1, 25)` from the initial state with every
collaborator succeeding. -/
theorem TCopen_clock_mode_witness :
    (TCopen ULongWidth.lp64 squarePow allOkEnv 1 25 initialState).1 = TC_OK ∧
    ((TCopen ULongWidth.lp64 squarePow allOkEnv 1 25 initialState).2.bytesPerPixel = 64 ↔
      (1 : Nat) ≤ 7) ∧
    (((1 : Nat) ≤ 8 →
      (TCopen ULongWidth.lp64 squarePow allOkEnv 1 25 initialState).2.nStrands = 1)) ∧
    (TCopen ULongWidth.lp64 squarePow allOkEnv 1 25 initialState).2.nStrands ≤ 8 :=
  ⟨TCopen_allOk_status ULongWidth.lp64 squarePow,
    (TCopen_clock_mode ULongWidth.lp64 squarePow allOkEnv 1 25 initialState
      (TCopen_allOk_status ULongWidth.lp64 squarePow)).2.1,
    (TCopen_clock_mode ULongWidth.lp64 squarePow allOkEnv 1 25 initialState
      (TCopen_allOk_status ULongWidth.lp64 squarePow)).2.2.2.1,
    (TCopen_clock_mode ULongWidth.lp64 squarePow allOkEnv 1 25 initialState
      (TCopen_allOk_status ULongWidth.lp64 squarePow)).2.2.2.2.2.2.1⟩

/-- Claim C19: immediately after a successful `TCopen(s, p)`, the latch trailer
(the `bytesPerPixel` bytes of the output buffer from offset `p * bytesPerPixel`)
is all zero in hardware-clock mode, and in software-clock mode is 0 at every even
offset `j` and the clock mask `strandBitMask[7]` at every odd offset `j`. -/
theorem TCopen_latch {K : Type} [LinearOrderedField K] [FloorRing K] (w : ULongWidth)
    (pw : K → K → K) (env : OpenEnv) (s : Nat) (p : Int) (st : TCState)
    (hok : (TCopen w pw env s p st).1 = TC_OK) (j : Nat)
    (hj : j < (TCopen w pw env s p st).2.bytesPerPixel) :
    (TCopen w pw env s p st).2.pixelOutBuffer
        (p.toNat * (TCopen w pw env s p st).2.bytesPerPixel + j) =
      if (TCopen w pw env s p st).2.bytesPerPixel = 64 then
        (if j % 2 = 0 then 0 else (TCopen w pw env s p st).2.strandBitMask 7)
      else 0 := by
  obtain ⟨hb, _, _, hm, ho, _⟩ := TCopen_ok_fields w pw env s p st hok
  obtain ⟨_, _, a3, _, a5⟩ := openAlloc_frame w env s p st
  have h8 : TC_CBUS_CLOCK = 8 := rfl
  rw [h8, ← hb] at a5
  rw [ho, hm]
  generalize (TCopen w pw env s p st).2.bytesPerPixel = bpp at hb hj a5 ⊢
  have hbb : bpp = 64 ∨ bpp = 32 := by
    rw [hb]
    split_ifs
    · exact Or.inr rfl
    · exact Or.inl rfl
  have hlb : (latchRendered (openAlloc w env s p st).2 s p).bytesPerPixel = bpp := a5
  have hlp : (latchRendered (openAlloc w env s p st).2 s p).pixelsPerStrand = p.toNat := rfl
  rw [renderFrame_beyond w _ none none (by rw [hlb]; exact hbb) _
    (by rw [hlb, hlp]; omega), latchRendered_out, a5, a3]
  have hin : p.toNat * bpp ≤ p.toNat * bpp + j ∧ p.toNat * bpp + j < p.toNat * bpp + bpp := by
    omega
  have hsub : p.toNat * bpp + j - p.toNat * bpp = j := by omega
  rw [if_pos hin, hsub]
  by_cases h64 : bpp = 64
  · rw [if_pos h64]
    by_cases hodd : j % 2 = 1
    · rw [if_pos ⟨h64, hodd⟩, if_neg (by omega)]
    · rw [if_neg (fun hh => hodd hh.2), if_pos (by omega)]
  · rw [if_neg h64, if_neg (fun hh => h64 hh.1)]

/-- Instance of C19 for the second latch byte after `TCopen(1, 25)` from the
initial state with every collaborator succeeding. -/
theorem TCopen_latch_witness :
    ((TCopen ULongWidth.lp64 squarePow allOkEnv 1 25 initialState).1 = TC_OK ∧
      1 < (TCopen ULongWidth.lp64 squarePow allOkEnv 1 25 initialState).2.bytesPerPixel) ∧
    (TCopen ULongWidth.lp64 squarePow allOkEnv 1 25 initialState).2.pixelOutBuffer
        ((25 : Int).toNat *
          (TCopen ULongWidth.lp64 squarePow allOkEnv 1 25 initialState).2.bytesPerPixel + 1) =
      if (TCopen ULongWidth.lp64 squarePow allOkEnv 1 25 initialState).2.bytesPerPixel = 64 then
        (if 1 % 2 = 0 then 0
          else (TCopen ULongWidth.lp64 squarePow allOkEnv 1 25 initialState).2.strandBitMask 7)
      else 0 :=
  have hb : 1 < (TCopen ULongWidth.lp64 squarePow allOkEnv 1 25 initialState).2.bytesPerPixel := by
    rw [(TCopen_ok_fields ULongWidth.lp64 squarePow allOkEnv 1 25 initialState
      (TCopen_allOk_status ULongWidth.lp64 squarePow)).1]
    decide
  ⟨⟨TCopen_allOk_status ULongWidth.lp64 squarePow, hb⟩,
    TCopen_latch ULongWidth.lp64 squarePow allOkEnv 1 25 initialState
      (TCopen_allOk_status ULongWidth.lp64 squarePow) 1 hb⟩

/-! ## TCsetStrandPin on the clock pin -/

/-- Claim C20: `TCsetStrandPin(7, m)` with `m != 0` returns `TC_OK` and sets pin-map
entry 7 to `m`. On an open software-clock session (`bytesPerPixel = 64`, output
buffer allocated) the only other change is in the output buffer: every
odd-offset byte of the latch trailer becomes `m`, every even-offset byte of the
trailer and every byte outside the trailer keeps its value. On a hardware-clock
session, or with no output buffer allocated (closed session), only pin-map entry 7
changes and the buffer keeps every byte. -/
theorem TCsetStrandPin_clock (m : Nat) (st : TCState) (hm : m ≠ 0) :
    (TCsetStrandPin 7 m st).1 = TC_OK ∧
    (TCsetStrandPin 7 m st).2.strandBitMask 7 = m ∧
    (∀ t, t ≠ 7 → (TCsetStrandPin 7 m st).2.strandBitMask t = st.strandBitMask t) ∧
    (st.bytesPerPixel = 64 ∧ st.pixelOutBufferPtr ≠ none →
      (TCsetStrandPin 7 m st).2 =
        { st with
          strandBitMask := (TCsetStrandPin 7 m st).2.strandBitMask,
          pixelOutBuffer := (TCsetStrandPin 7 m st).2.pixelOutBuffer } ∧
      ∀ a, (TCsetStrandPin 7 m st).2.pixelOutBuffer a =
        if st.pixelsPerStrand * 64 ≤ a ∧ a < st.pixelsPerStrand * 64 + 64 ∧
            (a - st.pixelsPerStrand * 64) % 2 = 1
        then m else st.pixelOutBuffer a) ∧
    (st.bytesPerPixel ≠ 64 ∨ st.pixelOutBufferPtr = none →
      (TCsetStrandPin 7 m st).2 =
        { st with strandBitMask := (TCsetStrandPin 7 m st).2.strandBitMask }) := by
  have hv : ¬ ((7 : Int) < 0 ∨ (7 : Int) > 7 ∨ m = 0) := by
    rintro (h | h | h)
    · exact absurd h (by decide)
    · exact absurd h (by decide)
    · exact hm h
  have h7 : (7 : Int).toNat = 7 := rfl
  by_cases hc : st.bytesPerPixel = 64 ∧ (7 : Int) = 7 ∧ st.pixelOutBufferPtr.isSome = true
  · have he : TCsetStrandPin 7 m st =
        (TC_OK,
          { st with
            strandBitMask := store st.strandBitMask 7 m,
            pixelOutBuffer :=
              latchClock st.bytesPerPixel (st.pixelsPerStrand * st.bytesPerPixel) m
                st.pixelOutBuffer }) := by
      rw [TCsetStrandPin, if_neg hv]
      dsimp only
      rw [if_pos hc, h7]
    rw [he]
    refine ⟨rfl, by simp [store], fun t ht => by simp [store, ht], ?_, ?_⟩
    · intro _
      refine ⟨rfl, fun a => ?_⟩
      dsimp only
      rw [latchClock_apply, hc.1]
    · rintro (h | h)
      · exact absurd hc.1 h
      · rw [h] at hc
        exact absurd hc.2.2 (by decide)
  · have he : TCsetStrandPin 7 m st =
        (TC_OK, { st with strandBitMask := store st.strandBitMask 7 m }) := by
      rw [TCsetStrandPin, if_neg hv]
      dsimp only
      rw [if_neg hc, h7]
    rw [he]
    refine ⟨rfl, by simp [store], fun t ht => by simp [store, ht], ?_, fun _ => rfl⟩
    rintro ⟨h1, h2⟩
    exact absurd ⟨h1, rfl, Option.isSome_iff_ne_none.mpr h2⟩ hc

/-- Instance of C20 for the sample software-clock session and the pin DTR. -/
theorem TCsetStrandPin_clock_witness :
    TC_FTDI_DTR ≠ 0 ∧
    (TCsetStrandPin 7 TC_FTDI_DTR sampleBitbang).1 = TC_OK ∧
    (TCsetStrandPin 7 TC_FTDI_DTR sampleBitbang).2.strandBitMask 7 = TC_FTDI_DTR ∧
    (TCsetStrandPin 7 TC_FTDI_DTR sampleBitbang).2.pixelOutBuffer 129 = TC_FTDI_DTR ∧
    (TCsetStrandPin 7 TC_FTDI_DTR sampleBitbang).2.pixelOutBuffer 130 =
      sampleBitbang.pixelOutBuffer 130 :=
  ⟨by decide,
    (TCsetStrandPin_clock TC_FTDI_DTR sampleBitbang (by decide)).1,
    (TCsetStrandPin_clock TC_FTDI_DTR sampleBitbang (by decide)).2.1,
    ((TCsetStrandPin_clock TC_FTDI_DTR sampleBitbang (by decide)).2.2.2.1
      ⟨rfl, by decide⟩).2 129,
    ((TCsetStrandPin_clock TC_FTDI_DTR sampleBitbang (by decide)).2.2.2.1
      ⟨rfl, by decide⟩).2 130⟩

/-! ## TCopen: the failure exits -/

/-- With valid arguments, a status of `openAlloc` other than `TC_OK` is returned as
it is, together with the state `openAlloc` left. -/
theorem TCopen_openAlloc_exit {K : Type} [LinearOrderedField K] [FloorRing K] (w : ULongWidth)
    (pw : K → K → K) (env : OpenEnv) (s : Nat) (p : Int) (st : TCState)
    (hv : ¬ (s < 1 ∨ s > 16 ∨ p < 1)) (h : (openAlloc w env s p st).1 ≠ TC_OK) :
    TCopen w pw env s p st = openAlloc w env s p st := by
  rw [TCopen_valid w pw env s p st hv, if_pos h]

theorem append_three {α : Type} (l : List α) (a b c : α) :
    l ++ [a] ++ [b] ++ [c] = l ++ [a, b, c] := by
  simp

theorem append_five {α : Type} (l : List α) (a b c d e : α) :
    l ++ [a] ++ [b] ++ [c] ++ [d] ++ [e] = l ++ [a, b, c, d, e] := by
  simp

/-- The exit of `openAlloc` when `malloc` fails: only `pixelCurrent` is set to NULL. -/
theorem openAlloc_malloc_fail (w : ULongWidth) (env : OpenEnv) (s : Nat) (p : Int) (st : TCState)
    (h : env.mallocOk = false) :
    (openAlloc w env s p st).1 = TC_ERR_MALLOC ∧
    (openAlloc w env s p st).2.pixelCurrentPtr = none ∧
    (openAlloc w env s p st).2.ftdiHandle = st.ftdiHandle ∧
    (openAlloc w env s p st).2.pixelOutBufferPtr = st.pixelOutBufferPtr ∧
    ∃ n, (openAlloc w env s p st).2.calls = st.calls ++ [Call.malloc n] := by
  unfold openAlloc
  rw [h]
  exact ⟨rfl, rfl, rfl, rfl, _, rfl⟩

/-- The exit of `openAlloc` when `FT_Open` fails. -/
theorem openAlloc_open_fail (w : ULongWidth) (env : OpenEnv) (s : Nat) (p : Int) (st : TCState)
    (h1 : env.mallocOk = true) (h2 : env.openOk = false) :
    (openAlloc w env s p st).1 = TC_ERR_OPEN ∧
    (openAlloc w env s p st).2.pixelCurrentPtr = none ∧
    (openAlloc w env s p st).2.ftdiHandle = false ∧
    (openAlloc w env s p st).2.pixelOutBufferPtr = none ∧
    ∃ n, (openAlloc w env s p st).2.calls =
      st.calls ++ [Call.malloc n, Call.FT_Open, Call.free] := by
  unfold openAlloc
  rw [h1, h2]
  exact ⟨rfl, rfl, rfl, rfl, _, append_three _ _ _ _⟩

/-- The exit of `openAlloc` when `FT_SetBitMode` fails. -/
theorem openAlloc_mode_fail (w : ULongWidth) (env : OpenEnv) (s : Nat) (p : Int) (st : TCState)
    (h1 : env.mallocOk = true) (h2 : env.openOk = true) (h3 : env.bitModeOk = false) :
    (openAlloc w env s p st).1 = TC_ERR_MODE ∧
    (openAlloc w env s p st).2.pixelCurrentPtr = none ∧
    (openAlloc w env s p st).2.ftdiHandle = false ∧
    (openAlloc w env s p st).2.pixelOutBufferPtr = none ∧
    ∃ n, (openAlloc w env s p st).2.calls =
      st.calls ++ [Call.malloc n, Call.FT_Open, Call.FT_SetBitMode, Call.FT_Close, Call.free] := by
  unfold openAlloc
  rw [h1, h2, h3]
  exact ⟨rfl, rfl, rfl, rfl, _, append_five _ _ _ _ _ _⟩

/-- The handle and the output-buffer pointer after a successful `TCopen(1, 25)` from
the initial state. -/
theorem openedOnce_fields :
    openedOnce.ftdiHandle = true ∧ openedOnce.pixelOutBufferPtr = some 1664 ∧
    openedOnce.pixelCurrentPtr = some 25 := by
  obtain ⟨_, _, tbl, hst⟩ := TCopen_ok_state ULongWidth.lp64 squarePow allOkEnv 1 25
    initialState (TCopen_allOk_status ULongWidth.lp64 squarePow)
  obtain ⟨_, _, f3, f4, _, f6, _, _⟩ := TCrefresh_frame ULongWidth.lp64 allOkEnv.refresh
    none none none (latchRendered (openAlloc ULongWidth.lp64 allOkEnv 1 25 initialState).2 1 25)
  rw [openedOnce, hst]
  exact ⟨f6.trans rfl, f3.trans rfl, f4.trans rfl⟩

/-- The library after a second `TCopen` in which `malloc` fails: the handle is
still open and `pixelOutBuffer` still set, only `pixelCurrent` is NULL. -/
theorem reopenedMallocFail_fields :
    (TCopen ULongWidth.lp64 squarePow mallocFailEnv 1 25 openedOnce).1 = TC_ERR_MALLOC ∧
    reopenedMallocFail.ftdiHandle = true ∧
    reopenedMallocFail.pixelOutBufferPtr = some 1664 ∧
    reopenedMallocFail.pixelCurrentPtr = none := by
  obtain ⟨m1, m2, m3, m4, _⟩ := openAlloc_malloc_fail ULongWidth.lp64 mallocFailEnv 1 25 openedOnce rfl
  obtain ⟨o1, o2, _⟩ := openedOnce_fields
  have he : TCopen ULongWidth.lp64 squarePow mallocFailEnv 1 25 openedOnce =
      openAlloc ULongWidth.lp64 mallocFailEnv 1 25 openedOnce :=
    TCopen_openAlloc_exit ULongWidth.lp64 squarePow mallocFailEnv 1 25 openedOnce (by decide)
      (by rw [m1]; decide)
  rw [reopenedMallocFail, he]
  exact ⟨m1, m3.trans o1, m4.trans o2, m2⟩

/-- Claim C11, refuted as worded: after a successful `TCopen(1, 25)`, a second
`TCopen(1, 25)` in which `malloc` fails returns `TC_ERR_MALLOC` with the transport
handle still open and `pixelOutBuffer` still set: the session is not closed. -/
theorem TCopen_malloc_failure_counterexample :
    (TCopen ULongWidth.lp64 squarePow allOkEnv 1 25 initialState).1 = TC_OK ∧
    (TCopen ULongWidth.lp64 squarePow mallocFailEnv 1 25 openedOnce).1 = TC_ERR_MALLOC ∧
    (TCopen ULongWidth.lp64 squarePow mallocFailEnv 1 25 openedOnce).2.ftdiHandle = true ∧
    (TCopen ULongWidth.lp64 squarePow mallocFailEnv 1 25 openedOnce).2.pixelOutBufferPtr =
      some 1664 :=
  ⟨TCopen_allOk_status ULongWidth.lp64 squarePow, reopenedMallocFail_fields.1,
    reopenedMallocFail_fields.2.1, reopenedMallocFail_fields.2.2.1⟩

/-- Claim C11, amended: with valid `s` and `p`, if the allocation, the device open
or the bit-mode step fails, `TCopen` returns `TC_ERR_MALLOC`, `TC_ERR_OPEN` or
`TC_ERR_MODE` respectively (the first failing step decides) with `pixelCurrent`
null and `nStrands`, `pixelsPerStrand` unchanged. After a failed device open or
bit-mode step the handle is null (closed if it had been opened) and
`pixelOutBuffer` is null (the block freed). After a failed allocation the handle
and `pixelOutBuffer` are what they were before the call, hence null when
`TCopen` was called on a closed session. -/
theorem TCopen_fatal_failure {K : Type} [LinearOrderedField K] [FloorRing K] (w : ULongWidth)
    (pw : K → K → K) (env : OpenEnv) (s : Nat) (p : Int) (st : TCState)
    (hv : 1 ≤ s ∧ s ≤ 16 ∧ 1 ≤ p) :
    (env.mallocOk = false →
      (TCopen w pw env s p st).1 = TC_ERR_MALLOC ∧
      (TCopen w pw env s p st).2.pixelCurrentPtr = none ∧
      (TCopen w pw env s p st).2.ftdiHandle = st.ftdiHandle ∧
      (TCopen w pw env s p st).2.pixelOutBufferPtr = st.pixelOutBufferPtr ∧
      ∃ n, (TCopen w pw env s p st).2.calls = st.calls ++ [Call.malloc n]) ∧
    (env.mallocOk = true → env.openOk = false →
      (TCopen w pw env s p st).1 = TC_ERR_OPEN ∧
      (TCopen w pw env s p st).2.pixelCurrentPtr = none ∧
      (TCopen w pw env s p st).2.ftdiHandle = false ∧
      (TCopen w pw env s p st).2.pixelOutBufferPtr = none ∧
      ∃ n, (TCopen w pw env s p st).2.calls =
        st.calls ++ [Call.malloc n, Call.FT_Open, Call.free]) ∧
    (env.mallocOk = true → env.openOk = true → env.bitModeOk = false →
      (TCopen w pw env s p st).1 = TC_ERR_MODE ∧
      (TCopen w pw env s p st).2.pixelCurrentPtr = none ∧
      (TCopen w pw env s p st).2.ftdiHandle = false ∧
      (TCopen w pw env s p st).2.pixelOutBufferPtr = none ∧
      ∃ n, (TCopen w pw env s p st).2.calls =
        st.calls ++ [Call.malloc n, Call.FT_Open, Call.FT_SetBitMode, Call.FT_Close,
          Call.free]) ∧
    (env.mallocOk = false ∨ env.openOk = false ∨ env.bitModeOk = false →
      (TCopen w pw env s p st).2.nStrands = st.nStrands ∧
      (TCopen w pw env s p st).2.pixelsPerStrand = st.pixelsPerStrand) := by
  have hv2 : ¬ (s < 1 ∨ s > 16 ∨ p < 1) := by omega
  refine ⟨?_, ?_, ?_, ?_⟩
  · intro h
    have hm := openAlloc_malloc_fail w env s p st h
    rw [TCopen_openAlloc_exit w pw env s p st hv2 (by rw [hm.1]; decide)]
    exact hm
  · intro h1 h2
    have hm := openAlloc_open_fail w env s p st h1 h2
    rw [TCopen_openAlloc_exit w pw env s p st hv2 (by rw [hm.1]; decide)]
    exact hm
  · intro h1 h2 h3
    have hm := openAlloc_mode_fail w env s p st h1 h2 h3
    rw [TCopen_openAlloc_exit w pw env s p st hv2 (by rw [hm.1]; decide)]
    exact hm
  · intro h
    have hne : (openAlloc w env s p st).1 ≠ TC_OK := by
      rw [openAlloc_status]
      revert h
      cases env.mallocOk <;> cases env.openOk <;> cases env.bitModeOk <;>
        cases env.baudRateOk <;> cases env.divisorOk <;> decide
    rw [TCopen_openAlloc_exit w pw env s p st hv2 hne]
    exact ⟨(openAlloc_frame w env s p st).1, (openAlloc_frame w env s p st).2.1⟩

/-- Instance of the amended C11: `TCopen(1, 25)` from the initial state with a
failing `malloc` leaves the library closed. -/
theorem TCopen_fatal_failure_witness :
    ((1 : Nat) ≤ 1 ∧ (1 : Nat) ≤ 16 ∧ (1 : Int) ≤ 25) ∧
    (TCopen ULongWidth.lp64 squarePow mallocFailEnv 1 25 initialState).1 = TC_ERR_MALLOC ∧
    (TCopen ULongWidth.lp64 squarePow mallocFailEnv 1 25 initialState).2.pixelCurrentPtr = none ∧
    (TCopen ULongWidth.lp64 squarePow mallocFailEnv 1 25 initialState).2.ftdiHandle = false ∧
    (TCopen ULongWidth.lp64 squarePow mallocFailEnv 1 25 initialState).2.pixelOutBufferPtr =
      none :=
  ⟨by decide,
    ((TCopen_fatal_failure ULongWidth.lp64 squarePow mallocFailEnv 1 25 initialState
      (by decide)).1 rfl).1,
    ((TCopen_fatal_failure ULongWidth.lp64 squarePow mallocFailEnv 1 25 initialState
      (by decide)).1 rfl).2.1,
    ((TCopen_fatal_failure ULongWidth.lp64 squarePow mallocFailEnv 1 25 initialState
      (by decide)).1 rfl).2.2.1,
    ((TCopen_fatal_failure ULongWidth.lp64 squarePow mallocFailEnv 1 25 initialState
      (by decide)).1 rfl).2.2.2.1⟩

/-- The exit of `TCopen` when the write of the latch fails: the state is the one
at the write, as it is. -/
theorem TCopen_latch_write_exit {K : Type} [LinearOrderedField K] [FloorRing K]
    (w : ULongWidth) (pw : K → K → K) (env : OpenEnv) (s : Nat) (p : Int) (st : TCState)
    (hv : ¬ (s < 1 ∨ s > 16 ∨ p < 1)) (ho : (openAlloc w env s p st).1 = TC_OK)
    (hw : env.latchWrite.ok = false ∨
      (latchRendered (openAlloc w env s p st).2 s p).bytesPerPixel ≠ env.latchWrite.out) :
    TCopen w pw env s p st = (TC_ERR_WRITE, latchRendered (openAlloc w env s p st).2 s p) := by
  rw [TCopen_valid w pw env s p st hv, if_neg (not_not.mpr ho), if_pos hw]

/-- The exit of `TCopen` when the initial `TCrefresh` fails: the state is the one
`TCrefresh` left, as it is. -/
theorem TCopen_frame_write_exit {K : Type} [LinearOrderedField K] [FloorRing K]
    (w : ULongWidth) (pw : K → K → K) (env : OpenEnv) (s : Nat) (p : Int) (st : TCState)
    (hv : ¬ (s < 1 ∨ s > 16 ∨ p < 1)) (ho : (openAlloc w env s p st).1 = TC_OK)
    (hw : ¬ (env.latchWrite.ok = false ∨
      (latchRendered (openAlloc w env s p st).2 s p).bytesPerPixel ≠ env.latchWrite.out))
    (hr : (TCrefresh w env.refresh none none none
      (latchRendered (openAlloc w env s p st).2 s p)).1 ≠ TC_OK) :
    TCopen w pw env s p st =
      ((TCrefresh w env.refresh none none none
          (latchRendered (openAlloc w env s p st).2 s p)).1,
        (TCrefresh w env.refresh none none none
          (latchRendered (openAlloc w env s p st).2 s p)).2.1) := by
  rw [TCopen_valid w pw env s p st hv, if_neg (not_not.mpr ho), if_neg hw, if_pos hr]

/-- Claim C12, evaluated on the code: `TCopen(1, 25)` from the initial state, with
every step succeeding up to the write of the latch and that write failing, returns
`TC_ERR_WRITE` with the transport handle still open, both buffer pointers still
set, `nStrands = 1` and `pixelsPerStrand = 25`, and with no `FT_Close` and no
`free` among its calls. The same holds when the latch is written and the write of
the initial frame is partial (64 of 1664 bytes). -/
theorem TCopen_write_failure_state {K : Type} [LinearOrderedField K] [FloorRing K]
    (w : ULongWidth) (pw : K → K → K) :
    ((TCopen w pw latchFailEnv 1 25 initialState).1 = TC_ERR_WRITE ∧
      (TCopen w pw latchFailEnv 1 25 initialState).2.ftdiHandle = true ∧
      (TCopen w pw latchFailEnv 1 25 initialState).2.pixelCurrentPtr = some 25 ∧
      (TCopen w pw latchFailEnv 1 25 initialState).2.pixelOutBufferPtr = some 1664 ∧
      (TCopen w pw latchFailEnv 1 25 initialState).2.nStrands = 1 ∧
      (TCopen w pw latchFailEnv 1 25 initialState).2.pixelsPerStrand = 25 ∧
      ∃ latch, (TCopen w pw latchFailEnv 1 25 initialState).2.calls =
        [Call.malloc 1864, Call.FT_Open, Call.FT_SetBitMode, Call.FT_SetDivisor,
          Call.FT_SetBaudRate, Call.FT_Purge, Call.FT_Write latch]) ∧
    ((TCopen w pw frameFailEnv 1 25 initialState).1 = TC_ERR_WRITE ∧
      (TCopen w pw frameFailEnv 1 25 initialState).2.ftdiHandle = true ∧
      (TCopen w pw frameFailEnv 1 25 initialState).2.pixelCurrentPtr = some 25 ∧
      (TCopen w pw frameFailEnv 1 25 initialState).2.pixelOutBufferPtr = some 1664 ∧
      (TCopen w pw frameFailEnv 1 25 initialState).2.nStrands = 1 ∧
      (TCopen w pw frameFailEnv 1 25 initialState).2.pixelsPerStrand = 25 ∧
      ∃ latch frame, (TCopen w pw frameFailEnv 1 25 initialState).2.calls =
        [Call.malloc 1864, Call.FT_Open, Call.FT_SetBitMode, Call.FT_SetDivisor,
          Call.FT_SetBaudRate, Call.FT_Purge, Call.FT_Write latch, Call.gettimeofday,
          Call.FT_Write frame]) := by
  have e1 := openAlloc_width w latchFailEnv initialState
  have e2 := openAlloc_width w frameFailEnv initialState
  constructor
  · rw [TCopen_latch_write_exit w pw latchFailEnv 1 25 initialState (by decide)
      (by rw [e1]; rfl) (Or.inl rfl), e1]
    exact ⟨rfl, rfl, rfl, rfl, rfl, rfl, _, rfl⟩
  · have hr : (TCrefresh w frameFailEnv.refresh none none none
        (latchRendered (openAlloc ULongWidth.lp64 frameFailEnv 1 25 initialState).2 1 25)).1 =
          TC_ERR_WRITE := by
      rw [TCrefresh_status]
      rfl
    obtain ⟨_, _, f3, f4, _, f6, f7, f8⟩ := TCrefresh_frame w frameFailEnv.refresh none none none
      (latchRendered (openAlloc ULongWidth.lp64 frameFailEnv 1 25 initialState).2 1 25)
    have hc := TCrefresh_calls w frameFailEnv.refresh none none none
      (latchRendered (openAlloc ULongWidth.lp64 frameFailEnv 1 25 initialState).2 1 25)
    rw [TCopen_frame_write_exit w pw frameFailEnv 1 25 initialState (by decide)
      (by rw [e2]; rfl) (by rw [e2]; decide) (by rw [e2, hr]; decide), e2]
    refine ⟨hr, f6.trans rfl, f4.trans rfl, f3.trans rfl, f7.trans rfl, f8.trans rfl, ?_⟩
    exact ⟨_, _, hc.trans rfl⟩

/-! ## TCrefresh on a closed session -/

/-- Claim C16, refuted as worded: `TCrefresh` on the never-opened library, and on
the sample session after `TCclose`, with a transport that rejects the write,
returns `TC_ERR_WRITE`, not `TC_ERR_VALUE`, and has called `FT_Write`. -/
theorem TCrefresh_closed_session_counterexample :
    ((TCrefresh ULongWidth.lp64 rejectEnv none none none initialState).1 = TC_ERR_WRITE ∧
      ∃ data, (TCrefresh ULongWidth.lp64 rejectEnv none none none initialState).2.1.calls =
        [Call.gettimeofday, Call.FT_Write data]) ∧
    ((TCrefresh ULongWidth.lp64 rejectEnv (some samplePixels) none none
        (TCclose sampleBitbang)).1 = TC_ERR_WRITE ∧
      ∃ data, (TCrefresh ULongWidth.lp64 rejectEnv (some samplePixels) none none
          (TCclose sampleBitbang)).2.1.calls =
        [Call.FT_Close, Call.free, Call.gettimeofday, Call.FT_Write data]) :=
  ⟨⟨rfl, _, rfl⟩, ⟨rfl, _, rfl⟩⟩

/-- Claim C16, amended: `TCrefresh` invoked on a closed session (never opened, or
after `TCclose`: `nStrands = pixelsPerStrand = 0`) does not detect the error. It
changes no byte of the output buffer and no current estimate, but it does call
the transport, with one write of `bytesPerPixel` bytes, and returns `TC_OK` or
`TC_ERR_WRITE` as that write turns out, never `TC_ERR_VALUE`. -/
theorem TCrefresh_closed_session (w : ULongWidth) (env : RefreshEnv)
    (pix : Option (Nat → Nat)) (remap : Option (Nat → Int)) (stats : Option TCstats)
    (st : TCState) (hn : st.nStrands = 0) (hp : st.pixelsPerStrand = 0) :
    (TCrefresh w env pix remap stats st).2.1.pixelOutBuffer = st.pixelOutBuffer ∧
    (TCrefresh w env pix remap stats st).2.1.pixelCurrent = st.pixelCurrent ∧
    (TCrefresh w env pix remap stats st).2.1.calls =
      st.calls ++ [Call.gettimeofday,
        Call.FT_Write (bytesAt st.pixelOutBuffer 0 st.bytesPerPixel)] ++
        (if stats.isSome then [Call.gettimeofday] else []) ∧
    (bytesAt st.pixelOutBuffer 0 st.bytesPerPixel).length = st.bytesPerPixel ∧
    (TCrefresh w env pix remap stats st).1 =
      (if env.write.ok = true ∧ st.bytesPerPixel = env.write.out then TC_OK
        else TC_ERR_WRITE) ∧
    (TCrefresh w env pix remap stats st).1 ≠ TC_ERR_VALUE := by
  obtain ⟨ho, hc⟩ := renderFrame_closed w st pix remap hn hp
  have hlen : (st.pixelsPerStrand + 1) * st.bytesPerPixel = st.bytesPerPixel := by
    rw [hp, Nat.zero_add, Nat.one_mul]
  have hs := TCrefresh_status w env pix remap stats st
  rw [hlen] at hs
  refine ⟨?_, ?_, ?_, bytesAt_length _ _ _, hs, ?_⟩
  · rw [TCrefresh_out, ho]
  · rw [TCrefresh_cur, hc]
  · rw [TCrefresh_calls, ho, hlen]
  · rw [hs]
    split_ifs <;> decide

/-- Instance of the amended C16 for the sample software-clock session after
`TCclose`, with a transport that accepts 192 bytes. -/
theorem TCrefresh_closed_session_witness :
    ((TCclose sampleBitbang).nStrands = 0 ∧ (TCclose sampleBitbang).pixelsPerStrand = 0) ∧
    (TCrefresh ULongWidth.lp64 sampleEnv (some samplePixels) none none
        (TCclose sampleBitbang)).2.1.pixelOutBuffer = (TCclose sampleBitbang).pixelOutBuffer ∧
    (TCrefresh ULongWidth.lp64 sampleEnv (some samplePixels) none none
        (TCclose sampleBitbang)).1 ≠ TC_ERR_VALUE :=
  ⟨⟨rfl, rfl⟩,
    (TCrefresh_closed_session ULongWidth.lp64 sampleEnv (some samplePixels) none none
      (TCclose sampleBitbang) rfl rfl).1,
    (TCrefresh_closed_session ULongWidth.lp64 sampleEnv (some samplePixels) none none
      (TCclose sampleBitbang) rfl rfl).2.2.2.2.2⟩

/-! ## TCclose -/

/-- `TCclose` leaves `pixelOutBuffer` alone when `pixelCurrent` is NULL. -/
theorem TCclose_outPtr (st : TCState) (h : st.pixelCurrentPtr = none) :
    (TCclose st).pixelOutBufferPtr = st.pixelOutBufferPtr := by
  unfold TCclose
  cases hh : st.ftdiHandle <;> simp [h]

/-- Claim C17, refuted as worded ("from any state"): after a successful `TCopen`,
a second `TCopen` in which `malloc` fails, and `TCclose`, the pointer
`pixelOutBuffer` is not null. -/
theorem TCclose_any_state_counterexample :
    (TCopen ULongWidth.lp64 squarePow allOkEnv 1 25 initialState).1 = TC_OK ∧
    (TCopen ULongWidth.lp64 squarePow mallocFailEnv 1 25 openedOnce).1 = TC_ERR_MALLOC ∧
    (TCclose reopenedMallocFail).pixelOutBufferPtr = some 1664 :=
  ⟨TCopen_allOk_status ULongWidth.lp64 squarePow, reopenedMallocFail_fields.1,
    (TCclose_outPtr reopenedMallocFail reopenedMallocFail_fields.2.2.2).trans
      reopenedMallocFail_fields.2.2.1⟩

/-- Claim C17, amended: `TCclose` is idempotent. From any state, the state after
`TCclose; TCclose` equals the state after a single `TCclose` (handle null,
`pixelCurrent` null, `nStrands = pixelsPerStrand = 0`, gamma table and pin map
untouched), and the second call performs no transport close and no free.
`pixelOutBuffer` is null after `TCclose` provided that before the call it was
null whenever `pixelCurrent` was. -/
theorem TCclose_idempotent (st : TCState) :
    TCclose (TCclose st) = TCclose st ∧
    (TCclose (TCclose st)).calls = (TCclose st).calls ∧
    (TCclose st).ftdiHandle = false ∧
    (TCclose st).pixelCurrentPtr = none ∧
    ((st.pixelCurrentPtr = none → st.pixelOutBufferPtr = none) →
      (TCclose st).pixelOutBufferPtr = none) ∧
    (TCclose st).nStrands = 0 ∧
    (TCclose st).pixelsPerStrand = 0 ∧
    (TCclose st).rgbGamma = st.rgbGamma ∧
    (TCclose st).strandBitMask = st.strandBitMask := by
  have hh : (TCclose st).ftdiHandle = false := by
    unfold TCclose
    cases h1 : st.ftdiHandle <;> cases h2 : st.pixelCurrentPtr <;> simp [h1, h2]
  have hc : (TCclose st).pixelCurrentPtr = none := by
    unfold TCclose
    cases h1 : st.ftdiHandle <;> cases h2 : st.pixelCurrentPtr <;> simp [h2]
  have hi : TCclose (TCclose st) = TCclose st := by
    have h0 : TCclose (TCclose st) =
        { TCclose st with nStrands := 0, pixelsPerStrand := 0 } := by
      rw [TCclose]
      simp only [hh, hc, Option.isSome_none, Bool.false_eq_true, if_false]
    rw [h0]
    rfl
  refine ⟨hi, by rw [hi], hh, hc, ?_, rfl, rfl, ?_, ?_⟩
  · intro hinv
    cases h2 : st.pixelCurrentPtr with
    | none => rw [TCclose_outPtr st h2, hinv h2]
    | some n =>
      unfold TCclose
      cases h1 : st.ftdiHandle <;> simp [h2]
  · unfold TCclose
    cases h1 : st.ftdiHandle <;> cases h2 : st.pixelCurrentPtr <;> simp [h2]
  · unfold TCclose
    cases h1 : st.ftdiHandle <;> cases h2 : st.pixelCurrentPtr <;> simp [h2]

/-- Instance of the amended C17 for the sample software-clock session: the first
`TCclose` closes and frees, the second adds no call. -/
theorem TCclose_idempotent_witness :
    TCclose (TCclose sampleBitbang) = TCclose sampleBitbang ∧
    (TCclose sampleBitbang).calls = [Call.FT_Close, Call.free] ∧
    (TCclose (TCclose sampleBitbang)).calls = [Call.FT_Close, Call.free] ∧
    (TCclose sampleBitbang).pixelOutBufferPtr = none :=
  ⟨(TCclose_idempotent sampleBitbang).1, rfl,
    (TCclose_idempotent sampleBitbang).2.1.trans rfl,
    (TCclose_idempotent sampleBitbang).2.2.2.2.1 (fun h => absurd h (by decide))⟩

/-! ## TCrefresh: the statistics update field by field -/

theorem TCrefreshStats_eq (w : ULongWidth) (env : RefreshEnv) (pix : Option (Nat → Nat))
    (remap : Option (Nat → Int)) (stats : TCstats) (st : TCState) :
    TCrefreshStats w env pix remap stats st =
      updateStats w st (renderFrame w st pix remap).cur
        ((st.pixelsPerStrand + 1) * st.bytesPerPixel) (env.time1 % 2 ^ w.bits)
        (env.time2 % 2 ^ w.bits) stats := rfl

/-- A division behind a non-zero test of its divisor yields a value. -/
theorem guarded_fdiv (n : Nat) (q : ℚ) (z : Option ℚ) :
    (if n ≠ 0 then fdiv (some q) (n : ℚ) else z) = (if n ≠ 0 then some (q / (n : ℚ)) else z) := by
  by_cases h : n ≠ 0
  · rw [if_pos h, if_pos h]
    simp [fdiv, h]
  · rw [if_neg h, if_neg h]

/-- The fields that the statistics update sets only when `frames` is non-zero on
entry. -/
theorem updateStats_ne (w : ULongWidth) (st : TCState) (cur : Nat → ℚ) (len time1 time2 : Nat)
    (stats : TCstats) (h : stats.frames ≠ 0) :
    (updateStats w st cur len time1 time2 stats).usecFrame =
      (time2 + 2 ^ w.bits - stats.reserved % 2 ^ w.bits) % 2 ^ w.bits ∧
    (updateStats w st cur len time1 time2 stats).fps =
      (if (updateStats w st cur len time1 time2 stats).usecFrame ≠ 0
        then some (1000000 / ((updateStats w st cur len time1 time2 stats).usecFrame : ℚ))
        else some 0) ∧
    (updateStats w st cur len time1 time2 stats).usecFrameTotal =
      (if (updateStats w st cur len time1 time2 stats).usecFrame ≠ 0
        then (stats.usecFrameTotal + (updateStats w st cur len time1 time2 stats).usecFrame)
          % 2 ^ w.bits
        else stats.usecFrameTotal) ∧
    (updateStats w st cur len time1 time2 stats).fpsAvg =
      (if (updateStats w st cur len time1 time2 stats).usecFrameTotal ≠ 0
        then some ((stats.frames : ℚ) * 1000000 /
          ((updateStats w st cur len time1 time2 stats).usecFrameTotal : ℚ))
        else stats.fpsAvg) ∧
    (updateStats w st cur len time1 time2 stats).mah =
      stats.ma.map (fun x =>
        x * ((updateStats w st cur len time1 time2 stats).usecFrame : ℚ) / (1000000 * 60 * 60)) ∧
    (updateStats w st cur len time1 time2 stats).mahTotal =
      stats.mahTotal.bind (fun t =>
        (updateStats w st cur len time1 time2 stats).mah.map (fun x => t + x)) ∧
    (updateStats w st cur len time1 time2 stats).maAvg =
      fdiv ((updateStats w st cur len time1 time2 stats).mahTotal.map
          (fun t => t * (1000000 * 60 * 60)))
        ((updateStats w st cur len time1 time2 stats).usecFrameTotal : ℚ) := by
  have e : ∀ (a b : TCstats), (if stats.frames ≠ 0 then a else b) = a := fun a b => if_pos h
  unfold updateStats
  dsimp only
  rw [e]
  exact ⟨rfl, guarded_fdiv _ _ _, rfl, guarded_fdiv _ _ _, rfl, rfl, rfl⟩

/-- On the first frame (`frames` zero on entry) the frame-time figures keep their
values. -/
theorem updateStats_zero (w : ULongWidth) (st : TCState) (cur : Nat → ℚ) (len time1 time2 : Nat)
    (stats : TCstats) (h : stats.frames = 0) :
    (updateStats w st cur len time1 time2 stats).usecFrame = stats.usecFrame ∧
    (updateStats w st cur len time1 time2 stats).fps = stats.fps ∧
    (updateStats w st cur len time1 time2 stats).usecFrameTotal = stats.usecFrameTotal ∧
    (updateStats w st cur len time1 time2 stats).fpsAvg = stats.fpsAvg ∧
    (updateStats w st cur len time1 time2 stats).mah = stats.mah ∧
    (updateStats w st cur len time1 time2 stats).mahTotal = stats.mahTotal ∧
    (updateStats w st cur len time1 time2 stats).maAvg = stats.maAvg := by
  have e : ∀ (a b : TCstats), (if stats.frames ≠ 0 then a else b) = b :=
    fun a b => if_neg (not_not.mpr h)
  unfold updateStats
  dsimp only
  rw [e]
  exact ⟨rfl, rfl, rfl, rfl, rfl, rfl, rfl⟩

/-- The fields that the statistics update sets last. -/
theorem updateStats_last (w : ULongWidth) (st : TCState) (cur : Nat → ℚ) (len time1 time2 : Nat)
    (stats : TCstats) :
    (updateStats w st cur len time1 time2 stats).ma =
      some (forLoop (st.nStrands * st.pixelsPerStrand) 1 (fun i acc => acc + cur i)
        (st.nStrands * st.pixelsPerStrand) 0 0) ∧
    (updateStats w st cur len time1 time2 stats).reserved = time2 ∧
    (updateStats w st cur len time1 time2 stats).frames = (stats.frames + 1) % 2 ^ w.bits ∧
    (updateStats w st cur len time1 time2 stats).maMax =
      (if fgt (some (forLoop (st.nStrands * st.pixelsPerStrand) 1 (fun i acc => acc + cur i)
        (st.nStrands * st.pixelsPerStrand) 0 0)) stats.maMax
       then some (forLoop (st.nStrands * st.pixelsPerStrand) 1 (fun i acc => acc + cur i)
        (st.nStrands * st.pixelsPerStrand) 0 0) else stats.maMax) := by
  unfold updateStats
  dsimp only
  by_cases h : stats.frames ≠ 0
  · rw [if_pos h]
    exact ⟨rfl, rfl, rfl, rfl⟩
  · rw [if_neg h]
    exact ⟨rfl, rfl, rfl, rfl⟩

/-- The throughput fields of the statistics update. -/
theorem updateStats_io (w : ULongWidth) (st : TCState) (cur : Nat → ℚ) (len time1 time2 : Nat)
    (stats : TCstats) :
    (updateStats w st cur len time1 time2 stats).bits =
      (if st.bytesPerPixel = 64 then (st.nStrands * len) % 2 ^ 32 / 2
        else (st.nStrands * len) % 2 ^ 32) ∧
    (updateStats w st cur len time1 time2 stats).bitsTotal =
      (stats.bitsTotal + (updateStats w st cur len time1 time2 stats).bits) % 2 ^ w.bits ∧
    (updateStats w st cur len time1 time2 stats).usecIo =
      (time2 + 2 ^ w.bits - time1) % 2 ^ w.bits ∧
    (updateStats w st cur len time1 time2 stats).bps =
      (if (updateStats w st cur len time1 time2 stats).usecIo > 0
        then ulongRate w (updateStats w st cur len time1 time2 stats).bits
          (updateStats w st cur len time1 time2 stats).usecIo
        else some 0) ∧
    (updateStats w st cur len time1 time2 stats).usecIoTotal =
      (if (updateStats w st cur len time1 time2 stats).usecIo > 0
        then (stats.usecIoTotal + (updateStats w st cur len time1 time2 stats).usecIo)
          % 2 ^ w.bits
        else stats.usecIoTotal) ∧
    (updateStats w st cur len time1 time2 stats).bpsAvg =
      (if (updateStats w st cur len time1 time2 stats).usecIoTotal ≠ 0
        then ulongRate w (updateStats w st cur len time1 time2 stats).bitsTotal
          (updateStats w st cur len time1 time2 stats).usecIoTotal
        else (updateStats w st cur len time1 time2 stats).bps) := by
  unfold updateStats
  dsimp only
  by_cases h : stats.frames ≠ 0
  · rw [if_pos h]
    exact ⟨rfl, rfl, rfl, rfl, rfl, rfl⟩
  · rw [if_neg h]
    exact ⟨rfl, rfl, rfl, rfl, rfl, rfl⟩

/-! ## TCsetStrandPin: validation and frame -/

/-- Claim C21: `TCsetStrandPin(strand, bit)` returns `TC_ERR_VALUE` if and only if
`strand < 0` or `strand > 7` or `bit = 0`, and then the whole library state is the
state before the call. Otherwise it returns `TC_OK`, sets `strandBitMask[strand]`
to `bit` and leaves the other pin-map entries, the gamma table, `nStrands`,
`pixelsPerStrand` and every field other than the output buffer unchanged, for
every state, open or closed. -/
theorem TCsetStrandPin_status (strand : Int) (bit : Nat) (st : TCState) :
    ((TCsetStrandPin strand bit st).1 = TC_ERR_VALUE ↔ (strand < 0 ∨ strand > 7 ∨ bit = 0)) ∧
    ((strand < 0 ∨ strand > 7 ∨ bit = 0) → TCsetStrandPin strand bit st = (TC_ERR_VALUE, st)) ∧
    (¬ (strand < 0 ∨ strand > 7 ∨ bit = 0) →
      (TCsetStrandPin strand bit st).1 = TC_OK ∧
      (TCsetStrandPin strand bit st).2.strandBitMask strand.toNat = bit ∧
      (∀ t, t ≠ strand.toNat →
        (TCsetStrandPin strand bit st).2.strandBitMask t = st.strandBitMask t) ∧
      (TCsetStrandPin strand bit st).2.rgbGamma = st.rgbGamma ∧
      (TCsetStrandPin strand bit st).2.nStrands = st.nStrands ∧
      (TCsetStrandPin strand bit st).2.pixelsPerStrand = st.pixelsPerStrand ∧
      (TCsetStrandPin strand bit st).2.bytesPerPixel = st.bytesPerPixel ∧
      (TCsetStrandPin strand bit st).2.ftdiHandle = st.ftdiHandle ∧
      (TCsetStrandPin strand bit st).2.pixelOutBufferPtr = st.pixelOutBufferPtr ∧
      (TCsetStrandPin strand bit st).2.pixelCurrentPtr = st.pixelCurrentPtr ∧
      (TCsetStrandPin strand bit st).2.pixelCurrent = st.pixelCurrent ∧
      (TCsetStrandPin strand bit st).2.calls = st.calls) := by
  by_cases hv : strand < 0 ∨ strand > 7 ∨ bit = 0
  · have he : TCsetStrandPin strand bit st = (TC_ERR_VALUE, st) := by
      rw [TCsetStrandPin, if_pos hv]
    exact ⟨⟨fun _ => hv, fun _ => by rw [he]⟩, fun _ => he, fun h => absurd hv h⟩
  · have hok : (TCsetStrandPin strand bit st).1 = TC_OK := by
      rw [TCsetStrandPin, if_neg hv]
      dsimp only
      split_ifs <;> rfl
    refine ⟨⟨fun h => ?_, fun h => absurd h hv⟩, fun h => absurd h hv, fun _ => ?_⟩
    · rw [hok] at h
      exact absurd h (by decide)
    · refine ⟨hok, ?_⟩
      rw [TCsetStrandPin, if_neg hv]
      dsimp only
      split_ifs
      · exact ⟨by simp [store], fun t ht => by simp [store, ht], rfl, rfl, rfl, rfl, rfl, rfl,
          rfl, rfl, rfl⟩
      · exact ⟨by simp [store], fun t ht => by simp [store, ht], rfl, rfl, rfl, rfl, rfl, rfl,
          rfl, rfl, rfl⟩

/-! ## TCrefresh renders from scratch -/

theorem pixelWord_gamma (st1 st2 : TCState) (hg : st2.rgbGamma = st1.rgbGamma)
    (pix : Option (Nat → Nat)) (m : Int) : pixelWord st2 pix m = pixelWord st1 pix m := by
  unfold pixelWord gammaAt
  rw [hg]

theorem strandBits_config (st1 st2 : TCState) (hb : st2.bytesPerPixel = st1.bytesPerPixel)
    (hp : st2.pixelsPerStrand = st1.pixelsPerStrand)
    (hm : st2.strandBitMask = st1.strandBitMask) (hg : st2.rgbGamma = st1.rgbGamma)
    (pix : Option (Nat → Nat)) (remap : Option (Nat → Int)) (a s : Nat) :
    strandBits st2 pix remap a s = strandBits st1 pix remap a s := by
  unfold strandBits commandWord
  rw [hb, hp, hm, pixelWord_gamma st1 st2 hg]

theorem orUpTo_congr (f g : Nat → Nat) (h : ∀ s, f s = g s) (n : Nat) :
    orUpTo f n = orUpTo g n := by
  have : f = g := funext h
  rw [this]

/-- Claim C22: the pixel region of the output buffer (offsets below
`pixelsPerStrand * bytesPerPixel`) and the current-estimate array (indices below
`nStrands * pixelsPerStrand`) after `TCrefresh` depend only on the call's pixel
buffer and remap table, the gamma table, the pin map, `nStrands`,
`pixelsPerStrand` and the clock mode: two calls in states that agree on these
give equal results, whatever the buffers held before, whatever the other fields
of the two states are and whatever the two write outcomes are. -/
theorem TCrefresh_rerender (w : ULongWidth) (env1 env2 : RefreshEnv)
    (pix : Option (Nat → Nat)) (remap : Option (Nat → Int)) (stats1 stats2 : Option TCstats)
    (st1 st2 : TCState)
    (hmode : st1.bytesPerPixel = 64 ∨ st1.bytesPerPixel = 32)
    (hb : st2.bytesPerPixel = st1.bytesPerPixel) (hn : st2.nStrands = st1.nStrands)
    (hp : st2.pixelsPerStrand = st1.pixelsPerStrand)
    (hm : st2.strandBitMask = st1.strandBitMask) (hg : st2.rgbGamma = st1.rgbGamma) :
    (∀ a, a < st1.pixelsPerStrand * st1.bytesPerPixel →
      (TCrefresh w env2 pix remap stats2 st2).2.1.pixelOutBuffer a =
        (TCrefresh w env1 pix remap stats1 st1).2.1.pixelOutBuffer a) ∧
    (∀ i, i < st1.nStrands * st1.pixelsPerStrand →
      (TCrefresh w env2 pix remap stats2 st2).2.1.pixelCurrent i =
        (TCrefresh w env1 pix remap stats1 st1).2.1.pixelCurrent i) := by
  constructor
  · intro a ha
    rw [TCrefresh_out, TCrefresh_out, renderFrame_out w st1 pix remap hmode a,
      renderFrame_out w st2 pix remap (by rw [hb]; exact hmode) a, hn,
      orUpTo_congr _ _ (strandBits_config st1 st2 hb hp hm hg pix remap a)]
    congr 1
    rcases hmode with h64 | h32
    · have hlt : a < st1.pixelsPerStrand * 64 := by rw [h64] at ha; exact ha
      rw [clearBuffer_bitbang st1 h64 a, clearBuffer_bitbang st2 (hb.trans h64) a, hp, hm]
      simp only [hlt, if_true]
    · have hne : st1.bytesPerPixel ≠ 64 := by omega
      rw [clearBuffer_cbus st1 hne a, clearBuffer_cbus st2 (by rw [hb]; exact hne) a, hp, hb]
      simp only [ha, if_true]
  · intro i hi
    rw [TCrefresh_cur, TCrefresh_cur, renderFrame_cur, renderFrame_cur, hn, hp, if_pos hi,
      if_pos hi, pixelWord_gamma st1 st2 hg]

/-- Instance of C22: the all-off frame rendered in the sample session and in the
same session after a frame whose write failed. -/
theorem TCrefresh_rerender_witness :
    ((sampleBitbang.bytesPerPixel = 64 ∨ sampleBitbang.bytesPerPixel = 32) ∧
      dirtySession.bytesPerPixel = sampleBitbang.bytesPerPixel ∧
      dirtySession.nStrands = sampleBitbang.nStrands ∧
      dirtySession.pixelsPerStrand = sampleBitbang.pixelsPerStrand ∧
      dirtySession.strandBitMask = sampleBitbang.strandBitMask ∧
      dirtySession.rgbGamma = sampleBitbang.rgbGamma) ∧
    ((∀ a, a < sampleBitbang.pixelsPerStrand * sampleBitbang.bytesPerPixel →
      (TCrefresh ULongWidth.lp64 rejectEnv none none none dirtySession).2.1.pixelOutBuffer a =
        (TCrefresh ULongWidth.lp64 sampleEnv none none none sampleBitbang).2.1.pixelOutBuffer
          a) ∧
    (∀ i, i < sampleBitbang.nStrands * sampleBitbang.pixelsPerStrand →
      (TCrefresh ULongWidth.lp64 rejectEnv none none none dirtySession).2.1.pixelCurrent i =
        (TCrefresh ULongWidth.lp64 sampleEnv none none none sampleBitbang).2.1.pixelCurrent
          i)) :=
  ⟨⟨Or.inl rfl, rfl, rfl, rfl, rfl, rfl⟩,
    TCrefresh_rerender ULongWidth.lp64 sampleEnv rejectEnv none none none none sampleBitbang
      dirtySession (Or.inl rfl) rfl rfl rfl rfl rfl⟩

/-! ## Statistics: one call -/

theorem iter_sum (cur : Nat → ℚ) (x : ℚ) :
    ∀ n : Nat, iter (fun i acc => acc + cur i) n x = x + Finset.sum (Finset.range n) cur := by
  intro n
  induction n with
  | zero => simp [iter]
  | succ k ih => rw [iter, ih, Finset.sum_range_succ, add_assoc]

/-- The summation loop `for(sum=0.0,i=0;i<len;i++) sum += pixelCurrent[i]`. -/
theorem forLoop_sum (cur : Nat → ℚ) (n : Nat) :
    forLoop n 1 (fun i acc => acc + cur i) n 0 0 = Finset.sum (Finset.range n) cur := by
  rw [forLoop_eq_iter, iter_sum, zero_add]

/-- The three fields that every statistics update sets last. -/
theorem TCrefreshStats_last (w : ULongWidth) (env : RefreshEnv) (pix : Option (Nat → Nat))
    (remap : Option (Nat → Int)) (stats : TCstats) (st : TCState) :
    (TCrefreshStats w env pix remap stats st).ma =
      some (Finset.sum (Finset.range (st.nStrands * st.pixelsPerStrand))
        (fun i => (renderFrame w st pix remap).cur i)) ∧
    (TCrefreshStats w env pix remap stats st).reserved = env.time2 % 2 ^ w.bits ∧
    (TCrefreshStats w env pix remap stats st).frames = (stats.frames + 1) % 2 ^ w.bits := by
  obtain ⟨h1, h2, h3, _⟩ := updateStats_last w st (renderFrame w st pix remap).cur
    ((st.pixelsPerStrand + 1) * st.bytesPerPixel) (env.time1 % 2 ^ w.bits)
    (env.time2 % 2 ^ w.bits) stats
  rw [TCrefreshStats_eq]
  refine ⟨?_, h2, h3⟩
  rw [h1, forLoop_sum]

theorem one_lt_two_pow_bits (w : ULongWidth) : 1 < 2 ^ w.bits := by
  cases w <;> simp [ULongWidth.bits]

/-- The structure that `TCinitStats` writes. -/
theorem initialisedStats_eq (s0 : TCstats) :
    (initialisedStats s0).frames = 0 ∧ (initialisedStats s0).usecFrame = 0 ∧
    (initialisedStats s0).usecFrameTotal = 0 ∧ (initialisedStats s0).fps = some 0 ∧
    (initialisedStats s0).fpsAvg = some 0 ∧ (initialisedStats s0).ma = some 0 ∧
    (initialisedStats s0).maAvg = some 0 ∧ (initialisedStats s0).maMax = some 0 ∧
    (initialisedStats s0).mah = some 0 ∧ (initialisedStats s0).mahTotal = some 0 ∧
    (initialisedStats s0).reserved = 0 :=
  ⟨rfl, rfl, rfl, rfl, rfl, rfl, rfl, rfl, rfl, rfl, rfl⟩

/-- Claim C25: after `TCinitStats(stats)` (whatever `stats` held) followed by one
`TCrefresh` with those statistics, for any pixels, remap table, write outcome and
clock readings: `fps`, `fpsAvg`, `mah`, `mahTotal` and `maAvg` are 0, `usecFrame`
and `usecFrameTotal` are 0, `frames` is 1, and `ma` is the sum of the
`nStrands * pixelsPerStrand` current estimates of the frame. -/
theorem first_frame_stats (w : ULongWidth) (env : RefreshEnv) (pix : Option (Nat → Nat))
    (remap : Option (Nat → Int)) (s0 : TCstats) (st : TCState) :
    (TCrefreshStats w env pix remap (initialisedStats s0) st).fps = some 0 ∧
    (TCrefreshStats w env pix remap (initialisedStats s0) st).fpsAvg = some 0 ∧
    (TCrefreshStats w env pix remap (initialisedStats s0) st).mah = some 0 ∧
    (TCrefreshStats w env pix remap (initialisedStats s0) st).mahTotal = some 0 ∧
    (TCrefreshStats w env pix remap (initialisedStats s0) st).maAvg = some 0 ∧
    (TCrefreshStats w env pix remap (initialisedStats s0) st).usecFrame = 0 ∧
    (TCrefreshStats w env pix remap (initialisedStats s0) st).usecFrameTotal = 0 ∧
    (TCrefreshStats w env pix remap (initialisedStats s0) st).frames = 1 ∧
    (TCrefreshStats w env pix remap (initialisedStats s0) st).ma =
      some (Finset.sum (Finset.range (st.nStrands * st.pixelsPerStrand))
        (fun i => (TCrefresh w env pix remap (some (initialisedStats s0)) st).2.1.pixelCurrent
          i)) := by
  obtain ⟨z1, z2, z3, z4, z5, z6, z7⟩ := updateStats_zero w st (renderFrame w st pix remap).cur
    ((st.pixelsPerStrand + 1) * st.bytesPerPixel) (env.time1 % 2 ^ w.bits)
    (env.time2 % 2 ^ w.bits) (initialisedStats s0) rfl
  obtain ⟨l1, _, l3⟩ := TCrefreshStats_last w env pix remap (initialisedStats s0) st
  rw [TCrefresh_cur]
  refine ⟨?_, ?_, ?_, ?_, ?_, ?_, ?_, ?_, l1⟩
  · rw [TCrefreshStats_eq, z2]; rfl
  · rw [TCrefreshStats_eq, z4]; rfl
  · rw [TCrefreshStats_eq, z5]; rfl
  · rw [TCrefreshStats_eq, z6]; rfl
  · rw [TCrefreshStats_eq, z7]; rfl
  · rw [TCrefreshStats_eq, z1]; rfl
  · rw [TCrefreshStats_eq, z3]; rfl
  · rw [l3]
    exact Nat.mod_eq_of_lt (one_lt_two_pow_bits w)

/-- Claim C29: the statistics update of `TCrefresh` does not depend on the write
outcome. Two calls with the same prior statistics, arguments, state and clock
readings leave the same statistics whatever their two write outcomes are (so also
when one write succeeds and the other fails); `frames` is increased by 1 (modulo
the width of `unsigned long`), `reserved` is the post-write timestamp, and `ma` is
the sum of the freshly computed current estimates. -/
theorem stats_ignore_write_outcome (w : ULongWidth) (env1 env2 : RefreshEnv)
    (pix : Option (Nat → Nat)) (remap : Option (Nat → Int)) (stats : TCstats) (st : TCState)
    (h1 : env1.time1 = env2.time1) (h2 : env1.time2 = env2.time2) :
    TCrefreshStats w env1 pix remap stats st = TCrefreshStats w env2 pix remap stats st ∧
    (TCrefreshStats w env1 pix remap stats st).frames = (stats.frames + 1) % 2 ^ w.bits ∧
    (stats.frames + 1 < 2 ^ w.bits →
      (TCrefreshStats w env1 pix remap stats st).frames = stats.frames + 1) ∧
    (TCrefreshStats w env1 pix remap stats st).reserved = env1.time2 % 2 ^ w.bits ∧
    (TCrefreshStats w env1 pix remap stats st).ma =
      some (Finset.sum (Finset.range (st.nStrands * st.pixelsPerStrand))
        (fun i => (TCrefresh w env1 pix remap (some stats) st).2.1.pixelCurrent i)) := by
  obtain ⟨l1, l2, l3⟩ := TCrefreshStats_last w env1 pix remap stats st
  rw [TCrefresh_cur]
  refine ⟨?_, l3, fun h => ?_, l2, l1⟩
  · rw [TCrefreshStats_eq, TCrefreshStats_eq, h1, h2]
  · rw [l3, Nat.mod_eq_of_lt h]

/-- Claim C30: after `TCrefresh` with statistics, absent 32-bit overflow of
`nStrands * len`, `bits` is `nStrands * (pixelsPerStrand + 1) * bytesPerPixel`,
divided by 2 in software-clock mode, which is `32 * nStrands * (pixelsPerStrand + 1)`
in both clock modes; and `bitsTotal` has increased by that amount (modulo the
width of `unsigned long`, so exactly when the total does not overflow). -/
theorem bits_per_frame (w : ULongWidth) (env : RefreshEnv) (pix : Option (Nat → Nat))
    (remap : Option (Nat → Int)) (stats : TCstats) (st : TCState)
    (hmode : st.bytesPerPixel = 64 ∨ st.bytesPerPixel = 32)
    (hov : st.nStrands * ((st.pixelsPerStrand + 1) * st.bytesPerPixel) < 2 ^ 32) :
    (TCrefreshStats w env pix remap stats st).bits =
      (if st.bytesPerPixel = 64
        then st.nStrands * ((st.pixelsPerStrand + 1) * st.bytesPerPixel) / 2
        else st.nStrands * ((st.pixelsPerStrand + 1) * st.bytesPerPixel)) ∧
    (TCrefreshStats w env pix remap stats st).bits =
      32 * st.nStrands * (st.pixelsPerStrand + 1) ∧
    (TCrefreshStats w env pix remap stats st).bitsTotal =
      (stats.bitsTotal + (TCrefreshStats w env pix remap stats st).bits) % 2 ^ w.bits ∧
    (stats.bitsTotal + (TCrefreshStats w env pix remap stats st).bits < 2 ^ w.bits →
      (TCrefreshStats w env pix remap stats st).bitsTotal =
        stats.bitsTotal + (TCrefreshStats w env pix remap stats st).bits) := by
  obtain ⟨b1, b2, _⟩ := updateStats_io w st (renderFrame w st pix remap).cur
    ((st.pixelsPerStrand + 1) * st.bytesPerPixel) (env.time1 % 2 ^ w.bits)
    (env.time2 % 2 ^ w.bits) stats
  rw [← TCrefreshStats_eq w env pix remap stats st] at b1 b2
  rw [Nat.mod_eq_of_lt hov] at b1
  refine ⟨b1, ?_, b2, fun h => ?_⟩
  · rw [b1]
    rcases hmode with h | h
    · rw [h, if_pos rfl]
      have : st.nStrands * ((st.pixelsPerStrand + 1) * 64) =
          (32 * st.nStrands * (st.pixelsPerStrand + 1)) * 2 := by ring
      rw [this, Nat.mul_div_cancel _ (by decide)]
    · rw [h, if_neg (by decide)]
      ring
  · rw [b2, Nat.mod_eq_of_lt h]

/-- Instance of C29: the sample frame on the sample session, once with a complete
write and once with a rejected write. -/
theorem stats_ignore_write_outcome_witness :
    (sampleEnv.time1 = rejectEnv.time1 ∧ sampleEnv.time2 = rejectEnv.time2) ∧
    (TCrefresh ULongWidth.lp64 sampleEnv (some samplePixels) none
      (some (initialisedStats staleStats)) sampleBitbang).1 = TC_OK ∧
    (TCrefresh ULongWidth.lp64 rejectEnv (some samplePixels) none
      (some (initialisedStats staleStats)) sampleBitbang).1 = TC_ERR_WRITE ∧
    TCrefreshStats ULongWidth.lp64 sampleEnv (some samplePixels) none
        (initialisedStats staleStats) sampleBitbang =
      TCrefreshStats ULongWidth.lp64 rejectEnv (some samplePixels) none
        (initialisedStats staleStats) sampleBitbang :=
  ⟨⟨rfl, rfl⟩, rfl, rfl,
    (stats_ignore_write_outcome ULongWidth.lp64 sampleEnv rejectEnv (some samplePixels) none
      (initialisedStats staleStats) sampleBitbang rfl rfl).1⟩

/-- Instance of C30 for the sample software-clock session: 3 strands of 2 pixels
give 288 bits per frame. -/
theorem bits_per_frame_witness :
    ((sampleBitbang.bytesPerPixel = 64 ∨ sampleBitbang.bytesPerPixel = 32) ∧
      sampleBitbang.nStrands *
        ((sampleBitbang.pixelsPerStrand + 1) * sampleBitbang.bytesPerPixel) < 2 ^ 32) ∧
    (TCrefreshStats ULongWidth.lp64 sampleEnv (some samplePixels) none
      (initialisedStats staleStats) sampleBitbang).bits =
        32 * sampleBitbang.nStrands * (sampleBitbang.pixelsPerStrand + 1) :=
  ⟨⟨Or.inl rfl, by decide⟩,
    (bits_per_frame ULongWidth.lp64 sampleEnv (some samplePixels) none
      (initialisedStats staleStats) sampleBitbang (Or.inl rfl) (by decide)).2.1⟩

/-! ## Statistics: rates, charge and peak current -/

theorem fdiv_some (q d : ℚ) (hd : d ≠ 0) : fdiv (some q) d = some (q / d) := by
  simp [fdiv, hd]

theorem fdiv_zero (x : Option ℚ) : fdiv x 0 = none := by
  cases x <;> simp [fdiv]

/-- Claim C26: on a `TCrefresh` call with `frames != 0` on entry, `usecFrame` is the
post-write timestamp minus `reserved` on entry (as `unsigned long`; the plain
difference when the timestamp is not smaller), `mah` after the call is `ma` on
entry times `usecFrame` divided by 3.6e9, `mahTotal` increases by exactly that
`mah`, and neither depends on the pixels, remap table or state of the
call, hence not on the current estimates of the frame being rendered. -/
theorem charge_of_previous_frame (w : ULongWidth) (env : RefreshEnv) (pix : Option (Nat → Nat))
    (remap : Option (Nat → Int)) (stats : TCstats) (st : TCState) (hf : stats.frames ≠ 0) :
    (TCrefreshStats w env pix remap stats st).usecFrame =
      (env.time2 % 2 ^ w.bits + 2 ^ w.bits - stats.reserved % 2 ^ w.bits) % 2 ^ w.bits ∧
    (stats.reserved ≤ env.time2 → env.time2 < 2 ^ w.bits →
      (TCrefreshStats w env pix remap stats st).usecFrame = env.time2 - stats.reserved) ∧
    (TCrefreshStats w env pix remap stats st).mah =
      stats.ma.map (fun x =>
        x * ((TCrefreshStats w env pix remap stats st).usecFrame : ℚ) / (1000000 * 60 * 60)) ∧
    (TCrefreshStats w env pix remap stats st).mahTotal =
      stats.mahTotal.bind (fun t =>
        (TCrefreshStats w env pix remap stats st).mah.map (fun x => t + x)) ∧
    (∀ m t : ℚ, stats.ma = some m → stats.mahTotal = some t →
      (TCrefreshStats w env pix remap stats st).mah =
        some (m * ((TCrefreshStats w env pix remap stats st).usecFrame : ℚ) / 3600000000) ∧
      (TCrefreshStats w env pix remap stats st).mahTotal =
        some (t + m * ((TCrefreshStats w env pix remap stats st).usecFrame : ℚ) / 3600000000)) ∧
    (∀ (env2 : RefreshEnv) (pix2 : Option (Nat → Nat)) (remap2 : Option (Nat → Int))
        (st2 : TCState), env2.time2 = env.time2 →
      (TCrefreshStats w env2 pix2 remap2 stats st2).mah =
        (TCrefreshStats w env pix remap stats st).mah ∧
      (TCrefreshStats w env2 pix2 remap2 stats st2).mahTotal =
        (TCrefreshStats w env pix remap stats st).mahTotal) := by
  have key : ∀ (e : RefreshEnv) (px : Option (Nat → Nat)) (rm : Option (Nat → Int))
      (s : TCState),
      (TCrefreshStats w e px rm stats s).usecFrame =
        (e.time2 % 2 ^ w.bits + 2 ^ w.bits - stats.reserved % 2 ^ w.bits) % 2 ^ w.bits ∧
      (TCrefreshStats w e px rm stats s).mah =
        stats.ma.map (fun x =>
          x * ((TCrefreshStats w e px rm stats s).usecFrame : ℚ) / (1000000 * 60 * 60)) ∧
      (TCrefreshStats w e px rm stats s).mahTotal =
        stats.mahTotal.bind (fun t =>
          (TCrefreshStats w e px rm stats s).mah.map (fun x => t + x)) := by
    intro e px rm s
    obtain ⟨n1, _, _, _, n5, n6, _⟩ := updateStats_ne w s (renderFrame w s px rm).cur
      ((s.pixelsPerStrand + 1) * s.bytesPerPixel) (e.time1 % 2 ^ w.bits)
      (e.time2 % 2 ^ w.bits) stats hf
    rw [← TCrefreshStats_eq w e px rm stats s] at n1 n5 n6
    exact ⟨n1, n5, n6⟩
  obtain ⟨k1, k2, k3⟩ := key env pix remap st
  have e36 : (1000000 * 60 * 60 : ℚ) = 3600000000 := by norm_num
  refine ⟨k1, fun h1 h2 => ?_, k2, k3, fun m t hm ht => ?_, fun env2 pix2 remap2 st2 h => ?_⟩
  · have hp : 0 < 2 ^ w.bits := Nat.pos_of_ne_zero (by positivity)
    have hr : stats.reserved < 2 ^ w.bits := lt_of_le_of_lt h1 h2
    rw [k1, Nat.mod_eq_of_lt h2, Nat.mod_eq_of_lt hr]
    have : env.time2 + 2 ^ w.bits - stats.reserved = (env.time2 - stats.reserved) + 2 ^ w.bits := by
      omega
    rw [this, Nat.add_mod_right, Nat.mod_eq_of_lt (by omega)]
  · have hmah : (TCrefreshStats w env pix remap stats st).mah =
        some (m * ((TCrefreshStats w env pix remap stats st).usecFrame : ℚ) / 3600000000) := by
      rw [k2, hm, ← e36]
      rfl
    refine ⟨hmah, ?_⟩
    rw [k3, ht, hmah]
    rfl
  · obtain ⟨j1, j2, j3⟩ := key env2 pix2 remap2 st2
    have hu : (TCrefreshStats w env2 pix2 remap2 stats st2).usecFrame =
        (TCrefreshStats w env pix remap stats st).usecFrame := by
      rw [j1, k1, h]
    have hmah : (TCrefreshStats w env2 pix2 remap2 stats st2).mah =
        (TCrefreshStats w env pix remap stats st).mah := by
      rw [j2, k2, hu]
    exact ⟨hmah, by rw [j3, k3, hmah]⟩

/-- One call keeps `maMax` finite and makes it the larger of its old value and the new `ma`. -/
theorem TCrefreshStats_maMax (w : ULongWidth) (env : RefreshEnv) (pix : Option (Nat → Nat))
    (remap : Option (Nat → Int)) (stats : TCstats) (st : TCState) (m : ℚ)
    (hm : stats.maMax = some m) :
    (TCrefreshStats w env pix remap stats st).maMax =
      some (max m (Finset.sum (Finset.range (st.nStrands * st.pixelsPerStrand))
        (fun i => (renderFrame w st pix remap).cur i))) := by
  obtain ⟨_, _, _, h4⟩ := updateStats_last w st (renderFrame w st pix remap).cur
    ((st.pixelsPerStrand + 1) * st.bytesPerPixel) (env.time1 % 2 ^ w.bits)
    (env.time2 % 2 ^ w.bits) stats
  rw [TCrefreshStats_eq, h4, forLoop_sum, hm]
  by_cases hgt : Finset.sum (Finset.range (st.nStrands * st.pixelsPerStrand))
      (fun i => (renderFrame w st pix remap).cur i) > m
  · have : fgt (some (Finset.sum (Finset.range (st.nStrands * st.pixelsPerStrand))
        (fun i => (renderFrame w st pix remap).cur i))) (some m) = true := by
      simp [fgt, hgt]
    rw [if_pos this, max_eq_right (le_of_lt hgt)]
  · have : ¬ fgt (some (Finset.sum (Finset.range (st.nStrands * st.pixelsPerStrand))
        (fun i => (renderFrame w st pix remap).cur i))) (some m) = true := by
      simp [fgt, hgt]
    rw [if_neg this, max_eq_left (not_lt.mp hgt)]

theorem statsAfter_maMax (w : ULongWidth) (s0 : TCstats) (calls : Nat → RefreshCall) :
    ∀ k, ∃ m, (statsAfter w s0 calls k).maMax = some m := by
  intro k
  induction k with
  | zero => exact ⟨0, rfl⟩
  | succ n ih =>
    obtain ⟨m, hm⟩ := ih
    exact ⟨_, TCrefreshStats_maMax w (calls n).env (calls n).pixelInBuffer (calls n).remap
      (statsAfter w s0 calls n) (calls n).st m hm⟩

/-- Claim C28: after every `TCrefresh` call with statistics, `ma` is the sum of the
`nStrands * pixelsPerStrand` current estimates computed in that call, and `maMax`
is the larger of `maMax` on entry (a finite value) and that `ma`. Hence along any
sequence of calls from an initialised structure `maMax` never decreases and is at
least `ma` after each call. -/
theorem maMax_running_maximum (w : ULongWidth) :
    (∀ (env : RefreshEnv) (pix : Option (Nat → Nat)) (remap : Option (Nat → Int))
        (stats : TCstats) (st : TCState),
      (TCrefreshStats w env pix remap stats st).ma =
        some (Finset.sum (Finset.range (st.nStrands * st.pixelsPerStrand))
          (fun i => (TCrefresh w env pix remap (some stats) st).2.1.pixelCurrent i)) ∧
      ∀ m c : ℚ, stats.maMax = some m → (TCrefreshStats w env pix remap stats st).ma = some c →
        (TCrefreshStats w env pix remap stats st).maMax = some (max m c)) ∧
    (∀ (s0 : TCstats) (calls : Nat → RefreshCall) (k : Nat),
      ∃ m m2 c : ℚ, (statsAfter w s0 calls k).maMax = some m ∧
        (statsAfter w s0 calls (k + 1)).maMax = some m2 ∧
        (statsAfter w s0 calls (k + 1)).ma = some c ∧ m ≤ m2 ∧ c ≤ m2) := by
  constructor
  · intro env pix remap stats st
    obtain ⟨l1, _, _⟩ := TCrefreshStats_last w env pix remap stats st
    rw [TCrefresh_cur]
    refine ⟨l1, fun m c hm hc => ?_⟩
    rw [l1] at hc
    rw [TCrefreshStats_maMax w env pix remap stats st m hm, ← Option.some.inj hc]
  · intro s0 calls k
    obtain ⟨m, hm⟩ := statsAfter_maMax w s0 calls k
    obtain ⟨l1, _, _⟩ := TCrefreshStats_last w (calls k).env (calls k).pixelInBuffer
      (calls k).remap (statsAfter w s0 calls k) (calls k).st
    exact ⟨m, _, _, hm,
      TCrefreshStats_maMax w (calls k).env (calls k).pixelInBuffer (calls k).remap
        (statsAfter w s0 calls k) (calls k).st m hm, l1, le_max_left _ _, le_max_right _ _⟩

/-- Instance of C26: one call on the sample session with statistics of 7 earlier
frames, `ma = 11`, `mahTotal = 15` and previous timestamp 16. -/
theorem charge_of_previous_frame_witness :
    staleStats.frames ≠ 0 ∧
    (TCrefreshStats ULongWidth.lp64 sampleEnv (some samplePixels) none staleStats
      sampleBitbang).usecFrame = sampleEnv.time2 - staleStats.reserved ∧
    (TCrefreshStats ULongWidth.lp64 sampleEnv (some samplePixels) none staleStats
      sampleBitbang).mah =
        some (11 * ((TCrefreshStats ULongWidth.lp64 sampleEnv (some samplePixels) none
          staleStats sampleBitbang).usecFrame : ℚ) / 3600000000) :=
  ⟨by decide,
    (charge_of_previous_frame ULongWidth.lp64 sampleEnv (some samplePixels) none staleStats
      sampleBitbang (by decide)).2.1 (by decide) (by decide),
    ((charge_of_previous_frame ULongWidth.lp64 sampleEnv (some samplePixels) none staleStats
      sampleBitbang (by decide)).2.2.2.2.1 11 15 rfl rfl).1⟩

/-! ## Statistics: sequences of calls -/

theorem timestamp_lt (w : ULongWidth) (c : RefreshCall) : timestamp w c < 2 ^ w.bits :=
  Nat.mod_lt _ (Nat.pos_of_ne_zero (by positivity))

/-- One statistics update after the first, for a timestamp not before the previous
one and finite `ma`, `mahTotal` on entry. -/
theorem TCrefreshStats_step (w : ULongWidth) (env : RefreshEnv) (pix : Option (Nat → Nat))
    (remap : Option (Nat → Int)) (S : TCstats) (st : TCState) (c q : ℚ)
    (hf : S.frames ≠ 0) (hr : S.reserved ≤ env.time2 % 2 ^ w.bits)
    (hu : S.usecFrameTotal + (env.time2 % 2 ^ w.bits - S.reserved) < 2 ^ w.bits)
    (hma : S.ma = some c) (hq : S.mahTotal = some q) :
    (TCrefreshStats w env pix remap S st).usecFrame = env.time2 % 2 ^ w.bits - S.reserved ∧
    (TCrefreshStats w env pix remap S st).usecFrameTotal =
      S.usecFrameTotal + (env.time2 % 2 ^ w.bits - S.reserved) ∧
    (TCrefreshStats w env pix remap S st).mahTotal =
      some (q + c * (((env.time2 % 2 ^ w.bits : Nat) : ℚ) - (S.reserved : ℚ)) / 3600000000) ∧
    (TCrefreshStats w env pix remap S st).maAvg =
      fdiv (some ((q + c * (((env.time2 % 2 ^ w.bits : Nat) : ℚ) - (S.reserved : ℚ)) /
          3600000000) * 3600000000))
        ((TCrefreshStats w env pix remap S st).usecFrameTotal : ℚ) := by
  obtain ⟨n1, _, n3, _, n5, n6, n7⟩ := updateStats_ne w st (renderFrame w st pix remap).cur
    ((st.pixelsPerStrand + 1) * st.bytesPerPixel) (env.time1 % 2 ^ w.bits)
    (env.time2 % 2 ^ w.bits) S hf
  rw [← TCrefreshStats_eq w env pix remap S st] at n1 n3 n5 n6 n7
  have hlt : env.time2 % 2 ^ w.bits < 2 ^ w.bits :=
    Nat.mod_lt _ (Nat.pos_of_ne_zero (by positivity))
  have e36 : (1000000 * 60 * 60 : ℚ) = 3600000000 := by norm_num
  have hU : (TCrefreshStats w env pix remap S st).usecFrame =
      env.time2 % 2 ^ w.bits - S.reserved := by
    rw [n1, Nat.mod_eq_of_lt (lt_of_le_of_lt hr hlt)]
    have : env.time2 % 2 ^ w.bits + 2 ^ w.bits - S.reserved =
        (env.time2 % 2 ^ w.bits - S.reserved) + 2 ^ w.bits := by omega
    rw [this, Nat.add_mod_right, Nat.mod_eq_of_lt (by omega)]
  have hT : (TCrefreshStats w env pix remap S st).usecFrameTotal =
      S.usecFrameTotal + (env.time2 % 2 ^ w.bits - S.reserved) := by
    rw [n3, hU]
    by_cases h0 : env.time2 % 2 ^ w.bits - S.reserved ≠ 0
    · rw [if_pos h0, Nat.mod_eq_of_lt hu]
    · rw [if_neg h0, not_not.mp h0, Nat.add_zero]
  have hcast : (((env.time2 % 2 ^ w.bits - S.reserved : Nat)) : ℚ) =
      ((env.time2 % 2 ^ w.bits : Nat) : ℚ) - (S.reserved : ℚ) := Nat.cast_sub hr
  have hM : (TCrefreshStats w env pix remap S st).mahTotal =
      some (q + c * (((env.time2 % 2 ^ w.bits : Nat) : ℚ) - (S.reserved : ℚ)) / 3600000000) := by
    rw [n6, n5, hq, hma, hU, hcast, e36]
    rfl
  refine ⟨hU, hT, hM, ?_⟩
  rw [n7, hM, e36]
  rfl

/-- The statistics after the first call of a sequence. -/
theorem statsAfter_one (w : ULongWidth) (s0 : TCstats) (calls : Nat → RefreshCall) :
    (statsAfter w s0 calls 1).frames = 1 ∧
    (statsAfter w s0 calls 1).reserved = timestamp w (calls 0) ∧
    (statsAfter w s0 calls 1).ma = some (frameCurrent w (calls 0)) ∧
    (statsAfter w s0 calls 1).usecFrameTotal = 0 ∧
    (statsAfter w s0 calls 1).mahTotal = some 0 ∧
    (statsAfter w s0 calls 1).maAvg = some 0 := by
  obtain ⟨_, _, z3, _, _, z6, z7⟩ := updateStats_zero w (calls 0).st
    (renderFrame w (calls 0).st (calls 0).pixelInBuffer (calls 0).remap).cur
    (((calls 0).st.pixelsPerStrand + 1) * (calls 0).st.bytesPerPixel)
    ((calls 0).env.time1 % 2 ^ w.bits) ((calls 0).env.time2 % 2 ^ w.bits)
    (initialisedStats s0) rfl
  obtain ⟨l1, l2, l3⟩ := TCrefreshStats_last w (calls 0).env (calls 0).pixelInBuffer
    (calls 0).remap (initialisedStats s0) (calls 0).st
  have e : statsAfter w s0 calls 1 =
      TCrefreshStats w (calls 0).env (calls 0).pixelInBuffer (calls 0).remap
        (initialisedStats s0) (calls 0).st := rfl
  rw [e]
  refine ⟨?_, l2, l1, ?_, ?_, ?_⟩
  · rw [l3]
    exact Nat.mod_eq_of_lt (one_lt_two_pow_bits w)
  · rw [TCrefreshStats_eq, z3]; rfl
  · rw [TCrefreshStats_eq, z6]; rfl
  · rw [TCrefreshStats_eq, z7]; rfl

theorem timestamp_mono (w : ULongWidth) (calls : Nat → RefreshCall) (n : Nat)
    (hmono : ∀ k, k + 1 < n → timestamp w (calls k) ≤ timestamp w (calls (k + 1))) :
    ∀ k, k < n → timestamp w (calls 0) ≤ timestamp w (calls k) := by
  intro k
  induction k with
  | zero => intro _; exact le_refl _
  | succ j ih =>
    intro hj
    exact le_trans (ih (by omega)) (hmono j hj)

/-- The running state of the statistics along a sequence of calls with
non-decreasing timestamps, before the frame counter wraps. -/
theorem statsAfter_invariant (w : ULongWidth) (s0 : TCstats) (calls : Nat → RefreshCall)
    (n : Nat) (hN : n < 2 ^ w.bits)
    (hmono : ∀ k, k + 1 < n → timestamp w (calls k) ≤ timestamp w (calls (k + 1))) :
    ∀ k, k < n →
      (statsAfter w s0 calls (k + 1)).frames = k + 1 ∧
      (statsAfter w s0 calls (k + 1)).reserved = timestamp w (calls k) ∧
      (statsAfter w s0 calls (k + 1)).ma = some (frameCurrent w (calls k)) ∧
      (statsAfter w s0 calls (k + 1)).usecFrameTotal =
        timestamp w (calls k) - timestamp w (calls 0) ∧
      (statsAfter w s0 calls (k + 1)).mahTotal =
        some (Finset.sum (Finset.range k) (fun j => frameCurrent w (calls j) *
          ((timestamp w (calls (j + 1)) : ℚ) - (timestamp w (calls j) : ℚ)) / 3600000000)) ∧
      (1 ≤ k → (statsAfter w s0 calls (k + 1)).maAvg =
        fdiv (some (Finset.sum (Finset.range k) (fun j => frameCurrent w (calls j) *
          ((timestamp w (calls (j + 1)) : ℚ) - (timestamp w (calls j) : ℚ)) / 3600000000) *
            3600000000))
          ((timestamp w (calls k) - timestamp w (calls 0) : Nat) : ℚ)) := by
  intro k
  induction k with
  | zero =>
    intro _
    obtain ⟨a1, a2, a3, a4, a5, _⟩ := statsAfter_one w s0 calls
    refine ⟨a1, a2, a3, ?_, ?_, fun h => absurd h (by decide)⟩
    · rw [a4, Nat.sub_self]
    · rw [a5, Finset.sum_range_zero]
  | succ j ih =>
    intro hj
    obtain ⟨i1, i2, i3, i4, i5, _⟩ := ih (by omega)
    have hle : timestamp w (calls j) ≤ timestamp w (calls (j + 1)) := hmono j hj
    have h0 : timestamp w (calls 0) ≤ timestamp w (calls j) :=
      timestamp_mono w calls n hmono j (by omega)
    have hlt : timestamp w (calls (j + 1)) < 2 ^ w.bits := timestamp_lt w _
    have hf : (statsAfter w s0 calls (j + 1)).frames ≠ 0 := by rw [i1]; omega
    have hr : (statsAfter w s0 calls (j + 1)).reserved ≤
        (calls (j + 1)).env.time2 % 2 ^ w.bits := by rw [i2]; exact hle
    have hu : (statsAfter w s0 calls (j + 1)).usecFrameTotal +
        ((calls (j + 1)).env.time2 % 2 ^ w.bits -
          (statsAfter w s0 calls (j + 1)).reserved) < 2 ^ w.bits := by
      rw [i2, i4]
      have : (calls (j + 1)).env.time2 % 2 ^ w.bits = timestamp w (calls (j + 1)) := rfl
      omega
    obtain ⟨_, s2, s3, s4⟩ := TCrefreshStats_step w (calls (j + 1)).env
      (calls (j + 1)).pixelInBuffer (calls (j + 1)).remap (statsAfter w s0 calls (j + 1))
      (calls (j + 1)).st _ _ hf hr hu i3 i5
    obtain ⟨l1, l2, l3⟩ := TCrefreshStats_last w (calls (j + 1)).env
      (calls (j + 1)).pixelInBuffer (calls (j + 1)).remap (statsAfter w s0 calls (j + 1))
      (calls (j + 1)).st
    have e : statsAfter w s0 calls (j + 1 + 1) =
        TCrefreshStats w (calls (j + 1)).env (calls (j + 1)).pixelInBuffer
          (calls (j + 1)).remap (statsAfter w s0 calls (j + 1)) (calls (j + 1)).st := rfl
    have ht : (calls (j + 1)).env.time2 % 2 ^ w.bits = timestamp w (calls (j + 1)) := rfl
    rw [ht, i2] at s2 s3 s4
    rw [i4] at s2
    have hT : (statsAfter w s0 calls (j + 1 + 1)).usecFrameTotal =
        timestamp w (calls (j + 1)) - timestamp w (calls 0) := by
      rw [e, s2]
      omega
    have hsum : Finset.sum (Finset.range j) (fun i => frameCurrent w (calls i) *
          ((timestamp w (calls (i + 1)) : ℚ) - (timestamp w (calls i) : ℚ)) / 3600000000) +
        frameCurrent w (calls j) *
          ((timestamp w (calls (j + 1)) : ℚ) - (timestamp w (calls j) : ℚ)) / 3600000000 =
        Finset.sum (Finset.range (j + 1)) (fun i => frameCurrent w (calls i) *
          ((timestamp w (calls (i + 1)) : ℚ) - (timestamp w (calls i) : ℚ)) / 3600000000) :=
      (Finset.sum_range_succ _ j).symm
    rw [hsum] at s3 s4
    refine ⟨?_, ?_, ?_, hT, ?_, fun _ => ?_⟩
    · rw [e, l3, i1]
      exact Nat.mod_eq_of_lt (by omega)
    · rw [e, l2]
      rfl
    · rw [e, l1]
      rfl
    · rw [e, s3]
    · rw [← hT, e, s4]


/-- Claim C23, evaluated on the code: after `TCinitStats` and one `TCrefresh`,
`usecFrameTotal` is 0 and `maAvg` is 0; after a second `TCrefresh` whose
post-write timestamp equals that of the first, `frames` is 2, `usecFrameTotal` is
still 0, and `maAvg` is the result of the division
`mahTotal * 3.6e9 / usecFrameTotal` by zero: not a finite value, and not 0. -/
theorem maAvg_division_unguarded (w : ULongWidth) (s0 : TCstats) :
    ((statsAfter w s0 stalledCalls 1).usecFrameTotal = 0 ∧
      (statsAfter w s0 stalledCalls 1).maAvg = some 0) ∧
    ((statsAfter w s0 stalledCalls 2).frames = 2 ∧
      (statsAfter w s0 stalledCalls 2).usecFrameTotal = 0 ∧
      (statsAfter w s0 stalledCalls 2).maAvg = none) := by
  obtain ⟨_, _, _, a4, _, a6⟩ := statsAfter_one w s0 stalledCalls
  have h2 : 2 < 2 ^ w.bits := by
    have := ULongWidth.bits_ge w
    calc 2 < 2 ^ 32 := by norm_num
      _ ≤ 2 ^ w.bits := Nat.pow_le_pow_right (by norm_num) this
  obtain ⟨i1, _, _, i4, _, i6⟩ := statsAfter_invariant w s0 stalledCalls 2 h2
    (fun _ _ => le_refl _) 1 (by norm_num)
  have hz : timestamp w (stalledCalls 1) - timestamp w (stalledCalls 0) = 0 := Nat.sub_self _
  rw [hz] at i4
  have i6b := i6 (le_refl 1)
  rw [hz, Nat.cast_zero, fdiv_zero] at i6b
  exact ⟨⟨a4, a6⟩, i1, i4, i6b⟩

/-- Claim C27: starting from `TCinitStats`, after `n >= 2` calls of `TCrefresh`
(fewer than the frame counter can hold) with non-decreasing post-write timestamps
`t_0, ..., t_(n-1)` and frame current totals `c_0, ..., c_(n-1)`, if
`t_(n-1) > t_0` then, in exact arithmetic, `maAvg` is the sum over
`k = 0 .. n-2` of `c_k * (t_(k+1) - t_k)`, divided by `t_(n-1) - t_0`: the mean
of the frame currents weighted by the time each was displayed. In particular, if
every `c_k` equals `c`, then `maAvg = c`. -/
theorem maAvg_time_weighted (w : ULongWidth) (s0 : TCstats) (calls : Nat → RefreshCall)
    (n : Nat) (hn : 2 ≤ n) (hN : n < 2 ^ w.bits)
    (hmono : ∀ k, k + 1 < n → timestamp w (calls k) ≤ timestamp w (calls (k + 1)))
    (hgt : timestamp w (calls 0) < timestamp w (calls (n - 1))) :
    (statsAfter w s0 calls n).maAvg =
      some (Finset.sum (Finset.range (n - 1)) (fun k => frameCurrent w (calls k) *
          ((timestamp w (calls (k + 1)) : ℚ) - (timestamp w (calls k) : ℚ))) /
        ((timestamp w (calls (n - 1)) : ℚ) - (timestamp w (calls 0) : ℚ))) ∧
    (∀ c : ℚ, (∀ k, k < n → frameCurrent w (calls k) = c) →
      (statsAfter w s0 calls n).maAvg = some c) := by
  obtain ⟨m, rfl⟩ : ∃ m, n = m + 2 := ⟨n - 2, by omega⟩
  have hk : m + 2 - 1 = m + 1 := by omega
  rw [hk] at hgt ⊢
  obtain ⟨_, _, _, _, _, i6⟩ := statsAfter_invariant w s0 calls (m + 2) hN hmono (m + 1)
    (by omega)
  have hD : ((timestamp w (calls (m + 1)) : ℚ) - (timestamp w (calls 0) : ℚ)) ≠ 0 := by
    have : (timestamp w (calls 0) : ℚ) < (timestamp w (calls (m + 1)) : ℚ) :=
      Nat.cast_lt.mpr hgt
    linarith
  have hsum : Finset.sum (Finset.range (m + 1)) (fun j => frameCurrent w (calls j) *
        ((timestamp w (calls (j + 1)) : ℚ) - (timestamp w (calls j) : ℚ)) / 3600000000) *
        3600000000 =
      Finset.sum (Finset.range (m + 1)) (fun j => frameCurrent w (calls j) *
        ((timestamp w (calls (j + 1)) : ℚ) - (timestamp w (calls j) : ℚ))) := by
    rw [← Finset.sum_div]
    field_simp
  have hmain : (statsAfter w s0 calls (m + 2)).maAvg =
      some (Finset.sum (Finset.range (m + 1)) (fun k => frameCurrent w (calls k) *
          ((timestamp w (calls (k + 1)) : ℚ) - (timestamp w (calls k) : ℚ))) /
        ((timestamp w (calls (m + 1)) : ℚ) - (timestamp w (calls 0) : ℚ))) := by
    have h := i6 (by omega)
    rw [Nat.cast_sub (le_of_lt hgt), hsum, fdiv_some _ _ hD] at h
    exact h
  refine ⟨hmain, fun c hc => ?_⟩
  rw [hmain]
  have hs : Finset.sum (Finset.range (m + 1)) (fun k => frameCurrent w (calls k) *
        ((timestamp w (calls (k + 1)) : ℚ) - (timestamp w (calls k) : ℚ))) =
      c * ((timestamp w (calls (m + 1)) : ℚ) - (timestamp w (calls 0) : ℚ)) := by
    rw [← Finset.sum_range_sub (fun k => (timestamp w (calls k) : ℚ)) (m + 1), Finset.mul_sum]
    apply Finset.sum_congr rfl
    intro k hk2
    rw [hc k (by have := Finset.mem_range.mp hk2; omega)]
  rw [hs, mul_div_assoc, div_self hD, mul_one]

/-- Instance of C27: three calls on the sample session, 1000 microseconds apart. -/
theorem maAvg_time_weighted_witness :
    (2 ≤ 3 ∧ 3 < 2 ^ ULongWidth.lp64.bits ∧
      (∀ k, k + 1 < 3 →
        timestamp ULongWidth.lp64 (sampleCalls k) ≤
          timestamp ULongWidth.lp64 (sampleCalls (k + 1))) ∧
      timestamp ULongWidth.lp64 (sampleCalls 0) <
        timestamp ULongWidth.lp64 (sampleCalls (3 - 1))) ∧
    (statsAfter ULongWidth.lp64 staleStats sampleCalls 3).maAvg =
      some (Finset.sum (Finset.range (3 - 1)) (fun k =>
          frameCurrent ULongWidth.lp64 (sampleCalls k) *
            ((timestamp ULongWidth.lp64 (sampleCalls (k + 1)) : ℚ) -
              (timestamp ULongWidth.lp64 (sampleCalls k) : ℚ))) /
        ((timestamp ULongWidth.lp64 (sampleCalls (3 - 1)) : ℚ) -
          (timestamp ULongWidth.lp64 (sampleCalls 0) : ℚ))) :=
  have hmono : ∀ k, k + 1 < 3 →
      timestamp ULongWidth.lp64 (sampleCalls k) ≤
        timestamp ULongWidth.lp64 (sampleCalls (k + 1)) := by
    intro k hk
    have hk2 : k < 2 := by omega
    interval_cases k <;> decide
  ⟨⟨by decide, by decide, hmono, by decide⟩,
    (maAvg_time_weighted ULongWidth.lp64 staleStats sampleCalls 3 (by decide) (by decide)
      hmono (by decide)).1⟩

/-! ## Gamma tables in closed form -/

theorem setChannels_apply (row : Nat → Nat) (v c : Nat) :
    setChannels row v c = if c < 3 then v else row c := by
  unfold setChannels store
  by_cases h0 : c = 0
  · simp [h0]
  · by_cases h1 : c = 1
    · simp [h1]
    · by_cases h2 : c = 2
      · simp [h2]
      · have : ¬ c < 3 := by omega
        simp [h0, h1, h2, this]

/-- A loop that replaces row `i` of the gamma table by `row i` of the old row, for
`i` below `n`. -/
theorem gammaLoop_iter (row : Nat → (Nat → Nat) → (Nat → Nat)) :
    ∀ (n : Nat) (st : TCState) (i : Nat),
      (iter (fun i (st : TCState) => { st with rgbGamma := store st.rgbGamma i (row i (st.rgbGamma i)) })
        n st).rgbGamma i = if i < n then row i (st.rgbGamma i) else st.rgbGamma i := by
  intro n
  induction n with
  | zero => intro st i; simp [iter]
  | succ k ih =>
    intro st i
    rw [iter]
    show store _ k _ i = _
    by_cases hik : i = k
    · subst hik
      have h1 : ¬ i < i := lt_irrefl i
      have h2 : i < i + 1 := Nat.lt_succ_self i
      simp only [store, if_true, ih st i, if_neg h1, if_pos h2]
    · simp only [store, if_neg hik, ih st i]
      by_cases hlt : i < k
      · rw [if_pos hlt, if_pos (by omega)]
      · rw [if_neg hlt, if_neg (by omega)]

theorem gammaLoop_frame (row : Nat → (Nat → Nat) → (Nat → Nat)) :
    ∀ (n : Nat) (st : TCState), ∃ tbl,
      iter (fun i (st : TCState) => { st with rgbGamma := store st.rgbGamma i (row i (st.rgbGamma i)) })
        n st = { st with rgbGamma := tbl } := by
  intro n
  induction n with
  | zero => intro st; exact ⟨st.rgbGamma, rfl⟩
  | succ k ih =>
    intro st
    obtain ⟨tbl, h⟩ := ih st
    rw [iter, h]
    exact ⟨_, rfl⟩

theorem TCsetGammaSimple_table {K : Type} [LinearOrderedField K] [FloorRing K]
    (pw : K → K → K) (g : K) (st : TCState) (hg : 0 < g) (i c : Nat) :
    (TCsetGammaSimple pw g st).2.rgbGamma i c =
      if i < 256 ∧ c < 3 then toUChar (255 * pw ((i : K) / 255) g + 0.5)
      else st.rgbGamma i c := by
  rw [TCsetGammaSimple, if_neg (not_le.mpr hg)]
  dsimp only
  rw [forLoop_eq_iter]
  have h := gammaLoop_iter
    (fun i row => setChannels row (toUChar (255 * pw ((i : K) / 255) g + 0.5))) 256 st i
  rw [h]
  by_cases hi : i < 256
  · rw [if_pos hi, setChannels_apply]
    by_cases hc : c < 3
    · rw [if_pos hc, if_pos ⟨hi, hc⟩]
    · rw [if_neg hc, if_neg (fun hh => hc hh.2)]
  · rw [if_neg hi, if_neg (fun hh => hi hh.1)]

theorem TCdisableGamma_table (st : TCState) (i c : Nat) :
    (TCdisableGamma st).rgbGamma i c = if i < 256 ∧ c < 3 then i else st.rgbGamma i c := by
  rw [TCdisableGamma, forLoop_eq_iter]
  have h := gammaLoop_iter (fun i row => setChannels row (i % 256)) 256 st i
  rw [h]
  by_cases hi : i < 256
  · rw [if_pos hi, setChannels_apply]
    by_cases hc : c < 3
    · rw [if_pos hc, if_pos ⟨hi, hc⟩, Nat.mod_eq_of_lt hi]
    · rw [if_neg hc, if_neg (fun hh => hc hh.2)]
  · rw [if_neg hi, if_neg (fun hh => hi hh.1)]

theorem TCdisableGamma_only_gamma (st : TCState) :
    ∃ tbl, TCdisableGamma st = { st with rgbGamma := tbl } := by
  rw [TCdisableGamma, forLoop_eq_iter]
  exact gammaLoop_frame (fun i row => setChannels row (i % 256)) 256 st

theorem DEFAULT_GAMMA_pos {K : Type} [LinearOrderedField K] : (0 : K) < DEFAULT_GAMMA := by
  unfold DEFAULT_GAMMA
  norm_num

/-! ## Gamma setters, default gamma and calibration -/

/-- `TCsetGamma` replaces the gamma table and nothing else. -/
theorem TCsetGamma_only_gamma {K : Type} [LinearOrderedField K] [FloorRing K] (ub : Int → Nat)
    (pw : K → K → K) (rMin rMax : Nat) (rGamma : K) (gMin gMax : Nat) (gGamma : K)
    (bMin bMax : Nat) (bGamma : K) (st : TCState) :
    ∃ tbl, (TCsetGamma ub pw rMin rMax rGamma gMin gMax gGamma bMin bMax bGamma st).2 =
      { st with rgbGamma := tbl } := by
  rw [TCsetGamma]
  split_ifs
  · exact ⟨st.rgbGamma, rfl⟩
  · dsimp only
    rw [forLoop_eq_iter]
    exact gammaLoop_frame
      (fun i row =>
        store (store (store row 0
          ((rMin + ucharOfFloor ub (Int.floor
            ((((rMax : Int) - (rMin : Int) : Int) : K) * pw ((i : K) / 255) rGamma + 0.5))) % 256))
          1 ((gMin + ucharOfFloor ub (Int.floor
            ((((gMax : Int) - (gMin : Int) : Int) : K) * pw ((i : K) / 255) gGamma + 0.5))) % 256))
          2 ((bMin + ucharOfFloor ub (Int.floor
            ((((bMax : Int) - (bMin : Int) : Int) : K) * pw ((i : K) / 255) bGamma + 0.5))) % 256))
      256 st

/-- Claim C33: `TCsetGammaSimple(g)` returns `TC_ERR_VALUE` if and only if `g <= 0`,
and `TCsetGamma` returns `TC_ERR_VALUE` if and only if at least one of its three
exponents is `<= 0`. In the error case the whole state, gamma table included, is
unchanged; otherwise `TC_OK` is returned and the state after the call differs from
the state before in the gamma table only. -/
theorem gamma_setters_status {K : Type} [LinearOrderedField K] [FloorRing K] (ub : Int → Nat)
    (pw : K → K → K) (g : K) (rMin rMax : Nat) (rGamma : K) (gMin gMax : Nat) (gGamma : K)
    (bMin bMax : Nat) (bGamma : K) (st : TCState) :
    (((TCsetGammaSimple pw g st).1 = TC_ERR_VALUE ↔ g ≤ 0) ∧
      (g ≤ 0 → TCsetGammaSimple pw g st = (TC_ERR_VALUE, st)) ∧
      (¬ g ≤ 0 → (TCsetGammaSimple pw g st).1 = TC_OK ∧
        ∃ tbl, (TCsetGammaSimple pw g st).2 = { st with rgbGamma := tbl })) ∧
    (((TCsetGamma ub pw rMin rMax rGamma gMin gMax gGamma bMin bMax bGamma st).1 = TC_ERR_VALUE ↔
        (rGamma ≤ 0 ∨ gGamma ≤ 0 ∨ bGamma ≤ 0)) ∧
      ((rGamma ≤ 0 ∨ gGamma ≤ 0 ∨ bGamma ≤ 0) →
        TCsetGamma ub pw rMin rMax rGamma gMin gMax gGamma bMin bMax bGamma st =
          (TC_ERR_VALUE, st)) ∧
      (¬ (rGamma ≤ 0 ∨ gGamma ≤ 0 ∨ bGamma ≤ 0) →
        (TCsetGamma ub pw rMin rMax rGamma gMin gMax gGamma bMin bMax bGamma st).1 = TC_OK ∧
        ∃ tbl, (TCsetGamma ub pw rMin rMax rGamma gMin gMax gGamma bMin bMax bGamma st).2 =
          { st with rgbGamma := tbl })) := by
  constructor
  · by_cases h : g ≤ 0
    · have he : TCsetGammaSimple pw g st = (TC_ERR_VALUE, st) := by
        rw [TCsetGammaSimple, if_pos h]
      exact ⟨⟨fun _ => h, fun _ => by rw [he]⟩, fun _ => he, fun hh => absurd h hh⟩
    · have hs : (TCsetGammaSimple pw g st).1 = TC_OK := by
        rw [TCsetGammaSimple, if_neg h]
      refine ⟨⟨fun hh => ?_, fun hh => absurd hh h⟩, fun hh => absurd hh h,
        fun _ => ⟨hs, TCsetGammaSimple_only_gamma pw g st⟩⟩
      rw [hs] at hh
      exact absurd hh (by decide)
  · by_cases h : rGamma ≤ 0 ∨ gGamma ≤ 0 ∨ bGamma ≤ 0
    · have he : TCsetGamma ub pw rMin rMax rGamma gMin gMax gGamma bMin bMax bGamma st =
          (TC_ERR_VALUE, st) := by
        rw [TCsetGamma, if_pos h]
      exact ⟨⟨fun _ => h, fun _ => by rw [he]⟩, fun _ => he, fun hh => absurd h hh⟩
    · have hs : (TCsetGamma ub pw rMin rMax rGamma gMin gMax gGamma bMin bMax bGamma st).1 =
          TC_OK := by
        rw [TCsetGamma, if_neg h]
      refine ⟨⟨fun hh => ?_, fun hh => absurd hh h⟩, fun hh => absurd hh h,
        fun _ => ⟨hs, TCsetGamma_only_gamma ub pw rMin rMax rGamma gMin gMax gGamma bMin bMax
          bGamma st⟩⟩
      rw [hs] at hh
      exact absurd hh (by decide)

theorem and_255_lt (x : Nat) : x &&& 0xff < 256 :=
  Nat.lt_succ_of_le Nat.and_le_right

/-- Claim C34: after `TCdisableGamma` the gamma table is the identity on all three
channels, `rgbGamma[i][c] = i` for `i` in 0..255 and `c` in 0..2. Consequently, for
every slot that shows a pixel (pixel buffer given, resolved index not negative),
the three colour bytes of the command word are the raw channel bytes of that
pixel: red in bits 0-7, green in bits 8-15, blue in bits 16-23 of the word. -/
theorem TCdisableGamma_identity (st : TCState) :
    (∀ i c, i < 256 → c < 3 → (TCdisableGamma st).rgbGamma i c = i) ∧
    (∀ (pix : Nat → Nat) (remap : Option (Nat → Int)) (s p : Nat),
      0 ≤ mappedPixel remap (s * st.pixelsPerStrand + p) →
      commandWord (TCdisableGamma st) (some pix) remap s p &&& 0xff =
        (pix (mappedPixel remap (s * st.pixelsPerStrand + p)).toNat >>> 16) &&& 0xff ∧
      (commandWord (TCdisableGamma st) (some pix) remap s p >>> 8) &&& 0xff =
        (pix (mappedPixel remap (s * st.pixelsPerStrand + p)).toNat >>> 8) &&& 0xff ∧
      (commandWord (TCdisableGamma st) (some pix) remap s p >>> 16) &&& 0xff =
        pix (mappedPixel remap (s * st.pixelsPerStrand + p)).toNat &&& 0xff) := by
  have htab : ∀ i c, i < 256 → c < 3 → (TCdisableGamma st).rgbGamma i c = i := by
    intro i c hi hc
    rw [TCdisableGamma_table, if_pos ⟨hi, hc⟩]
  have hg : ∀ x c, c < 3 → gammaAt (TCdisableGamma st) (x &&& 0xff) c = x &&& 0xff := by
    intro x c hc
    rw [gammaAt, htab _ c (and_255_lt x) hc, Nat.mod_eq_of_lt (and_255_lt x)]
  refine ⟨htab, fun pix remap s p hm => ?_⟩
  obtain ⟨tbl, ht⟩ := TCdisableGamma_only_gamma st
  have hpps : (TCdisableGamma st).pixelsPerStrand = st.pixelsPerStrand := by rw [ht]
  have hw : commandWord (TCdisableGamma st) (some pix) remap s p =
      packWord ((pix (mappedPixel remap (s * st.pixelsPerStrand + p)).toNat >>> 16) &&& 0xff)
        ((pix (mappedPixel remap (s * st.pixelsPerStrand + p)).toNat >>> 8) &&& 0xff)
        (pix (mappedPixel remap (s * st.pixelsPerStrand + p)).toNat &&& 0xff) := by
    rw [commandWord, hpps, pixelWord_coloured _ pix _ hm, hg _ 0 (by decide),
      hg _ 1 (by decide), hg _ 2 (by decide)]
  obtain ⟨f1, f2, f3, _⟩ := packWord_fields _ _ _
    (and_255_lt (pix (mappedPixel remap (s * st.pixelsPerStrand + p)).toNat >>> 16))
    (and_255_lt (pix (mappedPixel remap (s * st.pixelsPerStrand + p)).toNat >>> 8))
    (and_255_lt (pix (mappedPixel remap (s * st.pixelsPerStrand + p)).toNat))
  rw [hw]
  exact ⟨f1, f2, f3⟩

/-- A successful `TCopen` ends with `TCsetGammaSimple(DEFAULT_GAMMA)`. -/
theorem TCopen_ok_gamma {K : Type} [LinearOrderedField K] [FloorRing K] (w : ULongWidth)
    (pw : K → K → K) (env : OpenEnv) (s : Nat) (p : Int) (st : TCState)
    (hok : (TCopen w pw env s p st).1 = TC_OK) :
    (TCopen w pw env s p st).2 =
      (TCsetGammaSimple pw DEFAULT_GAMMA
        (TCrefresh w env.refresh none none none
          (latchRendered (openAlloc w env s p st).2 s p)).2.1).2 := by
  obtain ⟨hv, _, _⟩ := TCopen_ok_state w pw env s p st hok
  rw [TCopen_valid w pw env s p st hv] at hok ⊢
  by_cases h1 : (openAlloc w env s p st).1 ≠ TC_OK
  · rw [if_pos h1] at hok
    exact absurd hok h1
  · rw [if_neg h1] at hok ⊢
    by_cases h2 : env.latchWrite.ok = false ∨
        (latchRendered (openAlloc w env s p st).2 s p).bytesPerPixel ≠ env.latchWrite.out
    · rw [if_pos h2] at hok
      exact absurd (show TC_ERR_WRITE = TC_OK from hok) (by decide)
    · rw [if_neg h2] at hok ⊢
      by_cases h3 : (TCrefresh w env.refresh none none none
          (latchRendered (openAlloc w env s p st).2 s p)).1 ≠ TC_OK
      · rw [if_pos h3] at hok
        exact absurd hok h3
      · rw [if_neg h3]

/-- Claim C35: after every `TCopen` that returns `TC_OK`, each entry of the gamma
table is the entry that `TCsetGammaSimple(2.4)` computes,
`(unsigned char)(255 * pow(i/255, 2.4) + 0.5)`, the same as in the table that
`TCsetGammaSimple(DEFAULT_GAMMA)` builds from any state, whatever gamma table was
installed before the call. -/
theorem TCopen_default_gamma {K : Type} [LinearOrderedField K] [FloorRing K] (w : ULongWidth)
    (pw : K → K → K) (env : OpenEnv) (s : Nat) (p : Int) (st : TCState)
    (hok : (TCopen w pw env s p st).1 = TC_OK) :
    (∀ i c, i < 256 → c < 3 →
      (TCopen w pw env s p st).2.rgbGamma i c =
        toUChar (255 * pw ((i : K) / 255) DEFAULT_GAMMA + 0.5)) ∧
    (∀ (st0 : TCState) (i c : Nat), i < 256 → c < 3 →
      (TCopen w pw env s p st).2.rgbGamma i c =
        (TCsetGammaSimple pw DEFAULT_GAMMA st0).2.rgbGamma i c) ∧
    (TCsetGammaSimple pw (DEFAULT_GAMMA : K) st).1 = TC_OK := by
  have h1 : ∀ i c, i < 256 → c < 3 →
      (TCopen w pw env s p st).2.rgbGamma i c =
        toUChar (255 * pw ((i : K) / 255) DEFAULT_GAMMA + 0.5) := by
    intro i c hi hc
    rw [TCopen_ok_gamma w pw env s p st hok, TCsetGammaSimple_table pw _ _ DEFAULT_GAMMA_pos,
      if_pos ⟨hi, hc⟩]
  refine ⟨h1, fun st0 i c hi hc => ?_, ?_⟩
  · rw [h1 i c hi hc, TCsetGammaSimple_table pw _ _ DEFAULT_GAMMA_pos, if_pos ⟨hi, hc⟩]
  · rw [TCsetGammaSimple, if_neg (not_le.mpr DEFAULT_GAMMA_pos)]

/-- Instance of C35: `TCopen(1, 25)` from the initial state with every collaborator
succeeding, compared with the table built on the sample session. -/
theorem TCopen_default_gamma_witness :
    (TCopen ULongWidth.lp64 squarePow allOkEnv 1 25 initialState).1 = TC_OK ∧
    ∀ i c, i < 256 → c < 3 →
      (TCopen ULongWidth.lp64 squarePow allOkEnv 1 25 initialState).2.rgbGamma i c =
        (TCsetGammaSimple squarePow DEFAULT_GAMMA sampleBitbang).2.rgbGamma i c :=
  ⟨TCopen_allOk_status ULongWidth.lp64 squarePow,
    (TCopen_default_gamma ULongWidth.lp64 squarePow allOkEnv 1 25 initialState
      (TCopen_allOk_status ULongWidth.lp64 squarePow)).2.1 sampleBitbang⟩

/-- Claim C37: in exact rational arithmetic the current model reproduces the
calibration readings: `CAL_N_PIXELS * EST_CURRENT(255,0,0) = CAL_RAW_R = 510`, and
likewise 491 for green, 491 for blue, `CAL_RAW_RG = 956` for red+green,
`CAL_RAW_GB = 929` for green+blue and `CAL_RAW_RB = 957` for red+blue. -/
theorem calibration_readings :
    CAL_N_PIXELS * EST_CURRENT 255 0 0 = CAL_RAW_R ∧ CAL_RAW_R = 510 ∧
    CAL_N_PIXELS * EST_CURRENT 0 255 0 = CAL_RAW_G ∧ CAL_RAW_G = 491 ∧
    CAL_N_PIXELS * EST_CURRENT 0 0 255 = CAL_RAW_B ∧ CAL_RAW_B = 491 ∧
    CAL_N_PIXELS * EST_CURRENT 255 255 0 = CAL_RAW_RG ∧ CAL_RAW_RG = 956 ∧
    CAL_N_PIXELS * EST_CURRENT 0 255 255 = CAL_RAW_GB ∧ CAL_RAW_GB = 929 ∧
    CAL_N_PIXELS * EST_CURRENT 255 0 255 = CAL_RAW_RB ∧ CAL_RAW_RB = 957 := by
  refine ⟨?_, rfl, ?_, rfl, ?_, rfl, ?_, rfl, ?_, rfl, ?_, rfl⟩ <;>
    norm_num [EST_CURRENT, CAL_N_PIXELS, CAL_CURRENT_OFF, CAL_RAW_R, CAL_RAW_G, CAL_RAW_B,
      CAL_RAW_RG, CAL_RAW_GB, CAL_RAW_RB, CAL_CURRENT_R, CAL_CURRENT_G, CAL_CURRENT_B,
      CAL_CURRENT_RG, CAL_CURRENT_GB, CAL_CURRENT_RB, CAL_COMBO_RG, CAL_COMBO_GB, CAL_COMBO_RB]

/-! ## TCsetGammaSimple with the real power function -/

theorem rpow_unit_range (i : Nat) (hi : i < 256) (g : ℝ) (hg : 0 < g) :
    0 ≤ ((i : ℝ) / 255) ^ g ∧ ((i : ℝ) / 255) ^ g ≤ 1 := by
  have h0 : (0 : ℝ) ≤ (i : ℝ) / 255 := by positivity
  have h1 : (i : ℝ) / 255 ≤ 1 := by
    rw [div_le_one (by norm_num)]
    have : (i : ℝ) ≤ 255 := by exact_mod_cast Nat.lt_succ_iff.mp hi
    exact this
  exact ⟨Real.rpow_nonneg h0 g, Real.rpow_le_one h0 h1 (le_of_lt hg)⟩

/-- The entry that `TCsetGammaSimple(g)` computes for row `i`, with the real `pow`. -/
theorem gamma_entry_floor (i : Nat) (hi : i < 256) (g : ℝ) (hg : 0 < g) :
    toUChar (255 * ((i : ℝ) / 255) ^ g + 0.5) =
      (Int.floor (255 * ((i : ℝ) / 255) ^ g + 0.5)).toNat ∧
    (Int.floor (255 * ((i : ℝ) / 255) ^ g + 0.5)).toNat ≤ 255 := by
  obtain ⟨h0, h1⟩ := rpow_unit_range i hi g hg
  have hf0 : 0 ≤ Int.floor (255 * ((i : ℝ) / 255) ^ g + 0.5) := by
    apply Int.floor_nonneg.mpr
    have : (0:ℝ) ≤ 255 * ((i : ℝ) / 255) ^ g := by positivity
    norm_num
    linarith
  have hf1 : Int.floor (255 * ((i : ℝ) / 255) ^ g + 0.5) < 256 := by
    apply Int.floor_lt.mpr
    norm_num
    linarith
  have hle : (Int.floor (255 * ((i : ℝ) / 255) ^ g + 0.5)).toNat ≤ 255 := by omega
  exact ⟨by rw [toUChar, Nat.mod_eq_of_lt (by omega)], hle⟩

/-- Claim C31: for every exponent `g > 0`, with the real power function for `pow`,
the table built by `TCsetGammaSimple(g)` has the entry
`floor(255 * (i/255)^g + 0.5)` in row `i` on all three channels, is monotonically
non-decreasing in `i`, and has `table[0] = 0` and `table[255] = 255`. -/
theorem gamma_table_monotone (g : ℝ) (st : TCState) (hg : 0 < g) :
    (∀ i c, i < 256 → c < 3 →
      (TCsetGammaSimple (fun x y : ℝ => x ^ y) g st).2.rgbGamma i c =
        (Int.floor (255 * ((i : ℝ) / 255) ^ g + 0.5)).toNat) ∧
    (∀ i j c, i ≤ j → j < 256 → c < 3 →
      (TCsetGammaSimple (fun x y : ℝ => x ^ y) g st).2.rgbGamma i c ≤
        (TCsetGammaSimple (fun x y : ℝ => x ^ y) g st).2.rgbGamma j c) ∧
    (∀ c, c < 3 → (TCsetGammaSimple (fun x y : ℝ => x ^ y) g st).2.rgbGamma 0 c = 0) ∧
    (∀ c, c < 3 → (TCsetGammaSimple (fun x y : ℝ => x ^ y) g st).2.rgbGamma 255 c = 255) := by
  have hent : ∀ i c, i < 256 → c < 3 →
      (TCsetGammaSimple (fun x y : ℝ => x ^ y) g st).2.rgbGamma i c =
        (Int.floor (255 * ((i : ℝ) / 255) ^ g + 0.5)).toNat := by
    intro i c hi hc
    rw [TCsetGammaSimple_table _ g st hg, if_pos ⟨hi, hc⟩]
    exact (gamma_entry_floor i hi g hg).1
  refine ⟨hent, fun i j c hij hj hc => ?_, fun c hc => ?_, fun c hc => ?_⟩
  · rw [hent i c (by omega) hc, hent j c hj hc]
    apply Int.toNat_le_toNat
    apply Int.floor_le_floor
    have hb : (i : ℝ) / 255 ≤ (j : ℝ) / 255 := by
      apply div_le_div_of_nonneg_right _ (by norm_num)
      exact_mod_cast hij
    have hp : ((i : ℝ) / 255) ^ g ≤ ((j : ℝ) / 255) ^ g :=
      Real.rpow_le_rpow (by positivity) hb (le_of_lt hg)
    linarith
  · rw [hent 0 c (by decide) hc]
    have : (255 * (((0 : Nat) : ℝ) / 255) ^ g + 0.5 : ℝ) = 0.5 := by
      rw [Nat.cast_zero, zero_div, Real.zero_rpow (ne_of_gt hg)]
      norm_num
    rw [this]
    have hf : Int.floor (0.5 : ℝ) = 0 := by
      rw [Int.floor_eq_iff]
      constructor <;> norm_num
    rw [hf]
    rfl
  · rw [hent 255 c (by decide) hc]
    have : (255 * (((255 : Nat) : ℝ) / 255) ^ g + 0.5 : ℝ) = 255.5 := by
      have h1 : (((255 : Nat) : ℝ) / 255) = 1 := by norm_num
      rw [h1, Real.one_rpow]
      norm_num
    rw [this]
    have hf : Int.floor (255.5 : ℝ) = 255 := by
      rw [Int.floor_eq_iff]
      constructor <;> norm_num
    rw [hf]
    rfl

/-- Instance of C31 for the exponent 2 and the initial state. -/
theorem gamma_table_monotone_witness :
    (0 : ℝ) < 2 ∧
    (∀ i j c, i ≤ j → j < 256 → c < 3 →
      (TCsetGammaSimple (fun x y : ℝ => x ^ y) 2 initialState).2.rgbGamma i c ≤
        (TCsetGammaSimple (fun x y : ℝ => x ^ y) 2 initialState).2.rgbGamma j c) ∧
    (TCsetGammaSimple (fun x y : ℝ => x ^ y) 2 initialState).2.rgbGamma 255 0 = 255 :=
  ⟨by norm_num, (gamma_table_monotone 2 initialState (by norm_num)).2.1,
    (gamma_table_monotone 2 initialState (by norm_num)).2.2.2 0 (by decide)⟩

/-! ## TCsetGamma -/

/-- The table that `TCsetGamma` builds when all three exponents are positive. -/
theorem TCsetGamma_table {K : Type} [LinearOrderedField K] [FloorRing K] (ub : Int → Nat)
    (pw : K → K → K) (rMin rMax : Nat) (rGamma : K) (gMin gMax : Nat) (gGamma : K)
    (bMin bMax : Nat) (bGamma : K) (st : TCState)
    (hpos : ¬ (rGamma ≤ 0 ∨ gGamma ≤ 0 ∨ bGamma ≤ 0)) (i : Nat) (hi : i < 256) :
    (TCsetGamma ub pw rMin rMax rGamma gMin gMax gGamma bMin bMax bGamma st).2.rgbGamma i 0 =
      (rMin + ucharOfFloor ub (Int.floor
        ((((rMax : Int) - (rMin : Int) : Int) : K) * pw ((i : K) / 255) rGamma + 0.5))) % 256 ∧
    (TCsetGamma ub pw rMin rMax rGamma gMin gMax gGamma bMin bMax bGamma st).2.rgbGamma i 1 =
      (gMin + ucharOfFloor ub (Int.floor
        ((((gMax : Int) - (gMin : Int) : Int) : K) * pw ((i : K) / 255) gGamma + 0.5))) % 256 ∧
    (TCsetGamma ub pw rMin rMax rGamma gMin gMax gGamma bMin bMax bGamma st).2.rgbGamma i 2 =
      (bMin + ucharOfFloor ub (Int.floor
        ((((bMax : Int) - (bMin : Int) : Int) : K) * pw ((i : K) / 255) bGamma + 0.5))) % 256 := by
  rw [TCsetGamma, if_neg hpos]
  dsimp only
  rw [forLoop_eq_iter]
  have h := gammaLoop_iter
    (fun i row =>
      store (store (store row 0
        ((rMin + ucharOfFloor ub (Int.floor
          ((((rMax : Int) - (rMin : Int) : Int) : K) * pw ((i : K) / 255) rGamma + 0.5))) % 256))
        1 ((gMin + ucharOfFloor ub (Int.floor
          ((((gMax : Int) - (gMin : Int) : Int) : K) * pw ((i : K) / 255) gGamma + 0.5))) % 256))
        2 ((bMin + ucharOfFloor ub (Int.floor
          ((((bMax : Int) - (bMin : Int) : Int) : K) * pw ((i : K) / 255) bGamma + 0.5))) % 256))
    256 st i
  rw [h, if_pos hi]
  exact ⟨by simp [store], by simp [store], by simp [store]⟩

/-- One channel of `TCsetGamma` with `min <= max <= 255` and the real `pow`: the
conversion is defined, and the entry is `min + floor(0.5 + (max - min) * (i/255)^g)`. -/
theorem gamma_channel_entry (ub : Int → Nat) (mn mx : Nat) (g : ℝ) (i : Nat) (hi : i < 256)
    (hmn : mn ≤ mx) (hmx : mx ≤ 255) (hg : 0 < g) :
    (((mn + ucharOfFloor ub (Int.floor
        ((((mx : Int) - (mn : Int) : Int) : ℝ) * ((i : ℝ) / 255) ^ g + 0.5))) % 256 : Nat) : Int) =
      (mn : Int) + Int.floor (0.5 + ((mx : ℝ) - (mn : ℝ)) * ((i : ℝ) / 255) ^ g) ∧
    mn ≤ (mn + ucharOfFloor ub (Int.floor
        ((((mx : Int) - (mn : Int) : Int) : ℝ) * ((i : ℝ) / 255) ^ g + 0.5))) % 256 ∧
    (mn + ucharOfFloor ub (Int.floor
        ((((mx : Int) - (mn : Int) : Int) : ℝ) * ((i : ℝ) / 255) ^ g + 0.5))) % 256 ≤ mx := by
  obtain ⟨h0, h1⟩ := rpow_unit_range i hi g hg
  have hcast : ((((mx : Int) - (mn : Int) : Int)) : ℝ) = (mx : ℝ) - (mn : ℝ) := by push_cast; ring
  have hr0 : (0 : ℝ) ≤ (mx : ℝ) - (mn : ℝ) := by
    have : (mn : ℝ) ≤ (mx : ℝ) := by exact_mod_cast hmn
    linarith
  have harg : ((((mx : Int) - (mn : Int) : Int) : ℝ)) * ((i : ℝ) / 255) ^ g + 0.5 =
      0.5 + ((mx : ℝ) - (mn : ℝ)) * ((i : ℝ) / 255) ^ g := by
    rw [hcast]; ring
  rw [harg]
  have hprod0 : 0 ≤ ((mx : ℝ) - (mn : ℝ)) * ((i : ℝ) / 255) ^ g := mul_nonneg hr0 h0
  have hprod1 : ((mx : ℝ) - (mn : ℝ)) * ((i : ℝ) / 255) ^ g ≤ (mx : ℝ) - (mn : ℝ) := by
    calc ((mx : ℝ) - (mn : ℝ)) * ((i : ℝ) / 255) ^ g ≤ ((mx : ℝ) - (mn : ℝ)) * 1 :=
          mul_le_mul_of_nonneg_left h1 hr0
      _ = (mx : ℝ) - (mn : ℝ) := mul_one _
  have hf0 : 0 ≤ Int.floor (0.5 + ((mx : ℝ) - (mn : ℝ)) * ((i : ℝ) / 255) ^ g) := by
    apply Int.floor_nonneg.mpr
    norm_num
    linarith
  have hf1 : Int.floor (0.5 + ((mx : ℝ) - (mn : ℝ)) * ((i : ℝ) / 255) ^ g) <
      (mx : Int) - (mn : Int) + 1 := by
    apply Int.floor_lt.mpr
    push_cast
    norm_num
    linarith
  have hu : ucharOfFloor ub (Int.floor (0.5 + ((mx : ℝ) - (mn : ℝ)) * ((i : ℝ) / 255) ^ g)) =
      (Int.floor (0.5 + ((mx : ℝ) - (mn : ℝ)) * ((i : ℝ) / 255) ^ g)).toNat := by
    rw [ucharOfFloor, if_pos ⟨hf0, by omega⟩]
  rw [hu]
  have hsum : mn + (Int.floor (0.5 + ((mx : ℝ) - (mn : ℝ)) * ((i : ℝ) / 255) ^ g)).toNat ≤ mx := by
    omega
  rw [Nat.mod_eq_of_lt (by omega)]
  refine ⟨?_, by omega, hsum⟩
  push_cast
  rw [Int.toNat_of_nonneg hf0]

/-- The table of `TCsetGamma` for ranges with `min <= max`: with the real power
function for `pow`, whatever the platform does with an undefined conversion (none
occurs), each channel's entry for every input `i` in 0..255 equals
`min + floor(0.5 + (max - min) * (i/255)^exponent)` computed from that channel's
own triple only, and lies in 0..255. -/
theorem TCsetGamma_entries (ub : Int → Nat) (rMin rMax : Nat) (rGamma : ℝ) (gMin gMax : Nat)
    (gGamma : ℝ) (bMin bMax : Nat) (bGamma : ℝ) (st : TCState)
    (hr : rMin ≤ rMax ∧ rMax ≤ 255) (hg : gMin ≤ gMax ∧ gMax ≤ 255)
    (hb : bMin ≤ bMax ∧ bMax ≤ 255) (hpos : 0 < rGamma ∧ 0 < gGamma ∧ 0 < bGamma) :
    ∀ i, i < 256 →
      (((TCsetGamma ub (fun x y : ℝ => x ^ y) rMin rMax rGamma gMin gMax gGamma bMin bMax bGamma
          st).2.rgbGamma i 0 : Nat) : Int) =
        (rMin : Int) + Int.floor (0.5 + ((rMax : ℝ) - (rMin : ℝ)) * ((i : ℝ) / 255) ^ rGamma) ∧
      (((TCsetGamma ub (fun x y : ℝ => x ^ y) rMin rMax rGamma gMin gMax gGamma bMin bMax bGamma
          st).2.rgbGamma i 1 : Nat) : Int) =
        (gMin : Int) + Int.floor (0.5 + ((gMax : ℝ) - (gMin : ℝ)) * ((i : ℝ) / 255) ^ gGamma) ∧
      (((TCsetGamma ub (fun x y : ℝ => x ^ y) rMin rMax rGamma gMin gMax gGamma bMin bMax bGamma
          st).2.rgbGamma i 2 : Nat) : Int) =
        (bMin : Int) + Int.floor (0.5 + ((bMax : ℝ) - (bMin : ℝ)) * ((i : ℝ) / 255) ^ bGamma) ∧
      (∀ c, c < 3 →
        (TCsetGamma ub (fun x y : ℝ => x ^ y) rMin rMax rGamma gMin gMax gGamma bMin bMax bGamma
          st).2.rgbGamma i c ≤ 255) := by
  intro i hi
  have hne : ¬ (rGamma ≤ 0 ∨ gGamma ≤ 0 ∨ bGamma ≤ 0) := by
    rintro (h | h | h)
    · exact absurd hpos.1 (not_lt.mpr h)
    · exact absurd hpos.2.1 (not_lt.mpr h)
    · exact absurd hpos.2.2 (not_lt.mpr h)
  obtain ⟨t0, t1, t2⟩ := TCsetGamma_table ub (fun x y : ℝ => x ^ y) rMin rMax rGamma gMin gMax
    gGamma bMin bMax bGamma st hne i hi
  obtain ⟨r1, _, r3⟩ := gamma_channel_entry ub rMin rMax rGamma i hi hr.1 hr.2 hpos.1
  obtain ⟨g1, _, g3⟩ := gamma_channel_entry ub gMin gMax gGamma i hi hg.1 hg.2 hpos.2.1
  obtain ⟨b1, _, b3⟩ := gamma_channel_entry ub bMin bMax bGamma i hi hb.1 hb.2 hpos.2.2
  rw [t0, t1, t2]
  refine ⟨r1, g1, b1, fun c hc => ?_⟩
  have hc3 : c = 0 ∨ c = 1 ∨ c = 2 := by omega
  rcases hc3 with rfl | rfl | rfl
  · rw [t0]; exact le_trans r3 hr.2
  · rw [t1]; exact le_trans g3 hg.2
  · rw [t2]; exact le_trans b3 hb.2

/-- Three different channel settings with `min <= max` on the initial state. -/
theorem TCsetGamma_entries_witness :
    ((0 ≤ 255 ∧ 255 ≤ 255) ∧ (10 ≤ 200 ∧ 200 ≤ 255) ∧ (40 ≤ 40 ∧ 40 ≤ 255) ∧
      ((0 : ℝ) < 1 ∧ (0 : ℝ) < 2 ∧ (0 : ℝ) < 3)) ∧
    ∀ i, i < 256 →
      (((TCsetGamma lowByteConversion (fun x y : ℝ => x ^ y) 0 255 1 10 200 2 40 40 3
          initialState).2.rgbGamma i 0 : Nat) : Int) =
        ((0 : Nat) : Int) +
          Int.floor (0.5 + (((255 : Nat) : ℝ) - ((0 : Nat) : ℝ)) * ((i : ℝ) / 255) ^ (1 : ℝ)) ∧
      (((TCsetGamma lowByteConversion (fun x y : ℝ => x ^ y) 0 255 1 10 200 2 40 40 3
          initialState).2.rgbGamma i 1 : Nat) : Int) =
        ((10 : Nat) : Int) +
          Int.floor (0.5 + (((200 : Nat) : ℝ) - ((10 : Nat) : ℝ)) * ((i : ℝ) / 255) ^ (2 : ℝ)) ∧
      (((TCsetGamma lowByteConversion (fun x y : ℝ => x ^ y) 0 255 1 10 200 2 40 40 3
          initialState).2.rgbGamma i 2 : Nat) : Int) =
        ((40 : Nat) : Int) +
          Int.floor (0.5 + (((40 : Nat) : ℝ) - ((40 : Nat) : ℝ)) * ((i : ℝ) / 255) ^ (3 : ℝ)) ∧
      (∀ c, c < 3 →
        (TCsetGamma lowByteConversion (fun x y : ℝ => x ^ y) 0 255 1 10 200 2 40 40 3
          initialState).2.rgbGamma i c ≤ 255) :=
  ⟨⟨by decide, by decide, by decide, by norm_num, by norm_num, by norm_num⟩,
    TCsetGamma_entries lowByteConversion 0 255 1 10 200 2 40 40 3 initialState (by decide)
      (by decide) (by decide) ⟨by norm_num, by norm_num, by norm_num⟩⟩

theorem toUChar_half {K : Type} [LinearOrderedField K] [FloorRing K] :
    toUChar ((255 : K) * 0 + 0.5) = 0 := by
  have hf : Int.floor ((255 : K) * 0 + 0.5) = 0 := by
    rw [Int.floor_eq_iff]
    constructor <;> norm_num
  rw [toUChar, hf]
  rfl

theorem toUChar_full {K : Type} [LinearOrderedField K] [FloorRing K] :
    toUChar ((255 : K) * 1 + 0.5) = 255 := by
  have hf : Int.floor ((255 : K) * 1 + 0.5) = 255 := by
    rw [Int.floor_eq_iff]
    constructor <;> norm_num
  rw [toUChar, hf]
  rfl

/-- Claim C36: all-red scenario, for every `p`. After a `TCopen(1, p)` that returns
`TC_OK` (so `p >= 1`, software clock, one strand; `pow` maps 0 to 0 and 1 to 1 at
the default exponent, as the real power function does), `TCinitStats`, and one
`TCrefresh` of a buffer whose first `p` pixels are `TCrgb(255,0,0)` with no remap:
the one write has `(p + 1) * 64` bytes, the command word of every slot is
`0xFC0000FF`, and `stats.frames = 1`. -/
theorem all_red_scenario {K : Type} [LinearOrderedField K] [FloorRing K] (w : ULongWidth)
    (pw : K → K → K) (env : OpenEnv) (p : Int) (st : TCState) (renv : RefreshEnv)
    (pix : Nat → Nat) (s0 : TCstats)
    (hok : (TCopen w pw env 1 p st).1 = TC_OK)
    (hp0 : pw 0 DEFAULT_GAMMA = 0) (hp1 : pw 1 DEFAULT_GAMMA = 1)
    (hpix : ∀ i, i < p.toNat → pix i = TCrgb 255 0 0) :
    (1 ≤ p ∧ (TCopen w pw env 1 p st).2.bytesPerPixel = 64 ∧
      (TCopen w pw env 1 p st).2.nStrands = 1 ∧
      (TCopen w pw env 1 p st).2.pixelsPerStrand = p.toNat) ∧
    ((TCrefresh w renv (some pix) none (some (initialisedStats s0))
          (TCopen w pw env 1 p st).2).2.1.calls =
        (TCopen w pw env 1 p st).2.calls ++
          [Call.gettimeofday,
            Call.FT_Write (bytesAt (TCrefresh w renv (some pix) none
              (some (initialisedStats s0)) (TCopen w pw env 1 p st).2).2.1.pixelOutBuffer 0
              ((p.toNat + 1) * 64)),
            Call.gettimeofday] ∧
      (bytesAt (TCrefresh w renv (some pix) none (some (initialisedStats s0))
          (TCopen w pw env 1 p st).2).2.1.pixelOutBuffer 0 ((p.toNat + 1) * 64)).length =
        (p.toNat + 1) * 64) ∧
    (∀ pos, pos < p.toNat →
      commandWord (TCopen w pw env 1 p st).2 (some pix) none 0 pos = 0xFC0000FF) ∧
    (TCrefreshStats w renv (some pix) none (initialisedStats s0)
      (TCopen w pw env 1 p st).2).frames = 1 := by
  obtain ⟨hv, _, _⟩ := TCopen_ok_state w pw env 1 p st hok
  obtain ⟨hb, hn, hpp, _⟩ := TCopen_ok_fields w pw env 1 p st hok
  rw [if_neg (by decide)] at hb
  have hn1 : (TCopen w pw env 1 p st).2.nStrands = 1 := by rw [hn]; rfl
  have hgam : ∀ i c, i < 256 → c < 3 →
      (TCopen w pw env 1 p st).2.rgbGamma i c =
        toUChar (255 * pw ((i : K) / 255) DEFAULT_GAMMA + 0.5) := by
    intro i c hi hc
    rw [TCopen_ok_gamma w pw env 1 p st hok, TCsetGammaSimple_table pw _ _ DEFAULT_GAMMA_pos,
      if_pos ⟨hi, hc⟩]
  have hg0 : ∀ c, c < 3 → gammaAt (TCopen w pw env 1 p st).2 0 c = 0 := by
    intro c hc
    rw [gammaAt, hgam 0 c (by decide) hc, Nat.cast_zero, zero_div, hp0, toUChar_half]
  have hg255 : gammaAt (TCopen w pw env 1 p st).2 255 0 = 255 := by
    have h1 : (((255 : Nat) : K) / 255) = 1 := by norm_num
    rw [gammaAt, hgam 255 0 (by decide) (by decide), h1, hp1, toUChar_full]
  refine ⟨⟨by omega, hb, hn1, hpp⟩, ?_, ?_, ?_⟩
  · refine ⟨?_, bytesAt_length _ 0 ((p.toNat + 1) * 64)⟩
    rw [TCrefresh_calls, TCrefresh_out, hpp, hb]
    simp
  · intro pos hpos
    have hm : mappedPixel none (0 * (TCopen w pw env 1 p st).2.pixelsPerStrand + pos) =
        (pos : Int) := by
      rw [Nat.zero_mul, Nat.zero_add]
      rfl
    rw [commandWord, hm, pixelWord_coloured _ pix _ (Int.natCast_nonneg pos), Int.toNat_natCast,
      hpix pos hpos]
    have e1 : (TCrgb 255 0 0 >>> 16) &&& 0xff = 255 := by decide
    have e2 : (TCrgb 255 0 0 >>> 8) &&& 0xff = 0 := by decide
    have e3 : TCrgb 255 0 0 &&& 0xff = 0 := by decide
    rw [e1, e2, e3, hg255, hg0 1 (by decide), hg0 2 (by decide)]
    decide
  · rw [(TCrefreshStats_last w renv (some pix) none (initialisedStats s0)
      (TCopen w pw env 1 p st).2).2.2]
    exact Nat.mod_eq_of_lt (one_lt_two_pow_bits w)

/-- Instance of C36 with the real power function: `TCopen(1, 25)` from the initial
state with every collaborator succeeding, then a frame of red pixels. -/
theorem all_red_scenario_witness :
    ((TCopen ULongWidth.lp64 (fun x y : ℝ => x ^ y) allOkEnv 1 25 initialState).1 = TC_OK ∧
      (fun x y : ℝ => x ^ y) 0 DEFAULT_GAMMA = 0 ∧ (fun x y : ℝ => x ^ y) 1 DEFAULT_GAMMA = 1 ∧
      ∀ i, i < (25 : Int).toNat → allRed i = TCrgb 255 0 0) ∧
    (∀ pos, pos < (25 : Int).toNat →
      commandWord (TCopen ULongWidth.lp64 (fun x y : ℝ => x ^ y) allOkEnv 1 25 initialState).2
        (some allRed) none 0 pos = 0xFC0000FF) ∧
    (TCrefreshStats ULongWidth.lp64 allOkEnv.refresh (some allRed) none
      (initialisedStats staleStats)
      (TCopen ULongWidth.lp64 (fun x y : ℝ => x ^ y) allOkEnv 1 25 initialState).2).frames = 1 :=
  ⟨⟨TCopen_allOk_status ULongWidth.lp64 (fun x y : ℝ => x ^ y),
      Real.zero_rpow (ne_of_gt DEFAULT_GAMMA_pos), Real.one_rpow _, fun _ _ => rfl⟩,
    (all_red_scenario ULongWidth.lp64 (fun x y : ℝ => x ^ y) allOkEnv 25 initialState
      allOkEnv.refresh allRed staleStats
      (TCopen_allOk_status ULongWidth.lp64 (fun x y : ℝ => x ^ y))
      (Real.zero_rpow (ne_of_gt DEFAULT_GAMMA_pos)) (Real.one_rpow _) (fun _ _ => rfl)).2.2.1,
    (all_red_scenario ULongWidth.lp64 (fun x y : ℝ => x ^ y) allOkEnv 25 initialState
      allOkEnv.refresh allRed staleStats
      (TCopen_allOk_status ULongWidth.lp64 (fun x y : ℝ => x ^ y))
      (Real.zero_rpow (ne_of_gt DEFAULT_GAMMA_pos)) (Real.one_rpow _) (fun _ _ => rfl)).2.2.2⟩

/-! ## Round trip under pairwise disjoint pins -/

theorem orUpTo_congr_lt (f g : Nat → Nat) :
    ∀ n : Nat, (∀ s, s < n → f s = g s) → orUpTo f n = orUpTo g n := by
  intro n
  induction n with
  | zero => intro _; rfl
  | succ k ih =>
    intro h
    rw [orUpTo, orUpTo, ih (fun s hs => h s (by omega)), h k (by omega)]

/-- What the pins of strand `s` show in a data byte when the masks in use are
non-zero and pairwise disjoint. -/
theorem data_byte_and_mask (w : ULongWidth) (st : TCState) (pix : Option (Nat → Nat))
    (remap : Option (Nat → Int)) (hb : st.bytesPerPixel = 64 ∨ st.bytesPerPixel = 32)
    (hdis : ∀ t u, t < st.nStrands → u < st.nStrands → t ≠ u →
      st.strandBitMask t &&& st.strandBitMask u = 0)
    (s p k : Nat) (hs : s < st.nStrands) (hp : p < st.pixelsPerStrand) (hk : k < 32) :
    (renderFrame w st pix remap).out (dataByte st.bytesPerPixel p k) &&& st.strandBitMask s =
      if (commandWord st pix remap s p).testBit (31 - k) = true then st.strandBitMask s
      else 0 := by
  rw [renderFrame_data_byte w st pix remap hb p k hp hk, orUpTo_and,
    orUpTo_single _ s st.nStrands hs]
  · by_cases hbit : (commandWord st pix remap s p).testBit (31 - k) = true
    · simp only [hbit, if_true, Nat.and_self]
    · simp only [hbit, Bool.false_eq_true, if_false, Nat.zero_and]
  · intro t ht hts
    by_cases hbit : (commandWord st pix remap t p).testBit (31 - k) = true
    · simp only [hbit, if_true]
      exact hdis t s ht hs hts
    · simp only [hbit, Bool.false_eq_true, if_false, Nat.zero_and]

/-- Claim C38: round trip under distinct pins. If the pin masks of the strands in
use (`strandBitMask[0..nStrands-1]`) are all non-zero and pairwise disjoint, then
for every pixel buffer, remap table and gamma table, every strand `s < nStrands`,
position `p < pixelsPerStrand` and `k` in 0..31, bit `31 - k` of the command word
of slot `(s, p)` is 1 if and only if `(B & strandBitMask[s]) = strandBitMask[s]`,
where `B` is output byte `32p + k` in hardware-clock mode and output byte
`64p + 2k` in software-clock mode, after `TCrefresh`. -/
theorem roundtrip_pairwise_disjoint (w : ULongWidth) (env : RefreshEnv)
    (pix : Option (Nat → Nat)) (remap : Option (Nat → Int)) (stats : Option TCstats)
    (st : TCState) (hb : st.bytesPerPixel = 64 ∨ st.bytesPerPixel = 32)
    (hnz : ∀ t, t < st.nStrands → st.strandBitMask t ≠ 0)
    (hdis : ∀ t u, t < st.nStrands → u < st.nStrands → t ≠ u →
      st.strandBitMask t &&& st.strandBitMask u = 0)
    (s p k : Nat) (hs : s < st.nStrands) (hp : p < st.pixelsPerStrand) (hk : k < 32) :
    ((commandWord st pix remap s p).testBit (31 - k) = true ↔
      (TCrefresh w env pix remap stats st).2.1.pixelOutBuffer
          (if st.bytesPerPixel = 64 then 64 * p + 2 * k else 32 * p + k) &&&
        st.strandBitMask s = st.strandBitMask s) := by
  have hidx : (if st.bytesPerPixel = 64 then 64 * p + 2 * k else 32 * p + k) =
      dataByte st.bytesPerPixel p k := by
    rw [dataByte]
    rcases hb with h | h
    · rw [if_pos h, if_pos h]
    · rw [if_neg (by omega), if_neg (by omega), h]
  rw [hidx, TCrefresh_out, data_byte_and_mask w st pix remap hb hdis s p k hs hp hk]
  by_cases hbit : (commandWord st pix remap s p).testBit (31 - k) = true
  · simp only [hbit, if_true]
  · simp only [hbit, if_false]
    exact ⟨fun h => absurd h (by decide), fun h => absurd h.symm (hnz s hs)⟩

/-- Instance of C38 for strand 2, position 1, bit position 5 of the sample
software-clock session. -/
theorem roundtrip_pairwise_disjoint_witness :
    ((sampleBitbang.bytesPerPixel = 64 ∨ sampleBitbang.bytesPerPixel = 32) ∧
      (∀ t, t < sampleBitbang.nStrands → sampleBitbang.strandBitMask t ≠ 0) ∧
      (∀ t u, t < sampleBitbang.nStrands → u < sampleBitbang.nStrands → t ≠ u →
        sampleBitbang.strandBitMask t &&& sampleBitbang.strandBitMask u = 0) ∧
      2 < sampleBitbang.nStrands ∧ 1 < sampleBitbang.pixelsPerStrand ∧ 5 < 32) ∧
    ((commandWord sampleBitbang (some samplePixels) none 2 1).testBit (31 - 5) = true ↔
      (TCrefresh ULongWidth.lp64 sampleEnv (some samplePixels) none none
          sampleBitbang).2.1.pixelOutBuffer
          (if sampleBitbang.bytesPerPixel = 64 then 64 * 1 + 2 * 5 else 32 * 1 + 5) &&&
        sampleBitbang.strandBitMask 2 = sampleBitbang.strandBitMask 2) :=
  have hnz : ∀ t, t < sampleBitbang.nStrands → sampleBitbang.strandBitMask t ≠ 0 := by
    intro t ht
    have ht3 : t < 3 := ht
    interval_cases t <;> decide
  have hdis : ∀ t u, t < sampleBitbang.nStrands → u < sampleBitbang.nStrands → t ≠ u →
      sampleBitbang.strandBitMask t &&& sampleBitbang.strandBitMask u = 0 := by
    intro t u ht hu
    have ht3 : t < 3 := ht
    have hu3 : u < 3 := hu
    interval_cases t <;> interval_cases u <;> decide
  ⟨⟨Or.inl rfl, hnz, hdis, by decide, by decide, by decide⟩,
    roundtrip_pairwise_disjoint ULongWidth.lp64 sampleEnv (some samplePixels) none none
      sampleBitbang (Or.inl rfl) hnz hdis 2 1 5 (by decide) (by decide) (by decide)⟩

/-! ## Strands without a pin -/

/-- The command word of a slot depends on the remap entry of the slot and, when that
is not negative, on the pixel it selects. -/
theorem commandWord_congr_slot (st : TCState) (pix1 pix2 : Nat → Nat)
    (remap1 remap2 : Option (Nat → Int)) (s p : Nat)
    (hm : mappedPixel remap1 (s * st.pixelsPerStrand + p) =
      mappedPixel remap2 (s * st.pixelsPerStrand + p))
    (hv : 0 ≤ mappedPixel remap1 (s * st.pixelsPerStrand + p) →
      pix1 (mappedPixel remap1 (s * st.pixelsPerStrand + p)).toNat =
        pix2 (mappedPixel remap2 (s * st.pixelsPerStrand + p)).toNat) :
    commandWord st (some pix1) remap1 s p = commandWord st (some pix2) remap2 s p := by
  rw [commandWord, commandWord, ← hm]
  by_cases h0 : 0 ≤ mappedPixel remap1 (s * st.pixelsPerStrand + p)
  · rw [pixelWord_coloured st pix1 _ h0, pixelWord_coloured st pix2 _ h0]
    have := hv h0
    rw [← hm] at this
    rw [this]
  · rw [pixelWord_dark st (some pix1) _ (Or.inr (not_le.mp h0)),
      pixelWord_dark st (some pix2) _ (Or.inr (not_le.mp h0))]

/-- Claim C39: with the default pin map, strands 3, 4, 5 and 6 have pin mask 0, so
the output buffer after `TCrefresh` does not depend on the pixel values and remap
entries of those strands: two frames whose remap entries and selected pixels agree
on every slot of the other strands render byte-identical buffers. Their current
estimates are still counted: `stats.ma` is the sum over all
`nStrands * pixelsPerStrand` slots, those of strands 3..6 included. -/
theorem default_map_unused_strands (w : ULongWidth) (env1 env2 : RefreshEnv)
    (pix1 pix2 : Nat → Nat) (remap1 remap2 : Option (Nat → Int))
    (stats1 stats2 : Option TCstats) (st : TCState)
    (hb : st.bytesPerPixel = 64 ∨ st.bytesPerPixel = 32)
    (hmap : st.strandBitMask = defaultStrandBitMask)
    (hsame : ∀ s p, s < st.nStrands → p < st.pixelsPerStrand → ¬ (3 ≤ s ∧ s ≤ 6) →
      mappedPixel remap1 (s * st.pixelsPerStrand + p) =
        mappedPixel remap2 (s * st.pixelsPerStrand + p) ∧
      (0 ≤ mappedPixel remap1 (s * st.pixelsPerStrand + p) →
        pix1 (mappedPixel remap1 (s * st.pixelsPerStrand + p)).toNat =
          pix2 (mappedPixel remap2 (s * st.pixelsPerStrand + p)).toNat)) :
    (∀ t, 3 ≤ t → t ≤ 6 → st.strandBitMask t = 0) ∧
    (∀ a, (TCrefresh w env1 (some pix1) remap1 stats1 st).2.1.pixelOutBuffer a =
      (TCrefresh w env2 (some pix2) remap2 stats2 st).2.1.pixelOutBuffer a) ∧
    (∀ (env : RefreshEnv) (pix : Nat → Nat) (remap : Option (Nat → Int)) (stats : TCstats),
      (TCrefreshStats w env (some pix) remap stats st).ma =
        some (Finset.sum (Finset.range (st.nStrands * st.pixelsPerStrand))
          (fun i => (pixelWord st (some pix) (mappedPixel remap i)).2)) ∧
      ∀ s p, 3 ≤ s → s ≤ 6 → s < st.nStrands → p < st.pixelsPerStrand →
        s * st.pixelsPerStrand + p ∈ Finset.range (st.nStrands * st.pixelsPerStrand)) := by
  have hz : ∀ t, 3 ≤ t → t ≤ 6 → st.strandBitMask t = 0 := by
    intro t h3 h6
    rw [hmap]
    interval_cases t <;> rfl
  refine ⟨hz, fun a => ?_, fun env pix remap stats => ⟨?_, fun s p _ _ hs hp => ?_⟩⟩
  · rw [TCrefresh_out, TCrefresh_out, renderFrame_out w st (some pix1) remap1 hb a,
      renderFrame_out w st (some pix2) remap2 hb a]
    congr 1
    apply orUpTo_congr_lt
    intro s hs
    unfold strandBits
    by_cases h36 : 3 ≤ s ∧ s ≤ 6
    · rw [hz s h36.1 h36.2]
      simp only [ite_self]
    · by_cases hp : a / st.bytesPerPixel < st.pixelsPerStrand
      · obtain ⟨hm, hv⟩ := hsame s (a / st.bytesPerPixel) hs hp h36
        rw [commandWord_congr_slot st pix1 pix2 remap1 remap2 s (a / st.bytesPerPixel) hm hv]
      · simp only [hp, false_and, if_false]
  · rw [(TCrefreshStats_last w env (some pix) remap stats st).1]
    congr 1
    apply Finset.sum_congr rfl
    intro i hi
    rw [renderFrame_cur, if_pos (Finset.mem_range.mp hi)]
  · rw [Finset.mem_range]
    calc s * st.pixelsPerStrand + p < s * st.pixelsPerStrand + st.pixelsPerStrand := by omega
      _ = (s + 1) * st.pixelsPerStrand := by ring
      _ ≤ st.nStrands * st.pixelsPerStrand := Nat.mul_le_mul_right _ hs

/-- Instance of C39 for the sample hardware-clock session of four strands: two
frames that differ in the pixels of strand 3. -/
theorem default_map_unused_strands_witness :
    ((sampleCbus.bytesPerPixel = 64 ∨ sampleCbus.bytesPerPixel = 32) ∧
      sampleCbus.strandBitMask = defaultStrandBitMask ∧
      (∀ s p, s < sampleCbus.nStrands → p < sampleCbus.pixelsPerStrand → ¬ (3 ≤ s ∧ s ≤ 6) →
        mappedPixel none (s * sampleCbus.pixelsPerStrand + p) =
          mappedPixel none (s * sampleCbus.pixelsPerStrand + p) ∧
        (0 ≤ mappedPixel none (s * sampleCbus.pixelsPerStrand + p) →
          samplePixels (mappedPixel none (s * sampleCbus.pixelsPerStrand + p)).toNat =
            samplePixelsAlt (mappedPixel none (s * sampleCbus.pixelsPerStrand + p)).toNat))) ∧
    samplePixels 6 ≠ samplePixelsAlt 6 ∧
    (∀ a, (TCrefresh ULongWidth.ilp32 sampleEnvCbus (some samplePixels) none none
        sampleCbus).2.1.pixelOutBuffer a =
      (TCrefresh ULongWidth.ilp32 sampleEnvCbus (some samplePixelsAlt) none none
        sampleCbus).2.1.pixelOutBuffer a) :=
  have hsame : ∀ s p, s < sampleCbus.nStrands → p < sampleCbus.pixelsPerStrand →
      ¬ (3 ≤ s ∧ s ≤ 6) →
      mappedPixel none (s * sampleCbus.pixelsPerStrand + p) =
        mappedPixel none (s * sampleCbus.pixelsPerStrand + p) ∧
      (0 ≤ mappedPixel none (s * sampleCbus.pixelsPerStrand + p) →
        samplePixels (mappedPixel none (s * sampleCbus.pixelsPerStrand + p)).toNat =
          samplePixelsAlt (mappedPixel none (s * sampleCbus.pixelsPerStrand + p)).toNat) := by
    intro s p hs hp h36
    have hs4 : s < 4 := hs
    have hp2 : p < 2 := hp
    refine ⟨rfl, fun _ => ?_⟩
    interval_cases s <;> interval_cases p <;> first | rfl | exact absurd ⟨by decide, by decide⟩ h36
  ⟨⟨Or.inr rfl, rfl, hsame⟩, by decide,
    (default_map_unused_strands ULongWidth.ilp32 sampleEnvCbus sampleEnvCbus samplePixels
      samplePixelsAlt none none none none sampleCbus (Or.inr rfl) rfl hsame).2.1⟩

/-! ## The bit walks: accessed indices and the fixed walk -/

/-- The hardware-clock walk accesses byte `addr + j` only for `j ≤ 31` with bit
`31 - j` of the word set. -/
theorem walkCbusTrace_mem (w : ULongWidth) :
    ∀ (fuel rgb addr i : Nat), i ∈ walkCbusTrace w fuel rgb addr →
      addr ≤ i ∧ i - addr ≤ 31 ∧ rgb.testBit (31 - (i - addr)) = true := by
  intro fuel
  induction fuel with
  | zero => intro rgb addr i h; simp [walkCbusTrace] at h
  | succ n ih =>
    intro rgb addr i h
    rw [walkCbusTrace] at h
    by_cases h0 : rgb = 0
    · rw [if_pos h0] at h
      simp at h
    · rw [if_neg h0, List.mem_append] at h
      rcases h with h | h
      · by_cases hb : rgb &&& 0x80000000 ≠ 0
        · rw [if_pos hb, List.mem_singleton] at h
          subst h
          have := (bit31_ne_zero rgb).mp hb
          rw [Nat.sub_self]
          exact ⟨le_refl _, by omega, this⟩
        · rw [if_neg hb] at h
          simp at h
      · obtain ⟨h1, h2, h3⟩ := ih _ _ _ h
        have key := (shl1_bit rgb w (i - (addr + 1))).mp ⟨h2, h3⟩
        have hsub : i - addr = i - (addr + 1) + 1 := by omega
        rw [hsub]
        exact ⟨by omega, key.1, key.2⟩

/-- The software-clock walk accesses bytes `addr + 2 j` and `addr + 2 j + 1` only for
`j ≤ 31` with bit `31 - j` of the word set. -/
theorem walkBitbangTrace_mem (w : ULongWidth) :
    ∀ (fuel rgb addr i : Nat), i ∈ walkBitbangTrace w fuel rgb addr →
      addr ≤ i ∧ (i - addr) / 2 ≤ 31 ∧ rgb.testBit (31 - (i - addr) / 2) = true := by
  intro fuel
  induction fuel with
  | zero => intro rgb addr i h; simp [walkBitbangTrace] at h
  | succ n ih =>
    intro rgb addr i h
    rw [walkBitbangTrace] at h
    by_cases h0 : rgb = 0
    · rw [if_pos h0] at h
      simp at h
    · rw [if_neg h0, List.mem_append] at h
      rcases h with h | h
      · by_cases hb : rgb &&& 0x80000000 ≠ 0
        · rw [if_pos hb] at h
          have hi : i = addr ∨ i = addr + 1 := by simpa using h
          have hbit := (bit31_ne_zero rgb).mp hb
          have hz : (i - addr) / 2 = 0 := by omega
          rw [hz]
          exact ⟨by omega, by omega, hbit⟩
        · rw [if_neg hb] at h
          simp at h
      · obtain ⟨h1, h2, h3⟩ := ih _ _ _ h
        have key := (shl1_bit rgb w ((i - (addr + 2)) / 2)).mp ⟨h2, h3⟩
        have hsub : (i - addr) / 2 = (i - (addr + 2)) / 2 + 1 := by omega
        rw [hsub]
        exact ⟨by omega, key.1, key.2⟩

/-- Every write of a slot at position `p` stays inside the slot. -/
theorem slotWrites_mem (w : ULongWidth) (st : TCState)
    (hb : st.bytesPerPixel = 64 ∨ st.bytesPerPixel = 32) (rgb p i : Nat)
    (h : i ∈ slotWrites w st rgb p) :
    p * st.bytesPerPixel ≤ i ∧ i < (p + 1) * st.bytesPerPixel := by
  unfold slotWrites at h
  rcases hb with hb | hb
  · rw [if_pos hb, hb] at h
    obtain ⟨h1, h2, _⟩ := walkBitbangTrace_mem w _ _ _ _ h
    rw [hb]
    omega
  · rw [if_neg (by omega), hb] at h
    obtain ⟨h1, h2, _⟩ := walkCbusTrace_mem w _ _ _ _ h
    rw [hb]
    omega

theorem fixedCbus_iter (strand rgb addr : Nat) (out : Nat → Nat) (a : Nat) :
    ∀ n : Nat,
      iter (fun k o => if rgb.testBit (31 - k) = true then orInto o (addr + k) strand else o)
          n out a =
        out a ||| (if addr ≤ a ∧ a - addr < n ∧ rgb.testBit (31 - (a - addr)) = true
          then strand else 0) := by
  intro n
  induction n with
  | zero => simp [iter]
  | succ k ih =>
    rw [iter]
    by_cases hbit : rgb.testBit (31 - k) = true
    · rw [if_pos hbit]
      by_cases ha : a = addr + k
      · subst ha
        have hs : addr + k - addr = k := by omega
        have h1 : ¬ (addr ≤ addr + k ∧ addr + k - addr < k ∧
            rgb.testBit (31 - (addr + k - addr)) = true) := by
          rintro ⟨_, h, _⟩; omega
        have h2 : addr ≤ addr + k ∧ addr + k - addr < k + 1 ∧
            rgb.testBit (31 - (addr + k - addr)) = true := ⟨by omega, by omega, by rw [hs]; exact hbit⟩
        simp only [orInto, if_true, ih, if_neg h1, if_pos h2, Nat.or_zero]
      · have h3 : (addr ≤ a ∧ a - addr < k + 1 ∧ rgb.testBit (31 - (a - addr)) = true) ↔
            (addr ≤ a ∧ a - addr < k ∧ rgb.testBit (31 - (a - addr)) = true) := by
          constructor
          · rintro ⟨x, y, z⟩; exact ⟨x, by omega, z⟩
          · rintro ⟨x, y, z⟩; exact ⟨x, by omega, z⟩
        simp only [orInto, if_neg ha, ih, h3]
    · rw [if_neg hbit, ih]
      have h3 : (addr ≤ a ∧ a - addr < k + 1 ∧ rgb.testBit (31 - (a - addr)) = true) ↔
          (addr ≤ a ∧ a - addr < k ∧ rgb.testBit (31 - (a - addr)) = true) := by
        constructor
        · rintro ⟨x, y, z⟩
          refine ⟨x, ?_, z⟩
          by_contra hk
          have : a - addr = k := by omega
          rw [this] at z
          exact hbit z
        · rintro ⟨x, y, z⟩; exact ⟨x, by omega, z⟩
      simp only [h3]

theorem fixedBitbang_iter (strand rgb addr : Nat) (out : Nat → Nat) (a : Nat) :
    ∀ n : Nat,
      iter (fun k o =>
          if rgb.testBit (31 - k) = true then
            orInto (orInto o (addr + 2 * k) strand) (addr + 2 * k + 1) strand
          else o) n out a =
        out a ||| (if addr ≤ a ∧ (a - addr) / 2 < n ∧ rgb.testBit (31 - (a - addr) / 2) = true
          then strand else 0) := by
  intro n
  induction n with
  | zero => simp [iter]
  | succ k ih =>
    rw [iter]
    by_cases hbit : rgb.testBit (31 - k) = true
    · rw [if_pos hbit]
      by_cases ha : a = addr + 2 * k ∨ a = addr + 2 * k + 1
      · have hs : (a - addr) / 2 = k := by omega
        have h1 : ¬ (addr ≤ a ∧ (a - addr) / 2 < k ∧
            rgb.testBit (31 - (a - addr) / 2) = true) := by
          rintro ⟨_, h, _⟩; omega
        have h2 : addr ≤ a ∧ (a - addr) / 2 < k + 1 ∧
            rgb.testBit (31 - (a - addr) / 2) = true := ⟨by omega, by omega, by rw [hs]; exact hbit⟩
        rw [if_pos h2]
        rcases ha with ha | ha
        · have hne : ¬ (a = addr + 2 * k + 1) := by omega
          simp only [orInto, if_neg hne, if_pos ha, ih, if_neg h1, Nat.or_zero]
        · simp only [orInto, if_pos ha]
          have hne : ¬ (a = addr + 2 * k) := by omega
          simp only [if_neg hne, ih, if_neg h1, Nat.or_zero]
      · have ha1 : ¬ (a = addr + 2 * k) := fun h => ha (Or.inl h)
        have ha2 : ¬ (a = addr + 2 * k + 1) := fun h => ha (Or.inr h)
        have h3 : (addr ≤ a ∧ (a - addr) / 2 < k + 1 ∧ rgb.testBit (31 - (a - addr) / 2) = true) ↔
            (addr ≤ a ∧ (a - addr) / 2 < k ∧ rgb.testBit (31 - (a - addr) / 2) = true) := by
          constructor
          · rintro ⟨x, y, z⟩; exact ⟨x, by omega, z⟩
          · rintro ⟨x, y, z⟩; exact ⟨x, by omega, z⟩
        simp only [orInto, if_neg ha1, if_neg ha2, ih, h3]
    · rw [if_neg hbit, ih]
      have h3 : (addr ≤ a ∧ (a - addr) / 2 < k + 1 ∧ rgb.testBit (31 - (a - addr) / 2) = true) ↔
          (addr ≤ a ∧ (a - addr) / 2 < k ∧ rgb.testBit (31 - (a - addr) / 2) = true) := by
        constructor
        · rintro ⟨x, y, z⟩
          refine ⟨x, ?_, z⟩
          by_contra hk
          have : (a - addr) / 2 = k := by omega
          rw [this] at z
          exact hbit z
        · rintro ⟨x, y, z⟩; exact ⟨x, by omega, z⟩
      simp only [h3]

/-- The hardware-clock walk of the code writes what the fixed 32-iteration walk
writes. -/
theorem walkCbus_eq_fixed (w : ULongWidth) (strand rgb addr : Nat) (out : Nat → Nat) :
    walkCbus w strand w.bits rgb addr out = fixedWalkCbus strand rgb addr out := by
  funext a
  rw [walkCbus_apply, fixedWalkCbus, fixedCbus_iter]
  have hw := w.bits_ge
  have h3 : (addr ≤ a ∧ a - addr < w.bits ∧ a - addr ≤ 31 ∧
        rgb.testBit (31 - (a - addr)) = true) ↔
      (addr ≤ a ∧ a - addr < 32 ∧ rgb.testBit (31 - (a - addr)) = true) := by
    constructor
    · rintro ⟨x, _, y, z⟩; exact ⟨x, by omega, z⟩
    · rintro ⟨x, y, z⟩; exact ⟨x, by omega, by omega, z⟩
  simp only [h3]

/-- The software-clock walk of the code writes what the fixed 32-iteration walk
writes. -/
theorem walkBitbang_eq_fixed (w : ULongWidth) (strand rgb addr : Nat) (out : Nat → Nat) :
    walkBitbang w strand w.bits rgb addr out = fixedWalkBitbang strand rgb addr out := by
  funext a
  rw [walkBitbang_apply, fixedWalkBitbang, fixedBitbang_iter]
  have hw := w.bits_ge
  have h3 : (addr ≤ a ∧ (a - addr) / 2 < w.bits ∧ (a - addr) / 2 ≤ 31 ∧
        rgb.testBit (31 - (a - addr) / 2) = true) ↔
      (addr ≤ a ∧ (a - addr) / 2 < 32 ∧ rgb.testBit (31 - (a - addr) / 2) = true) := by
    constructor
    · rintro ⟨x, _, y, z⟩; exact ⟨x, by omega, z⟩
    · rintro ⟨x, y, z⟩; exact ⟨x, by omega, by omega, z⟩
  simp only [h3]

/-! ## In-bounds access of TCrefresh -/

/-- Every access of one slot is in range when the slot counter, the remap entry and
the selected pixel are. -/
theorem renderSlotTrace_ok (w : ULongWidth) (st : TCState) (pix : Option (Nat → Nat))
    (remap : Option (Nat → Int)) (hb : st.bytesPerPixel = 64 ∨ st.bytesPerPixel = 32)
    (cl ol rl pl p abs : Nat) (hp : p < st.pixelsPerStrand) (habs : abs < cl)
    (hol : st.pixelsPerStrand * st.bytesPerPixel ≤ ol)
    (hrem : remap ≠ none → abs < rl)
    (hpix : pix ≠ none → 0 ≤ mappedPixel remap abs → mappedPixel remap abs < (pl : Int)) :
    ∀ a, a ∈ renderSlotTrace w st pix remap p abs → a.inRange cl ol rl pl = true := by
  intro a ha
  unfold renderSlotTrace at ha
  dsimp only at ha
  rw [List.mem_append, List.mem_append] at ha
  rcases ha with (ha | ha) | ha
  · cases remap with
    | none => simp at ha
    | some rm =>
      have : a = Access.remapTable abs := by simpa using ha
      subst this
      simp [Access.inRange, hrem (by simp)]
  · cases pix with
    | none =>
      have : a = Access.currentArray abs := by simpa using ha
      subst this
      simp [Access.inRange, habs]
    | some px =>
      by_cases hm : mappedPixel remap abs < 0
      · have hd : decide (mappedPixel remap abs < 0) = true := decide_eq_true hm
        rw [hd] at ha
        have : a = Access.currentArray abs := by simpa using ha
        subst this
        simp [Access.inRange, habs]
      · have hd : decide (mappedPixel remap abs < 0) = false := decide_eq_false hm
        rw [hd] at ha
        have h0 : 0 ≤ mappedPixel remap abs := not_lt.mp hm
        have hlt := hpix (by simp) h0
        have h1 := and_255_lt (px (mappedPixel remap abs).toNat >>> 16)
        have h2 := and_255_lt (px (mappedPixel remap abs).toNat >>> 8)
        have h3 := and_255_lt (px (mappedPixel remap abs).toNat)
        simp only [List.mem_cons, List.mem_singleton, List.not_mem_nil, or_false] at ha
        rcases ha with rfl | rfl | rfl | rfl | rfl | rfl | rfl <;>
          simp [Access.inRange, h0, hlt, h1, h2, h3, habs]
  · rw [List.mem_map] at ha
    obtain ⟨i, hi, rfl⟩ := ha
    obtain ⟨_, h2⟩ := slotWrites_mem w st hb _ p i hi
    have h3 : (p + 1) * st.bytesPerPixel ≤ st.pixelsPerStrand * st.bytesPerPixel :=
      Nat.mul_le_mul_right _ hp
    simp only [Access.inRange, decide_eq_true_eq]
    omega

/-- A counting loop that appends `g p absPixel` to a trace and increments
`absPixel`. -/
theorem iter_trace_ok (g : Nat → Nat → List Access) (ok : Access → Prop) (a0 : Nat) :
    ∀ n : Nat, (∀ p, p < n → ∀ a, a ∈ g p (a0 + p) → ok a) →
      ∀ l0 : List Access, (∀ a, a ∈ l0 → ok a) →
        (iter (fun p (x : Nat × List Access) => (x.1 + 1, x.2 ++ g p x.1)) n (a0, l0)).1 =
            a0 + n ∧
          ∀ a, a ∈ (iter (fun p (x : Nat × List Access) => (x.1 + 1, x.2 ++ g p x.1)) n
            (a0, l0)).2 → ok a := by
  intro n
  induction n with
  | zero => intro _ l0 h0; exact ⟨rfl, h0⟩
  | succ k ih =>
    intro hg l0 h0
    obtain ⟨i1, i2⟩ := ih (fun p hp => hg p (by omega)) l0 h0
    rw [iter]
    refine ⟨?_, fun a ha => ?_⟩
    · show _ + 1 = _
      rw [i1]
      omega
    · have ha2 : a ∈ (iter (fun p (x : Nat × List Access) => (x.1 + 1, x.2 ++ g p x.1)) k
            (a0, l0)).2 ++
          g k (iter (fun p (x : Nat × List Access) => (x.1 + 1, x.2 ++ g p x.1)) k (a0, l0)).1 :=
        ha
      rw [List.mem_append, i1] at ha2
      rcases ha2 with h | h
      · exact i2 a h
      · exact hg k (by omega) a h

/-- The clearing loop of software-clock mode accesses bytes below `len` only. -/
theorem clearLoopTrace_ok (len : Nat) (hlen : len % 2 = 0) (ok : Access → Prop)
    (hok : ∀ i, i < len → ok (Access.outBuffer i)) :
    ∀ (fuel i : Nat) (t : List Access), i % 2 = 0 → (∀ a, a ∈ t → ok a) →
      ∀ a, a ∈ forLoop len 2 (fun i t => t ++ [Access.outBuffer i, Access.outBuffer (i + 1)])
        fuel i t → ok a := by
  intro fuel
  induction fuel with
  | zero => intro i t _ ht a ha; exact ht a ha
  | succ n ih =>
    intro i t hi ht a ha
    rw [forLoop] at ha
    by_cases hlt : i < len
    · rw [if_pos hlt] at ha
      refine ih (i + 2) _ (by omega) ?_ a ha
      intro b hb
      rw [List.mem_append] at hb
      rcases hb with hb | hb
      · exact ht b hb
      · simp only [List.mem_cons, List.mem_singleton, List.not_mem_nil, or_false] at hb
        rcases hb with rfl | rfl
        · exact hok i hlt
        · exact hok (i + 1) (by omega)
    · rw [if_neg hlt] at ha
      exact ht a ha

/-- The accesses of one strand: the slot counter advances by `pixelsPerStrand` and
every access is in range when each slot's accesses are. -/
theorem renderPixelsTrace_ok (w : ULongWidth) (st : TCState) (pix : Option (Nat → Nat))
    (remap : Option (Nat → Int)) (ok : Access → Prop) (a0 : Nat) (l0 : List Access)
    (hg : ∀ p, p < st.pixelsPerStrand →
      ∀ a, a ∈ renderSlotTrace w st pix remap p (a0 + p) → ok a)
    (h0 : ∀ a, a ∈ l0 → ok a) :
    (renderPixelsTrace w st pix remap (a0, l0)).1 = a0 + st.pixelsPerStrand ∧
      ∀ a, a ∈ (renderPixelsTrace w st pix remap (a0, l0)).2 → ok a := by
  unfold renderPixelsTrace
  rw [forLoop_eq_iter]
  exact iter_trace_ok (renderSlotTrace w st pix remap) ok a0 st.pixelsPerStrand hg l0 h0

/-- The accesses of the strand loop are in range when the pin-map index and each
slot's accesses are. -/
theorem renderStrandsTrace_ok (w : ULongWidth) (st : TCState) (pix : Option (Nat → Nat))
    (remap : Option (Nat → Int)) (ok : Access → Prop)
    (hpin : ∀ s, s < st.nStrands → ok (Access.pinMap s))
    (hg : ∀ s p, s < st.nStrands → p < st.pixelsPerStrand →
      ∀ a, a ∈ renderSlotTrace w st pix remap p (s * st.pixelsPerStrand + p) → ok a) :
    ∀ a, a ∈ renderStrandsTrace w st pix remap → ok a := by
  have key : ∀ k, k ≤ st.nStrands →
      (iter (fun s (x : Nat × List Access) =>
        renderPixelsTrace w st pix remap (x.1, x.2 ++ [Access.pinMap s])) k (0, [])).1 =
          k * st.pixelsPerStrand ∧
      ∀ a, a ∈ (iter (fun s (x : Nat × List Access) =>
        renderPixelsTrace w st pix remap (x.1, x.2 ++ [Access.pinMap s])) k (0, [])).2 →
          ok a := by
    intro k
    induction k with
    | zero =>
      intro _
      refine ⟨by rw [Nat.zero_mul]; rfl, ?_⟩
      intro a ha
      exact absurd ha (List.not_mem_nil a)
    | succ k ih =>
      intro hk
      obtain ⟨i1, i2⟩ := ih (by omega)
      rw [iter]
      show (renderPixelsTrace w st pix remap (_, _)).1 = _ ∧ _
      rw [i1]
      have h := renderPixelsTrace_ok w st pix remap ok (k * st.pixelsPerStrand)
        ((iter (fun s (x : Nat × List Access) =>
          renderPixelsTrace w st pix remap (x.1, x.2 ++ [Access.pinMap s])) k (0, [])).2 ++
          [Access.pinMap k])
        (fun p hp => hg k p (by omega) hp)
        (by
          intro a ha
          rw [List.mem_append, List.mem_singleton] at ha
          rcases ha with ha | rfl
          · exact i2 a ha
          · exact hpin k (by omega))
      refine ⟨?_, h.2⟩
      rw [h.1, Nat.succ_mul]
  unfold renderStrandsTrace
  rw [forLoop_eq_iter]
  exact (key st.nStrands (le_refl _)).2

/-- The accesses of the clearing phase lie in the pixel region of the output
buffer. -/
theorem clearTrace_ok (st : TCState)
    (ok : Access → Prop) (hpin : ok (Access.pinMap 7))
    (hout : ∀ i, i < st.pixelsPerStrand * st.bytesPerPixel → ok (Access.outBuffer i)) :
    ∀ a, a ∈ clearTrace st → ok a := by
  intro a ha
  unfold clearTrace at ha
  by_cases h64 : st.bytesPerPixel = 64
  · rw [if_pos h64, List.mem_cons] at ha
    rcases ha with rfl | ha
    · exact hpin
    · refine clearLoopTrace_ok (st.pixelsPerStrand * st.bytesPerPixel) ?_ ok hout _ 0 []
        rfl (fun b hb2 => absurd hb2 (List.not_mem_nil b)) a ha
      rw [h64]
      omega
  · rw [if_neg h64, List.mem_map] at ha
    obtain ⟨i, hi, rfl⟩ := ha
    exact hout i (List.mem_range.mp hi)

/-! ## Runs that can fault: the accesses of TCrefresh -/

/-- The trace of a counting loop keeps what it started with and contains the
accesses of each of its iterations. -/
theorem iter_trace_mem (g : Nat → Nat → List Access) (a0 : Nat) (l0 : List Access) :
    ∀ n : Nat,
      (iter (fun p (x : Nat × List Access) => (x.1 + 1, x.2 ++ g p x.1)) n (a0, l0)).1 =
          a0 + n ∧
        (∀ a, a ∈ l0 →
          a ∈ (iter (fun p (x : Nat × List Access) => (x.1 + 1, x.2 ++ g p x.1)) n
            (a0, l0)).2) ∧
        ∀ p, p < n → ∀ a, a ∈ g p (a0 + p) →
          a ∈ (iter (fun p (x : Nat × List Access) => (x.1 + 1, x.2 ++ g p x.1)) n
            (a0, l0)).2 := by
  intro n
  induction n with
  | zero => exact ⟨rfl, fun a ha => ha, fun p hp => absurd hp (Nat.not_lt_zero p)⟩
  | succ k ih =>
    obtain ⟨i1, i2, i3⟩ := ih
    rw [iter]
    have e : ((fun p (x : Nat × List Access) => (x.1 + 1, x.2 ++ g p x.1)) k
        (iter (fun p (x : Nat × List Access) => (x.1 + 1, x.2 ++ g p x.1)) k (a0, l0))).2 =
        (iter (fun p (x : Nat × List Access) => (x.1 + 1, x.2 ++ g p x.1)) k (a0, l0)).2 ++
          g k (a0 + k) := by
      show _ ++ g k _ = _
      rw [i1]
    refine ⟨?_, ?_, ?_⟩
    · show _ + 1 = _
      rw [i1]
      omega
    · intro a ha
      rw [e]
      exact List.mem_append_left _ (i2 a ha)
    · intro p hp a ha
      rw [e]
      by_cases hpk : p < k
      · exact List.mem_append_left _ (i3 p hpk a ha)
      · have : p = k := by omega
        subst this
        exact List.mem_append_right _ ha

/-- The trace of one strand contains what it started with and the accesses of
each of its slots. -/
theorem renderPixelsTrace_mem (w : ULongWidth) (st : TCState) (pix : Option (Nat → Nat))
    (remap : Option (Nat → Int)) (a0 : Nat) (l0 : List Access) :
    (renderPixelsTrace w st pix remap (a0, l0)).1 = a0 + st.pixelsPerStrand ∧
      (∀ a, a ∈ l0 → a ∈ (renderPixelsTrace w st pix remap (a0, l0)).2) ∧
      ∀ p, p < st.pixelsPerStrand → ∀ a, a ∈ renderSlotTrace w st pix remap p (a0 + p) →
        a ∈ (renderPixelsTrace w st pix remap (a0, l0)).2 := by
  unfold renderPixelsTrace
  rw [forLoop_eq_iter]
  exact iter_trace_mem (renderSlotTrace w st pix remap) a0 l0 st.pixelsPerStrand

/-- The trace of the strand loop contains the accesses of every slot. -/
theorem renderStrandsTrace_mem (w : ULongWidth) (st : TCState) (pix : Option (Nat → Nat))
    (remap : Option (Nat → Int)) (s p : Nat) (hs : s < st.nStrands)
    (hp : p < st.pixelsPerStrand) (a : Access)
    (ha : a ∈ renderSlotTrace w st pix remap p (s * st.pixelsPerStrand + p)) :
    a ∈ renderStrandsTrace w st pix remap := by
  have key : ∀ k, k ≤ st.nStrands →
      (iter (fun s (x : Nat × List Access) =>
        renderPixelsTrace w st pix remap (x.1, x.2 ++ [Access.pinMap s])) k (0, [])).1 =
          k * st.pixelsPerStrand ∧
      (s < k → a ∈ (iter (fun s (x : Nat × List Access) =>
        renderPixelsTrace w st pix remap (x.1, x.2 ++ [Access.pinMap s])) k (0, [])).2) := by
    intro k
    induction k with
    | zero =>
      intro _
      exact ⟨by rw [Nat.zero_mul]; rfl, fun h => absurd h (Nat.not_lt_zero s)⟩
    | succ k ih =>
      intro hk
      obtain ⟨i1, i2⟩ := ih (by omega)
      rw [iter]
      show (renderPixelsTrace w st pix remap (_, _)).1 = _ ∧
        (_ → a ∈ (renderPixelsTrace w st pix remap (_, _)).2)
      rw [i1]
      obtain ⟨m1, m2, m3⟩ := renderPixelsTrace_mem w st pix remap (k * st.pixelsPerStrand)
        ((iter (fun s (x : Nat × List Access) =>
          renderPixelsTrace w st pix remap (x.1, x.2 ++ [Access.pinMap s])) k (0, [])).2 ++
          [Access.pinMap k])
      refine ⟨?_, ?_⟩
      · rw [m1, Nat.succ_mul]
      · intro hsk
        by_cases hlt : s < k
        · exact m2 a (List.mem_append_left _ (i2 hlt))
        · have : s = k := by omega
          subst this
          exact m3 p hp a ha
  unfold renderStrandsTrace
  rw [forLoop_eq_iter]
  exact (key st.nStrands (le_refl _)).2 hs

/-- Every slot's estimate is stored: `pixelCurrent[absPixel]` is among the accesses
of each slot. -/
theorem renderSlotTrace_current (w : ULongWidth) (st : TCState) (pix : Option (Nat → Nat))
    (remap : Option (Nat → Int)) (p abs : Nat) :
    Access.currentArray abs ∈ renderSlotTrace w st pix remap p abs := by
  unfold renderSlotTrace
  dsimp only
  apply List.mem_append_left
  apply List.mem_append_right
  cases pix with
  | none => simp
  | some px =>
    cases decide (mappedPixel remap abs < 0) <;> simp

/-- The accesses of `TCrefresh` itself are in range when the pin map is read below
entry 8, the two arrays hold the recorded slots, and the caller's tables cover what
is read from them. -/
theorem TCrefreshOwnTrace_ok (w : ULongWidth) (st : TCState) (pix : Option (Nat → Nat))
    (remap : Option (Nat → Int)) (withStats : Bool) (cl ol remapLen pixLen : Nat)
    (hb : st.bytesPerPixel = 64 ∨ st.bytesPerPixel = 32) (hn : st.nStrands ≤ 8)
    (hcl : st.nStrands * st.pixelsPerStrand ≤ cl)
    (hol : st.pixelsPerStrand * st.bytesPerPixel ≤ ol)
    (hremap : ∀ rm, remap = some rm →
      st.nStrands * st.pixelsPerStrand ≤ remapLen ∧
        ∀ i, i < st.nStrands * st.pixelsPerStrand → rm i < 0 ∨ rm i < (pixLen : Int))
    (hpix : remap = none → pix ≠ none → st.nStrands * st.pixelsPerStrand ≤ pixLen) :
    ∀ a, a ∈ TCrefreshOwnTrace w st pix remap withStats →
      a.inRange cl ol remapLen pixLen = true := by
  intro a ha
  unfold TCrefreshOwnTrace at ha
  rw [List.mem_append, List.mem_append] at ha
  rcases ha with (ha | ha) | ha
  · refine clearTrace_ok st (fun a => a.inRange cl ol remapLen pixLen = true) ?_ ?_ a ha
    · rfl
    · intro i hi
      simp only [Access.inRange, decide_eq_true_eq]
      omega
  · refine renderStrandsTrace_ok w st pix remap
      (fun a => a.inRange cl ol remapLen pixLen = true) ?_ ?_ a ha
    · intro k hk
      simp only [Access.inRange, decide_eq_true_eq]
      omega
    · intro k pos hk hpos
      have habs : k * st.pixelsPerStrand + pos < st.nStrands * st.pixelsPerStrand := by
        have : (k + 1) * st.pixelsPerStrand ≤ st.nStrands * st.pixelsPerStrand :=
          Nat.mul_le_mul_right _ hk
        rw [Nat.succ_mul] at this
        omega
      refine renderSlotTrace_ok w st pix remap hb cl ol remapLen pixLen pos _ hpos
        (lt_of_lt_of_le habs hcl) hol ?_ ?_
      · intro hr
        cases remap with
        | none => exact absurd rfl hr
        | some rm => exact lt_of_lt_of_le habs (hremap rm rfl).1
      · intro hp h0
        cases remap with
        | none =>
          have := hpix rfl hp
          show ((k * st.pixelsPerStrand + pos : Nat) : Int) < (pixLen : Int)
          exact_mod_cast lt_of_lt_of_le habs this
        | some rm =>
          rcases (hremap rm rfl).2 _ habs with h | h
          · exact absurd h (not_lt.mpr h0)
          · exact h
  · cases withStats with
    | false => exact absurd ha (List.not_mem_nil a)
    | true =>
      have ha2 : a ∈ (List.range (st.nStrands * st.pixelsPerStrand)).map
          Access.currentArray := ha
      rw [List.mem_map] at ha2
      obtain ⟨i, hi, rfl⟩ := ha2
      simp only [Access.inRange, decide_eq_true_eq]
      exact lt_of_lt_of_le (List.mem_range.mp hi) hcl

/-- When its own accesses are in range, the run of `TCrefresh` does not fault. -/
theorem TCrefreshChecked_some (w : ULongWidth) (env : RefreshEnv) (pix : Option (Nat → Nat))
    (remap : Option (Nat → Int)) (stats : Option TCstats) (st : TCState)
    (pixLen remapLen : Nat)
    (h : ∀ a, a ∈ TCrefreshOwnTrace w st pix remap stats.isSome →
      a.inRange (st.pixelCurrentPtr.getD 0) (st.pixelOutBufferPtr.getD 0) remapLen pixLen =
        true) :
    TCrefreshChecked w env pix remap stats st pixLen remapLen =
      some (TCrefresh w env pix remap stats st) := by
  unfold TCrefreshChecked
  rw [if_pos (List.all_eq_true.mpr h)]

/-- When one of its own accesses is out of range, the run of `TCrefresh` faults. -/
theorem TCrefreshChecked_none (w : ULongWidth) (env : RefreshEnv) (pix : Option (Nat → Nat))
    (remap : Option (Nat → Int)) (stats : Option TCstats) (st : TCState)
    (pixLen remapLen : Nat) (a : Access)
    (ha : a ∈ TCrefreshOwnTrace w st pix remap stats.isSome)
    (hout : a.inRange (st.pixelCurrentPtr.getD 0) (st.pixelOutBufferPtr.getD 0) remapLen
      pixLen = false) :
    TCrefreshChecked w env pix remap stats st pixLen remapLen = none := by
  unfold TCrefreshChecked
  rw [if_neg]
  intro hall
  have := List.all_eq_true.mp hall a ha
  rw [hout] at this
  exact absurd this (by decide)

/-! ## TCrefresh: the write and the status of a run -/

/-- The state after the failed re-open still records the one strand of 25 pixels
that the first `TCopen` set up, in software-clock mode. -/
theorem reopenedMallocFail_slots :
    reopenedMallocFail.nStrands = 1 ∧ reopenedMallocFail.pixelsPerStrand = 25 ∧
    reopenedMallocFail.bytesPerPixel = 64 := by
  obtain ⟨m1, _⟩ := openAlloc_malloc_fail ULongWidth.lp64 mallocFailEnv 1 25 openedOnce rfl
  obtain ⟨a1, a2, _, _, a5⟩ := openAlloc_frame ULongWidth.lp64 mallocFailEnv 1 25 openedOnce
  obtain ⟨_, g2, g3, _⟩ := TCopen_ok_fields ULongWidth.lp64 squarePow allOkEnv 1 25
    initialState (TCopen_allOk_status ULongWidth.lp64 squarePow)
  have he : TCopen ULongWidth.lp64 squarePow mallocFailEnv 1 25 openedOnce =
      openAlloc ULongWidth.lp64 mallocFailEnv 1 25 openedOnce :=
    TCopen_openAlloc_exit ULongWidth.lp64 squarePow mallocFailEnv 1 25 openedOnce (by decide)
      (by rw [m1]; decide)
  rw [reopenedMallocFail, he]
  exact ⟨a1.trans g2, a2.trans g3, a5⟩

/-- Claim C15, refuted as worded: after `TCopen(1, 25)` has succeeded and a second
`TCopen(1, 25)` has failed in `malloc`, `pixelCurrent` is `NULL` while one strand
of 25 pixels is still recorded. `TCrefresh(NULL, NULL, NULL)` in that state stores
`pixelCurrent[0]` through the null pointer while rendering the first slot: the run
faults, so it issues no transport write and returns no status. -/
theorem TCrefresh_null_estimates_counterexample :
    reopenedMallocFail.pixelCurrentPtr = none ∧
    reopenedMallocFail.nStrands = 1 ∧ reopenedMallocFail.pixelsPerStrand = 25 ∧
    Access.currentArray 0 ∈
      TCrefreshOwnTrace ULongWidth.lp64 reopenedMallocFail none none false ∧
    TCrefreshChecked ULongWidth.lp64 allOkEnv.refresh none none none reopenedMallocFail 0 0 =
      none := by
  obtain ⟨_, _, _, hp⟩ := reopenedMallocFail_fields
  obtain ⟨hn, hpps, _⟩ := reopenedMallocFail_slots
  have hmem : Access.currentArray 0 ∈
      TCrefreshOwnTrace ULongWidth.lp64 reopenedMallocFail none none false := by
    unfold TCrefreshOwnTrace
    apply List.mem_append_left
    apply List.mem_append_right
    have h := renderStrandsTrace_mem ULongWidth.lp64 reopenedMallocFail none none 0 0
      (by rw [hn]; decide) (by rw [hpps]; decide) (Access.currentArray 0)
    rw [Nat.zero_mul] at h
    exact h (renderSlotTrace_current ULongWidth.lp64 reopenedMallocFail none none 0 0)
  refine ⟨hp, hn, hpps, hmem, ?_⟩
  refine TCrefreshChecked_none ULongWidth.lp64 allOkEnv.refresh none none none
    reopenedMallocFail 0 0 (Access.currentArray 0) hmem ?_
  rw [hp]
  rfl

/-- Claim C15, amended: in a state in which the pin map is read below entry 8, the
estimate array holds the `nStrands * pixelsPerStrand` recorded slots and the output
buffer the `pixelsPerStrand * bytesPerPixel` bytes of the pixel region (both hold
on a closed session, which records no slot), and the caller's tables cover what is
read from them, `TCrefresh` runs to completion: it issues exactly one transport
write, of the first `(pixelsPerStrand + 1) * bytesPerPixel` bytes of the rendered
output buffer (the only other calls are clock readings); it returns `TC_OK` if and
only if the transport reports success and the count of bytes written equals that
length, it returns `TC_ERR_WRITE` otherwise, and it returns no other status
code. -/
theorem TCrefresh_run_write_status (w : ULongWidth) (env : RefreshEnv)
    (pix : Option (Nat → Nat)) (remap : Option (Nat → Int)) (stats : Option TCstats)
    (st : TCState) (pixLen remapLen : Nat)
    (hb : st.bytesPerPixel = 64 ∨ st.bytesPerPixel = 32) (hn : st.nStrands ≤ 8)
    (hcl : st.nStrands * st.pixelsPerStrand ≤ st.pixelCurrentPtr.getD 0)
    (hol : st.pixelsPerStrand * st.bytesPerPixel ≤ st.pixelOutBufferPtr.getD 0)
    (hremap : ∀ rm, remap = some rm →
      st.nStrands * st.pixelsPerStrand ≤ remapLen ∧
        ∀ i, i < st.nStrands * st.pixelsPerStrand → rm i < 0 ∨ rm i < (pixLen : Int))
    (hpix : remap = none → pix ≠ none → st.nStrands * st.pixelsPerStrand ≤ pixLen) :
    ∃ r, TCrefreshChecked w env pix remap stats st pixLen remapLen = some r ∧
      (r.2.1.calls =
          st.calls ++ [Call.gettimeofday,
            Call.FT_Write (bytesAt r.2.1.pixelOutBuffer 0
              ((st.pixelsPerStrand + 1) * st.bytesPerPixel))] ++
            (if stats.isSome then [Call.gettimeofday] else []) ∧
        (bytesAt r.2.1.pixelOutBuffer 0
            ((st.pixelsPerStrand + 1) * st.bytesPerPixel)).length =
          (st.pixelsPerStrand + 1) * st.bytesPerPixel) ∧
      (r.1 = TC_OK ↔
        (env.write.ok = true ∧
          env.write.out = (st.pixelsPerStrand + 1) * st.bytesPerPixel)) ∧
      (r.1 ≠ TC_OK → r.1 = TC_ERR_WRITE) := by
  refine ⟨TCrefresh w env pix remap stats st, ?_, ?_⟩
  · exact TCrefreshChecked_some w env pix remap stats st pixLen remapLen
      (TCrefreshOwnTrace_ok w st pix remap stats.isSome _ _ remapLen pixLen hb hn hcl hol
        hremap hpix)
  · exact TCrefresh_write_status w env pix remap stats st

/-- Claim C15 at a concrete session: one strand of 25 pixels opened in
software-clock mode, refreshed with no pixel buffer, no remap table and no
statistics. -/
theorem TCrefresh_run_write_status_witness :
    ∃ r, TCrefreshChecked ULongWidth.lp64 allOkEnv.refresh none none none openedOnce 0 0 =
        some r ∧
      (r.2.1.calls =
          openedOnce.calls ++ [Call.gettimeofday,
            Call.FT_Write (bytesAt r.2.1.pixelOutBuffer 0
              ((openedOnce.pixelsPerStrand + 1) * openedOnce.bytesPerPixel))] ++
            (if (none : Option TCstats).isSome then [Call.gettimeofday] else []) ∧
        (bytesAt r.2.1.pixelOutBuffer 0
            ((openedOnce.pixelsPerStrand + 1) * openedOnce.bytesPerPixel)).length =
          (openedOnce.pixelsPerStrand + 1) * openedOnce.bytesPerPixel) ∧
      (r.1 = TC_OK ↔
        (allOkEnv.refresh.write.ok = true ∧
          allOkEnv.refresh.write.out =
            (openedOnce.pixelsPerStrand + 1) * openedOnce.bytesPerPixel)) ∧
      (r.1 ≠ TC_OK → r.1 = TC_ERR_WRITE) := by
  obtain ⟨g1, g2, g3, _⟩ := TCopen_ok_fields ULongWidth.lp64 squarePow allOkEnv 1 25
    initialState (TCopen_allOk_status ULongWidth.lp64 squarePow)
  obtain ⟨_, o2, o3⟩ := openedOnce_fields
  have e1 : openedOnce.bytesPerPixel = 64 := g1
  have e2 : openedOnce.nStrands = 1 := g2
  have e3 : openedOnce.pixelsPerStrand = 25 := g3
  exact TCrefresh_run_write_status ULongWidth.lp64 allOkEnv.refresh none none none openedOnce
    0 0 (Or.inl e1) (by rw [e2]; decide) (by rw [e2, e3, o3]; decide)
    (by rw [e1, e3, o2]; decide) (fun rm h => absurd h (by simp))
    (fun _ h => absurd rfl h)

/-! ## Runs that can fault: the accesses of TCopen -/

/-- The clock loop of the latch accesses the pin map at entry 7 and bytes of the
latch slot only. -/
theorem latchLoopTrace_ok (len stop : Nat) (ok : Access → Prop) (hpin : ok (Access.pinMap 7))
    (hout : ∀ i, i < stop → ok (Access.outBuffer (len + i))) :
    ∀ (fuel i : Nat) (t : List Access), (∀ a, a ∈ t → ok a) →
      ∀ a, a ∈ forLoop stop 2
        (fun i t => t ++ [Access.pinMap 7, Access.outBuffer (len + i)]) fuel i t → ok a := by
  intro fuel
  induction fuel with
  | zero => intro i t ht a ha; exact ht a ha
  | succ n ih =>
    intro i t ht a ha
    rw [forLoop] at ha
    by_cases hlt : i < stop
    · rw [if_pos hlt] at ha
      refine ih (i + 2) _ ?_ a ha
      intro b hb
      rw [List.mem_append] at hb
      rcases hb with hb | hb
      · exact ht b hb
      · simp only [List.mem_cons, List.mem_singleton, List.not_mem_nil, or_false] at hb
        rcases hb with rfl | rfl
        · exact hpin
        · exact hout i hlt
    · rw [if_neg hlt] at ha
      exact ht a ha

/-- The latch rendering accesses the pin map at entry 7 and bytes of the latch slot
only. -/
theorem latchTrace_ok (st : TCState) (ok : Access → Prop) (hpin : ok (Access.pinMap 7))
    (hout : ∀ i, i < st.bytesPerPixel →
      ok (Access.outBuffer (st.pixelsPerStrand * st.bytesPerPixel + i))) :
    ∀ a, a ∈ latchTrace st → ok a := by
  intro a ha
  unfold latchTrace at ha
  rw [List.mem_append] at ha
  rcases ha with ha | ha
  · rw [List.mem_map] at ha
    obtain ⟨j, hj, rfl⟩ := ha
    exact hout j (List.mem_range.mp hj)
  · by_cases h64 : 64 = st.bytesPerPixel
    · rw [if_pos h64] at ha
      exact latchLoopTrace_ok _ _ ok hpin hout _ 1 [] (fun b hb => absurd hb (List.not_mem_nil b))
        a ha
    · rw [if_neg h64] at ha
      exact absurd ha (List.not_mem_nil a)

/-- The latch rendering zeroes the last byte of the latch slot. -/
theorem latchTrace_last (st : TCState) (h : 0 < st.bytesPerPixel) :
    Access.outBuffer (st.pixelsPerStrand * st.bytesPerPixel + (st.bytesPerPixel - 1)) ∈
      latchTrace st := by
  unfold latchTrace
  apply List.mem_append_left
  rw [List.mem_map]
  exact ⟨st.bytesPerPixel - 1, List.mem_range.mpr (by omega), rfl⟩

/-- The rows and channels of the gamma table that the setters write exist. -/
theorem gammaTrace_ok (cl ol rl pl : Nat) :
    ∀ a, a ∈ gammaTrace → a.inRange cl ol rl pl = true := by
  intro a ha
  unfold gammaTrace at ha
  rw [List.mem_flatMap] at ha
  obtain ⟨i, hi, ha⟩ := ha
  have hi2 := List.mem_range.mp hi
  simp only [List.mem_cons, List.mem_singleton, List.not_mem_nil, or_false] at ha
  rcases ha with rfl | rfl | rfl <;> simp [Access.inRange, hi2]

/-- A `TCopen` that returns `TC_OK` went through every step: the arguments are
valid, `openAlloc` returned `TC_OK`, the latch was written in full and the initial
`TCrefresh` returned `TC_OK`. -/
theorem TCopen_ok_steps {K : Type} [LinearOrderedField K] [FloorRing K] (w : ULongWidth)
    (pw : K → K → K) (env : OpenEnv) (s : Nat) (p : Int) (st : TCState)
    (hok : (TCopen w pw env s p st).1 = TC_OK) :
    ¬ (s < 1 ∨ s > 16 ∨ p < 1) ∧ (openAlloc w env s p st).1 = TC_OK ∧
    ¬ (env.latchWrite.ok = false ∨
      (latchRendered (openAlloc w env s p st).2 s p).bytesPerPixel ≠ env.latchWrite.out) ∧
    (TCrefresh w env.refresh none none none
      (latchRendered (openAlloc w env s p st).2 s p)).1 = TC_OK := by
  by_cases hv : s < 1 ∨ s > 16 ∨ p < 1
  · rw [TCopen, if_pos hv] at hok
    exact absurd (show TC_ERR_VALUE = TC_OK from hok) (by decide)
  · rw [TCopen_valid w pw env s p st hv] at hok
    by_cases h1 : (openAlloc w env s p st).1 ≠ TC_OK
    · rw [if_pos h1] at hok
      exact absurd hok h1
    · rw [if_neg h1] at hok
      by_cases h2 : env.latchWrite.ok = false ∨
          (latchRendered (openAlloc w env s p st).2 s p).bytesPerPixel ≠ env.latchWrite.out
      · rw [if_pos h2] at hok
        exact absurd (show TC_ERR_WRITE = TC_OK from hok) (by decide)
      · rw [if_neg h2] at hok
        by_cases h3 : (TCrefresh w env.refresh none none none
            (latchRendered (openAlloc w env s p st).2 s p)).1 ≠ TC_OK
        · rw [if_pos h3] at hok
          exact absurd hok h3
        · exact ⟨hv, not_not.mp h1, h2, not_not.mp h3⟩

/-- The state in which the latch is rendered: what `openAlloc` left, with the
counts recorded. -/
theorem latchRendered_fields (r : TCState) (s : Nat) (p : Int) :
    (latchRendered r s p).bytesPerPixel = r.bytesPerPixel ∧
    (latchRendered r s p).nStrands = (if s > 8 then s - 8 else s) ∧
    (latchRendered r s p).pixelsPerStrand = p.toNat ∧
    (latchRendered r s p).pixelCurrentPtr = r.pixelCurrentPtr ∧
    (latchRendered r s p).pixelOutBufferPtr = r.pixelOutBufferPtr :=
  ⟨rfl, rfl, rfl, rfl, rfl⟩

/-- After a successful `TCopen` the two pointers are those `openAlloc` set. -/
theorem TCopen_ok_ptrs {K : Type} [LinearOrderedField K] [FloorRing K] (w : ULongWidth)
    (pw : K → K → K) (env : OpenEnv) (s : Nat) (p : Int) (st : TCState)
    (hok : (TCopen w pw env s p st).1 = TC_OK) :
    (TCopen w pw env s p st).2.pixelCurrentPtr = (openAlloc w env s p st).2.pixelCurrentPtr ∧
    (TCopen w pw env s p st).2.pixelOutBufferPtr =
      (openAlloc w env s p st).2.pixelOutBufferPtr := by
  obtain ⟨_, _, tbl, hst⟩ := TCopen_ok_state w pw env s p st hok
  obtain ⟨_, _, f3, f4, _⟩ := TCrefresh_frame w env.refresh none none none
    (latchRendered (openAlloc w env s p st).2 s p)
  rw [hst]
  exact ⟨f4, f3⟩

/-- The accesses of `TCopen` itself are in range when the two arrays hold the
slots and the latch of the session that is being opened. -/
theorem TCopenTrace_ok (w : ULongWidth) (env : OpenEnv) (s : Nat) (p : Int) (st : TCState)
    (cl ol : Nat)
    (hcl : (if s > 8 then s - 8 else s) * p.toNat ≤ cl)
    (hol : (p.toNat + 1) * (if s ≥ 8 then 32 else 64) ≤ ol) :
    ∀ a, a ∈ TCopenTrace w env s p st → a.inRange cl ol 0 0 = true := by
  intro a ha
  unfold TCopenTrace at ha
  by_cases hv : s < 1 ∨ s > 16 ∨ p < 1
  · rw [if_pos hv] at ha
    exact absurd ha (List.not_mem_nil a)
  · rw [if_neg hv] at ha
    by_cases h1 : (openAlloc w env s p st).1 ≠ TC_OK
    · rw [if_pos h1] at ha
      exact absurd ha (List.not_mem_nil a)
    · rw [if_neg h1] at ha
      dsimp only at ha
      obtain ⟨l1, l2, l3, _, _⟩ := latchRendered_fields (openAlloc w env s p st).2 s p
      have a5 := (openAlloc_frame w env s p st).2.2.2.2
      have h8 : TC_CBUS_CLOCK = 8 := rfl
      rw [h8] at a5
      have hbpp : (latchRendered (openAlloc w env s p st).2 s p).bytesPerPixel =
          (if s ≥ 8 then 32 else 64) := l1.trans a5
      have hb : (latchRendered (openAlloc w env s p st).2 s p).bytesPerPixel = 64 ∨
          (latchRendered (openAlloc w env s p st).2 s p).bytesPerPixel = 32 := by
        rw [hbpp]
        by_cases h : s ≥ 8
        · right; rw [if_pos h]
        · left; rw [if_neg h]
      have hn : (latchRendered (openAlloc w env s p st).2 s p).nStrands ≤ 8 := by
        rw [l2]
        by_cases h : s > 8
        · rw [if_pos h]; omega
        · rw [if_neg h]; omega
      rw [← hbpp, ← l3] at hol
      rw [← l2, ← l3] at hcl
      have hol2 : (latchRendered (openAlloc w env s p st).2 s p).pixelsPerStrand *
          (latchRendered (openAlloc w env s p st).2 s p).bytesPerPixel ≤ ol := by
        rw [Nat.succ_mul] at hol
        omega
      rw [List.mem_append] at ha
      rcases ha with ha | ha
      · refine latchTrace_ok _ (fun a => a.inRange cl ol 0 0 = true) rfl ?_ a ha
        intro i hi
        simp only [Access.inRange, decide_eq_true_eq]
        rw [Nat.succ_mul] at hol
        omega
      · by_cases h2 : env.latchWrite.ok = false ∨
            (latchRendered (openAlloc w env s p st).2 s p).bytesPerPixel ≠ env.latchWrite.out
        · rw [if_pos h2] at ha
          exact absurd ha (List.not_mem_nil a)
        · rw [if_neg h2, List.mem_append] at ha
          rcases ha with ha | ha
          · exact TCrefreshOwnTrace_ok w _ none none false cl ol 0 0 hb hn hcl hol2
              (fun rm h => absurd h (by simp)) (fun _ h => absurd rfl h) a ha
          · by_cases h3 : (TCrefresh w env.refresh none none none
                (latchRendered (openAlloc w env s p st).2 s p)).1 ≠ TC_OK
            · rw [if_pos h3] at ha
              exact absurd ha (List.not_mem_nil a)
            · rw [if_neg h3] at ha
              exact gammaTrace_ok cl ol 0 0 a ha

/-- When its own accesses are in range, the run of `TCopen` does not fault. -/
theorem TCopenChecked_some {K : Type} [LinearOrderedField K] [FloorRing K] (w : ULongWidth)
    (pw : K → K → K) (env : OpenEnv) (s : Nat) (p : Int) (st : TCState)
    (h : ∀ a, a ∈ TCopenTrace w env s p st →
      a.inRange ((openAlloc w env s p st).2.pixelCurrentPtr.getD 0)
        ((openAlloc w env s p st).2.pixelOutBufferPtr.getD 0) 0 0 = true) :
    TCopenChecked w pw env s p st = some (TCopen w pw env s p st) := by
  unfold TCopenChecked
  rw [if_pos (List.all_eq_true.mpr h)]

/-- A run of `TCopen` that returns `TC_OK` without faulting leaves a block that
holds every slot and the latch: the estimate array has at least
`nStrands * pixelsPerStrand` entries and the output buffer at least
`(pixelsPerStrand + 1) * bytesPerPixel` bytes. -/
theorem TCopenChecked_ok_capacities {K : Type} [LinearOrderedField K] [FloorRing K]
    (w : ULongWidth) (pw : K → K → K) (env : OpenEnv) (s : Nat) (p : Int) (st : TCState)
    (r : TCstatusCode × TCState)
    (hrun : TCopenChecked w pw env s p st = some r) (hok : r.1 = TC_OK) :
    r = TCopen w pw env s p st ∧
    (r.2.bytesPerPixel = 64 ∨ r.2.bytesPerPixel = 32) ∧ r.2.nStrands ≤ 8 ∧
    ∃ cl ol, r.2.pixelCurrentPtr = some cl ∧ r.2.pixelOutBufferPtr = some ol ∧
      r.2.nStrands * r.2.pixelsPerStrand ≤ cl ∧
      (r.2.pixelsPerStrand + 1) * r.2.bytesPerPixel ≤ ol := by
  unfold TCopenChecked at hrun
  by_cases hall : (TCopenTrace w env s p st).all
      (Access.inRange ((openAlloc w env s p st).2.pixelCurrentPtr.getD 0)
        ((openAlloc w env s p st).2.pixelOutBufferPtr.getD 0) 0 0) = true
  · rw [if_pos hall] at hrun
    have hr : r = TCopen w pw env s p st := (Option.some.inj hrun).symm
    subst hr
    have hin := List.all_eq_true.mp hall
    obtain ⟨hv, ho, h2, h3⟩ := TCopen_ok_steps w pw env s p st hok
    obtain ⟨g1, g2, g3, _⟩ := TCopen_ok_fields w pw env s p st hok
    obtain ⟨q1, q2⟩ := TCopen_ok_ptrs w pw env s p st hok
    obtain ⟨_, o2, o3⟩ := openAlloc_ok w env s p st ho
    obtain ⟨l1, l2, l3, _, _⟩ := latchRendered_fields (openAlloc w env s p st).2 s p
    have a5 := (openAlloc_frame w env s p st).2.2.2.2
    have h8 : TC_CBUS_CLOCK = 8 := rfl
    rw [h8] at a5
    have hbpp : (latchRendered (openAlloc w env s p st).2 s p).bytesPerPixel =
        (if s ≥ 8 then 32 else 64) := l1.trans a5
    have htr : TCopenTrace w env s p st =
        latchTrace (latchRendered (openAlloc w env s p st).2 s p) ++
          (TCrefreshOwnTrace w (latchRendered (openAlloc w env s p st).2 s p) none none false ++
            gammaTrace) := by
      unfold TCopenTrace
      rw [if_neg hv, if_neg (not_not.mpr ho)]
      dsimp only
      rw [if_neg h2, if_neg (not_not.mpr h3)]
    rw [htr] at hin
    have hs1 : 1 ≤ s := by
      by_contra hc
      exact hv (Or.inl (by omega))
    have hs16 : s ≤ 16 := by
      by_contra hc
      exact hv (Or.inr (Or.inl (by omega)))
    have hp1 : 1 ≤ p.toNat := by
      have : 1 ≤ p := by
        by_contra hc
        exact hv (Or.inr (Or.inr (by omega)))
      omega
    have hbpos : 0 < (if s ≥ 8 then 32 else 64 : Nat) := by
      by_cases h : s ≥ 8
      · rw [if_pos h]; decide
      · rw [if_neg h]; decide
    have hnpos : 1 ≤ (if s > 8 then s - 8 else s : Nat) := by
      by_cases h : s > 8
      · rw [if_pos h]; omega
      · rw [if_neg h]; omega
    cases hcl : (openAlloc w env s p st).2.pixelCurrentPtr with
    | none => exact absurd hcl o2
    | some cl =>
      cases hol : (openAlloc w env s p st).2.pixelOutBufferPtr with
      | none => exact absurd hol o3
      | some ol =>
        rw [hcl, hol] at hin
        have k1 := hin _ (List.mem_append_left _
          (latchTrace_last (latchRendered (openAlloc w env s p st).2 s p)
            (by rw [hbpp]; exact hbpos)))
        have k2 := hin _ (List.mem_append_right _ (List.mem_append_left _
          (List.mem_append_left _ (List.mem_append_right _
            (renderStrandsTrace_mem w (latchRendered (openAlloc w env s p st).2 s p) none none
              ((if s > 8 then s - 8 else s) - 1) (p.toNat - 1)
              (by rw [l2]; omega) (by rw [l3]; omega) _
              (renderSlotTrace_current w _ none none _ _))))))
        simp only [Access.inRange, decide_eq_true_eq, Option.getD_some] at k1 k2
        rw [hbpp, l3] at k1
        rw [l3] at k2
        refine ⟨rfl, ?_, ?_, cl, ol, q1.trans hcl, q2.trans hol, ?_, ?_⟩
        · rw [g1]
          by_cases h : s ≥ 8
          · right; rw [if_pos h]
          · left; rw [if_neg h]
        · rw [g2]
          by_cases h : s > 8
          · rw [if_pos h]; omega
          · rw [if_neg h]; omega
        · rw [g2, g3]
          have e : (if s > 8 then s - 8 else s) * p.toNat =
              ((if s > 8 then s - 8 else s) - 1) * p.toNat + (p.toNat - 1) + 1 := by
            have := Nat.succ_mul ((if s > 8 then s - 8 else s) - 1) p.toNat
            rw [Nat.succ_eq_add_one, Nat.sub_add_cancel hnpos] at this
            omega
          omega
        · rw [g1, g3, Nat.succ_mul]
          omega
  · rw [if_neg hall] at hrun
    exact absurd hrun (by simp)

/-! ## In-bounds access of TCrefresh -/

/-- Claim C40: in a session opened by a successful `TCopen` (a run of `TCopen` that
returned `TC_OK` without leaving the block it allocated; `st` is any later state
with the clock mode, counts and buffers of that session), with a remap table, when
given, of at least `nStrands * pixelsPerStrand` entries each negative or below the
pixel-buffer length, and a pixel buffer, when given without remap, of at least
`nStrands * pixelsPerStrand` entries: the estimate array has at least
`nStrands * pixelsPerStrand` entries and the output buffer at least
`(pixelsPerStrand + 1) * bytesPerPixel` bytes; every array access of `TCrefresh`
is in range (pin-map index below 8, gamma index below 256 and channel below 3,
remap and pixel indices inside their tables, estimate index below
`nStrands * pixelsPerStrand`, output index below
`(pixelsPerStrand + 1) * bytesPerPixel`); every output write for slot position
`pos` lies in `[pos * bytesPerPixel, (pos + 1) * bytesPerPixel)` and below
`pixelsPerStrand * bytesPerPixel`; and in both clock modes the bit walk that stops
at a zero word writes exactly what the fixed 32-iteration walk writes. -/
theorem TCrefresh_in_bounds {K : Type} [LinearOrderedField K] [FloorRing K] (w : ULongWidth)
    (pw : K → K → K) (env : OpenEnv) (s : Nat) (p : Int) (st0 st : TCState)
    (r : TCstatusCode × TCState)
    (pix : Option (Nat → Nat)) (remap : Option (Nat → Int)) (pixLen remapLen : Nat)
    (withStats : Bool)
    (hrun : TCopenChecked w pw env s p st0 = some r) (hok : r.1 = TC_OK)
    (hcfg : sameSession st r.2)
    (hremap : ∀ rm, remap = some rm →
      st.nStrands * st.pixelsPerStrand ≤ remapLen ∧
        ∀ i, i < st.nStrands * st.pixelsPerStrand → rm i < 0 ∨ rm i < (pixLen : Int))
    (hpix : remap = none → pix ≠ none → st.nStrands * st.pixelsPerStrand ≤ pixLen) :
    (∃ cl ol, st.pixelCurrentPtr = some cl ∧ st.pixelOutBufferPtr = some ol ∧
      st.nStrands * st.pixelsPerStrand ≤ cl ∧
      (st.pixelsPerStrand + 1) * st.bytesPerPixel ≤ ol) ∧
    (∀ a, a ∈ TCrefreshTrace w st pix remap withStats →
      a.inRange (st.nStrands * st.pixelsPerStrand)
        ((st.pixelsPerStrand + 1) * st.bytesPerPixel) remapLen pixLen = true) ∧
    (∀ rgb pos i, pos < st.pixelsPerStrand → i ∈ slotWrites w st rgb pos →
      pos * st.bytesPerPixel ≤ i ∧ i < (pos + 1) * st.bytesPerPixel ∧
        i < st.pixelsPerStrand * st.bytesPerPixel) ∧
    (∀ strand rgb addr out,
      walkBitbang w strand w.bits rgb addr out = fixedWalkBitbang strand rgb addr out ∧
      walkCbus w strand w.bits rgb addr out = fixedWalkCbus strand rgb addr out) := by
  obtain ⟨_, c3, c4, cl, ol, c1, c2, c5, c6⟩ :=
    TCopenChecked_ok_capacities w pw env s p st0 r hrun hok
  obtain ⟨e1, e2, e3, e4, e5⟩ := hcfg
  rw [← e1] at c3
  rw [← e2] at c4
  rw [← e4] at c1
  rw [← e5] at c2
  rw [← e2, ← e3] at c5
  rw [← e1, ← e3] at c6
  have hle : st.pixelsPerStrand * st.bytesPerPixel ≤
      (st.pixelsPerStrand + 1) * st.bytesPerPixel :=
    Nat.mul_le_mul_right _ (Nat.le_succ _)
  refine ⟨⟨cl, ol, c1, c2, c5, c6⟩, ?_, ?_, ?_⟩
  · intro a ha
    unfold TCrefreshTrace at ha
    rw [List.mem_append, List.mem_append, List.mem_append] at ha
    have hown := TCrefreshOwnTrace_ok w st pix remap withStats
      (st.nStrands * st.pixelsPerStrand) ((st.pixelsPerStrand + 1) * st.bytesPerPixel)
      remapLen pixLen c3 c4 (le_refl _) hle hremap hpix
    unfold TCrefreshOwnTrace at hown
    rcases ha with ((ha | ha) | ha) | ha
    · exact hown a (List.mem_append_left _ (List.mem_append_left _ ha))
    · exact hown a (List.mem_append_left _ (List.mem_append_right _ ha))
    · rw [List.mem_map] at ha
      obtain ⟨i, hi, rfl⟩ := ha
      simp only [Access.inRange, decide_eq_true_eq]
      exact List.mem_range.mp hi
    · exact hown a (List.mem_append_right _ ha)
  · intro rgb pos i hpos hi
    obtain ⟨h1, h2⟩ := slotWrites_mem w st c3 rgb pos i hi
    have h3 : (pos + 1) * st.bytesPerPixel ≤ st.pixelsPerStrand * st.bytesPerPixel :=
      Nat.mul_le_mul_right _ hpos
    exact ⟨h1, h2, lt_of_lt_of_le h2 h3⟩
  · intro strand rgb addr out
    exact ⟨walkBitbang_eq_fixed w strand rgb addr out, walkCbus_eq_fixed w strand rgb addr out⟩

/-- Claim C40 at a concrete session: one strand of 25 pixels opened in
software-clock mode on an LP64 platform, where `TCopen` runs without faulting in a
block of 25 estimates and 1664 bytes, refreshed with an all-red frame of 25 pixels,
no remap table, with statistics. -/
theorem TCrefresh_in_bounds_witness :
    TCopenChecked ULongWidth.lp64 squarePow allOkEnv 1 25 initialState =
      some (TCopen ULongWidth.lp64 squarePow allOkEnv 1 25 initialState) ∧
    (TCopen ULongWidth.lp64 squarePow allOkEnv 1 25 initialState).1 = TC_OK ∧
    (TCopen ULongWidth.lp64 squarePow allOkEnv 1 25 initialState).2.pixelCurrentPtr =
      some 25 ∧
    (TCopen ULongWidth.lp64 squarePow allOkEnv 1 25 initialState).2.pixelOutBufferPtr =
      some 1664 ∧
    (∀ a, a ∈ TCrefreshTrace ULongWidth.lp64
        (TCopen ULongWidth.lp64 squarePow allOkEnv 1 25 initialState).2 (some allRed) none
        true →
      a.inRange 25 1664 0 25 = true) := by
  have hok := TCopen_allOk_status ULongWidth.lp64 squarePow
  have hrun : TCopenChecked ULongWidth.lp64 squarePow allOkEnv 1 25 initialState =
      some (TCopen ULongWidth.lp64 squarePow allOkEnv 1 25 initialState) :=
    TCopenChecked_some ULongWidth.lp64 squarePow allOkEnv 1 25 initialState
      (TCopenTrace_ok ULongWidth.lp64 allOkEnv 1 25 initialState _ _ (by decide) (by decide))
  obtain ⟨f1, f2, f3, _⟩ :=
    TCopen_ok_fields ULongWidth.lp64 squarePow allOkEnv 1 25 initialState hok
  obtain ⟨_, o2, o3⟩ := openedOnce_fields
  have f1b : (TCopen ULongWidth.lp64 squarePow allOkEnv 1 25 initialState).2.bytesPerPixel =
      64 := f1
  have f2b : (TCopen ULongWidth.lp64 squarePow allOkEnv 1 25 initialState).2.nStrands =
      1 := f2
  have f3b : (TCopen ULongWidth.lp64 squarePow allOkEnv 1 25 initialState).2.pixelsPerStrand =
      25 := f3
  have h := TCrefresh_in_bounds ULongWidth.lp64 squarePow allOkEnv 1 25 initialState
    (TCopen ULongWidth.lp64 squarePow allOkEnv 1 25 initialState).2
    (TCopen ULongWidth.lp64 squarePow allOkEnv 1 25 initialState) (some allRed) none 25 0
    true hrun hok ⟨rfl, rfl, rfl, rfl, rfl⟩
    (fun rm hrm => absurd hrm (by simp))
    (fun _ _ => by rw [f2b, f3b])
  rw [f1b, f2b, f3b] at h
  exact ⟨hrun, hok, o3, o2, h.2.1⟩

/-- When one of its own accesses is out of range, the run of `TCopen` faults. -/
theorem TCopenChecked_none {K : Type} [LinearOrderedField K] [FloorRing K] (w : ULongWidth)
    (pw : K → K → K) (env : OpenEnv) (s : Nat) (p : Int) (st : TCState) (a : Access)
    (ha : a ∈ TCopenTrace w env s p st)
    (hout : a.inRange ((openAlloc w env s p st).2.pixelCurrentPtr.getD 0)
      ((openAlloc w env s p st).2.pixelOutBufferPtr.getD 0) 0 0 = false) :
    TCopenChecked w pw env s p st = none := by
  unfold TCopenChecked
  rw [if_neg]
  intro hall
  have := List.all_eq_true.mp hall a ha
  rw [hout] at this
  exact absurd this (by decide)

/-- The run of `TCopen(1, 67108864)` on an LP64 platform, with every collaborator
succeeding: `(p + 1) * bytesPerPixel` wraps to 64, so `malloc` is asked for
536870976 bytes, of which 64 are the output buffer; the latch rendering stores
beyond them and the run faults. -/
theorem TCopen_oversized_faults {K : Type} [LinearOrderedField K] [FloorRing K]
    (pw : K → K → K) :
    (∃ rest, (openAlloc ULongWidth.lp64 allOkEnv 1 67108864 initialState).2.calls =
      Call.malloc 536870976 :: rest) ∧
    (openAlloc ULongWidth.lp64 allOkEnv 1 67108864 initialState).2.pixelCurrentPtr =
      some 67108864 ∧
    (openAlloc ULongWidth.lp64 allOkEnv 1 67108864 initialState).2.pixelOutBufferPtr =
      some 64 ∧
    TCopenChecked ULongWidth.lp64 pw allOkEnv 1 67108864 initialState = none := by
  have h1 : (openAlloc ULongWidth.lp64 allOkEnv 1 67108864 initialState).2.pixelCurrentPtr =
      some 67108864 := by decide
  have h2 : (openAlloc ULongWidth.lp64 allOkEnv 1 67108864 initialState).2.pixelOutBufferPtr =
      some 64 := by decide
  refine ⟨⟨_, rfl⟩, h1, h2, ?_⟩
  have hmem : Access.outBuffer (67108864 * 64 + 63) ∈
      TCopenTrace ULongWidth.lp64 allOkEnv 1 67108864 initialState := by
    unfold TCopenTrace
    rw [if_neg (by decide), if_neg (by decide)]
    dsimp only
    apply List.mem_append_left
    exact latchTrace_last _ (by decide)
  refine TCopenChecked_none ULongWidth.lp64 pw allOkEnv 1 67108864 initialState _ hmem ?_
  rw [h1, h2]
  rfl

/-! ## Rounding to double and the two bit rates -/

/-- With a non-zero divisor the rate is a value. -/
theorem ulongRate_ne_none (w : ULongWidth) (n d : Nat) (hd : d ≠ 0) :
    ulongRate w n d ≠ none := by
  rw [ulongRate, if_neg hd]
  exact Option.some_ne_none _

/-! ## Rate guards of the statistics -/

/-- An `int` expression whose mathematical value is an `int` has that value. -/
theorem wrapInt_of_fits (z : Int) (h0 : -2147483648 ≤ z) (h1 : z < 2147483648) :
    wrapInt z = z := by
  unfold wrapInt
  omega


/-- The two capacities that a successful `openAlloc` records. -/
theorem openAlloc_ok_ptrs (w : ULongWidth) (env : OpenEnv) (s : Nat) (p : Int) (st : TCState)
    (h : (openAlloc w env s p st).1 = TC_OK) :
    (openAlloc w env s p st).2.pixelCurrentPtr =
      some (if 0 ≤ wrapInt (((if s ≥ TC_CBUS_CLOCK ∧ s > TC_CBUS_CLOCK then s - TC_CBUS_CLOCK
            else s : Nat) : Int) * p) then
          min (wrapInt (((if s ≥ TC_CBUS_CLOCK ∧ s > TC_CBUS_CLOCK then s - TC_CBUS_CLOCK
              else s : Nat) : Int) * p)).toNat
            (((wrapInt (((if s ≥ TC_CBUS_CLOCK ∧ s > TC_CBUS_CLOCK then s - TC_CBUS_CLOCK
                else s : Nat) : Int) * p) % ((2 ^ w.bits : Nat) : Int)).toNat * 8 % 2 ^ w.bits +
              (wrapInt (wrapInt (p + 1) * ((if s ≥ TC_CBUS_CLOCK then 32 else 64 : Nat) : Int)) %
                ((2 ^ w.bits : Nat) : Int)).toNat) % 2 ^ w.bits / 8)
        else 0) ∧
    (openAlloc w env s p st).2.pixelOutBufferPtr =
      some (if 0 ≤ wrapInt (((if s ≥ TC_CBUS_CLOCK ∧ s > TC_CBUS_CLOCK then s - TC_CBUS_CLOCK
            else s : Nat) : Int) * p) then
          ((wrapInt (((if s ≥ TC_CBUS_CLOCK ∧ s > TC_CBUS_CLOCK then s - TC_CBUS_CLOCK
                else s : Nat) : Int) * p) % ((2 ^ w.bits : Nat) : Int)).toNat * 8 % 2 ^ w.bits +
              (wrapInt (wrapInt (p + 1) * ((if s ≥ TC_CBUS_CLOCK then 32 else 64 : Nat) : Int)) %
                ((2 ^ w.bits : Nat) : Int)).toNat) % 2 ^ w.bits -
            8 * (wrapInt (((if s ≥ TC_CBUS_CLOCK ∧ s > TC_CBUS_CLOCK then s - TC_CBUS_CLOCK
              else s : Nat) : Int) * p)).toNat
        else 0) := by
  have hs := openAlloc_status w env s p st
  rw [h] at hs
  clear h
  revert hs
  unfold openAlloc
  cases env.mallocOk <;> cases env.openOk <;> cases env.bitModeOk <;> cases env.baudRateOk <;>
    cases env.divisorOk <;> intro hs <;>
    first
      | exact absurd hs (by decide)
      | exact ⟨rfl, rfl⟩


/-- When the two `int` products of `openAlloc` do not overflow and the sum fits in
`size_t`, the block of a successful `openAlloc` holds `s * p` estimates and
`(p + 1) * bytesPerPixel` bytes of output. -/
theorem openAlloc_capacities_of_fits (w : ULongWidth) (env : OpenEnv) (s : Nat) (p : Int)
    (st : TCState) (hp : 1 ≤ p) (hs : s ≤ 16)
    (hfit : (p.toNat + 1) * (if s ≥ 8 then 32 else 64) < 2 ^ 31)
    (hsize : 8 * ((if s > 8 then s - 8 else s) * p.toNat) +
      (p.toNat + 1) * (if s ≥ 8 then 32 else 64) < 2 ^ w.bits)
    (hok : (openAlloc w env s p st).1 = TC_OK) :
    (openAlloc w env s p st).2.pixelCurrentPtr =
      some ((if s > 8 then s - 8 else s) * p.toNat) ∧
    (openAlloc w env s p st).2.pixelOutBufferPtr =
      some ((p.toNat + 1) * (if s ≥ 8 then 32 else 64)) := by
  obtain ⟨o1, o2⟩ := openAlloc_ok_ptrs w env s p st hok
  rw [o1, o2]
  clear o1 o2 hok
  obtain ⟨q, rfl⟩ := Int.eq_ofNat_of_zero_le (show (0 : Int) ≤ p by omega)
  have hq : (q : Int).toNat = q := Int.toNat_natCast q
  rw [hq] at hfit hsize ⊢
  have hs1 : (if s ≥ TC_CBUS_CLOCK ∧ s > TC_CBUS_CLOCK then s - TC_CBUS_CLOCK else s) =
      (if s > 8 then s - 8 else s) := by
    have h8 : TC_CBUS_CLOCK = 8 := rfl
    rw [h8]
    by_cases h : s > 8
    · rw [if_pos ⟨by omega, h⟩, if_pos h]
    · rw [if_neg (fun hh => h hh.2), if_neg h]
  have hbp : (if s ≥ TC_CBUS_CLOCK then 32 else 64 : Nat) = (if s ≥ 8 then 32 else 64) := rfl
  rw [hs1, hbp]
  have hn8 : (if s > 8 then s - 8 else s) ≤ 8 := by
    by_cases h : s > 8
    · rw [if_pos h]; omega
    · rw [if_neg h]; omega
  have hb32 : 32 ≤ (if s ≥ 8 then 32 else 64 : Nat) := by
    by_cases h : s ≥ 8
    · rw [if_pos h]
    · rw [if_neg h]; decide
  generalize (if s > 8 then s - 8 else s) = n at hsize hn8 ⊢
  generalize (if s ≥ 8 then 32 else 64 : Nat) = b at hfit hsize hb32 ⊢
  have hq26 : q + 1 < 2 ^ 26 := by
    have : (q + 1) * 32 ≤ (q + 1) * b := Nat.mul_le_mul_left _ hb32
    omega
  have hnq : n * q < 2 ^ 29 := by
    have : n * q ≤ 8 * q := Nat.mul_le_mul_right _ hn8
    omega
  have e1 : wrapInt ((n : Int) * (q : Int)) = ((n * q : Nat) : Int) := by
    have h : ((n * q : Nat) : Int) < 2147483648 := by
      exact_mod_cast (by omega : n * q < 2147483648)
    rw [← Int.natCast_mul]
    exact wrapInt_of_fits _ (by omega) h
  have e2 : wrapInt ((q : Int) + 1) = ((q + 1 : Nat) : Int) := by
    rw [wrapInt_of_fits] <;> push_cast <;> omega
  have e3 : wrapInt (((q + 1 : Nat) : Int) * (b : Int)) = (((q + 1) * b : Nat) : Int) := by
    have h : (((q + 1) * b : Nat) : Int) < 2147483648 := by
      exact_mod_cast (by omega : (q + 1) * b < 2147483648)
    rw [← Int.natCast_mul]
    exact wrapInt_of_fits _ (by omega) h
  have hM : (2 : Nat) ^ 32 ≤ 2 ^ w.bits := Nat.pow_le_pow_right (by decide) w.bits_ge
  rw [e1, e2, e3]
  generalize 2 ^ w.bits = M at hsize hM ⊢
  generalize hprod : n * q = c at hsize hnq ⊢
  generalize hout : (q + 1) * b = d at hfit hsize ⊢
  have m1 : ((c : Int) % (M : Int)).toNat = c := by
    rw [← Int.natCast_mod, Int.toNat_natCast]
    exact Nat.mod_eq_of_lt (by omega)
  have m2 : ((d : Int) % (M : Int)).toNat = d := by
    rw [← Int.natCast_mod, Int.toNat_natCast]
    exact Nat.mod_eq_of_lt (by omega)
  rw [m1, m2]
  have m3 : (c * 8 % M + d) % M = c * 8 + d := by
    rw [Nat.mod_eq_of_lt (show c * 8 < M by omega)]
    exact Nat.mod_eq_of_lt (by omega)
  rw [m3, if_pos (Int.natCast_nonneg c), Int.toNat_natCast]
  have c1 : min c ((c * 8 + d) / 8) = c := by omega
  have c2 : c * 8 + d - 8 * c = d := by omega
  rw [c1, c2]
  exact ⟨rfl, rfl⟩

/-- Whenever the two `int` products of `openAlloc` do not overflow and the sum fits
in `size_t`, the run of `TCopen` does not fault. -/
theorem TCopenChecked_of_fits {K : Type} [LinearOrderedField K] [FloorRing K]
    (w : ULongWidth) (pw : K → K → K) (env : OpenEnv) (s : Nat) (p : Int) (st : TCState)
    (hfit : (p.toNat + 1) * (if s ≥ 8 then 32 else 64) < 2 ^ 31)
    (hsize : 8 * ((if s > 8 then s - 8 else s) * p.toNat) +
      (p.toNat + 1) * (if s ≥ 8 then 32 else 64) < 2 ^ w.bits) :
    TCopenChecked w pw env s p st = some (TCopen w pw env s p st) := by
  apply TCopenChecked_some
  by_cases hv : s < 1 ∨ s > 16 ∨ p < 1
  · intro a ha
    unfold TCopenTrace at ha
    rw [if_pos hv] at ha
    exact absurd ha (List.not_mem_nil a)
  · by_cases h1 : (openAlloc w env s p st).1 ≠ TC_OK
    · intro a ha
      unfold TCopenTrace at ha
      rw [if_neg hv, if_pos h1] at ha
      exact absurd ha (List.not_mem_nil a)
    · have hp : 1 ≤ p := by
        by_contra hc
        exact hv (Or.inr (Or.inr (by omega)))
      have hs : s ≤ 16 := by
        by_contra hc
        exact hv (Or.inr (Or.inl (by omega)))
      obtain ⟨c1, c2⟩ := openAlloc_capacities_of_fits w env s p st hp hs hfit hsize
        (not_not.mp h1)
      rw [c1, c2]
      exact TCopenTrace_ok w env s p st _ _ (le_refl _) (le_refl _)

end P9813
